import Mathlib

/-!
# The WeensyOS kernel of `pset6/kernel.c`: frames, address spaces, processes

A shallow embedding of the process and virtual-memory core of `kernel.c`.
Machine words are natural numbers reduced modulo `2^32` where the C code can
wrap; the signed 8-bit fields of `physical_pageinfo` are integers wrapped by
`toInt8` where the C code can overflow them.  Global arrays are total
functions on indices; physical memory is a function from frame number and word
index to a 32-bit word.
-/

namespace Kernel

/-! ## Architecture constants (x86, two-level paging) -/

/-- Size of a page in bytes; `physical_page_alloc` tests `addr & 0xFFF`. -/
def PAGESIZE : Nat := 4096

/-- Bits of the offset inside a page. -/
def PAGESHIFT : Nat := 12

/-- Number of 32-bit entries of one page table. -/
def PAGETABLE_NENTRIES : Nat := 1024

/-- Machine words are 32 bits wide (`uintptr_t`, `uint32_t`). -/
def WORD : Nat := 2 ^ 32

/-- The value of `(uintptr_t) -1`. -/
def UINTPTR_MINUS_ONE : Nat := 0xFFFFFFFF

/-- Physical page number of an address: `PAGENUMBER(a) = a >> 12`. -/
def PAGENUMBER (a : Nat) : Nat := a >>> PAGESHIFT

/-- Physical address of a page number: `PAGEADDRESS(pn) = (uintptr_t) pn << 12`. -/
def PAGEADDRESS (pn : Nat) : Nat := (pn <<< PAGESHIFT) % WORD

/-- Page-table entry flag: present. -/
def PTE_P : Nat := 1

/-- Page-table entry flag: writable. -/
def PTE_W : Nat := 2

/-- Page-table entry flag: user-accessible. -/
def PTE_U : Nat := 4

/-- Address part of a page-table entry: `PTE_ADDR(e) = e & ~0xFFF`. -/
def PTE_ADDR (e : Nat) : Nat := (e >>> PAGESHIFT) <<< PAGESHIFT

/-- Flag part of a page-table entry: `e & 0xFFF`. -/
def PTE_FLAGS (e : Nat) : Nat := e &&& 0xFFF

/-- Wrap an integer into the range of `int8_t`. -/
def toInt8 (x : Int) : Int := (x + 128) % 256 - 128

/-- Wrap an integer into a 32-bit unsigned word. -/
def toU32 (x : Int) : Nat := (x % 4294967296).toNat

/-! ## Configuration constants of `kernel.h`, kept as parameters -/

/-- The memory-layout and table-size constants the kernel consumes.  Their
header is not part of the sources, so they are parameters of every
definition. -/
structure Layout where
  /-- Capacity of the process table. -/
  NPROC : Nat
  /-- Size of physical memory in bytes. -/
  MEMSIZE_PHYSICAL : Nat
  /-- Ceiling of every process's virtual address range. -/
  MEMSIZE_VIRTUAL : Nat
  /-- First address of process memory; below it lies the reserved low region. -/
  PROC_START_ADDR : Nat
  /-- Address of the CGA console page. -/
  console : Nat
  /-- Address of the kernel's level-1 page table. -/
  kernel_pagetable : Nat
  /-- Start of kernel code and data. -/
  KERNEL_START_ADDR : Nat
  /-- Top of the kernel stack. -/
  KERNEL_STACK_TOP : Nat
  /-- End of kernel code and data (the linker symbol `end`). -/
  kernel_end : Nat
  /-- Decides `physical_memory_isreserved(addr)`. -/
  physical_memory_isreserved : Nat → Bool
  /-- Interrupt number of the explicit panic request. -/
  INT_SYS_PANIC : Nat
  /-- Interrupt number of the get-pid request. -/
  INT_SYS_GETPID : Nat
  /-- Interrupt number of the yield request. -/
  INT_SYS_YIELD : Nat
  /-- Interrupt number of the page-allocation request. -/
  INT_SYS_PAGE_ALLOC : Nat
  /-- Interrupt number of the fork request. -/
  INT_SYS_FORK : Nat
  /-- Interrupt number of the exit request. -/
  INT_SYS_EXIT : Nat
  /-- Interrupt number of the timer. -/
  INT_TIMER : Nat
  /-- Interrupt number of a page fault. -/
  INT_PAGEFAULT : Nat

/-- Number of physical pages: `NPAGES = MEMSIZE_PHYSICAL / PAGESIZE`, the
length of `pageinfo[]`. -/
def NPAGES (L : Layout) : Nat := PAGENUMBER L.MEMSIZE_PHYSICAL

/-- The constraints on the layout constants that the kernel relies on: the
process table fits the `int8_t` owner field and holds the four boot processes,
physical memory is page-aligned and fits a 32-bit word, one inner page table
covers the whole virtual range, and the console lies in the low region. -/
structure Layout.WF (L : Layout) : Prop where
  nproc_gt : 4 < L.NPROC
  nproc_le : L.NPROC ≤ 128
  phys_lt : L.MEMSIZE_PHYSICAL < WORD
  phys_aligned : L.MEMSIZE_PHYSICAL % PAGESIZE = 0
  start_aligned : L.PROC_START_ADDR % PAGESIZE = 0
  start_le : L.PROC_START_ADDR ≤ L.MEMSIZE_VIRTUAL
  virt_le : L.MEMSIZE_VIRTUAL ≤ 0x400000
  console_lt : L.console < L.PROC_START_ADDR

/-- The interrupt numbers that label the cases of the `switch` in `exception`
are pairwise different (C requires distinct case labels). -/
def Layout.IntsDistinct (L : Layout) : Prop :=
  [L.INT_SYS_PANIC, L.INT_SYS_GETPID, L.INT_SYS_YIELD, L.INT_SYS_PAGE_ALLOC, L.INT_TIMER,
    L.INT_SYS_FORK, L.INT_SYS_EXIT, L.INT_PAGEFAULT].Nodup

/-! ## The physical page-frame table -/

/-- One record of `pageinfo[]`: two `int8_t` fields. -/
structure physical_pageinfo where
  owner : Int
  refcount : Int
deriving DecidableEq, Repr

/-- Owner tag of a free page. -/
def PO_FREE : Int := 0

/-- Owner tag of reserved memory. -/
def PO_RESERVED : Int := -1

/-- Owner tag of kernel memory. -/
def PO_KERNEL : Int := -2

/-- The array `pageinfo[]`, indexed by physical page number. -/
abbrev PageInfo := Nat → physical_pageinfo

/-- The function `physical_page_alloc(addr, owner)`: the new table and the
returned `int`. -/
def physical_page_alloc (L : Layout) (pageinfo : PageInfo) (addr : Nat) (owner : Int) :
    PageInfo × Int :=
  if addr &&& 0xFFF ≠ 0
      ∨ addr ≥ L.MEMSIZE_PHYSICAL
      ∨ (pageinfo (PAGENUMBER addr)).refcount ≠ 0 then
    (pageinfo, -1)
  else
    (Function.update pageinfo (PAGENUMBER addr) { owner := owner, refcount := 1 }, 0)

/-- Scan `pageinfo[i]` for `i` from the given index, `fuel` entries long, and
return the address of the first page whose owner is `PO_FREE`, else
`(uintptr_t) -1`. -/
def find_free_scan (pageinfo : PageInfo) : Nat → Nat → Nat
  | 0, _ => UINTPTR_MINUS_ONE
  | fuel + 1, i =>
    if (pageinfo i).owner = PO_FREE then PAGEADDRESS i
    else find_free_scan pageinfo fuel (i + 1)

/-- The function `find_free_page()`: the loop `for (i = 0; i < NPAGES; ++i)`. -/
def find_free_page (L : Layout) (pageinfo : PageInfo) : Nat :=
  find_free_scan pageinfo (NPAGES L) 0

/-- The function `find_free_page_table()`: the same scan, bounded by
`PROC_START_ADDR / PAGESIZE`. -/
def find_free_page_table (L : Layout) (pageinfo : PageInfo) : Nat :=
  find_free_scan pageinfo (L.PROC_START_ADDR / PAGESIZE) 0

/-! ## Physical memory and two-level page tables -/

/-- Physical memory: frame number and word index (0..1023) to a 32-bit word. -/
abbrev Memory := Nat → Nat → Nat

/-- Index into the level-1 table: `L1PAGEINDEX(va) = va >> 22`. -/
def L1PAGEINDEX (va : Nat) : Nat := (va >>> 22) % PAGETABLE_NENTRIES

/-- Index into the level-2 table: `L2PAGEINDEX(va) = (va >> 12) & 0x3FF`. -/
def L2PAGEINDEX (va : Nat) : Nat := (va >>> PAGESHIFT) % PAGETABLE_NENTRIES

/-- Offset of an address inside its page. -/
def PAGEOFFSET (va : Nat) : Nat := va % PAGESIZE

/-- The 32-bit word at a 4-byte-aligned physical address. -/
def read_word (mem : Memory) (addr : Nat) : Nat :=
  mem (PAGENUMBER addr) (PAGEOFFSET addr / 4)

/-- Store a 32-bit word at a 4-byte-aligned physical address. -/
def write_word (mem : Memory) (addr : Nat) (w : Nat) : Memory :=
  Function.update mem (PAGENUMBER addr)
    (Function.update (mem (PAGENUMBER addr)) (PAGEOFFSET addr / 4) w)

/-- The call `memset(page, 0, PAGESIZE)` on a page-aligned address. -/
def memset_page (mem : Memory) (addr : Nat) : Memory :=
  Function.update mem (PAGENUMBER addr) (fun _ => 0)

/-- The call `memcpy(dst, src, PAGESIZE)` on page-aligned addresses. -/
def memcpy_page (mem : Memory) (dst src : Nat) : Memory :=
  Function.update mem (PAGENUMBER dst) (mem (PAGENUMBER src))

/-- The call `memcpy(dst, src, 4 * n)` on 4-byte-aligned addresses, word by
word from the lowest address: `fuel` words are left and `k` are done. -/
def memcpy_words_loop (dst src : Nat) : Nat → Nat → Memory → Memory
  | 0, _, mem => mem
  | fuel + 1, k, mem =>
    memcpy_words_loop dst src fuel (k + 1)
      (write_word mem (dst + 4 * k) (read_word mem (src + 4 * k)))

/-- The call `memcpy(dst, src, 4 * n)` on 4-byte-aligned addresses. -/
def memcpy_words (mem : Memory) (dst src n : Nat) : Memory :=
  memcpy_words_loop dst src n 0 mem

/-- The result of `virtual_memory_lookup`. -/
structure vamapping where
  /-- Physical page number, `-1` when there is no mapping. -/
  pn : Int
  /-- Physical address. -/
  pa : Nat
  /-- Permission bits, `0` when there is no mapping. -/
  perm : Nat
deriving DecidableEq, Repr

/-- The explicit no-mapping result. -/
def vamapping_none : vamapping := { pn := -1, pa := UINTPTR_MINUS_ONE, perm := 0 }

/-- Modelled from the spec: `virtual_memory_lookup(pagetable, va)` is declared
outside the sources.  It walks the outer table, then the inner table, and
returns the physical page number and permission bits of the entry, or the
explicit no-mapping result; it never mutates. -/
def virtual_memory_lookup (mem : Memory) (pagetable va : Nat) : vamapping :=
  let pde := mem (PAGENUMBER pagetable) (L1PAGEINDEX va)
  if pde &&& PTE_P = 0 then vamapping_none
  else
    let pte := mem (PAGENUMBER pde) (L2PAGEINDEX va)
    if pte &&& PTE_P = 0 then vamapping_none
    else { pn := PAGENUMBER pte, pa := PTE_ADDR pte + PAGEOFFSET va, perm := PTE_FLAGS pte }

/-- One page of `virtual_memory_map`: store the translation of `va` in the
inner table that the outer entry of `va` points to.  A missing inner table is
not supplied here (the callers pre-ensure it): the result is `none`. -/
def virtual_memory_map_page (mem : Memory) (pagetable va pa perm : Nat) : Option Memory :=
  let pde := mem (PAGENUMBER pagetable) (L1PAGEINDEX va)
  if pde &&& PTE_P = 0 then none
  else
    some (Function.update mem (PAGENUMBER pde)
      (Function.update (mem (PAGENUMBER pde)) (L2PAGEINDEX va)
        (if perm &&& PTE_P ≠ 0 then pa ||| perm else perm)))

/-- The loop of `virtual_memory_map` over `n` consecutive pages. -/
def virtual_memory_map_loop (pagetable perm : Nat) : Nat → Memory → Nat → Nat → Option Memory
  | 0, mem, _, _ => some mem
  | n + 1, mem, va, pa =>
    match virtual_memory_map_page mem pagetable va pa perm with
    | none => none
    | some mem1 => virtual_memory_map_loop pagetable perm n mem1 (va + PAGESIZE) (pa + PAGESIZE)

/-- Modelled from the spec: `virtual_memory_map(pagetable, va, pa, sz, perm)` is
declared outside the sources.  It installs the page-aligned translations of
`[va, va + sz)` to `[pa, pa + sz)` with permissions `perm` and succeeds for
valid aligned inputs; for any other input, and when an inner table is missing,
the kernel stops and the result is `none`. -/
def virtual_memory_map (L : Layout) (mem : Memory) (pagetable va pa sz perm : Nat) :
    Option Memory :=
  if va % PAGESIZE = 0 ∧ sz % PAGESIZE = 0 ∧ va + sz ≤ WORD
      ∧ pa % PAGESIZE = 0 ∧ pa + sz ≤ L.MEMSIZE_PHYSICAL
      ∧ perm < 4096 ∧ pagetable % PAGESIZE = 0 then
    virtual_memory_map_loop pagetable perm (sz / PAGESIZE) mem va pa
  else none

/-! ## Process descriptors and the kernel state -/

/-- Lifecycle states of a process descriptor used by `kernel.c`. -/
inductive procstate where
  | P_FREE
  | P_RUNNABLE
  | P_BROKEN
deriving DecidableEq, Repr

/-- The saved register snapshot: the fields `kernel.c` names, and the
remaining saved registers as a list. -/
structure x86_registers where
  reg_eax : Nat
  reg_esp : Nat
  reg_eip : Nat
  reg_intno : Nat
  reg_err : Nat
  reg_rest : List Nat
deriving DecidableEq, Repr

/-- A process descriptor. -/
structure proc where
  p_pid : Nat
  p_registers : x86_registers
  p_state : procstate
  p_pagetable : Nat
deriving DecidableEq, Repr

/-- The global state of the kernel: `processes[]`, `current` (as an index into
`processes[]`), `pageinfo[]`, physical memory and `ticks`. -/
structure KState where
  processes : Nat → proc
  current : Nat
  pageinfo : PageInfo
  mem : Memory
  ticks : Nat

/-- Store a descriptor in `processes[pid]`. -/
def set_proc (s : KState) (pid : Nat) (p : proc) : KState :=
  { s with processes := Function.update s.processes pid p }

/-- Store a new `p_state` in `processes[pid]`. -/
def set_state (s : KState) (pid : Nat) (st : procstate) : KState :=
  let p := s.processes pid
  set_proc s pid { p with p_state := st }

/-- Store a new register file in `processes[pid].p_registers`. -/
def set_registers (s : KState) (pid : Nat) (r : x86_registers) : KState :=
  let p := s.processes pid
  set_proc s pid { p with p_registers := r }

/-- Store a new pointer in `processes[pid].p_pagetable`. -/
def set_pagetable_of (s : KState) (pid : Nat) (pt : Nat) : KState :=
  let p := s.processes pid
  set_proc s pid { p with p_pagetable := pt }

/-- Store a new `reg_eax` in `processes[pid].p_registers`. -/
def set_eax (s : KState) (pid : Nat) (v : Nat) : KState :=
  let r := (s.processes pid).p_registers
  set_registers s pid { r with reg_eax := v }

/-! ## `sys_exit` -/

/-- One iteration of the loop of `sys_exit(pid)`, for page number `i`.  An
index outside `pageinfo[]` is undefined behaviour in C: the result is `none`. -/
def sys_exit_page (L : Layout) (mem : Memory) (pid : Nat) (pageinfo : PageInfo) (i : Nat) :
    Option PageInfo :=
  let v_addr := PAGEADDRESS i
  let vmap := virtual_memory_lookup mem L.kernel_pagetable v_addr
  if 0 ≤ vmap.pn ∧ vmap.pn < (NPAGES L : Int) then
    let pn := vmap.pn.toNat
    let pi1 : PageInfo :=
      if (pageinfo pn).owner = (pid : Int) then
        Function.update pageinfo pn { owner := PO_FREE, refcount := 0 }
      else pageinfo
    let pi2 : PageInfo :=
      if (pi1 pn).refcount > 1 ∧ (pi1 pn).owner > 0 then
        Function.update pi1 pn { owner := (pi1 pn).owner, refcount := (pi1 pn).refcount - 1 }
      else pi1
    some pi2
  else none

/-- The loop `for (i = 0; i < NPAGES; i++)` of `sys_exit`, from index `i`
with `fuel` iterations left. -/
def sys_exit_loop (L : Layout) (mem : Memory) (pid : Nat) :
    Nat → Nat → PageInfo → Option PageInfo
  | 0, _, pageinfo => some pageinfo
  | fuel + 1, i, pageinfo =>
    match sys_exit_page L mem pid pageinfo i with
    | none => none
    | some pi1 => sys_exit_loop L mem pid fuel (i + 1) pi1

/-- The function `sys_exit(pid)`. -/
def sys_exit (L : Layout) (s : KState) (pid : Nat) : Option KState :=
  match sys_exit_loop L s.mem pid (NPAGES L) 0 s.pageinfo with
  | none => none
  | some pi1 =>
    if pid < L.NPROC then some (set_state { s with pageinfo := pi1 } pid procstate.P_FREE)
    else none

/-- What one iteration of the loop of `sys_exit(pid)` does to the record of
the frame it looks up: a frame owned by `pid` is freed, and then a frame owned
by a process with more than one reference loses one reference. -/
def sys_exit_record (pid : Nat) (r : physical_pageinfo) : physical_pageinfo :=
  let r1 : physical_pageinfo :=
    if r.owner = (pid : Int) then { owner := PO_FREE, refcount := 0 } else r
  if r1.refcount > 1 ∧ r1.owner > 0 then { owner := r1.owner, refcount := r1.refcount - 1 }
  else r1

/-- The kernel page table maps every physical page to itself. -/
def KernelIdentity (L : Layout) (mem : Memory) : Prop :=
  ∀ i, i < NPAGES L →
    (virtual_memory_lookup mem L.kernel_pagetable (PAGEADDRESS i)).pn = (i : Int)

/-- The frames that hold the kernel page table (the outer table and every
inner table used for a physical page) are in use. -/
def KernelTablesInUse (L : Layout) (s : KState) : Prop :=
  (s.pageinfo (PAGENUMBER L.kernel_pagetable)).refcount ≠ 0
  ∧ ∀ i, i < NPAGES L →
      (s.pageinfo (PAGENUMBER (s.mem (PAGENUMBER L.kernel_pagetable)
        (L1PAGEINDEX (PAGEADDRESS i))))).refcount ≠ 0

/-! ## `copy_pagetable` -/

/-- The value of `offset` in `copy_pagetable`.  Its only declaration in the
source is the commented-out line
`int offset = PAGENUMBER(PROC_START_ADDR) * sizeof(x86_pageentry_t);`. -/
def offset (L : Layout) : Nat := PAGENUMBER L.PROC_START_ADDR * 4

/-- The function `copy_pagetable(pagetable, owner)`: the new state and the
returned pointer, `(x86_pagetable*) -1` on failure. -/
def copy_pagetable (L : Layout) (s : KState) (pagetable : Nat) (owner : Nat) :
    Option (KState × Nat) :=
  let L1_addr := find_free_page_table L s.pageinfo
  let r1 := physical_page_alloc L s.pageinfo L1_addr (toInt8 owner)
  if r1.2 = -1 then some ({ s with pageinfo := r1.1 }, UINTPTR_MINUS_ONE)
  else
    let L2_addr := find_free_page_table L r1.1
    let r2 := physical_page_alloc L r1.1 L2_addr (toInt8 owner)
    if r2.2 = -1 then some ({ s with pageinfo := r2.1 }, UINTPTR_MINUS_ONE)
    else
      let m1 := memset_page s.mem L1_addr
      let m2 := memset_page m1 L2_addr
      let m3 := write_word m2 L1_addr (L2_addr ||| PTE_P ||| PTE_W ||| PTE_U)
      let m4 := memcpy_words m3 L2_addr (PTE_ADDR (read_word m3 pagetable)) (offset L / 4)
      match virtual_memory_map L m4 L1_addr 0 0 L.PROC_START_ADDR (PTE_P ||| PTE_W) with
      | none => none
      | some m5 =>
        match virtual_memory_map L m5 L1_addr L.console L.console PAGESIZE
            (PTE_P ||| PTE_W ||| PTE_U) with
        | none => none
        | some m6 => some ({ s with pageinfo := r2.1, mem := m6 }, L1_addr)

/-! ## `fork` -/

/-- The slot search of `fork`: `for (i = 1; i < NPROC; ++i)` with `break` at
the first `P_FREE` descriptor; `none` stands for `slot == -1`. -/
def fork_find_slot (processes : Nat → proc) : Nat → Nat → Option Nat
  | 0, _ => none
  | fuel + 1, i =>
    if (processes i).p_state = procstate.P_FREE then some i
    else fork_find_slot processes fuel (i + 1)

/-- How one iteration of the copy loop of `fork` ends. -/
inductive ForkStep where
  /-- The loop goes on in the given state. -/
  | next (s : KState)
  /-- The allocation failed: the state after `sys_exit`, and `fork` returns -1. -/
  | failed (s : KState)

/-- One iteration of the copy loop of `fork`, for page number `i`; `slot` is
the child's index and `child_pagetable` the pointer `copy_pagetable` returned. -/
def fork_page (L : Layout) (s : KState) (slot child_pagetable i : Nat) : Option ForkStep :=
  let v_addr := PAGEADDRESS i
  let vmap := virtual_memory_lookup s.mem (s.processes s.current).p_pagetable v_addr
  let child_pid := (s.processes slot).p_pid
  if vmap.perm ≠ 0 then
    if vmap.perm &&& PTE_W ≠ 0 then
      let new_p_addr := find_free_page L s.pageinfo
      let r := physical_page_alloc L s.pageinfo new_p_addr (toInt8 child_pid)
      if r.2 = -1 then
        match sys_exit L (set_eax s s.current (toU32 (-1))) child_pid with
        | none => none
        | some s1 => some (ForkStep.failed s1)
      else
        let m1 := memcpy_page s.mem new_p_addr vmap.pa
        match virtual_memory_map L m1 (s.processes child_pid).p_pagetable v_addr new_p_addr
            PAGESIZE vmap.perm with
        | none => none
        | some m2 => some (ForkStep.next { s with pageinfo := r.1, mem := m2 })
    else
      if 0 ≤ vmap.pn ∧ vmap.pn < (NPAGES L : Int) then
        let pn := vmap.pn.toNat
        if (s.pageinfo pn).refcount > 0 ∧ (s.pageinfo pn).owner > 0 then
          let pi1 := Function.update s.pageinfo pn
            { owner := (s.pageinfo pn).owner, refcount := toInt8 ((s.pageinfo pn).refcount + 1) }
          match virtual_memory_map L s.mem child_pagetable v_addr vmap.pa PAGESIZE
              (PTE_P ||| PTE_U) with
          | none => none
          | some m1 => some (ForkStep.next { s with pageinfo := pi1, mem := m1 })
        else some (ForkStep.next s)
      else none
  else some (ForkStep.next s)

/-- The copy loop of `fork`: page numbers from `i`, `fuel` iterations left. -/
def fork_loop (L : Layout) (slot child_pagetable : Nat) : Nat → Nat → KState → Option ForkStep
  | 0, _, s => some (ForkStep.next s)
  | fuel + 1, i, s =>
    match fork_page L s slot child_pagetable i with
    | none => none
    | some (ForkStep.failed s1) => some (ForkStep.failed s1)
    | some (ForkStep.next s1) => fork_loop L slot child_pagetable fuel (i + 1) s1

/-- The function `fork()`: the new state and the returned `pid_t`. -/
def fork (L : Layout) (s : KState) : Option (KState × Int) :=
  match fork_find_slot s.processes (L.NPROC - 1) 1 with
  | none => some (s, -1)
  | some slot =>
    let c := s.processes slot
    let s1 := set_proc s slot { c with p_pid := slot, p_state := procstate.P_RUNNABLE }
    match copy_pagetable L s1 (s1.processes s1.current).p_pagetable (s1.processes slot).p_pid with
    | none => none
    | some (s2, child_pagetable) =>
      if child_pagetable = UINTPTR_MINUS_ONE then
        match sys_exit L (set_eax s2 s2.current (toU32 (-1))) (s2.processes slot).p_pid with
        | none => none
        | some s3 => some (s3, -1)
      else
        let s3 := set_pagetable_of s2 slot child_pagetable
        match fork_loop L slot child_pagetable
            (PAGENUMBER L.MEMSIZE_VIRTUAL - PAGENUMBER L.PROC_START_ADDR)
            (PAGENUMBER L.PROC_START_ADDR) s3 with
        | none => none
        | some (ForkStep.failed s4) => some (s4, -1)
        | some (ForkStep.next s4) =>
          let s5 := set_registers s4 slot (s4.processes s4.current).p_registers
          let s6 := set_eax s5 slot 0
          let s7 := set_eax s6 s6.current (toU32 ((s6.processes slot).p_pid : Int))
          some (s7, ((s7.processes slot).p_pid : Int))

/-! ## Intermediate states of `fork` -/

/-- The state in which `fork` calls `copy_pagetable`: the child slot holds its
pid and is marked runnable. -/
def fork_claim_slot (s : KState) (slot : Nat) : KState :=
  set_proc s slot { s.processes slot with p_pid := slot, p_state := procstate.P_RUNNABLE }

/-- The state that a successful `fork` returns, given the state `s4` in which
the copy loop ended. -/
def fork_finish (s4 : KState) (slot : Nat) : KState :=
  let s5 := set_registers s4 slot (s4.processes s4.current).p_registers
  let s6 := set_eax s5 slot 0
  set_eax s6 s6.current (toU32 ((s6.processes slot).p_pid : Int))

/-- What holds in every state `sk` of the copy loop of a `fork` that was
called in state `s`, chose the child `slot` and got the page-table frames
`l1` (outer) and `l2` (inner): the process table is fixed, frames that were in
use when `fork` was called are neither written nor released, and the outer
table of the child still holds its single entry. -/
structure ForkInv (s : KState) (slot l1 l2 : Nat) (sk : KState) : Prop where
  current_eq : sk.current = s.current
  proc_child_pid : (sk.processes slot).p_pid = slot
  proc_child_pt : (sk.processes slot).p_pagetable = PAGEADDRESS l1
  proc_child_state : (sk.processes slot).p_state = procstate.P_RUNNABLE
  proc_other : ∀ j, j ≠ slot → sk.processes j = s.processes j
  mem_old : ∀ f, (s.pageinfo f).refcount ≠ 0 → sk.mem f = s.mem f
  mem_l1 : sk.mem l1 = Function.update (fun _ => 0) 0 (PAGEADDRESS l2 ||| 7)
  rc_range : ∀ f, (sk.pageinfo f).refcount ≤ 127
  rc_old : ∀ f, (s.pageinfo f).refcount ≠ 0 → (sk.pageinfo f).refcount ≠ 0
  rc_l1 : (sk.pageinfo l1).refcount ≠ 0
  rc_l2 : (sk.pageinfo l2).refcount ≠ 0

/-- The two frames of the page table of the current process are in use. -/
def ParentTablesInUse (s : KState) : Prop :=
  (s.pageinfo (PAGENUMBER (s.processes s.current).p_pagetable)).refcount ≠ 0
  ∧ (s.pageinfo (PAGENUMBER (s.mem (PAGENUMBER (s.processes s.current).p_pagetable) 0))).refcount
      ≠ 0

/-- The function `run(p)` for `p = &processes[pid]`: asserts that the process
is runnable and makes it current.  A failed assertion stops the kernel: `none`. -/
def run (s : KState) (pid : Nat) : Option KState :=
  if (s.processes pid).p_state = procstate.P_RUNNABLE then some { s with current := pid }
  else none

/-- The loop of `schedule()`, `fuel` iterations long, starting after `pid`.
No runnable descriptor within `fuel` iterations gives `none`. -/
def schedule_loop (L : Layout) (s : KState) : Nat → Nat → Option KState
  | 0, _ => none
  | fuel + 1, pid =>
    let pid1 := (pid + 1) % L.NPROC
    if (s.processes pid1).p_state = procstate.P_RUNNABLE then run s pid1
    else schedule_loop L s fuel pid1

/-- The function `schedule()`, cut off after one full circular scan: the
process table does not change while the loop spins, so a scan that finds
nothing is repeated forever and no process is ever resumed (`none`). -/
def schedule (L : Layout) (s : KState) : Option KState :=
  schedule_loop L s L.NPROC (s.processes s.current).p_pid

/-! ## Boot: `pageinfo_init`, `process_setup`, `kernel` -/

/-- The loop of `pageinfo_init`: `for (addr = 0; addr < MEMSIZE_PHYSICAL;
addr += PAGESIZE)`. -/
def pageinfo_init_loop (L : Layout) : Nat → Nat → PageInfo → PageInfo
  | 0, _, pageinfo => pageinfo
  | fuel + 1, addr, pageinfo =>
    let owner : Int :=
      if L.physical_memory_isreserved addr then PO_RESERVED
      else if (addr ≥ L.KERNEL_START_ADDR ∧ addr < L.kernel_end)
          ∨ addr = L.KERNEL_STACK_TOP - PAGESIZE then PO_KERNEL
      else PO_FREE
    pageinfo_init_loop L fuel (addr + PAGESIZE)
      (Function.update pageinfo (PAGENUMBER addr)
        { owner := owner, refcount := if owner ≠ PO_FREE then 1 else 0 })

/-- The function `pageinfo_init()`, on the zero-initialised static array. -/
def pageinfo_init (L : Layout) : PageInfo :=
  pageinfo_init_loop L ((L.MEMSIZE_PHYSICAL + PAGESIZE - 1) / PAGESIZE) 0
    (fun _ => { owner := 0, refcount := 0 })

/-- One page of a program image. -/
structure ProgramPage where
  /-- Page-aligned virtual address of the page. -/
  va : Nat
  /-- Whether the segment of the page is writable. -/
  writable : Bool
  /-- The words of the page. -/
  contents : Nat → Nat

/-- A program image: entry point and pages. -/
structure Program where
  entry : Nat
  pages : List ProgramPage

/-- What the kernel takes from its collaborators: the memory that
`hardware_init` leaves (it holds the kernel page table), the register file
that `process_init` installs, and the program images. -/
structure Env where
  mem0 : Memory
  init_registers : x86_registers
  programs : Nat → Program

/-- Modelled from the spec: `program_load` is an external collaborator that
loads code and data into the address space of the process and reports success
or failure.  Each page of the image is obtained with `physical_page_alloc` at
the physical address equal to its virtual address (`kernel.c` documents
`physical_page_alloc` as used by the program loader, and keeps page tables
below `PROC_START_ADDR` for it), mapped user-accessible, writable when its
segment is, and filled with the image. -/
def program_load_pages (L : Layout) (pid : Nat) :
    List ProgramPage → KState → Option (KState × Int)
  | [], s => some (s, 0)
  | pg :: rest, s =>
    let r := physical_page_alloc L s.pageinfo pg.va (toInt8 (s.processes pid).p_pid)
    if r.2 < 0 then some (s, -1)
    else
      match virtual_memory_map L s.mem (s.processes pid).p_pagetable pg.va pg.va PAGESIZE
          (if pg.writable then PTE_P ||| PTE_W ||| PTE_U else PTE_P ||| PTE_U) with
      | none => none
      | some m1 =>
        program_load_pages L pid rest
          { s with pageinfo := r.1, mem := Function.update m1 (PAGENUMBER pg.va) pg.contents }

/-- Modelled from the spec: `program_load(p, program_number)`, see
`program_load_pages`; it also sets the saved instruction pointer to the entry
point of the image. -/
def program_load (L : Layout) (env : Env) (s : KState) (pid program_number : Nat) :
    Option (KState × Int) :=
  match program_load_pages L pid (env.programs program_number).pages s with
  | none => none
  | some (s1, r) =>
    if r < 0 then some (s1, r)
    else
      let regs := (s1.processes pid).p_registers
      some (set_registers s1 pid { regs with reg_eip := (env.programs program_number).entry }, r)

/-- The function `process_setup(pid, program_number)`.  `process_init` is
modelled from the spec as installing the initial register file. -/
def process_setup (L : Layout) (env : Env) (s : KState) (pid program_number : Nat) :
    Option KState :=
  let s0 := set_registers s pid env.init_registers
  match copy_pagetable L s0 L.kernel_pagetable pid with
  | none => none
  | some (s1, pt) =>
    let s2 := set_pagetable_of s1 pid pt
    if pt = UINTPTR_MINUS_ONE then some s2
    else
      match program_load L env s2 pid program_number with
      | none => none
      | some (s3, r) =>
        if r < 0 then none
        else
          let regs := (s3.processes pid).p_registers
          let s4 := set_registers s3 pid { regs with reg_esp := L.MEMSIZE_VIRTUAL }
          let stack_page := find_free_page L s4.pageinfo
          let r4 := physical_page_alloc L s4.pageinfo stack_page (toInt8 pid)
          match virtual_memory_map L s4.mem (s4.processes pid).p_pagetable
              ((s4.processes pid).p_registers.reg_esp - PAGESIZE) stack_page PAGESIZE
              (PTE_P ||| PTE_W ||| PTE_U) with
          | none => none
          | some m5 =>
            some (set_state { s4 with pageinfo := r4.1, mem := m5 } pid procstate.P_RUNNABLE)

/-- The loop `for (i = 1; i <= 4; ++i) process_setup(i, i - 1)` of `kernel`. -/
def kernel_setup_loop (L : Layout) (env : Env) : Nat → Nat → KState → Option KState
  | 0, _, s => some s
  | fuel + 1, i, s =>
    match process_setup L env s i (i - 1) with
    | none => none
    | some s1 => kernel_setup_loop L env fuel (i + 1) s1

/-- The function `kernel(command)` up to and including its `run(&processes[1])`. -/
def kernel (L : Layout) (env : Env) (command : Option String) : Option KState :=
  let s0 : KState :=
    { processes := fun i =>
        { p_pid := i, p_registers := ⟨0, 0, 0, 0, 0, []⟩, p_state := procstate.P_FREE,
          p_pagetable := 0 },
      current := 0, pageinfo := pageinfo_init L, mem := env.mem0, ticks := 0 }
  match virtual_memory_map L s0.mem L.kernel_pagetable 0 0 L.PROC_START_ADDR
      (PTE_P ||| PTE_W) with
  | none => none
  | some m1 =>
    match virtual_memory_map L m1 L.kernel_pagetable L.console L.console PAGESIZE
        (PTE_P ||| PTE_W ||| PTE_U) with
    | none => none
    | some m2 =>
      let s1 : KState := { s0 with mem := m2 }
      let s2 : Option KState :=
        if command = some "fork" then process_setup L env s1 1 4
        else if command = some "forkexit" then process_setup L env s1 1 5
        else kernel_setup_loop L env 4 1 s1
      match s2 with
      | none => none
      | some s3 => run s3 1

/-! ## `virtual_memory_check` -/

/-- The value `expected_kernel_refcount` of `virtual_memory_check`. -/
def expected_kernel_refcount (L : Layout) (s : KState) : Int :=
  1 + (((List.range L.NPROC).filter (fun pid =>
        decide ((s.processes pid).p_state ≠ procstate.P_FREE
          ∧ (s.processes pid).p_pagetable = L.kernel_pagetable))).length : Int)

/-- The assertions of `virtual_memory_check` on one page table: the level-1
table and every present level-1 entry. -/
def check_pagetable (L : Layout) (s : KState) (pagetable : Nat)
    (expected_owner expected_refcount : Int) : Bool :=
  decide (PTE_ADDR pagetable = pagetable)
  && decide (PAGENUMBER pagetable < NPAGES L)
  && decide ((s.pageinfo (PAGENUMBER pagetable)).owner = expected_owner)
  && decide ((s.pageinfo (PAGENUMBER pagetable)).refcount = expected_refcount)
  && (List.range PAGETABLE_NENTRIES).all (fun pn =>
      let pte := s.mem (PAGENUMBER pagetable) pn
      if pte &&& PTE_P ≠ 0 then
        decide (PAGENUMBER pte < NPAGES L)
        && decide ((s.pageinfo (PAGENUMBER pte)).owner = expected_owner)
        && decide ((s.pageinfo (PAGENUMBER pte)).refcount = 1)
      else true)

/-- The function `virtual_memory_check()`: `true` when every assertion holds. -/
def virtual_memory_check (L : Layout) (s : KState) : Bool :=
  decide ((s.processes 0).p_state = procstate.P_FREE)
  && check_pagetable L s L.kernel_pagetable PO_KERNEL (expected_kernel_refcount L s)
  && (List.range L.NPROC).all (fun pid =>
      if (s.processes pid).p_state = procstate.P_FREE then true
      else if (s.processes pid).p_pagetable = L.kernel_pagetable then
        check_pagetable L s L.kernel_pagetable PO_KERNEL (expected_kernel_refcount L s)
      else check_pagetable L s (s.processes pid).p_pagetable (pid : Int) 1)
  && (List.range (NPAGES L)).all (fun pn =>
      if (s.pageinfo pn).refcount > 0 ∧ (s.pageinfo pn).owner ≥ 0 then
        decide ((s.pageinfo pn).owner.toNat < L.NPROC)
        && decide ((s.processes (s.pageinfo pn).owner.toNat).p_state ≠ procstate.P_FREE)
      else true)

/-! ## `exception` -/

/-- Page-fault error-code bit: the fault came from user mode. -/
def PFERR_USER : Nat := 4

/-- How the `switch` of `exception` ends. -/
inductive Dispatch where
  /-- The case called `schedule()`, which handed the CPU to a process. -/
  | transferred (s : KState)
  /-- The case reached its `break`. -/
  | handled (s : KState)

/-- The `switch (reg->reg_intno)` of `exception`; `none` is a kernel stop
(panic, failed assertion, or a scheduler that spins forever). -/
def exception_switch (L : Layout) (s : KState) (reg : x86_registers) : Option Dispatch :=
  let cur := s.processes s.current
  if reg.reg_intno = L.INT_SYS_PANIC then none
  else if reg.reg_intno = L.INT_SYS_GETPID then
    some (Dispatch.handled (set_eax s s.current cur.p_pid))
  else if reg.reg_intno = L.INT_SYS_YIELD then
    (schedule L s).map Dispatch.transferred
  else if reg.reg_intno = L.INT_SYS_PAGE_ALLOC then
    let v_addr := cur.p_registers.reg_eax
    let p_addr := find_free_page L s.pageinfo
    let r := physical_page_alloc L s.pageinfo p_addr (toInt8 cur.p_pid)
    if r.2 ≥ 0 then
      match virtual_memory_map L s.mem cur.p_pagetable v_addr p_addr PAGESIZE
          (PTE_P ||| PTE_W ||| PTE_U) with
      | none => none
      | some m1 =>
        some (Dispatch.handled (set_eax { s with pageinfo := r.1, mem := m1 } s.current (toU32 r.2)))
    else some (Dispatch.handled (set_eax { s with pageinfo := r.1 } s.current (toU32 r.2)))
  else if reg.reg_intno = L.INT_TIMER then
    (schedule L { s with ticks := (s.ticks + 1) % WORD }).map Dispatch.transferred
  else if reg.reg_intno = L.INT_SYS_FORK then
    (fork L s).map (fun r => Dispatch.handled r.1)
  else if reg.reg_intno = L.INT_SYS_EXIT then
    (sys_exit L s cur.p_pid).map Dispatch.handled
  else if reg.reg_intno = L.INT_PAGEFAULT then
    if reg.reg_err &&& PFERR_USER = 0 then none
    else some (Dispatch.handled (set_state s s.current procstate.P_BROKEN))
  else none

/-- The function `exception(reg)`: the state in which a process is resumed,
or `none` when the kernel stops instead.  Console output and the keyboard
poll are not part of the state. -/
def exception (L : Layout) (s : KState) (reg : x86_registers) : Option KState :=
  let s0 := set_registers s s.current reg
  if (reg.reg_intno ≠ L.INT_PAGEFAULT ∨ reg.reg_err &&& PFERR_USER ≠ 0)
      ∧ virtual_memory_check L s0 = false then none
  else
    match exception_switch L s0 reg with
    | none => none
    | some (Dispatch.transferred s1) => some s1
    | some (Dispatch.handled s1) =>
      if (s1.processes s1.current).p_state = procstate.P_RUNNABLE then run s1 s1.current
      else schedule L s1

/-- A store of the word `w` by the running process at the 4-byte-aligned
virtual address `va` (x86 paging): it needs a present, writable,
user-accessible translation in the process's page table. -/
def user_store (s : KState) (va w : Nat) : Option KState :=
  let vmap := virtual_memory_lookup s.mem (s.processes s.current).p_pagetable va
  if vmap.perm &&& PTE_P ≠ 0 ∧ vmap.perm &&& PTE_W ≠ 0 ∧ vmap.perm &&& PTE_U ≠ 0 then
    some { s with mem := write_word s.mem vmap.pa w }
  else none

/-- The kernel states that can arise: the state in which `kernel(command)`
starts process 1, and from there every state in which `exception` resumes a
process and every state a store of the running process leads to. -/
inductive Reachable (L : Layout) (env : Env) : KState → Prop where
  | boot (command : Option String) (s : KState) :
      kernel L env command = some s → Reachable L env s
  | trap (s s1 : KState) (reg : x86_registers) :
      Reachable L env s → exception L s reg = some s1 → Reachable L env s1
  | store (s s1 : KState) (va w : Nat) :
      Reachable L env s → user_store s va w = some s1 → Reachable L env s1

/-! ## A concrete configuration

A scaled-down memory layout on which the definitions can be evaluated: 32
physical pages, process memory from page 16, six process slots.  Page 0 and
the console page 5 are reserved, pages 1 to 4 belong to the kernel (its two
page tables are pages 2 and 3). -/

/-- The scaled-down layout. -/
def smallLayout : Layout :=
  { NPROC := 6, MEMSIZE_PHYSICAL := 0x20000, MEMSIZE_VIRTUAL := 0x18000,
    PROC_START_ADDR := 0x10000, console := 0x5000, kernel_pagetable := 0x2000,
    KERNEL_START_ADDR := 0x1000, KERNEL_STACK_TOP := 0x5000, kernel_end := 0x4000,
    physical_memory_isreserved := fun a => a == 0 || a == 0x5000,
    INT_SYS_PANIC := 48, INT_SYS_GETPID := 49, INT_SYS_YIELD := 50,
    INT_SYS_PAGE_ALLOC := 51, INT_SYS_FORK := 52, INT_SYS_EXIT := 53,
    INT_TIMER := 32, INT_PAGEFAULT := 14 }

/-- Memory as `hardware_init` leaves it on the scaled-down layout: the kernel
page table identity-maps the 32 physical pages. -/
def smallMem0 : Memory := fun f i =>
  if f = 2 then (if i = 0 then 0x3007 else 0)
  else if f = 3 then (if i < 32 then i * 4096 + 7 else 0)
  else 0

/-- Program images of the scaled-down configuration: one read-only code page
and one writable data page each. -/
def smallProgram (n : Nat) : Program :=
  { entry := 0x10000 + (n % 4) * 0x2000,
    pages := [ { va := 0x10000 + (n % 4) * 0x2000, writable := false,
                 contents := fun i => 100 + i },
               { va := 0x11000 + (n % 4) * 0x2000, writable := true,
                 contents := fun i => 200 + i } ] }

/-- The environment of the scaled-down configuration. -/
def smallEnv : Env :=
  { mem0 := smallMem0, init_registers := ⟨0, 0, 0, 0, 0, []⟩, programs := smallProgram }

/-- A state with an empty process table and zeroed memory, the default of
partial results. -/
def zeroState : KState :=
  { processes := fun i =>
      { p_pid := i, p_registers := ⟨0, 0, 0, 0, 0, []⟩, p_state := procstate.P_FREE,
        p_pagetable := 0 },
    current := 0, pageinfo := fun _ => { owner := 0, refcount := 0 }, mem := fun _ _ => 0,
    ticks := 0 }

/-- The state in which `kernel("fork")` starts process 1 on the scaled-down
configuration. -/
def smallBoot : KState := (kernel smallLayout smallEnv (some "fork")).getD zeroState

/-- A state of the scaled-down configuration in closed form: process 1 is
running a fork request, its page tables are pages 6 and 7, its stack is page
8, its read-only code page is page 16 and its writable data page is page 17. -/
def sampleState : KState :=
  { processes := fun i =>
      if i = 1 then
        { p_pid := 1, p_registers := ⟨52, 0x18000, 0x10000, 52, 0, [1, 2, 3]⟩,
          p_state := procstate.P_RUNNABLE, p_pagetable := 0x6000 }
      else
        { p_pid := i, p_registers := ⟨0, 0, 0, 0, 0, []⟩, p_state := procstate.P_FREE,
          p_pagetable := 0 },
    current := 1,
    pageinfo := fun pn =>
      if pn = 0 ∨ pn = 5 then ⟨-1, 1⟩
      else if pn < 5 then ⟨-2, 1⟩
      else if pn = 6 ∨ pn = 7 ∨ pn = 8 ∨ pn = 16 ∨ pn = 17 then ⟨1, 1⟩
      else ⟨0, 0⟩,
    mem := fun f i =>
      if f = 2 then (if i = 0 then 0x3007 else 0)
      else if f = 3 then
        (if i = 5 then 0x5007 else if i < 16 then i * 4096 + 3
         else if i < 32 then i * 4096 + 7 else 0)
      else if f = 6 then (if i = 0 then 0x7007 else 0)
      else if f = 7 then
        (if i = 5 then 0x5007 else if i < 16 then i * 4096 + 3
         else if i = 16 then 0x10005 else if i = 17 then 0x11007
         else if i = 23 then 0x8007 else 0)
      else if f = 16 then 100 + i
      else if f = 17 then 200 + i
      else 0,
    ticks := 0 }

/-- The result of `fork()` called in `sampleState`. -/
def sampleForked : KState × Int := (fork smallLayout sampleState).getD (zeroState, -1)

/-- The state `sampleState` with only frames 9 and 10 left free: a `fork`
gets its two page-table frames and then fails on the first writable page. -/
def sampleTight : KState :=
  { sampleState with
    pageinfo := fun pn =>
      if pn = 0 ∨ pn = 5 then ⟨-1, 1⟩
      else if pn < 5 then ⟨-2, 1⟩
      else if pn = 9 ∨ pn = 10 then ⟨0, 0⟩
      else ⟨1, 1⟩ }

/-- The result of `fork()` called in `sampleTight`. -/
def sampleTightForked : KState × Int := (fork smallLayout sampleTight).getD (zeroState, 0)

/-- The result of `sys_exit(1)` called in `sampleState`. -/
def sampleExited : KState := (sys_exit smallLayout sampleState 1).getD zeroState

/-- A trap-time register snapshot with the given `reg_eax` and interrupt
number; the other registers are those of `sampleState`'s process 1. -/
def sampleRegs (eax intno : Nat) : x86_registers :=
  ⟨eax, 0x18000, 0x10000, intno, 0, [1, 2, 3]⟩

/-- The state after the get-pid request of process 1 in `sampleState`. -/
def sampleGetpid : KState :=
  set_eax (set_registers sampleState sampleState.current (sampleRegs 7 49)) sampleState.current 1

/-- The state `sampleState` with every frame in use: the frames that are free
in `sampleState` belong to process 1 here. -/
def sampleFull : KState :=
  { sampleState with
    pageinfo := fun pn =>
      if pn = 0 ∨ pn = 5 then ⟨-1, 1⟩
      else if pn < 5 then ⟨-2, 1⟩
      else ⟨1, 1⟩ }

/-- The register snapshot of a system call with the given `reg_eax` and
interrupt number. -/
def trapRegs (eax intno : Nat) : x86_registers := ⟨eax, 0, 0, intno, 0, []⟩

/-- A state of the scaled-down configuration in closed form in which every
slot `1..5` is taken: process `k` has the page tables `4 + 2k` and `5 + 2k` and
one writable data page, frame `15 + k`, at virtual address `0x10000`. -/
def sampleBusy : KState :=
  { processes := fun i =>
      if 1 ≤ i ∧ i ≤ 5 then
        { p_pid := i, p_registers := ⟨0, 0x18000, 0x10000, 0, 0, []⟩,
          p_state := procstate.P_RUNNABLE, p_pagetable := (4 + 2 * i) * 4096 }
      else
        { p_pid := i, p_registers := ⟨0, 0, 0, 0, 0, []⟩, p_state := procstate.P_FREE,
          p_pagetable := 0 },
    current := 1,
    pageinfo := fun pn =>
      if pn = 0 ∨ pn = 5 then ⟨-1, 1⟩
      else if pn < 5 then ⟨-2, 1⟩
      else if pn < 16 then ⟨((pn - 4) / 2 : Nat), 1⟩
      else if pn < 21 then ⟨((pn - 15 : Nat) : Int), 1⟩
      else ⟨0, 0⟩,
    mem := fun f i =>
      if f = 2 then (if i = 0 then 0x3007 else 0)
      else if f = 3 then
        (if i = 5 then 0x5007 else if i < 16 then i * 4096 + 3
         else if i < 32 then i * 4096 + 7 else 0)
      else if 6 ≤ f ∧ f < 16 ∧ f % 2 = 0 then (if i = 0 then (f + 1) * 4096 + 7 else 0)
      else if 6 ≤ f ∧ f < 16 then
        (if i = 5 then 0x5007 else if i < 16 then i * 4096 + 3
         else if i = 16 then ((f - 7) / 2 + 16) * 4096 + 7 else 0)
      else 0,
    ticks := 0 }

/-- Three processes of the scaled-down configuration: processes 1 and 2 are
parent and child of a fork and share the read-only code frame 16, and process
3 is set up afterwards from program 1 (page tables 13 and 14, stack 15, code
18, data 19). -/
def sampleTrio : KState :=
  (process_setup smallLayout smallEnv sampleForked.1 3 1).getD zeroState

/-- The state `sampleTrio` after `sys_exit(3)`. -/
def sampleTrioExited : KState := (sys_exit smallLayout sampleTrio 3).getD zeroState

/-- The state after the fork in `sampleState` and `sys_exit(1)` by the parent. -/
def sampleParentExited : KState := (sys_exit smallLayout sampleForked.1 1).getD zeroState

/-- Process `pid` references frame `pn`: some virtual page below
`MEMSIZE_VIRTUAL` of its address space resolves to the frame. -/
def maps_frame (L : Layout) (s : KState) (pid pn : Nat) : Prop :=
  ∃ i, i < PAGENUMBER L.MEMSIZE_VIRTUAL ∧
    (virtual_memory_lookup s.mem (s.processes pid).p_pagetable (PAGEADDRESS i)).pn = (pn : Int)

instance (L : Layout) (s : KState) (pid pn : Nat) : Decidable (maps_frame L s pid pn) := by
  unfold maps_frame
  infer_instance

/-- The number of physical frames whose owner is Free. -/
def free_frames (L : Layout) (pageinfo : PageInfo) : Nat :=
  (List.range (NPAGES L)).countP (fun pn => decide ((pageinfo pn).owner = PO_FREE))

/-- The number of physical frames whose owner is `pid`. -/
def owned_frames (L : Layout) (pageinfo : PageInfo) (pid : Nat) : Nat :=
  (List.range (NPAGES L)).countP (fun pn => decide ((pageinfo pn).owner = (pid : Int)))

/-- The number of physical frames that `pid` owns exclusively: owner `pid`
and refcount 1. -/
def exclusive_frames (L : Layout) (pageinfo : PageInfo) (pid : Nat) : Nat :=
  (List.range (NPAGES L)).countP
    (fun pn => decide ((pageinfo pn).owner = (pid : Int) ∧ (pageinfo pn).refcount = 1))

/-- What the copy loop of `fork` has done, when it stands before page `i`, for
the read-only page `j0` of the parent: before the page is handled its frame
record is as it was when `fork` was called; afterwards the frame has one
reference more, and the child's inner table `l2` holds the parent's physical
address with the flags `PTE_P | PTE_U`. -/
def ForkShared (s : KState) (l2 j0 i : Nat) (sk : KState) : Prop :=
  (i ≤ j0 →
    sk.pageinfo (virtual_memory_lookup s.mem (s.processes s.current).p_pagetable
        (PAGEADDRESS j0)).pn.toNat
      = s.pageinfo (virtual_memory_lookup s.mem (s.processes s.current).p_pagetable
        (PAGEADDRESS j0)).pn.toNat)
  ∧ (j0 < i →
    sk.pageinfo (virtual_memory_lookup s.mem (s.processes s.current).p_pagetable
        (PAGEADDRESS j0)).pn.toNat
      = { owner := (s.pageinfo (virtual_memory_lookup s.mem (s.processes s.current).p_pagetable
            (PAGEADDRESS j0)).pn.toNat).owner,
          refcount := (s.pageinfo (virtual_memory_lookup s.mem
            (s.processes s.current).p_pagetable (PAGEADDRESS j0)).pn.toNat).refcount + 1 }
    ∧ sk.mem l2 j0
      = (virtual_memory_lookup s.mem (s.processes s.current).p_pagetable (PAGEADDRESS j0)).pa
          ||| (PTE_P ||| PTE_U))

/-- The current process maps no virtual page of `[PROC_START_ADDR,
MEMSIZE_VIRTUAL)` other than `j0` read-only to the frame of page `j0`. -/
def SharedOnce (L : Layout) (s : KState) (j0 : Nat) : Prop :=
  ∀ j, PAGENUMBER L.PROC_START_ADDR ≤ j → j < PAGENUMBER L.MEMSIZE_VIRTUAL → j ≠ j0 →
    (virtual_memory_lookup s.mem (s.processes s.current).p_pagetable (PAGEADDRESS j)).perm ≠ 0 →
    (virtual_memory_lookup s.mem (s.processes s.current).p_pagetable (PAGEADDRESS j)).perm
      &&& PTE_W = 0 →
    (virtual_memory_lookup s.mem (s.processes s.current).p_pagetable (PAGEADDRESS j)).pn.toNat
      ≠ (virtual_memory_lookup s.mem (s.processes s.current).p_pagetable
          (PAGEADDRESS j0)).pn.toNat

/-- A frame record is consistent: its refcount is 0 exactly when its owner is
Free, and the refcount is a value of `int8_t`. -/
def RecordOk (r : physical_pageinfo) : Prop :=
  (r.refcount = 0 ↔ r.owner = PO_FREE) ∧ -128 ≤ r.refcount ∧ r.refcount ≤ 127

/-- The frame-table invariant: every frame record is consistent. -/
def RefInv (pageinfo : PageInfo) : Prop := ∀ pn, RecordOk (pageinfo pn)

/-- What the kernel keeps true of the process table: descriptor `i` carries
pid `i`, and descriptor 0 is never used. -/
def ProcInv (s : KState) : Prop :=
  (∀ i, (s.processes i).p_pid = i) ∧ (s.processes 0).p_state = procstate.P_FREE

/-- The state invariant behind the frame-table invariant: `RefInv`, `ProcInv`,
and the current process is a runnable process of the table. -/
structure KInv (L : Layout) (s : KState) : Prop where
  ref : RefInv s.pageinfo
  procs : ProcInv s
  cur_lt : s.current < L.NPROC
  cur_run : (s.processes s.current).p_state = procstate.P_RUNNABLE

/-- The console page is one of the reserved pages of physical memory, so that
`pageinfo_init` gives it the owner `PO_RESERVED`. -/
def Layout.ConsoleReserved (L : Layout) : Prop :=
  L.physical_memory_isreserved L.console = true ∧ L.console % PAGESIZE = 0
  ∧ L.console < L.MEMSIZE_PHYSICAL

/-- The flags `x` (of a page-table entry or of a lookup result) allow a store
by user-mode code: present, writable and user-accessible. -/
def UserWritable (x : Nat) : Prop := x &&& PTE_P ≠ 0 ∧ x &&& PTE_W ≠ 0 ∧ x &&& PTE_U ≠ 0

/-- Process `p` holds a writable mapping of the virtual address `va` to the
frame `pn`. -/
def maps_writable (s : KState) (p va pn : Nat) : Prop :=
  (virtual_memory_lookup s.mem (s.processes p).p_pagetable va).perm &&& PTE_P ≠ 0
  ∧ (virtual_memory_lookup s.mem (s.processes p).p_pagetable va).perm &&& PTE_W ≠ 0
  ∧ (virtual_memory_lookup s.mem (s.processes p).p_pagetable va).pn = (pn : Int)

/-- Process `p` holds a mapping of the virtual address `va` to the frame `pn`
through which user-mode code can store. -/
def maps_user_writable (s : KState) (p va pn : Nat) : Prop :=
  UserWritable (virtual_memory_lookup s.mem (s.processes p).p_pagetable va).perm
  ∧ (virtual_memory_lookup s.mem (s.processes p).p_pagetable va).pn = (pn : Int)

/-- The address space of process `p`, with outer table in frame `l1` and inner
table in frame `l2`: both frames belong to `p`, the outer table has the single
entry 0, and every entry of the inner table through which user-mode code can
store leads to the console page or to a frame that `p` owns and that is none
of its two page tables. -/
structure ProcIso (L : Layout) (s : KState) (p l1 l2 : Nat) : Prop where
  pt_eq : (s.processes p).p_pagetable = PAGEADDRESS l1
  l1_lt : l1 < 2 ^ 20
  l2_lt : l2 < 2 ^ 20
  l_ne : l1 ≠ l2
  mem_l1 : s.mem l1 = Function.update (fun _ => 0) 0 (PAGEADDRESS l2 ||| 7)
  own_l1 : (s.pageinfo l1).owner = (p : Int)
  own_l2 : (s.pageinfo l2).owner = (p : Int)
  user : ∀ j, UserWritable (s.mem l2 j) →
    PAGENUMBER (s.mem l2 j) = PAGENUMBER L.console
    ∨ ((s.pageinfo (PAGENUMBER (s.mem l2 j))).owner = (p : Int)
        ∧ PAGENUMBER (s.mem l2 j) ≠ l1 ∧ PAGENUMBER (s.mem l2 j) ≠ l2)

/-- The footprint of a kernel operation that acts for process `a`, from state
`s` to state `s1`: a frame that is in use and not owned by `a` keeps its
owner, and keeps its contents when a process owns it. -/
def Foot (a : Nat) (s s1 : KState) : Prop :=
  ∀ f, (s.pageinfo f).owner ≠ PO_FREE → (s.pageinfo f).owner ≠ (a : Int) →
    (s1.pageinfo f).owner = (s.pageinfo f).owner
    ∧ ((s.pageinfo f).owner > 0 → s1.mem f = s.mem f)

/-- The isolation invariant: the state invariant `KInv`, the console page
stays reserved, and every live process has an address space as described by
`ProcIso`. -/
structure IsoInv (L : Layout) (s : KState) : Prop where
  kinv : KInv L s
  console_rec : (s.pageinfo (PAGENUMBER L.console)).owner = PO_RESERVED
  live : ∀ p, (s.processes p).p_state ≠ procstate.P_FREE → ∃ l1 l2, ProcIso L s p l1 l2

/-- A second scaled-down layout, with room for the four boot processes: 32
physical pages, process memory from page 20, six process slots. -/
def quadLayout : Layout :=
  { NPROC := 6, MEMSIZE_PHYSICAL := 0x20000, MEMSIZE_VIRTUAL := 0x20000,
    PROC_START_ADDR := 0x14000, console := 0x5000, kernel_pagetable := 0x2000,
    KERNEL_START_ADDR := 0x1000, KERNEL_STACK_TOP := 0x5000, kernel_end := 0x4000,
    physical_memory_isreserved := fun a => a == 0 || a == 0x5000,
    INT_SYS_PANIC := 48, INT_SYS_GETPID := 49, INT_SYS_YIELD := 50,
    INT_SYS_PAGE_ALLOC := 51, INT_SYS_FORK := 52, INT_SYS_EXIT := 53,
    INT_TIMER := 32, INT_PAGEFAULT := 14 }

/-- Program images for `quadLayout`: one read-only code page and one writable
data page each, from page 20. -/
def quadProgram (n : Nat) : Program :=
  { entry := 0x14000 + (n % 4) * 0x2000,
    pages := [ { va := 0x14000 + (n % 4) * 0x2000, writable := false,
                 contents := fun i => 100 + i },
               { va := 0x15000 + (n % 4) * 0x2000, writable := true,
                 contents := fun i => 200 + i } ] }

/-- The environment of `quadLayout`. -/
def quadEnv : Env :=
  { mem0 := smallMem0, init_registers := ⟨0, 0, 0, 0, 0, []⟩, programs := quadProgram }

/-- The state in which `kernel(NULL)` starts process 1 on `quadLayout`, with
the four boot processes runnable. -/
def quadBoot : KState := (kernel quadLayout quadEnv none).getD zeroState

/-- Every live process has an address space of the shape `ProcIso`. -/
def LiveIso (L : Layout) (s : KState) : Prop :=
  ∀ p, (s.processes p).p_state ≠ procstate.P_FREE → ∃ l1 l2, ProcIso L s p l1 l2

/-- What holds in every state `sk` of the copy loop of a `fork` with child
`slot`, started in state `s0`: the address space of the child has the shape
`ProcIso`, only free frames and frames of the child were written, the
frame-table invariant holds and the process table is that of `s0`. -/
structure ForkIso (L : Layout) (s0 : KState) (slot l1 l2 : Nat) (sk : KState) : Prop where
  iso : ProcIso L sk slot l1 l2
  foot : Foot slot s0 sk
  ref : RefInv sk.pageinfo
  procs : sk.processes = s0.processes

/-- The result of `copy_pagetable(kernel_pagetable, 2)` in `sampleState`. -/
def sampleCopy : KState × Nat :=
  (copy_pagetable smallLayout sampleState smallLayout.kernel_pagetable 2).getD (zeroState, 0)

/-- The state after `process_setup(2, 1)` in `sampleState`. -/
def sampleSetup : KState := (process_setup smallLayout smallEnv sampleState 2 1).getD zeroState

/-- A sequence of dispatcher events and user stores that leads from the first
state to the second. -/
inductive Steps (L : Layout) : KState → KState → Prop where
  | refl (s : KState) : Steps L s s
  | trap (s s1 s2 : KState) (reg : x86_registers) :
      Steps L s s1 → exception L s1 reg = some s2 → Steps L s s2
  | store (s s1 s2 : KState) (va w : Nat) :
      Steps L s s1 → user_store s1 va w = some s2 → Steps L s s2

/-- The state `sampleBusy` with process 2 Broken. -/
def sampleBroken : KState :=
  { sampleBusy with
    processes := fun i =>
      if i = 2 then { sampleBusy.processes 2 with p_state := procstate.P_BROKEN }
      else sampleBusy.processes i }

/-- An inner page table keeps read-only mappings of process memory away from
the low region: a present, non-writable entry at an index at or above
`PROC_START_ADDR / PAGESIZE` points to a frame at or above it. -/
def HighShare (L : Layout) (tbl : Nat → Nat) : Prop :=
  ∀ j, L.PROC_START_ADDR / PAGESIZE ≤ j → tbl j &&& PTE_P ≠ 0 → tbl j &&& PTE_W = 0 →
    L.PROC_START_ADDR / PAGESIZE ≤ PAGENUMBER (tbl j)

/-- No frame below `PROC_START_ADDR` has more than one reference. -/
def LowOnce (L : Layout) (pageinfo : PageInfo) : Prop :=
  ∀ f, f < L.PROC_START_ADDR / PAGESIZE →
    (pageinfo f).refcount = 0 ∨ (pageinfo f).refcount = 1

/-- Every live process has an address space of the shape `ProcIso` whose two
page tables lie below `PROC_START_ADDR` and whose inner table satisfies
`HighShare`. -/
def LiveTab (L : Layout) (s : KState) : Prop :=
  ∀ p, (s.processes p).p_state ≠ procstate.P_FREE →
    ∃ l1 l2, ProcIso L s p l1 l2 ∧ l1 < L.PROC_START_ADDR / PAGESIZE
      ∧ l2 < L.PROC_START_ADDR / PAGESIZE ∧ HighShare L (s.mem l2)

/-- The page-table invariant: the isolation invariant, `LowOnce` and
`LiveTab`. -/
structure TabInv (L : Layout) (s : KState) : Prop where
  iso : IsoInv L s
  low : LowOnce L s.pageinfo
  tab : LiveTab L s

/-- What holds in every state `sk` of the copy loop of a `fork` with child
`slot`, started in state `s0`: `ForkIso`, the current process is that of `s0`,
`LowOnce`, and the inner table of the child satisfies `HighShare`. -/
structure ForkTab (L : Layout) (s0 : KState) (slot l1 l2 : Nat) (sk : KState) : Prop where
  iso : ForkIso L s0 slot l1 l2 sk
  cur : sk.current = s0.current
  low : LowOnce L sk.pageinfo
  share : HighShare L (sk.mem l2)

/-- The state `sampleState` with a single free frame below `PROC_START_ADDR`,
frame 9: process 1 holds the frames 10 to 15 as well, and the frames from 18
on are free. -/
def sampleLast : KState :=
  { sampleState with
    pageinfo := fun pn =>
      if pn = 0 ∨ pn = 5 then ⟨-1, 1⟩
      else if pn < 5 then ⟨-2, 1⟩
      else if pn = 9 then ⟨0, 0⟩
      else if pn < 18 then ⟨1, 1⟩
      else ⟨0, 0⟩ }

/-- The result of a second `fork()` of process 1, called in the state after
the fork in `sampleState`: processes 1, 2 and 3 share the code frame 16. -/
def sampleReforked : KState × Int := (fork smallLayout sampleForked.1).getD (zeroState, -1)

/-- The result of a third `fork()` of process 1, called in `sampleReforked`. -/
def sampleForkFailed : KState × Int := (fork smallLayout sampleReforked.1).getD (zeroState, 0)

/-- Process `p` maps frame `pn` in its user range: some virtual page of
`[PROC_START_ADDR, MEMSIZE_VIRTUAL)` of its address space is present and
resolves to the frame. -/
def maps_user_frame (L : Layout) (s : KState) (p pn : Nat) : Prop :=
  ∃ i, i < PAGENUMBER L.MEMSIZE_VIRTUAL ∧ PAGENUMBER L.PROC_START_ADDR ≤ i
    ∧ (virtual_memory_lookup s.mem (s.processes p).p_pagetable (PAGEADDRESS i)).perm ≠ 0
    ∧ (virtual_memory_lookup s.mem (s.processes p).p_pagetable (PAGEADDRESS i)).pn = (pn : Int)

instance (L : Layout) (s : KState) (p pn : Nat) : Decidable (maps_user_frame L s p pn) := by
  unfold maps_user_frame
  infer_instance

/-- The number of live processes whose address space maps frame `pn` in the
user range. -/
def live_mappers (L : Layout) (s : KState) (pn : Nat) : Nat :=
  (List.range L.NPROC).countP (fun p =>
    decide ((s.processes p).p_state ≠ procstate.P_FREE ∧ maps_user_frame L s p pn))

/-- The state `smallBoot` when process 1 has trapped with a fork request. -/
def bootForkTrap : KState := set_registers smallBoot smallBoot.current (trapRegs 0 52)

/-- The state after `fork()` in `bootForkTrap`, in which `exception` resumes
process 1. -/
def bootForked : KState := ((fork smallLayout bootForkTrap).getD (zeroState, -1)).1

/-- The state `bootForked` when process 1 has trapped with an exit request. -/
def bootExitTrap : KState := set_registers bootForked bootForked.current (trapRegs 0 53)

/-- The state after `sys_exit(current->p_pid)` in `bootExitTrap`. -/
def bootExited : KState :=
  (sys_exit smallLayout bootExitTrap (bootExitTrap.processes bootExitTrap.current).p_pid).getD
    zeroState

/-- The state in which `schedule()` resumes a process after the exit of
process 1: its child, process 2, runs. -/
def bootOrphan : KState := (schedule smallLayout bootExited).getD zeroState

/-- The frames of the page table of the current process are in use: the outer
table, and the frame of every present entry of the outer table. -/
def ParentSpaceInUse (s : KState) : Prop :=
  (s.pageinfo (PAGENUMBER (s.processes s.current).p_pagetable)).refcount ≠ 0
  ∧ ∀ k, k < PAGETABLE_NENTRIES →
      s.mem (PAGENUMBER (s.processes s.current).p_pagetable) k &&& PTE_P ≠ 0 →
      (s.pageinfo (PAGENUMBER (s.mem (PAGENUMBER (s.processes s.current).p_pagetable)
        k))).refcount ≠ 0

/-- The number of process descriptors that are not Free. -/
def live_count (L : Layout) (s : KState) : Nat :=
  (List.range L.NPROC).countP
    (fun p => decide ((s.processes p).p_state ≠ procstate.P_FREE))

/-- An inner page table maps read-only pages of process memory one to one:
a present, non-writable entry at an index `j` at or above
`PROC_START_ADDR / PAGESIZE` is the entry `j * PAGESIZE | PTE_P | PTE_U`, as
the program loader and the sharing branch of `fork` write it. -/
def RoDiag (L : Layout) (tbl : Nat → Nat) : Prop :=
  ∀ j, L.PROC_START_ADDR / PAGESIZE ≤ j → tbl j &&& PTE_P ≠ 0 → tbl j &&& PTE_W = 0 →
    tbl j = j * PAGESIZE ||| (PTE_P ||| PTE_U)

/-- Every live process has an address space of the shape `ProcIso` whose
inner table satisfies `RoDiag`. -/
def LiveDiag (L : Layout) (s : KState) : Prop :=
  ∀ p, (s.processes p).p_state ≠ procstate.P_FREE →
    ∃ l1 l2, ProcIso L s p l1 l2 ∧ RoDiag L (s.mem l2)

/-- The kernel page table, with outer table in frame `k1` and inner table in
frame `k2`, maps every physical page to itself, and both frames belong to the
kernel. -/
structure KTab (L : Layout) (k1 k2 : Nat) (s : KState) : Prop where
  pt_eq : L.kernel_pagetable = PAGEADDRESS k1
  k1_lt : k1 < 2 ^ 20
  pde_p : s.mem k1 0 &&& PTE_P ≠ 0
  pde : PAGENUMBER (s.mem k1 0) = k2
  ident : ∀ i, i < NPAGES L → s.mem k2 i &&& PTE_P ≠ 0 ∧ PAGENUMBER (s.mem k2 i) = i
  own1 : (s.pageinfo k1).owner = PO_KERNEL
  own2 : (s.pageinfo k2).owner = PO_KERNEL

/-- What the kernel relies on from `hardware_init` and the memory layout:
physical memory fits one inner page table, and the kernel page table that
`hardware_init` leaves, with outer table in frame `k1` and inner table in
frame `k2`, maps every physical page to itself and lies in frames that
`pageinfo_init` gives to the kernel. -/
structure KernelMapped (L : Layout) (env : Env) (k1 k2 : Nat) : Prop where
  phys_le : L.MEMSIZE_PHYSICAL ≤ 0x400000
  pt_eq : L.kernel_pagetable = PAGEADDRESS k1
  k1_lt : k1 < 2 ^ 20
  k_ne : k1 ≠ k2
  pde_p : env.mem0 k1 0 &&& PTE_P ≠ 0
  pde : PAGENUMBER (env.mem0 k1 0) = k2
  ident : ∀ i, i < NPAGES L → env.mem0 k2 i &&& PTE_P ≠ 0 ∧ PAGENUMBER (env.mem0 k2 i) = i
  own1 : (pageinfo_init L k1).owner = PO_KERNEL
  own2 : (pageinfo_init L k2).owner = PO_KERNEL

/-- Every frame of `pageinfo[]` that a process owns is owned by a process
that is not Free: the final assertion of `virtual_memory_check`. -/
def OwnLive (L : Layout) (s : KState) : Prop :=
  ∀ f, f < NPAGES L → 0 < (s.pageinfo f).owner →
    (s.pageinfo f).owner.toNat < L.NPROC
    ∧ (s.processes (s.pageinfo f).owner.toNat).p_state ≠ procstate.P_FREE

/-- Every refcount lies between 0 and `B`, and a refcount above 1 belongs to
a frame of `pageinfo[]` that a process owns. -/
def RcBound (L : Layout) (pageinfo : PageInfo) (B : Int) : Prop :=
  ∀ f, 0 ≤ (pageinfo f).refcount ∧ (pageinfo f).refcount ≤ B
    ∧ (1 < (pageinfo f).refcount → 0 < (pageinfo f).owner ∧ f < NPAGES L)

/-- From state `s` to state `s1` a frame keeps its owner or gets the owner
`a`. -/
def OwnTrack (a : Nat) (s s1 : KState) : Prop :=
  ∀ f, (s1.pageinfo f).owner = (s.pageinfo f).owner ∨ (s1.pageinfo f).owner = (a : Int)

/-- What holds in every state `sk` of the copy loop of a `fork` that was
called in state `s` with `N0` live processes, when the loop stands before page
`i`: the inner table `l2` of the child satisfies `RoDiag`, no refcount exceeds
`N0`, except by one for the frames of the pages already handled, and every
frame has the owner it had in `s` or belongs to the child. -/
structure ForkAcc (L : Layout) (s : KState) (N0 : Int) (slot l2 i : Nat) (sk : KState) :
    Prop where
  diag : RoDiag L (sk.mem l2)
  rc : ∀ f, 0 ≤ (sk.pageinfo f).refcount
    ∧ (sk.pageinfo f).refcount ≤ N0 + (if f < i then 1 else 0)
    ∧ (1 < (sk.pageinfo f).refcount → 0 < (sk.pageinfo f).owner ∧ f < NPAGES L)
  own : OwnTrack slot s sk

/-- The accounting invariant, for a kernel page table in the frames `k1` and
`k2`: that table maps every physical page to itself and belongs to the kernel,
the read-only entries of the live address spaces are as `fork` writes them,
and no refcount exceeds the number of live processes. -/
structure AccInv (L : Layout) (k1 k2 : Nat) (s : KState) : Prop where
  ktab : KTab L k1 k2 s
  diag : LiveDiag L s
  rc : RcBound L s.pageinfo (live_count L s)

/-- The state in which `kernel(NULL)` starts process 1 on the scaled-down
configuration, whose low region has no room for the page tables of four
processes. -/
def smallBootFour : KState := (kernel smallLayout smallEnv none).getD zeroState

/-- The result of the fork request of process 1 in the boot state `smallBoot`. -/
def bootForkResult : KState × Int := (fork smallLayout bootForkTrap).getD (zeroState, -1)

/-- The state `bootOrphan` with a pending fork request of its running process,
process 2. -/
def bootOrphanTrap : KState := set_registers bootOrphan bootOrphan.current (trapRegs 0 52)

/-- The result of the fork request of process 2 in `bootOrphan`. -/
def bootOrphanForked : KState × Int := (fork smallLayout bootOrphanTrap).getD (zeroState, -1)

/-! ## Theorems -/

/-! ### Arithmetic of pages -/

theorem and_fff_eq_mod (a : Nat) : a &&& 0xFFF = a % PAGESIZE := by
  have h : (0xFFF : Nat) = 2 ^ 12 - 1 := by norm_num
  rw [h, Nat.and_pow_two_sub_one_eq_mod]
  rfl

theorem PAGENUMBER_eq_div (a : Nat) : PAGENUMBER a = a / PAGESIZE := by
  simp [PAGENUMBER, PAGESHIFT, PAGESIZE, Nat.shiftRight_eq_div_pow]

theorem PAGEADDRESS_eq_mul (pn : Nat) (h : pn < 2 ^ 20) : PAGEADDRESS pn = pn * PAGESIZE := by
  simp only [PAGEADDRESS, PAGESHIFT, PAGESIZE, WORD, Nat.shiftLeft_eq]
  apply Nat.mod_eq_of_lt
  omega

theorem PAGEADDRESS_ne_minus_one (pn : Nat) : PAGEADDRESS pn ≠ UINTPTR_MINUS_ONE := by
  simp only [PAGEADDRESS, PAGESHIFT, WORD, UINTPTR_MINUS_ONE, Nat.shiftLeft_eq]
  omega

theorem NPAGES_lt (L : Layout) (h : L.MEMSIZE_PHYSICAL < WORD) : NPAGES L ≤ 2 ^ 20 := by
  simp only [NPAGES, PAGENUMBER_eq_div, PAGESIZE, WORD] at *
  omega

/-! ### `physical_page_alloc` -/

/-- C1: `physical_page_alloc(addr, owner)` returns `-1` exactly when `addr` is
not a multiple of the page size, or `addr >= MEMSIZE_PHYSICAL`, or the refcount
of frame `PAGENUMBER(addr)` is nonzero; for every other input it returns `0`. -/
theorem physical_page_alloc_result (L : Layout) (pageinfo : PageInfo) (addr : Nat)
    (owner : Int) :
    ((physical_page_alloc L pageinfo addr owner).2 = -1 ↔
        (addr % PAGESIZE ≠ 0 ∨ L.MEMSIZE_PHYSICAL ≤ addr
          ∨ (pageinfo (PAGENUMBER addr)).refcount ≠ 0))
    ∧ (¬ (addr % PAGESIZE ≠ 0 ∨ L.MEMSIZE_PHYSICAL ≤ addr
          ∨ (pageinfo (PAGENUMBER addr)).refcount ≠ 0) →
        (physical_page_alloc L pageinfo addr owner).2 = 0) := by
  unfold physical_page_alloc
  rw [and_fff_eq_mod]
  by_cases h : addr % PAGESIZE ≠ 0 ∨ addr ≥ L.MEMSIZE_PHYSICAL
      ∨ (pageinfo (PAGENUMBER addr)).refcount ≠ 0
  · rw [if_pos h]
    exact ⟨⟨fun _ => h, fun _ => rfl⟩, fun hn => absurd h hn⟩
  · rw [if_neg h]
    exact ⟨⟨fun h0 => by simp at h0, fun h1 => absurd h1 h⟩, fun _ => rfl⟩

/-- C2: when `physical_page_alloc(addr, owner)` succeeds, frame
`PAGENUMBER(addr)` has refcount 1 and the given owner and every other frame
record is unchanged; when it fails, the whole frame table is unchanged. -/
theorem physical_page_alloc_effect (L : Layout) (pageinfo : PageInfo) (addr : Nat)
    (owner : Int) :
    ((physical_page_alloc L pageinfo addr owner).2 = 0 →
        (physical_page_alloc L pageinfo addr owner).1 (PAGENUMBER addr)
            = { owner := owner, refcount := 1 }
        ∧ ∀ pn, pn ≠ PAGENUMBER addr →
            (physical_page_alloc L pageinfo addr owner).1 pn = pageinfo pn)
    ∧ ((physical_page_alloc L pageinfo addr owner).2 = -1 →
        (physical_page_alloc L pageinfo addr owner).1 = pageinfo) := by
  unfold physical_page_alloc
  split
  · exact ⟨fun h => by simp at h, fun _ => rfl⟩
  · refine ⟨fun _ => ⟨by simp, fun pn hpn => by simp [Function.update, hpn]⟩,
      fun h => by simp at h⟩

/-! ### `find_free_page` -/

theorem find_free_scan_none (pageinfo : PageInfo) (fuel i : Nat) :
    find_free_scan pageinfo fuel i = UINTPTR_MINUS_ONE ↔
      ∀ j, i ≤ j → j < i + fuel → (pageinfo j).owner ≠ PO_FREE := by
  induction fuel generalizing i with
  | zero => simp [find_free_scan]; intro j h1 h2; omega
  | succ n ih =>
    unfold find_free_scan
    by_cases h : (pageinfo i).owner = PO_FREE
    · rw [if_pos h]
      constructor
      · intro h0; exact absurd h0 (PAGEADDRESS_ne_minus_one i)
      · intro h0; exact absurd h (h0 i (le_refl i) (by omega))
    · rw [if_neg h, ih]
      constructor
      · intro h0 j h1 h2
        rcases Nat.eq_or_lt_of_le h1 with e | l
        · subst e; exact h
        · exact h0 j l (by omega)
      · intro h0 j h1 h2
        exact h0 j (by omega) (by omega)

theorem find_free_scan_first (pageinfo : PageInfo) (fuel i k : Nat)
    (hk : i ≤ k) (hk2 : k < i + fuel) (hfree : (pageinfo k).owner = PO_FREE)
    (hlow : ∀ j, i ≤ j → j < k → (pageinfo j).owner ≠ PO_FREE) :
    find_free_scan pageinfo fuel i = PAGEADDRESS k := by
  induction fuel generalizing i with
  | zero => omega
  | succ n ih =>
    unfold find_free_scan
    rcases Nat.eq_or_lt_of_le hk with e | l
    · subst e; rw [if_pos hfree]
    · rw [if_neg (hlow i (le_refl i) l)]
      exact ih (i + 1) l (by omega) (fun j h1 h2 => hlow j (by omega) h2)

theorem find_free_page_lowest {L : Layout} (hL : L.MEMSIZE_PHYSICAL < WORD)
    (pageinfo : PageInfo) (k : Nat) (hk : k < NPAGES L) (hfree : (pageinfo k).owner = PO_FREE)
    (hlow : ∀ j, j < k → (pageinfo j).owner ≠ PO_FREE) :
    find_free_page L pageinfo = k * PAGESIZE := by
  have h20 : k < 2 ^ 20 := lt_of_lt_of_le hk (NPAGES_lt L hL)
  rw [← PAGEADDRESS_eq_mul k h20]
  exact find_free_scan_first pageinfo (NPAGES L) 0 k (Nat.zero_le k) (by omega) hfree
    (fun j _ h2 => hlow j h2)

theorem find_free_page_none_iff (L : Layout) (pageinfo : PageInfo) :
    find_free_page L pageinfo = UINTPTR_MINUS_ONE ↔
      ∀ j, j < NPAGES L → (pageinfo j).owner ≠ PO_FREE := by
  unfold find_free_page
  rw [find_free_scan_none]
  constructor
  · intro h j hj; exact h j (Nat.zero_le j) (by omega)
  · intro h j _ hj; exact h j (by omega)

/-- C3: for every frame table, `find_free_page` returns the physical address
of the lowest-numbered frame whose owner is Free, and returns the none value
`(uintptr_t) -1` exactly when no frame has owner Free. -/
theorem find_free_page_spec (L : Layout) (hL : L.MEMSIZE_PHYSICAL < WORD)
    (pageinfo : PageInfo) :
    (∀ k, k < NPAGES L → (pageinfo k).owner = PO_FREE →
        (∀ j, j < k → (pageinfo j).owner ≠ PO_FREE) →
        find_free_page L pageinfo = k * PAGESIZE)
    ∧ (find_free_page L pageinfo = UINTPTR_MINUS_ONE ↔
        ∀ j, j < NPAGES L → (pageinfo j).owner ≠ PO_FREE) := by
  constructor
  · intro k hk hfree hlow
    exact find_free_page_lowest hL pageinfo k hk hfree hlow
  · exact find_free_page_none_iff L pageinfo

/-- Witness of `find_free_page_spec`: on the scaled-down layout after
`pageinfo_init`, the first free frame is page 6. -/
theorem find_free_page_spec_witness :
    smallLayout.MEMSIZE_PHYSICAL < WORD
    ∧ find_free_page smallLayout (pageinfo_init smallLayout) = 6 * PAGESIZE :=
  ⟨by decide,
   (find_free_page_spec smallLayout (by decide) (pageinfo_init smallLayout)).1 6
     (by decide) (by decide) (by decide)⟩

theorem copy_pagetable_frame {L : Layout} {s s1 : KState} {pt o r : Nat}
    (h : copy_pagetable L s pt o = some (s1, r)) :
    s1.processes = s.processes ∧ s1.current = s.current ∧ s1.ticks = s.ticks := by
  unfold copy_pagetable at h
  dsimp only at h
  split at h
  · cases h; exact ⟨rfl, rfl, rfl⟩
  · split at h
    · cases h; exact ⟨rfl, rfl, rfl⟩
    · split at h
      · cases h
      · split at h
        · cases h
        · cases h; exact ⟨rfl, rfl, rfl⟩

theorem sys_exit_frame {L : Layout} {s s1 : KState} {pid : Nat}
    (h : sys_exit L s pid = some s1) :
    s1.current = s.current ∧ s1.mem = s.mem ∧ s1.ticks = s.ticks
    ∧ s1.processes = Function.update s.processes pid
        { s.processes pid with p_state := procstate.P_FREE } := by
  unfold sys_exit at h
  split at h
  · cases h
  · split at h
    · cases h; exact ⟨rfl, rfl, rfl, rfl⟩
    · cases h

theorem fork_page_next_frame {L : Layout} {s s1 : KState} {slot cp i : Nat}
    (h : fork_page L s slot cp i = some (ForkStep.next s1)) :
    s1.processes = s.processes ∧ s1.current = s.current ∧ s1.ticks = s.ticks := by
  unfold fork_page at h
  dsimp only at h
  split at h
  · split at h
    · split at h
      · split at h <;> cases h
      · split at h
        · cases h
        · cases h; exact ⟨rfl, rfl, rfl⟩
    · split at h
      · split at h
        · split at h
          · cases h
          · cases h; exact ⟨rfl, rfl, rfl⟩
        · cases h; exact ⟨rfl, rfl, rfl⟩
      · cases h
  · cases h; exact ⟨rfl, rfl, rfl⟩

theorem fork_loop_next_frame {L : Layout} {slot cp : Nat} (fuel : Nat) :
    ∀ (i : Nat) (s s1 : KState), fork_loop L slot cp fuel i s = some (ForkStep.next s1) →
    s1.processes = s.processes ∧ s1.current = s.current ∧ s1.ticks = s.ticks := by
  induction fuel with
  | zero => intro i s s1 h; simp [fork_loop] at h; cases h; exact ⟨rfl, rfl, rfl⟩
  | succ n ih =>
    intro i s s1 h
    unfold fork_loop at h
    split at h
    · cases h
    · cases h
    · rename_i s2 hp
      obtain ⟨a, b, c⟩ := fork_page_next_frame hp
      obtain ⟨a', b', c'⟩ := ih _ _ _ h
      exact ⟨a'.trans a, b'.trans b, c'.trans c⟩

theorem fork_find_slot_none (processes : Nat → proc) (fuel i : Nat) :
    fork_find_slot processes fuel i = none ↔
      ∀ j, i ≤ j → j < i + fuel → (processes j).p_state ≠ procstate.P_FREE := by
  induction fuel generalizing i with
  | zero => simp [fork_find_slot]; intro j h1 h2; omega
  | succ n ih =>
    unfold fork_find_slot
    by_cases h : (processes i).p_state = procstate.P_FREE
    · rw [if_pos h]
      constructor
      · intro h0; cases h0
      · intro h0; exact absurd h (h0 i (le_refl i) (by omega))
    · rw [if_neg h, ih]
      constructor
      · intro h0 j h1 h2
        rcases Nat.eq_or_lt_of_le h1 with e | l
        · subst e; exact h
        · exact h0 j l (by omega)
      · intro h0 j h1 h2
        exact h0 j (by omega) (by omega)

theorem fork_find_slot_some (processes : Nat → proc) (fuel i k : Nat)
    (h : fork_find_slot processes fuel i = some k) :
    i ≤ k ∧ k < i + fuel ∧ (processes k).p_state = procstate.P_FREE
      ∧ ∀ j, i ≤ j → j < k → (processes j).p_state ≠ procstate.P_FREE := by
  induction fuel generalizing i with
  | zero => simp [fork_find_slot] at h
  | succ n ih =>
    unfold fork_find_slot at h
    by_cases hf : (processes i).p_state = procstate.P_FREE
    · rw [if_pos hf] at h
      cases h
      exact ⟨le_refl _, by omega, hf, fun j h1 h2 => by omega⟩
    · rw [if_neg hf] at h
      obtain ⟨a, b, c, d⟩ := ih (i + 1) h
      refine ⟨by omega, by omega, c, fun j h1 h2 => ?_⟩
      rcases Nat.eq_or_lt_of_le h1 with e | l
      · subst e; exact hf
      · exact d j l h2

theorem fork_success_shape {L : Layout} {s s1 : KState} {r : Int}
    (h : fork L s = some (s1, r)) (hr : r ≠ -1) :
    ∃ slot cp s2 s4,
      fork_find_slot s.processes (L.NPROC - 1) 1 = some slot
      ∧ copy_pagetable L (fork_claim_slot s slot) ((fork_claim_slot s slot).processes (fork_claim_slot s slot).current).p_pagetable
          ((fork_claim_slot s slot).processes slot).p_pid = some (s2, cp)
      ∧ cp ≠ UINTPTR_MINUS_ONE
      ∧ fork_loop L slot cp (PAGENUMBER L.MEMSIZE_VIRTUAL - PAGENUMBER L.PROC_START_ADDR)
          (PAGENUMBER L.PROC_START_ADDR) (set_pagetable_of s2 slot cp) = some (ForkStep.next s4)
      ∧ s1 = fork_finish s4 slot
      ∧ r = (((fork_finish s4 slot).processes slot).p_pid : Int) := by
  unfold fork at h
  split at h
  · cases h; exact absurd rfl hr
  · rename_i slot hslot
    dsimp only at h
    split at h
    · cases h
    · rename_i s2 cp hcp
      split at h
      · split at h
        · cases h
        · cases h; exact absurd rfl hr
      · rename_i hne
        split at h
        · cases h
        · cases h; exact absurd rfl hr
        · rename_i s4 hloop
          cases h
          exact ⟨slot, cp, s2, s4, hslot, hcp, hne, hloop, rfl, rfl⟩

theorem toU32_natCast (n : Nat) (h : n < WORD) : toU32 (n : Int) = n := by
  unfold toU32
  unfold WORD at h
  have : ((n : Int) % 4294967296) = (n : Int) := Int.emod_eq_of_lt (by omega) (by omega)
  rw [this]; simp

/-- The process table after a successful `fork`, in terms of the table before
it: the child slot, the parent, and everybody else. -/
theorem fork_success_state {L : Layout} {s s1 : KState} {r : Int}
    (h : fork L s = some (s1, r)) (hr : r ≠ -1)
    (hcur : (s.processes s.current).p_state ≠ procstate.P_FREE) :
    ∃ slot cp,
      fork_find_slot s.processes (L.NPROC - 1) 1 = some slot
      ∧ slot ≠ s.current
      ∧ r = (slot : Int)
      ∧ s1.current = s.current
      ∧ s1.processes slot =
          { p_pid := slot,
            p_registers := { (s.processes s.current).p_registers with reg_eax := 0 },
            p_state := procstate.P_RUNNABLE, p_pagetable := cp }
      ∧ s1.processes s.current =
          { s.processes s.current with
            p_registers :=
              { (s.processes s.current).p_registers with reg_eax := toU32 (slot : Int) } }
      ∧ ∀ j, j ≠ slot → j ≠ s.current → s1.processes j = s.processes j := by
  obtain ⟨slot, cp, s2, s4, hslot, hcp, _, hloop, hs1, hrr⟩ := fork_success_shape h hr
  obtain ⟨p4, c4, _⟩ := fork_loop_next_frame _ _ _ _ hloop
  obtain ⟨p2, c2, _⟩ := copy_pagetable_frame hcp
  have hfree := (fork_find_slot_some _ _ _ _ hslot).2.2.1
  have hne : slot ≠ s.current := by
    intro e; rw [e] at hfree; exact hcur hfree
  have hne' : s.current ≠ slot := fun e => hne e.symm
  have hc4 : s4.current = s.current := by
    rw [c4]; simp only [set_pagetable_of, set_proc]; rw [c2]; rfl
  have hp4 : s4.processes = Function.update s.processes slot
      { p_pid := slot, p_registers := (s.processes slot).p_registers,
        p_state := procstate.P_RUNNABLE, p_pagetable := cp } := by
    rw [p4]; simp only [set_pagetable_of, set_proc]; rw [p2]
    simp [fork_claim_slot, set_proc]
  refine ⟨slot, cp, hslot, hne, ?_, ?_, ?_, ?_, ?_⟩
  · rw [hrr]; simp [fork_finish, set_eax, set_registers, set_proc, hp4, hc4, Function.update, hne]
  · rw [hs1]; simp [fork_finish, set_eax, set_registers, set_proc, hc4]
  · rw [hs1]; simp [fork_finish, set_eax, set_registers, set_proc, hp4, hc4, Function.update, hne, hne']
  · rw [hs1]; simp [fork_finish, set_eax, set_registers, set_proc, hp4, hc4, Function.update, hne, hne']
  · intro j hj1 hj2
    rw [hs1]; simp [fork_finish, set_eax, set_registers, set_proc, hp4, hc4, Function.update, hj1, hj2]

theorem getD_of_isSome {α : Type} (o : Option α) (d : α) (h : o.isSome = true) :
    o = some (o.getD d) := by
  cases o with
  | none => cases h
  | some x => rfl

set_option maxRecDepth 100000 in
theorem sampleForked_eq : fork smallLayout sampleState = some sampleForked :=
  getD_of_isSome _ _ (by decide!)

set_option maxRecDepth 100000 in
theorem sampleForked_ret : sampleForked.2 ≠ -1 := by decide!

theorem sampleState_current :
    (sampleState.processes sampleState.current).p_state ≠ procstate.P_FREE := by decide

theorem sampleState_pids :
    ∀ j, j < smallLayout.NPROC → (sampleState.processes j).p_pid = j := by decide

/-- C8: after a successful `fork`, the child's saved registers equal the
parent's saved registers in every field except `reg_eax`, which is 0 in the
child and the child's process id in the parent; `fork` returns that same id. -/
theorem fork_registers (L : Layout) (hN : L.NPROC ≤ WORD) (s : KState) (p : KState × Int)
    (h : fork L s = some p) (hr : p.2 ≠ -1)
    (hcur : (s.processes s.current).p_state ≠ procstate.P_FREE) :
    ∃ child : Nat,
      p.2 = (child : Int) ∧ 0 < child ∧ child ≠ s.current
      ∧ p.1.current = s.current
      ∧ (p.1.processes child).p_pid = child
      ∧ (p.1.processes child).p_registers =
          { (s.processes s.current).p_registers with reg_eax := 0 }
      ∧ (p.1.processes s.current).p_registers =
          { (s.processes s.current).p_registers with reg_eax := child } := by
  obtain ⟨s1, r⟩ := p
  obtain ⟨slot, cp, hslot, hne, hr', hc, hchild, hpar, _⟩ := fork_success_state h hr hcur
  obtain ⟨h1, h2, _, _⟩ := fork_find_slot_some _ _ _ _ hslot
  have hlt : slot < WORD := by omega
  refine ⟨slot, hr', by omega, hne, hc, ?_, ?_, ?_⟩
  · show (s1.processes slot).p_pid = slot
    rw [hchild]
  · show (s1.processes slot).p_registers = _
    rw [hchild]
  · show (s1.processes s.current).p_registers = _
    rw [hpar, toU32_natCast slot hlt]

/-- Witness of `fork_registers`: in `sampleState` process 1 forks process 2. -/
theorem fork_registers_witness :
    ∃ child : Nat,
      sampleForked.2 = (child : Int) ∧ 0 < child ∧ child ≠ sampleState.current
      ∧ sampleForked.1.current = sampleState.current
      ∧ (sampleForked.1.processes child).p_pid = child
      ∧ (sampleForked.1.processes child).p_registers =
          { (sampleState.processes sampleState.current).p_registers with reg_eax := 0 }
      ∧ (sampleForked.1.processes sampleState.current).p_registers =
          { (sampleState.processes sampleState.current).p_registers with reg_eax := child } :=
  fork_registers smallLayout (by decide) sampleState sampleForked sampleForked_eq
    sampleForked_ret sampleState_current

theorem fork_no_slot {L : Layout} {s : KState}
    (h : ∀ i, 1 ≤ i → i < L.NPROC → (s.processes i).p_state ≠ procstate.P_FREE) :
    fork L s = some (s, -1) := by
  have hnone : fork_find_slot s.processes (L.NPROC - 1) 1 = none := by
    rw [fork_find_slot_none]
    intro j h1 h2
    exact h j h1 (by omega)
  unfold fork
  rw [hnone]

/-- C9: `fork` chooses as the child the lowest-numbered slot in
`1..NPROC-1` whose state is Free before the call: the new id is positive and
differs from the id of every process that was not Free before the call; if no
slot in `1..NPROC-1` is Free, `fork` returns -1 and changes nothing. -/
theorem fork_slot_choice (L : Layout) (s : KState)
    (hpid : ∀ j, j < L.NPROC → (s.processes j).p_pid = j) :
    ((∀ i, 1 ≤ i → i < L.NPROC → (s.processes i).p_state ≠ procstate.P_FREE) →
        fork L s = some (s, -1))
    ∧ ∀ p : KState × Int, fork L s = some p → p.2 ≠ -1 →
        ∃ slot : Nat,
          p.2 = (slot : Int) ∧ 1 ≤ slot ∧ slot < L.NPROC
          ∧ (s.processes slot).p_state = procstate.P_FREE
          ∧ (∀ j, 1 ≤ j → j < slot → (s.processes j).p_state ≠ procstate.P_FREE)
          ∧ (∀ j, j < L.NPROC → (s.processes j).p_state ≠ procstate.P_FREE →
              ((s.processes j).p_pid : Int) ≠ p.2)
          ∧ (p.1.processes slot).p_pid = slot
          ∧ (p.1.processes slot).p_state = procstate.P_RUNNABLE := by
  refine ⟨fork_no_slot, ?_⟩
  rintro ⟨s1, r⟩ h hr
  obtain ⟨slot, cp, s2, s4, hslot, hcp, _, hloop, hs1, hrr⟩ := fork_success_shape h hr
  obtain ⟨p4, c4, _⟩ := fork_loop_next_frame _ _ _ _ hloop
  obtain ⟨p2, c2, _⟩ := copy_pagetable_frame hcp
  obtain ⟨h1, h2, hfree, hlow⟩ := fork_find_slot_some _ _ _ _ hslot
  have hp4 : s4.processes slot =
      { p_pid := slot, p_registers := (s.processes slot).p_registers,
        p_state := procstate.P_RUNNABLE, p_pagetable := cp } := by
    rw [p4]; simp only [set_pagetable_of, set_proc]; rw [p2]
    simp [fork_claim_slot, set_proc]
  have hfin : ((fork_finish s4 slot).processes slot).p_pid = slot
      ∧ ((fork_finish s4 slot).processes slot).p_state = procstate.P_RUNNABLE := by
    by_cases e : s4.current = slot
    · simp [fork_finish, set_eax, set_registers, set_proc, Function.update, e, hp4]
    · have e' : slot ≠ s4.current := fun x => e x.symm
      simp [fork_finish, set_eax, set_registers, set_proc, Function.update, e, e', hp4]
  have hrs : r = (slot : Int) := by rw [hrr, hfin.1]
  refine ⟨slot, hrs, h1, by omega, hfree, hlow, ?_, ?_, ?_⟩
  · intro j hj hst
    show ((s.processes j).p_pid : Int) ≠ r
    rw [hpid j hj, hrs]
    intro e
    have : j = slot := by exact_mod_cast e
    rw [this] at hst
    exact hst hfree
  · show ((s1.processes slot).p_pid) = slot
    rw [hs1]; exact hfin.1
  · show ((s1.processes slot).p_state) = _
    rw [hs1]; exact hfin.2

/-- Witness of `fork_slot_choice`: in `sampleState` the new process is slot 2. -/
theorem fork_slot_choice_witness :
    ∃ slot : Nat,
      sampleForked.2 = (slot : Int) ∧ 1 ≤ slot ∧ slot < smallLayout.NPROC
      ∧ (sampleState.processes slot).p_state = procstate.P_FREE
      ∧ (∀ j, 1 ≤ j → j < slot → (sampleState.processes j).p_state ≠ procstate.P_FREE)
      ∧ (∀ j, j < smallLayout.NPROC → (sampleState.processes j).p_state ≠ procstate.P_FREE →
          ((sampleState.processes j).p_pid : Int) ≠ sampleForked.2)
      ∧ (sampleForked.1.processes slot).p_pid = slot
      ∧ (sampleForked.1.processes slot).p_state = procstate.P_RUNNABLE :=
  (fork_slot_choice smallLayout sampleState sampleState_pids).2 sampleForked sampleForked_eq
    sampleForked_ret

/-! ### Page-table entries -/

theorem pte_or_eq_add {pa perm : Nat} (ha : pa % PAGESIZE = 0) (hp : perm < 4096) :
    pa ||| perm = pa + perm := by
  unfold PAGESIZE at ha
  obtain ⟨a, rfl⟩ : ∃ a, pa = 2 ^ 12 * a := ⟨pa / 4096, by omega⟩
  exact (Nat.mul_add_lt_is_or (by simpa using hp) a).symm

theorem PAGENUMBER_pte {pa perm : Nat} (ha : pa % PAGESIZE = 0) (hp : perm < 4096) :
    PAGENUMBER (pa ||| perm) = PAGENUMBER pa := by
  rw [pte_or_eq_add ha hp, PAGENUMBER_eq_div, PAGENUMBER_eq_div]
  unfold PAGESIZE at *
  omega

theorem PTE_ADDR_eq (e : Nat) : PTE_ADDR e = e - e % PAGESIZE := by
  simp only [PTE_ADDR, PAGESHIFT, PAGESIZE, Nat.shiftLeft_eq, Nat.shiftRight_eq_div_pow]
  omega

theorem PTE_ADDR_pte {pa perm : Nat} (ha : pa % PAGESIZE = 0) (hp : perm < 4096) :
    PTE_ADDR (pa ||| perm) = pa := by
  rw [pte_or_eq_add ha hp, PTE_ADDR_eq]
  unfold PAGESIZE at *
  omega

theorem PTE_FLAGS_pte {pa perm : Nat} (ha : pa % PAGESIZE = 0) (hp : perm < 4096) :
    PTE_FLAGS (pa ||| perm) = perm := by
  rw [pte_or_eq_add ha hp]
  unfold PTE_FLAGS
  rw [and_fff_eq_mod]
  unfold PAGESIZE at *
  omega

theorem and_PTE_P (x : Nat) : x &&& PTE_P = x % 2 := by
  have h : PTE_P = 2 ^ 1 - 1 := by decide
  rw [h, Nat.and_pow_two_sub_one_eq_mod]

theorem pte_present {pa perm : Nat} (ha : pa % PAGESIZE = 0) (hp : perm < 4096) :
    (pa ||| perm) &&& PTE_P = perm &&& PTE_P := by
  rw [and_PTE_P, and_PTE_P, pte_or_eq_add ha hp]
  unfold PAGESIZE at *
  omega

theorem PTE_FLAGS_present (e : Nat) : PTE_FLAGS e &&& PTE_P = e &&& PTE_P := by
  rw [and_PTE_P, and_PTE_P]
  unfold PTE_FLAGS
  rw [and_fff_eq_mod]
  unfold PAGESIZE
  omega

/-! ### Lookups and single-page maps -/

theorem virtual_memory_lookup_congr {mem mem1 : Memory} {pt va : Nat}
    (h1 : mem1 (PAGENUMBER pt) = mem (PAGENUMBER pt))
    (h2 : mem1 (PAGENUMBER (mem (PAGENUMBER pt) (L1PAGEINDEX va)))
        = mem (PAGENUMBER (mem (PAGENUMBER pt) (L1PAGEINDEX va)))) :
    virtual_memory_lookup mem1 pt va = virtual_memory_lookup mem pt va := by
  unfold virtual_memory_lookup
  simp only [h1, h2]

theorem virtual_memory_map_loop_one {pt perm va pa : Nat} {mem : Memory} :
    virtual_memory_map_loop pt perm 1 mem va pa = virtual_memory_map_page mem pt va pa perm := by
  unfold virtual_memory_map_loop
  cases virtual_memory_map_page mem pt va pa perm with
  | none => rfl
  | some m => simp [virtual_memory_map_loop]

theorem virtual_memory_map_single {L : Layout} {mem m1 : Memory} {pt va pa perm : Nat}
    (h : virtual_memory_map L mem pt va pa PAGESIZE perm = some m1) :
    mem (PAGENUMBER pt) (L1PAGEINDEX va) &&& PTE_P ≠ 0
    ∧ va % PAGESIZE = 0 ∧ pa % PAGESIZE = 0 ∧ pa + PAGESIZE ≤ L.MEMSIZE_PHYSICAL
    ∧ perm < 4096
    ∧ m1 = Function.update mem (PAGENUMBER (mem (PAGENUMBER pt) (L1PAGEINDEX va)))
        (Function.update (mem (PAGENUMBER (mem (PAGENUMBER pt) (L1PAGEINDEX va))))
          (L2PAGEINDEX va) (if perm &&& PTE_P ≠ 0 then pa ||| perm else perm)) := by
  unfold virtual_memory_map at h
  split at h
  · rename_i hc
    have e : PAGESIZE / PAGESIZE = 1 := by decide
    rw [e, virtual_memory_map_loop_one] at h
    unfold virtual_memory_map_page at h
    dsimp only at h
    split at h
    · cases h
    · rename_i hp
      cases h
      exact ⟨hp, hc.1, hc.2.2.2.1, hc.2.2.2.2.1, hc.2.2.2.2.2.1, rfl⟩
  · cases h

theorem find_free_scan_cases (pageinfo : PageInfo) (fuel i : Nat) :
    find_free_scan pageinfo fuel i = UINTPTR_MINUS_ONE
    ∨ ∃ k, i ≤ k ∧ k < i + fuel ∧ (pageinfo k).owner = PO_FREE
        ∧ (∀ j, i ≤ j → j < k → (pageinfo j).owner ≠ PO_FREE)
        ∧ find_free_scan pageinfo fuel i = PAGEADDRESS k := by
  induction fuel generalizing i with
  | zero => left; rfl
  | succ n ih =>
    unfold find_free_scan
    by_cases h : (pageinfo i).owner = PO_FREE
    · right
      exact ⟨i, le_refl _, by omega, h, fun j h1 h2 => by omega, by rw [if_pos h]⟩
    · rw [if_neg h]
      rcases ih (i + 1) with e | ⟨k, h1, h2, h3, h4, h5⟩
      · left; exact e
      · right
        refine ⟨k, by omega, by omega, h3, fun j hj1 hj2 => ?_, h5⟩
        rcases Nat.eq_or_lt_of_le hj1 with e | l
        · subst e; exact h
        · exact h4 j l hj2

theorem PAGENUMBER_PAGEADDRESS {k : Nat} (h : k < 2 ^ 20) : PAGENUMBER (PAGEADDRESS k) = k := by
  rw [PAGEADDRESS_eq_mul k h, PAGENUMBER_eq_div]
  unfold PAGESIZE
  omega

theorem PAGEADDRESS_aligned (k : Nat) : PAGEADDRESS k % PAGESIZE = 0 := by
  simp only [PAGEADDRESS, PAGESHIFT, PAGESIZE, WORD, Nat.shiftLeft_eq]
  omega

/-- What a successful `physical_page_alloc` tells about its address. -/
theorem physical_page_alloc_ok {L : Layout} {pageinfo : PageInfo} {addr : Nat} {owner : Int}
    (h : (physical_page_alloc L pageinfo addr owner).2 ≠ -1) :
    addr % PAGESIZE = 0 ∧ addr < L.MEMSIZE_PHYSICAL
    ∧ (pageinfo (PAGENUMBER addr)).refcount = 0
    ∧ (physical_page_alloc L pageinfo addr owner).1
        = Function.update pageinfo (PAGENUMBER addr) { owner := owner, refcount := 1 } := by
  unfold physical_page_alloc at h ⊢
  rw [and_fff_eq_mod] at h ⊢
  by_cases hc : addr % PAGESIZE ≠ 0 ∨ addr ≥ L.MEMSIZE_PHYSICAL
      ∨ (pageinfo (PAGENUMBER addr)).refcount ≠ 0
  · rw [if_pos hc] at h; exact absurd rfl h
  · rw [if_neg hc]
    simp only [not_or, not_not, ge_iff_le, not_le] at hc
    exact ⟨hc.1, hc.2.1, hc.2.2, rfl⟩

theorem physical_page_alloc_fail {L : Layout} {pageinfo : PageInfo} {addr : Nat} {owner : Int}
    (h : (physical_page_alloc L pageinfo addr owner).2 = -1) :
    (physical_page_alloc L pageinfo addr owner).1 = pageinfo := by
  unfold physical_page_alloc at h ⊢
  split
  · rfl
  · rename_i hc
    rw [if_neg hc] at h
    exact absurd h (show ((0 : Int) = -1) → False by decide)

/-- A successful allocation at the address `find_free_scan` returned: the
frame lies inside the scanned range and was free. -/
theorem alloc_of_scan {L : Layout} {pageinfo : PageInfo} {n : Nat} {owner : Int}
    (hn : n ≤ 2 ^ 20)
    (h : (physical_page_alloc L pageinfo (find_free_scan pageinfo n 0) owner).2 ≠ -1) :
    ∃ k, k < n ∧ find_free_scan pageinfo n 0 = PAGEADDRESS k
      ∧ PAGENUMBER (find_free_scan pageinfo n 0) = k
      ∧ (pageinfo k).owner = PO_FREE ∧ (pageinfo k).refcount = 0
      ∧ (∀ j, j < k → (pageinfo j).owner ≠ PO_FREE) := by
  obtain ⟨ha, _, hr, _⟩ := physical_page_alloc_ok h
  rcases find_free_scan_cases pageinfo n 0 with e | ⟨k, _, h2, h3, h4, h5⟩
  · rw [e] at ha; exact absurd ha (by decide)
  · have hk : k < 2 ^ 20 := by omega
    have hpn : PAGENUMBER (find_free_scan pageinfo n 0) = k := by
      rw [h5, PAGENUMBER_PAGEADDRESS hk]
    rw [hpn] at hr
    exact ⟨k, by omega, h5, hpn, h3, hr, fun j hj => h4 j (Nat.zero_le j) hj⟩

theorem smallLayout_WF : smallLayout.WF :=
  ⟨by decide, by decide, by decide, by decide, by decide, by decide, by decide, by decide⟩

/-! ### Which frames the memory operations write -/

theorem write_word_other (mem : Memory) (addr w f : Nat) (h : f ≠ PAGENUMBER addr) :
    write_word mem addr w f = mem f := by
  simp [write_word, Function.update, h]

theorem PAGENUMBER_add_lt {a b : Nat} (ha : a % PAGESIZE = 0) (hb : b < PAGESIZE) :
    PAGENUMBER (a + b) = PAGENUMBER a := by
  rw [PAGENUMBER_eq_div, PAGENUMBER_eq_div]
  unfold PAGESIZE at *
  omega

theorem memcpy_words_loop_other (dst src : Nat) (hd : dst % PAGESIZE = 0) (fuel : Nat) :
    ∀ (k : Nat) (mem : Memory), k + fuel ≤ 1024 →
      ∀ f, f ≠ PAGENUMBER dst → memcpy_words_loop dst src fuel k mem f = mem f := by
  induction fuel with
  | zero => intro k mem _ f _; rfl
  | succ n ih =>
    intro k mem hk f hf
    unfold memcpy_words_loop
    rw [ih (k + 1) _ (by omega) f hf]
    apply write_word_other
    rw [PAGENUMBER_add_lt hd (by unfold PAGESIZE; omega)]
    exact hf

theorem L1PAGEINDEX_low {va : Nat} (h : va < 0x400000) : L1PAGEINDEX va = 0 := by
  simp only [L1PAGEINDEX, PAGETABLE_NENTRIES, Nat.shiftRight_eq_div_pow]
  omega

theorem virtual_memory_map_loop_other {pt perm : Nat} (n : Nat) :
    ∀ (mem m1 : Memory) (va pa : Nat),
      (∀ k, k < n → L1PAGEINDEX (va + k * PAGESIZE) = 0) →
      PAGENUMBER (mem (PAGENUMBER pt) 0) ≠ PAGENUMBER pt →
      virtual_memory_map_loop pt perm n mem va pa = some m1 →
      ∀ f, f ≠ PAGENUMBER (mem (PAGENUMBER pt) 0) → m1 f = mem f := by
  induction n with
  | zero =>
    intro mem m1 va pa _ _ h f _
    simp [virtual_memory_map_loop] at h
    rw [h]
  | succ n ih =>
    intro mem m1 va pa hidx hne h f hf
    unfold virtual_memory_map_loop at h
    have h0 : L1PAGEINDEX va = 0 := by simpa using hidx 0 (by omega)
    unfold virtual_memory_map_page at h
    dsimp only at h
    rw [h0] at h
    split at h
    · cases h
    · rename_i mem1 hm
      split at hm
      · cases hm
      · cases hm
        have hpt : Function.update mem (PAGENUMBER (mem (PAGENUMBER pt) 0))
            (Function.update (mem (PAGENUMBER (mem (PAGENUMBER pt) 0))) (L2PAGEINDEX va)
              (if perm &&& PTE_P ≠ 0 then pa ||| perm else perm)) (PAGENUMBER pt)
            = mem (PAGENUMBER pt) := by
          simp [Function.update, hne.symm]
        have := ih _ m1 (va + PAGESIZE) (pa + PAGESIZE)
          (fun k hk => by
            have := hidx (k + 1) (by omega)
            rw [show va + PAGESIZE + k * PAGESIZE = va + (k + 1) * PAGESIZE by ring]
            exact this)
          (by rw [hpt]; exact hne) h f (by rw [hpt]; exact hf)
        rw [this]
        simp [Function.update, hf]

theorem virtual_memory_map_some {L : Layout} {mem m1 : Memory} {pt va pa sz perm : Nat}
    (h : virtual_memory_map L mem pt va pa sz perm = some m1) :
    va % PAGESIZE = 0 ∧ pa % PAGESIZE = 0 ∧ pa + sz ≤ L.MEMSIZE_PHYSICAL ∧ perm < 4096
    ∧ virtual_memory_map_loop pt perm (sz / PAGESIZE) mem va pa = some m1 := by
  unfold virtual_memory_map at h
  split at h
  · rename_i hc
    exact ⟨hc.1, hc.2.2.2.1, hc.2.2.2.2.1, hc.2.2.2.2.2.1, h⟩
  · cases h

theorem or_flags7 (a : Nat) : a ||| PTE_P ||| PTE_W ||| PTE_U = a ||| 7 := by
  rw [Nat.lor_assoc, Nat.lor_assoc]
  rfl

theorem write_word_same (mem : Memory) (addr w : Nat) :
    write_word mem addr w (PAGENUMBER addr)
      = Function.update (mem (PAGENUMBER addr)) (PAGEOFFSET addr / 4) w := by
  unfold write_word
  rw [Function.update_same]

theorem memset_page_same (mem : Memory) (addr : Nat) :
    memset_page mem addr (PAGENUMBER addr) = fun _ => 0 := by
  unfold memset_page
  rw [Function.update_same]

theorem memset_page_other (mem : Memory) (addr f : Nat) (h : f ≠ PAGENUMBER addr) :
    memset_page mem addr f = mem f := by
  unfold memset_page
  rw [Function.update_noteq h]

/-- The effect of a successful `copy_pagetable`: two distinct frames below
`PROC_START_ADDR` that were unused are allocated to `owner`; only these two
frames of memory are written, and the outer table holds exactly one entry,
which points to the inner table. -/
theorem PTE_FLAGS_and {x k : Nat} (hk : 0xFFF &&& k = k) : PTE_FLAGS x &&& k = x &&& k := by
  unfold PTE_FLAGS
  rw [Nat.and_assoc, hk]

theorem UserWritable_flags (x : Nat) : UserWritable (PTE_FLAGS x) ↔ UserWritable x := by
  unfold UserWritable
  rw [PTE_FLAGS_and (show 0xFFF &&& PTE_P = PTE_P by decide),
    PTE_FLAGS_and (show 0xFFF &&& PTE_W = PTE_W by decide),
    PTE_FLAGS_and (show 0xFFF &&& PTE_U = PTE_U by decide)]

theorem UserWritable_pte {pa perm : Nat} (ha : pa % PAGESIZE = 0) (hp : perm < 4096) :
    UserWritable (pa ||| perm) ↔ UserWritable perm := by
  rw [← UserWritable_flags, PTE_FLAGS_pte ha hp]

theorem not_UserWritable_zero : ¬ UserWritable 0 := by
  intro h
  exact h.1 (by decide)

/-- The words of the destination page above those that `memcpy` writes keep
their contents. -/
theorem memcpy_words_loop_above (dst src : Nat) (hd : dst % PAGESIZE = 0) (fuel : Nat) :
    ∀ (k : Nat) (mem : Memory), k + fuel ≤ 1024 →
      ∀ j, k + fuel ≤ j →
        memcpy_words_loop dst src fuel k mem (PAGENUMBER dst) j = mem (PAGENUMBER dst) j := by
  induction fuel with
  | zero => intro k mem _ j _; rfl
  | succ n ih =>
    intro k mem hk j hj
    unfold memcpy_words_loop
    rw [ih (k + 1) _ (by omega) j (by omega)]
    have hpn : PAGENUMBER (dst + 4 * k) = PAGENUMBER dst :=
      PAGENUMBER_add_lt hd (by unfold PAGESIZE; omega)
    have hidx : PAGEOFFSET (dst + 4 * k) / 4 = k := by
      unfold PAGEOFFSET PAGESIZE at *
      omega
    unfold write_word
    rw [hpn, Function.update_same, hidx, Function.update_noteq (by omega)]

/-- The entries of the inner table after `virtual_memory_map` has gone over
`n` pages: an entry is untouched, and then its index is none of those of the
pages, or it holds the translation of one of the pages. -/
theorem virtual_memory_map_loop_entries {pt perm : Nat} (n : Nat) :
    ∀ (mem m1 : Memory) (va pa : Nat),
      (∀ k, k < n → L1PAGEINDEX (va + k * PAGESIZE) = 0) →
      PAGENUMBER (mem (PAGENUMBER pt) 0) ≠ PAGENUMBER pt →
      virtual_memory_map_loop pt perm n mem va pa = some m1 →
      ∀ j, (m1 (PAGENUMBER (mem (PAGENUMBER pt) 0)) j
              = mem (PAGENUMBER (mem (PAGENUMBER pt) 0)) j
            ∧ ∀ k, k < n → j ≠ L2PAGEINDEX (va + k * PAGESIZE))
        ∨ ∃ k, k < n ∧ m1 (PAGENUMBER (mem (PAGENUMBER pt) 0)) j
            = (if perm &&& PTE_P ≠ 0 then (pa + k * PAGESIZE) ||| perm else perm) := by
  induction n with
  | zero =>
    intro mem m1 va pa _ _ h j
    simp [virtual_memory_map_loop] at h
    rw [h]
    exact Or.inl ⟨rfl, fun k hk => by omega⟩
  | succ n ih =>
    intro mem m1 va pa hidx hne h j
    unfold virtual_memory_map_loop at h
    have h0 : L1PAGEINDEX va = 0 := by simpa using hidx 0 (by omega)
    unfold virtual_memory_map_page at h
    dsimp only at h
    rw [h0] at h
    split at h
    · cases h
    · rename_i mem1 hm
      split at hm
      · cases hm
      · cases hm
        generalize hF : PAGENUMBER (mem (PAGENUMBER pt) 0) = F at *
        have hpt : Function.update mem F
            (Function.update (mem F) (L2PAGEINDEX va)
              (if perm &&& PTE_P ≠ 0 then pa ||| perm else perm)) (PAGENUMBER pt)
            = mem (PAGENUMBER pt) := Function.update_noteq (Ne.symm hne) _ _
        have := ih _ m1 (va + PAGESIZE) (pa + PAGESIZE)
          (fun k hk => by
            have := hidx (k + 1) (by omega)
            rw [show va + PAGESIZE + k * PAGESIZE = va + (k + 1) * PAGESIZE by ring]
            exact this)
          (by rw [hpt, hF]; exact hne) h j
        rw [hpt, hF] at this
        rcases this with ⟨e, hnc⟩ | ⟨k, hk, e⟩
        · rw [Function.update_same] at e
          by_cases hj : j = L2PAGEINDEX va
          · right
            refine ⟨0, by omega, ?_⟩
            rw [e, hj, Function.update_same]
            simp
          · left
            refine ⟨by rw [e, Function.update_noteq hj], fun k hk => ?_⟩
            rcases Nat.eq_zero_or_pos k with e0 | hpos
            · subst e0; simpa using hj
            · have := hnc (k - 1) (by omega)
              rw [show va + PAGESIZE + (k - 1) * PAGESIZE = va + k * PAGESIZE by
                have : k = (k - 1) + 1 := by omega
                rw [this]; simp; ring] at this
              exact this
        · right
          refine ⟨k + 1, by omega, ?_⟩
          rw [e]
          rw [show pa + PAGESIZE + k * PAGESIZE = pa + (k + 1) * PAGESIZE by ring]

theorem copy_pagetable_success {L : Layout} (hL : L.WF) {s s2 : KState} {pt o cp : Nat}
    (h : copy_pagetable L s pt o = some (s2, cp)) (hne : cp ≠ UINTPTR_MINUS_ONE) :
    ∃ l1 l2 : Nat,
      cp = PAGEADDRESS l1 ∧ PAGENUMBER cp = l1
      ∧ l1 < L.PROC_START_ADDR / PAGESIZE ∧ l2 < L.PROC_START_ADDR / PAGESIZE ∧ l1 ≠ l2
      ∧ (s.pageinfo l1).refcount = 0 ∧ (s.pageinfo l2).refcount = 0
      ∧ (s.pageinfo l1).owner = PO_FREE ∧ (s.pageinfo l2).owner = PO_FREE
      ∧ s2.pageinfo = Function.update
          (Function.update s.pageinfo l1 { owner := toInt8 o, refcount := 1 }) l2
          { owner := toInt8 o, refcount := 1 }
      ∧ (∀ f, f ≠ l1 → f ≠ l2 → s2.mem f = s.mem f)
      ∧ s2.mem l1 = Function.update (fun _ => 0) 0 (PAGEADDRESS l2 ||| 7)
      ∧ ∀ j, UserWritable (s2.mem l2 j) → PAGENUMBER (s2.mem l2 j) = PAGENUMBER L.console := by
  have hv := hL.virt_le
  have hs := hL.start_le
  have hc := hL.console_lt
  have hn20 : L.PROC_START_ADDR / PAGESIZE ≤ 2 ^ 20 := by unfold PAGESIZE; omega
  unfold copy_pagetable at h
  dsimp only at h
  unfold find_free_page_table at h
  generalize hA1 : find_free_scan s.pageinfo (L.PROC_START_ADDR / PAGESIZE) 0 = A1 at h
  generalize hR1 : physical_page_alloc L s.pageinfo A1 (toInt8 o) = R1 at h
  generalize hA2 : find_free_scan R1.1 (L.PROC_START_ADDR / PAGESIZE) 0 = A2 at h
  generalize hR2 : physical_page_alloc L R1.1 A2 (toInt8 o) = R2 at h
  split at h
  · cases h; exact absurd rfl hne
  · rename_i hr1
    split at h
    · cases h; exact absurd rfl hne
    · rename_i hr2
      rw [← hR1, ← hA1] at hr1
      obtain ⟨l1, hl1, ha1, hpn1, ho1, hrc1, _⟩ := alloc_of_scan hn20 hr1
      have hpi1 := (physical_page_alloc_ok hr1).2.2.2
      rw [hA1, hR1, ← hA1, hpn1] at hpi1
      rw [hA1] at ha1 hpn1
      rw [← hR2, ← hA2] at hr2
      obtain ⟨l2, hl2, ha2, hpn2, ho2, hrc2, _⟩ := alloc_of_scan hn20 hr2
      have hpi2 := (physical_page_alloc_ok hr2).2.2.2
      rw [hA2, hR2, ← hA2, hpn2] at hpi2
      rw [hA2] at ha2 hpn2
      rw [hpi1] at ho2 hrc2 hpi2
      have hne12 : l1 ≠ l2 := by
        intro e
        rw [← e] at hrc2
        simp [Function.update] at hrc2
      have hne21 : l2 ≠ l1 := fun e => hne12 e.symm
      have hrc2' : (s.pageinfo l2).refcount = 0 := by
        simpa [Function.update, hne21] using hrc2
      have ho2' : (s.pageinfo l2).owner = PO_FREE := by
        simpa [Function.update, hne21] using ho2
      rw [hpi2] at h
      have hl1lt : l1 < 2 ^ 20 := by omega
      have hl2lt : l2 < 2 ^ 20 := by omega
      have hal1 : A1 % PAGESIZE = 0 := by rw [ha1]; exact PAGEADDRESS_aligned l1
      have hal2 : A2 % PAGESIZE = 0 := by rw [ha2]; exact PAGEADDRESS_aligned l2
      -- the memory before the two calls of virtual_memory_map
      generalize hm3 : write_word (memset_page (memset_page s.mem A1) A2) A1
          (A2 ||| PTE_P ||| PTE_W ||| PTE_U) = m3 at h
      have hm3l1 : m3 l1 = Function.update (fun _ => 0) 0 (A2 ||| 7) := by
        have e0 : PAGEOFFSET A1 / 4 = 0 := by unfold PAGEOFFSET; rw [hal1]
        rw [← hm3, or_flags7, ← hpn1, write_word_same, e0,
          memset_page_other _ _ _ (by rw [hpn1, hpn2]; exact hne12), memset_page_same]
      have hm3o : ∀ f, f ≠ l1 → f ≠ l2 → m3 f = s.mem f := by
        intro f h1 h2
        rw [← hm3, write_word_other _ _ _ _ (by rw [hpn1]; exact h1),
          memset_page_other _ _ _ (by rw [hpn2]; exact h2),
          memset_page_other _ _ _ (by rw [hpn1]; exact h1)]
      generalize hm4 : memcpy_words m3 A2 (PTE_ADDR (read_word m3 pt)) (offset L / 4) = m4 at h
      have hoff : offset L / 4 ≤ 1024 := by
        unfold offset; rw [PAGENUMBER_eq_div]; unfold PAGESIZE; omega
      have hm4o : ∀ f, f ≠ l2 → m4 f = m3 f := by
        intro f hf
        rw [← hm4]; unfold memcpy_words
        exact memcpy_words_loop_other A2 _ hal2 _ 0 m3 (by omega) f (by rw [hpn2]; exact hf)
      have hpde : ∀ m : Memory, m l1 = m3 l1 →
          PAGENUMBER (m (PAGENUMBER A1) 0) = l2 := by
        intro m hm
        rw [hpn1, hm, hm3l1, Function.update_same, PAGENUMBER_pte hal2 (by decide), hpn2]
      split at h
      · cases h
      · rename_i m5 hmap5
        split at h
        · cases h
        · rename_i m6 hmap6
          cases h
          obtain ⟨_, _, _, _, hloop5⟩ := virtual_memory_map_some hmap5
          obtain ⟨_, _, _, _, hloop6⟩ := virtual_memory_map_some hmap6
          have h5 : ∀ f, f ≠ l2 → m5 f = m4 f := by
            intro f hf
            have := virtual_memory_map_loop_other _ m4 m5 0 0
              (fun k hk => L1PAGEINDEX_low (by
                have : k < L.PROC_START_ADDR / PAGESIZE := hk
                unfold PAGESIZE at this ⊢; omega))
              (by rw [hpde m4 (hm4o l1 hne12)]; rw [hpn1]; exact hne21) hloop5 f
              (by rw [hpde m4 (hm4o l1 hne12)]; exact hf)
            exact this
          have h5l1 : m5 l1 = m3 l1 := by rw [h5 l1 hne12, hm4o l1 hne12]
          have h6 : ∀ f, f ≠ l2 → m6 f = m5 f := by
            intro f hf
            have := virtual_memory_map_loop_other _ m5 m6 L.console L.console
              (fun k hk => L1PAGEINDEX_low (by
                have : k < PAGESIZE / PAGESIZE := hk
                have e : PAGESIZE / PAGESIZE = 1 := by decide
                rw [e] at this
                have : k = 0 := by omega
                subst this
                omega))
              (by rw [hpde m5 h5l1]; rw [hpn1]; exact hne21) hloop6 f
              (by rw [hpde m5 h5l1]; exact hf)
            exact this
          have hm3l2 : m3 l2 = fun _ => 0 := by
            rw [← hm3, write_word_other _ _ _ _ (by rw [hpn1]; exact hne21), ← hpn2,
              memset_page_same]
          have hn : offset L / 4 = L.PROC_START_ADDR / PAGESIZE := by
            unfold offset; rw [PAGENUMBER_eq_div]; omega
          have hm4l2 : ∀ j, L.PROC_START_ADDR / PAGESIZE ≤ j → m4 l2 j = 0 := by
            intro j hj
            rw [← hm4]; unfold memcpy_words
            have := memcpy_words_loop_above A2 (PTE_ADDR (read_word m3 pt)) hal2 (offset L / 4)
              0 m3 (by omega) j (by omega)
            rw [hpn2] at this
            rw [this, hm3l2]
          have hidx5 : ∀ k, k < L.PROC_START_ADDR / PAGESIZE →
              L1PAGEINDEX (0 + k * PAGESIZE) = 0 := fun k hk => L1PAGEINDEX_low (by
            unfold PAGESIZE at hk ⊢; omega)
          have h5uw : ∀ j, ¬ UserWritable (m5 l2 j) := by
            intro j
            have := virtual_memory_map_loop_entries _ m4 m5 0 0 hidx5
              (by rw [hpde m4 (hm4o l1 hne12)]; rw [hpn1]; exact hne21) hloop5 j
            rw [hpde m4 (hm4o l1 hne12)] at this
            rcases this with ⟨e, hnc⟩ | ⟨k, _, e⟩
            · have hj : L.PROC_START_ADDR / PAGESIZE ≤ j := by
                by_contra hlt
                have hlt' : j < L.PROC_START_ADDR / PAGESIZE := by omega
                refine hnc j hlt' ?_
                unfold L2PAGEINDEX PAGETABLE_NENTRIES PAGESHIFT
                rw [Nat.shiftRight_eq_div_pow]
                unfold PAGESIZE at hlt' ⊢
                omega
              rw [e, hm4l2 j hj]
              exact not_UserWritable_zero
            · rw [e, if_pos (by decide),
                UserWritable_pte (by unfold PAGESIZE; omega) (by decide)]
              intro hw
              exact hw.2.2 (by decide)
          have hidx6 : ∀ k, k < PAGESIZE / PAGESIZE →
              L1PAGEINDEX (L.console + k * PAGESIZE) = 0 := fun k hk => L1PAGEINDEX_low (by
            have e : PAGESIZE / PAGESIZE = 1 := by decide
            rw [e] at hk
            have : k = 0 := by omega
            subst this
            omega)
          have h6uw : ∀ j, UserWritable (m6 l2 j) →
              PAGENUMBER (m6 l2 j) = PAGENUMBER L.console := by
            intro j hw
            have hcal := (virtual_memory_map_some hmap6).1
            have := virtual_memory_map_loop_entries _ m5 m6 L.console L.console hidx6
              (by rw [hpde m5 h5l1]; rw [hpn1]; exact hne21) hloop6 j
            rw [hpde m5 h5l1] at this
            rcases this with ⟨e, _⟩ | ⟨k, hk, e⟩
            · rw [e] at hw
              exact absurd hw (h5uw j)
            · have e1 : PAGESIZE / PAGESIZE = 1 := by decide
              rw [e1] at hk
              have : k = 0 := by omega
              subst this
              rw [e, if_pos (by decide), Nat.zero_mul, Nat.add_zero,
                PAGENUMBER_pte hcal (by decide)]
          refine ⟨l1, l2, ha1, hpn1, hl1, hl2, hne12, hrc1, hrc2', ho1, ho2', rfl, ?_, ?_,
            h6uw⟩
          · intro f hf1 hf2
            show m6 f = s.mem f
            rw [h6 f hf2, h5 f hf2, hm4o f hf2, hm3o f hf1 hf2]
          · show m6 l1 = _
            rw [h6 l1 hne12, h5l1, hm3l1, ha2]

/-- The three ways in which an iteration of the copy loop of `fork` goes on:
nothing to do, a writable page copied into a new frame, a read-only page
shared. -/
theorem fork_page_next_cases {L : Layout} {sk s1 : KState} {slot cp i : Nat}
    (h : fork_page L sk slot cp i = some (ForkStep.next s1)) :
    (s1 = sk
      ∧ ((virtual_memory_lookup sk.mem (sk.processes sk.current).p_pagetable
            (PAGEADDRESS i)).perm = 0
        ∨ ((virtual_memory_lookup sk.mem (sk.processes sk.current).p_pagetable
            (PAGEADDRESS i)).perm &&& PTE_W = 0
          ∧ ¬ ((sk.pageinfo (virtual_memory_lookup sk.mem
                  (sk.processes sk.current).p_pagetable (PAGEADDRESS i)).pn.toNat).refcount > 0
              ∧ (sk.pageinfo (virtual_memory_lookup sk.mem
                  (sk.processes sk.current).p_pagetable (PAGEADDRESS i)).pn.toNat).owner > 0))))
    ∨ ((virtual_memory_lookup sk.mem (sk.processes sk.current).p_pagetable
            (PAGEADDRESS i)).perm ≠ 0
        ∧ (virtual_memory_lookup sk.mem (sk.processes sk.current).p_pagetable
            (PAGEADDRESS i)).perm &&& PTE_W ≠ 0
        ∧ (physical_page_alloc L sk.pageinfo (find_free_page L sk.pageinfo)
            (toInt8 (sk.processes slot).p_pid)).2 ≠ -1
        ∧ ∃ m2, virtual_memory_map L
              (memcpy_page sk.mem (find_free_page L sk.pageinfo)
                (virtual_memory_lookup sk.mem (sk.processes sk.current).p_pagetable
                  (PAGEADDRESS i)).pa)
              (sk.processes (sk.processes slot).p_pid).p_pagetable (PAGEADDRESS i)
              (find_free_page L sk.pageinfo) PAGESIZE
              (virtual_memory_lookup sk.mem (sk.processes sk.current).p_pagetable
                (PAGEADDRESS i)).perm = some m2
          ∧ s1 = { sk with
              pageinfo := (physical_page_alloc L sk.pageinfo (find_free_page L sk.pageinfo)
                (toInt8 (sk.processes slot).p_pid)).1,
              mem := m2 })
    ∨ ((virtual_memory_lookup sk.mem (sk.processes sk.current).p_pagetable
            (PAGEADDRESS i)).perm ≠ 0
        ∧ (virtual_memory_lookup sk.mem (sk.processes sk.current).p_pagetable
            (PAGEADDRESS i)).perm &&& PTE_W = 0
        ∧ 0 ≤ (virtual_memory_lookup sk.mem (sk.processes sk.current).p_pagetable
            (PAGEADDRESS i)).pn
        ∧ (virtual_memory_lookup sk.mem (sk.processes sk.current).p_pagetable
            (PAGEADDRESS i)).pn < (NPAGES L : Int)
        ∧ (sk.pageinfo (virtual_memory_lookup sk.mem
              (sk.processes sk.current).p_pagetable (PAGEADDRESS i)).pn.toNat).refcount > 0
        ∧ (sk.pageinfo (virtual_memory_lookup sk.mem
              (sk.processes sk.current).p_pagetable (PAGEADDRESS i)).pn.toNat).owner > 0
        ∧ ∃ m1, virtual_memory_map L sk.mem cp (PAGEADDRESS i)
              (virtual_memory_lookup sk.mem (sk.processes sk.current).p_pagetable
                (PAGEADDRESS i)).pa PAGESIZE (PTE_P ||| PTE_U) = some m1
          ∧ s1 = { sk with
              pageinfo := Function.update sk.pageinfo
                (virtual_memory_lookup sk.mem (sk.processes sk.current).p_pagetable
                  (PAGEADDRESS i)).pn.toNat
                { owner := (sk.pageinfo (virtual_memory_lookup sk.mem
                    (sk.processes sk.current).p_pagetable (PAGEADDRESS i)).pn.toNat).owner,
                  refcount := toInt8 ((sk.pageinfo (virtual_memory_lookup sk.mem
                    (sk.processes sk.current).p_pagetable
                    (PAGEADDRESS i)).pn.toNat).refcount + 1) },
              mem := m1 }) := by
  unfold fork_page at h
  dsimp only at h
  generalize virtual_memory_lookup sk.mem (sk.processes sk.current).p_pagetable
    (PAGEADDRESS i) = vm at h ⊢
  split at h
  · rename_i hperm
    split at h
    · rename_i hw
      split at h
      · split at h <;> cases h
      · rename_i hr
        split at h
        · cases h
        · rename_i m2 hm2
          cases h
          right; left
          exact ⟨hperm, hw, hr, m2, hm2, rfl⟩
    · rename_i hw
      have hw0 : vm.perm &&& PTE_W = 0 := by
        by_contra hc; exact hw hc
      split at h
      · rename_i hb
        split at h
        · rename_i hg
          split at h
          · cases h
          · rename_i m1 hm1
            cases h
            right; right
            exact ⟨hperm, hw0, hb.1, hb.2, hg.1, hg.2, m1, hm1, rfl⟩
        · rename_i hg
          cases h
          left
          exact ⟨rfl, Or.inr ⟨hw0, hg⟩⟩
      · cases h
  · rename_i hperm
    cases h
    left
    exact ⟨rfl, Or.inl (by by_contra hc; exact hperm hc)⟩

theorem toInt8_le (x : Int) : toInt8 x ≤ 127 := by unfold toInt8; omega

theorem toInt8_succ_ne_zero {r : Int} (h0 : 0 < r) (h1 : r ≤ 127) : toInt8 (r + 1) ≠ 0 := by
  unfold toInt8; omega

theorem toInt8_of_range {x : Int} (h0 : -128 ≤ x) (h1 : x ≤ 127) : toInt8 x = x := by
  unfold toInt8; omega

theorem l1_entry_frame {l2 : Nat} (hl2 : l2 < 2 ^ 20) {va : Nat} (hva : va < 0x400000) :
    PAGENUMBER ((Function.update (fun _ => 0) 0 (PAGEADDRESS l2 ||| 7) : Nat → Nat)
      (L1PAGEINDEX va)) = l2 := by
  rw [L1PAGEINDEX_low hva, Function.update_same,
    PAGENUMBER_pte (PAGEADDRESS_aligned l2) (by decide), PAGENUMBER_PAGEADDRESS hl2]

/-- A single-page `virtual_memory_map` into the child's page table writes one
entry of the inner table `l2` and nothing else. -/
theorem map_child_page {L : Layout} {mem m1 : Memory} {l1 l2 va pa perm : Nat}
    (hl1 : l1 < 2 ^ 20) (hl2 : l2 < 2 ^ 20) (hva : va < 0x400000)
    (hmem : mem l1 = Function.update (fun _ => 0) 0 (PAGEADDRESS l2 ||| 7))
    (h : virtual_memory_map L mem (PAGEADDRESS l1) va pa PAGESIZE perm = some m1) :
    m1 = Function.update mem l2 (Function.update (mem l2) (L2PAGEINDEX va)
          (if perm &&& PTE_P ≠ 0 then pa ||| perm else perm))
    ∧ pa % PAGESIZE = 0 ∧ pa + PAGESIZE ≤ L.MEMSIZE_PHYSICAL ∧ perm < 4096 := by
  obtain ⟨_, _, h3, h4, h5, h6⟩ := virtual_memory_map_single h
  rw [PAGENUMBER_PAGEADDRESS hl1, hmem, l1_entry_frame hl2 hva] at h6
  exact ⟨h6, h3, h4, h5⟩

theorem PAGEADDRESS_lt_4M {i : Nat} (hi : i < 1024) : PAGEADDRESS i < 0x400000 := by
  rw [PAGEADDRESS_eq_mul i (by omega)]
  unfold PAGESIZE
  omega

theorem update_rc_ne_zero {pi : PageInfo} {F f : Nat} {v : physical_pageinfo}
    (hv : v.refcount ≠ 0) (h : (pi f).refcount ≠ 0) :
    (Function.update pi F v f).refcount ≠ 0 := by
  by_cases e : f = F
  · subst e; rw [Function.update_same]; exact hv
  · rw [Function.update_noteq e]; exact h

theorem update_rc_le {pi : PageInfo} {F : Nat} {v : physical_pageinfo}
    (hv : v.refcount ≤ 127) (h : ∀ f, (pi f).refcount ≤ 127) (f : Nat) :
    (Function.update pi F v f).refcount ≤ 127 := by
  by_cases e : f = F
  · subst e; rw [Function.update_same]; exact hv
  · rw [Function.update_noteq e]; exact h f

/-- One iteration of the copy loop of `fork` keeps `ForkInv`. -/
theorem fork_page_inv {L : Layout} {s sk s1 : KState} {slot l1 l2 i : Nat}
    (hl1 : l1 < 2 ^ 20) (hl2 : l2 < 2 ^ 20) (hne : l1 ≠ l2)
    (h2 : (s.pageinfo l2).refcount = 0) (hi : i < 1024)
    (inv : ForkInv s slot l1 l2 sk)
    (h : fork_page L sk slot (PAGEADDRESS l1) i = some (ForkStep.next s1)) :
    ForkInv s slot l1 l2 s1 := by
  have hva := PAGEADDRESS_lt_4M hi
  rcases fork_page_next_cases h with ⟨e, _⟩ | ⟨_, _, hr, m2, hm2, e⟩ | ⟨_, _, _, _, hg1, _, m1, hm1, e⟩
  · rw [e]; exact inv
  · -- a writable page was copied
    obtain ⟨_, _, hrc, hpi⟩ := physical_page_alloc_ok hr
    rw [hpi] at e
    rw [inv.proc_child_pid, inv.proc_child_pt] at hm2
    generalize find_free_page L sk.pageinfo = A at *
    generalize (virtual_memory_lookup sk.mem (sk.processes sk.current).p_pagetable
      (PAGEADDRESS i)) = vm at *
    have hF1 : l1 ≠ PAGENUMBER A := fun x => inv.rc_l1 (by rw [x]; exact hrc)
    have hF2 : l2 ≠ PAGENUMBER A := fun x => inv.rc_l2 (by rw [x]; exact hrc)
    have hmc : memcpy_page sk.mem A vm.pa l1 = Function.update (fun _ => 0) 0
        (PAGEADDRESS l2 ||| 7) := by
      unfold memcpy_page
      rw [Function.update_noteq hF1]; exact inv.mem_l1
    obtain ⟨hm2e, _⟩ := map_child_page hl1 hl2 hva hmc hm2
    subst e
    refine ⟨inv.current_eq, inv.proc_child_pid, inv.proc_child_pt, inv.proc_child_state,
      inv.proc_other, ?_, ?_, ?_, ?_, ?_, ?_⟩
    · intro f hf
      have hfl2 : f ≠ l2 := fun x => hf (by rw [x]; exact h2)
      have hfF : f ≠ PAGENUMBER A := fun x => inv.rc_old f hf (by rw [x]; exact hrc)
      show m2 f = s.mem f
      rw [hm2e, Function.update_noteq hfl2]
      unfold memcpy_page
      rw [Function.update_noteq hfF]
      exact inv.mem_old f hf
    · show m2 l1 = _
      rw [hm2e, Function.update_noteq hne, hmc]
    · exact update_rc_le (show (1 : Int) ≤ 127 by decide) inv.rc_range
    · intro f hf
      exact update_rc_ne_zero (show (1 : Int) ≠ 0 by decide) (inv.rc_old f hf)
    · exact update_rc_ne_zero (show (1 : Int) ≠ 0 by decide) inv.rc_l1
    · exact update_rc_ne_zero (show (1 : Int) ≠ 0 by decide) inv.rc_l2
  · -- a read-only page was shared
    generalize (virtual_memory_lookup sk.mem (sk.processes sk.current).p_pagetable
      (PAGEADDRESS i)) = vm at *
    obtain ⟨hm1e, _⟩ := map_child_page hl1 hl2 hva inv.mem_l1 hm1
    have hnew : toInt8 ((sk.pageinfo vm.pn.toNat).refcount + 1) ≠ 0 :=
      toInt8_succ_ne_zero hg1 (inv.rc_range _)
    subst e
    refine ⟨inv.current_eq, inv.proc_child_pid, inv.proc_child_pt, inv.proc_child_state,
      inv.proc_other, ?_, ?_, ?_, ?_, ?_, ?_⟩
    · intro f hf
      have hfl2 : f ≠ l2 := fun x => hf (by rw [x]; exact h2)
      show m1 f = s.mem f
      rw [hm1e, Function.update_noteq hfl2]
      exact inv.mem_old f hf
    · show m1 l1 = _
      rw [hm1e, Function.update_noteq hne]; exact inv.mem_l1
    · exact update_rc_le (toInt8_le _) inv.rc_range
    · intro f hf
      exact update_rc_ne_zero hnew (inv.rc_old f hf)
    · exact update_rc_ne_zero hnew inv.rc_l1
    · exact update_rc_ne_zero hnew inv.rc_l2

theorem sys_exit_page_identity {L : Layout} {mem : Memory} {pid : Nat} {pageinfo : PageInfo}
    {i : Nat} (hi : i < NPAGES L) (hid : KernelIdentity L mem) :
    sys_exit_page L mem pid pageinfo i
      = some (Function.update pageinfo i (sys_exit_record pid (pageinfo i))) := by
  unfold sys_exit_page
  dsimp only
  rw [hid i hi]
  have hb : (0 : Int) ≤ (i : Int) ∧ (i : Int) < (NPAGES L : Int) := ⟨by omega, by omega⟩
  rw [if_pos hb]
  simp only [Int.toNat_ofNat]
  congr 1
  unfold sys_exit_record
  dsimp only
  by_cases ho : (pageinfo i).owner = (pid : Int)
  · simp only [ho, if_true, Function.update_same]
    have : ¬ ((0 : Int) > 1 ∧ PO_FREE > 0) := by decide
    simp only [this, if_false]
  · simp only [ho, if_false]
    by_cases hg : (pageinfo i).refcount > 1 ∧ (pageinfo i).owner > 0
    · simp only [hg, and_self, if_true]
    · simp only [hg, if_false]
      rw [Function.update_eq_self]

theorem sys_exit_loop_identity {L : Layout} {mem : Memory} (pid : Nat)
    (hid : KernelIdentity L mem) (fuel : Nat) :
    ∀ (i : Nat) (pageinfo : PageInfo), i + fuel ≤ NPAGES L →
      ∃ pi1, sys_exit_loop L mem pid fuel i pageinfo = some pi1
        ∧ ∀ pn, pi1 pn =
            if i ≤ pn ∧ pn < i + fuel then sys_exit_record pid (pageinfo pn) else pageinfo pn := by
  induction fuel with
  | zero =>
    intro i pageinfo _
    refine ⟨pageinfo, rfl, fun pn => ?_⟩
    have : ¬ (i ≤ pn ∧ pn < i + 0) := by omega
    rw [if_neg this]
  | succ n ih =>
    intro i pageinfo hb
    unfold sys_exit_loop
    rw [sys_exit_page_identity (by omega) hid]
    obtain ⟨pi1, h1, h2⟩ := ih (i + 1)
      (Function.update pageinfo i (sys_exit_record pid (pageinfo i))) (by omega)
    refine ⟨pi1, h1, fun pn => ?_⟩
    rw [h2 pn]
    by_cases e : pn = i
    · subst e
      have a : ¬ (pn + 1 ≤ pn ∧ pn < pn + 1 + n) := by omega
      have b : pn ≤ pn ∧ pn < pn + (n + 1) := by omega
      rw [if_neg a, if_pos b, Function.update_same]
    · rw [Function.update_noteq e]
      by_cases c : i + 1 ≤ pn ∧ pn < i + 1 + n
      · have b : i ≤ pn ∧ pn < i + (n + 1) := by omega
        rw [if_pos c, if_pos b]
      · have b : ¬ (i ≤ pn ∧ pn < i + (n + 1)) := by omega
        rw [if_neg c, if_neg b]

/-- With an identity-mapping kernel page table `sys_exit(pid)` returns, and it
applies `sys_exit_record` to the record of every physical frame. -/
theorem sys_exit_identity {L : Layout} (s : KState) (pid : Nat)
    (hid : KernelIdentity L s.mem) (hpid : pid < L.NPROC) :
    ∃ s1, sys_exit L s pid = some s1
      ∧ s1.mem = s.mem ∧ s1.current = s.current
      ∧ s1.processes = Function.update s.processes pid
          { s.processes pid with p_state := procstate.P_FREE }
      ∧ ∀ pn, s1.pageinfo pn =
          if pn < NPAGES L then sys_exit_record pid (s.pageinfo pn) else s.pageinfo pn := by
  obtain ⟨pi1, h1, h2⟩ := sys_exit_loop_identity pid hid (NPAGES L) 0 s.pageinfo
    (by omega)
  unfold sys_exit
  rw [h1]
  dsimp only
  rw [if_pos hpid]
  refine ⟨_, rfl, rfl, rfl, rfl, fun pn => ?_⟩
  show pi1 pn = _
  rw [h2 pn]
  by_cases c : pn < NPAGES L
  · rw [if_pos c, if_pos ⟨Nat.zero_le _, by omega⟩]
  · rw [if_neg c, if_neg (by omega)]

theorem sys_exit_record_owner {pid : Nat} (hpid : 0 < pid) (r : physical_pageinfo) :
    (sys_exit_record pid r).owner ≠ (pid : Int) := by
  unfold sys_exit_record
  dsimp only
  by_cases ho : r.owner = (pid : Int)
  · simp only [ho, if_true]
    have : ¬ ((0 : Int) > 1 ∧ PO_FREE > 0) := by decide
    simp only [this, if_false]
    unfold PO_FREE
    omega
  · simp only [ho, if_false]
    by_cases hg : r.refcount > 1 ∧ r.owner > 0
    · simp only [hg, and_self, if_true]; exact ho
    · simp only [hg, if_false]; exact ho

theorem fork_page_failed {L : Layout} {sk s1 : KState} {slot cp i : Nat}
    (h : fork_page L sk slot cp i = some (ForkStep.failed s1)) :
    sys_exit L (set_eax sk sk.current (toU32 (-1))) (sk.processes slot).p_pid = some s1 := by
  unfold fork_page at h
  dsimp only at h
  split at h
  · split at h
    · split at h
      · split at h
        · cases h
        · rename_i s2 hs; cases h; exact hs
      · split at h <;> cases h
    · split at h
      · split at h
        · split at h <;> cases h
        · cases h
      · cases h
  · cases h

/-- The copy loop of `fork` keeps `ForkInv`; when it fails, it does so by
calling `sys_exit` in a state that satisfies `ForkInv`. -/
theorem fork_loop_inv {L : Layout} {s : KState} {slot l1 l2 : Nat}
    (hl1 : l1 < 2 ^ 20) (hl2 : l2 < 2 ^ 20) (hne : l1 ≠ l2)
    (h2 : (s.pageinfo l2).refcount = 0) (fuel : Nat) :
    ∀ (i : Nat) (sk : KState), i + fuel ≤ 1024 → ForkInv s slot l1 l2 sk →
      (∀ s1, fork_loop L slot (PAGEADDRESS l1) fuel i sk = some (ForkStep.next s1) →
        ForkInv s slot l1 l2 s1)
      ∧ (∀ s1, fork_loop L slot (PAGEADDRESS l1) fuel i sk = some (ForkStep.failed s1) →
        ∃ sk1, ForkInv s slot l1 l2 sk1
          ∧ sys_exit L (set_eax sk1 sk1.current (toU32 (-1))) (sk1.processes slot).p_pid
              = some s1) := by
  induction fuel with
  | zero =>
    intro i sk _ inv
    constructor
    · intro s1 h; simp [fork_loop] at h; rw [← h]; exact inv
    · intro s1 h; simp [fork_loop] at h
  | succ n ih =>
    intro i sk hb inv
    constructor
    · intro s1 h
      unfold fork_loop at h
      split at h
      · cases h
      · cases h
      · rename_i s2 hp
        exact (ih (i + 1) s2 (by omega)
          (fork_page_inv hl1 hl2 hne h2 (by omega) inv hp)).1 s1 h
    · intro s1 h
      unfold fork_loop at h
      split at h
      · cases h
      · rename_i s2 hp
        cases h
        exact ⟨sk, inv, fork_page_failed hp⟩
      · rename_i s2 hp
        exact (ih (i + 1) s2 (by omega)
          (fork_page_inv hl1 hl2 hne h2 (by omega) inv hp)).2 s1 h

theorem copy_pagetable_fail {L : Layout} {s s2 : KState} {pt o : Nat}
    (h : copy_pagetable L s pt o = some (s2, UINTPTR_MINUS_ONE)) :
    s2.mem = s.mem := by
  unfold copy_pagetable at h
  dsimp only at h
  split at h
  · cases h; rfl
  · rename_i hr1
    split at h
    · cases h; rfl
    · split at h
      · cases h
      · split at h
        · cases h
        · exfalso
          have ha := (physical_page_alloc_ok hr1).1
          have e : find_free_page_table L s.pageinfo = UINTPTR_MINUS_ONE := by
            have := congrArg (fun o : Option (KState × Nat) => o.map Prod.snd) h
            simpa using this
          rw [e] at ha
          exact absurd ha (by decide)

theorem kernel_identity_preserved {L : Layout} {s : KState} {mem1 : Memory}
    (hid : KernelIdentity L s.mem) (hkt : KernelTablesInUse L s)
    (hmem : ∀ f, (s.pageinfo f).refcount ≠ 0 → mem1 f = s.mem f) :
    KernelIdentity L mem1 := by
  intro i hi
  rw [virtual_memory_lookup_congr (hmem _ hkt.1) (hmem _ (hkt.2 i hi))]
  exact hid i hi

/-- The loop entry: after a successful `copy_pagetable` for the child slot the
invariant of the copy loop holds. -/
theorem fork_entry_inv {L : Layout} (hL : L.WF) {s s2 : KState} {slot cp : Nat}
    (hrange : ∀ f, (s.pageinfo f).refcount ≤ 127)
    (hcp : copy_pagetable L (fork_claim_slot s slot)
        ((fork_claim_slot s slot).processes (fork_claim_slot s slot).current).p_pagetable
        ((fork_claim_slot s slot).processes slot).p_pid = some (s2, cp))
    (hne : cp ≠ UINTPTR_MINUS_ONE) :
    ∃ l1 l2, cp = PAGEADDRESS l1 ∧ l1 < 2 ^ 20 ∧ l2 < 2 ^ 20 ∧ l1 ≠ l2
      ∧ l1 < L.PROC_START_ADDR / PAGESIZE ∧ l2 < L.PROC_START_ADDR / PAGESIZE
      ∧ (s.pageinfo l1).refcount = 0 ∧ (s.pageinfo l2).refcount = 0
      ∧ (s.pageinfo l1).owner = PO_FREE ∧ (s.pageinfo l2).owner = PO_FREE
      ∧ s2.pageinfo = Function.update
          (Function.update s.pageinfo l1 { owner := toInt8 slot, refcount := 1 }) l2
          { owner := toInt8 slot, refcount := 1 }
      ∧ (∀ f, f ≠ l1 → f ≠ l2 → s2.mem f = s.mem f)
      ∧ ForkInv s slot l1 l2 (set_pagetable_of s2 slot cp) := by
  obtain ⟨p2, c2, _⟩ := copy_pagetable_frame hcp
  obtain ⟨l1, l2, hcp1, _, hb1, hb2, hne12, hr1, hr2, ho1, ho2, hpi, hmo, hml1, _⟩ :=
    copy_pagetable_success hL hcp hne
  have hv := hL.virt_le
  have hs := hL.start_le
  have hl1 : l1 < 2 ^ 20 := by unfold PAGESIZE at hb1; omega
  have hl2 : l2 < 2 ^ 20 := by unfold PAGESIZE at hb2; omega
  have hpid : ((fork_claim_slot s slot).processes slot).p_pid = slot := by
    simp [fork_claim_slot, set_proc]
  rw [hpid] at hpi
  have hpi' : (fork_claim_slot s slot).pageinfo = s.pageinfo := rfl
  have hmem' : (fork_claim_slot s slot).mem = s.mem := rfl
  rw [hpi'] at hpi hr1 hr2 ho1 ho2
  rw [hmem'] at hmo
  refine ⟨l1, l2, hcp1, hl1, hl2, hne12, hb1, hb2, hr1, hr2, ho1, ho2, hpi, hmo, ?_⟩
  refine ⟨?_, ?_, ?_, ?_, ?_, ?_, ?_, ?_, ?_, ?_, ?_⟩
  · show s2.current = s.current
    rw [c2]; rfl
  · simp [set_pagetable_of, set_proc, p2, fork_claim_slot]
  · simp [set_pagetable_of, set_proc, hcp1]
  · simp [set_pagetable_of, set_proc, p2, fork_claim_slot]
  · intro j hj
    simp [set_pagetable_of, set_proc, p2, fork_claim_slot, Function.update, hj]
  · intro f hf
    show s2.mem f = s.mem f
    exact hmo f (fun x => hf (by rw [x]; exact hr1)) (fun x => hf (by rw [x]; exact hr2))
  · exact hml1
  · intro f
    show (s2.pageinfo f).refcount ≤ 127
    rw [hpi]
    exact update_rc_le (show (1 : Int) ≤ 127 by decide)
      (update_rc_le (show (1 : Int) ≤ 127 by decide) hrange) f
  · intro f hf
    show (s2.pageinfo f).refcount ≠ 0
    rw [hpi]
    exact update_rc_ne_zero (show (1 : Int) ≠ 0 by decide)
      (update_rc_ne_zero (show (1 : Int) ≠ 0 by decide) hf)
  · show (s2.pageinfo l1).refcount ≠ 0
    rw [hpi, Function.update_noteq hne12, Function.update_same]
    exact (show (1 : Int) ≠ 0 by decide)
  · show (s2.pageinfo l2).refcount ≠ 0
    rw [hpi, Function.update_same]
    exact (show (1 : Int) ≠ 0 by decide)

theorem toU32_neg_one : toU32 (-1) = 0xFFFFFFFF := by decide

/-- How a `fork` that found a slot but does not return the child's id ends:
it returns -1 after `sys_exit`, called either right after a failed
`copy_pagetable` or inside the copy loop. -/
theorem fork_failure_shape {L : Layout} {s s1 : KState} {r : Int} {slot : Nat}
    (hslot : fork_find_slot s.processes (L.NPROC - 1) 1 = some slot)
    (h : fork L s = some (s1, r)) (hr : r ≠ (slot : Int)) :
    r = -1
    ∧ ((∃ s2, copy_pagetable L (fork_claim_slot s slot)
            ((fork_claim_slot s slot).processes (fork_claim_slot s slot).current).p_pagetable
            ((fork_claim_slot s slot).processes slot).p_pid = some (s2, UINTPTR_MINUS_ONE)
          ∧ sys_exit L (set_eax s2 s2.current (toU32 (-1))) (s2.processes slot).p_pid = some s1)
      ∨ (∃ s2 cp, copy_pagetable L (fork_claim_slot s slot)
            ((fork_claim_slot s slot).processes (fork_claim_slot s slot).current).p_pagetable
            ((fork_claim_slot s slot).processes slot).p_pid = some (s2, cp)
          ∧ cp ≠ UINTPTR_MINUS_ONE
          ∧ fork_loop L slot cp (PAGENUMBER L.MEMSIZE_VIRTUAL - PAGENUMBER L.PROC_START_ADDR)
              (PAGENUMBER L.PROC_START_ADDR) (set_pagetable_of s2 slot cp)
              = some (ForkStep.failed s1))) := by
  unfold fork at h
  rw [hslot] at h
  dsimp only at h
  split at h
  · cases h
  · rename_i s2 cp hcp
    split at h
    · rename_i hm
      split at h
      · cases h
      · rename_i s3 hs3
        cases h
        subst hm
        exact ⟨rfl, Or.inl ⟨s2, hcp, hs3⟩⟩
    · rename_i hne
      split at h
      · cases h
      · rename_i s4 hloop
        cases h
        exact ⟨rfl, Or.inr ⟨s2, cp, hcp, hne, hloop⟩⟩
      · rename_i s4 hloop
        exfalso
        cases h
        obtain ⟨p4, c4, _⟩ := fork_loop_next_frame _ _ _ _ hloop
        obtain ⟨p2, c2, _⟩ := copy_pagetable_frame hcp
        apply hr
        have hp4 : (s4.processes slot).p_pid = slot := by
          rw [p4]; simp [set_pagetable_of, set_proc, p2, fork_claim_slot]
        have : ((fork_finish s4 slot).processes slot).p_pid = slot := by
          by_cases e : s4.current = slot
          · simp [fork_finish, set_eax, set_registers, set_proc, Function.update, e, hp4]
          · have e' : slot ≠ s4.current := fun x => e x.symm
            simp [fork_finish, set_eax, set_registers, set_proc, Function.update, e, e', hp4]
        show (((fork_finish s4 slot).processes slot).p_pid : Int) = slot
        rw [this]

/-- The end of a failed `fork`: `sys_exit` for the child, called with an
identity-mapping kernel page table. -/
theorem fork_failure_end {L : Layout} {s sk s1 : KState} {slot : Nat}
    (hslot0 : 0 < slot) (hne : slot ≠ s.current)
    (hcur : sk.current = s.current) (hpid : (sk.processes slot).p_pid = slot)
    (hother : ∀ j, j ≠ slot → sk.processes j = s.processes j)
    (hid : KernelIdentity L sk.mem)
    (h : sys_exit L (set_eax sk sk.current (toU32 (-1))) (sk.processes slot).p_pid = some s1) :
    (s1.processes slot).p_state = procstate.P_FREE
    ∧ (∀ pn, pn < NPAGES L → (s1.pageinfo pn).owner ≠ (slot : Int))
    ∧ (s1.processes s.current).p_registers.reg_eax = toU32 (-1)
    ∧ (s1.processes s.current).p_state = (s.processes s.current).p_state
    ∧ s1.current = s.current := by
  rw [hpid] at h
  have hlt : slot < L.NPROC := by
    unfold sys_exit at h
    split at h
    · cases h
    · split at h
      · assumption
      · cases h
  obtain ⟨s1', h1, _, hc, hp, hpi⟩ :=
    sys_exit_identity (set_eax sk sk.current (toU32 (-1))) slot hid hlt
  rw [h1] at h
  cases h
  have hne' : s.current ≠ slot := fun x => hne x.symm
  refine ⟨?_, ?_, ?_, ?_, ?_⟩
  · rw [hp, Function.update_same]
  · intro pn hpn
    rw [hpi pn, if_pos hpn]
    exact sys_exit_record_owner hslot0 _
  · rw [hp, Function.update_noteq hne']
    simp [set_eax, set_registers, set_proc, hcur]
  · rw [hp, Function.update_noteq hne']
    simp [set_eax, set_registers, set_proc, hcur, hother _ hne']
  · rw [hc]; exact hcur

/-- C10: whenever `fork` has chosen a child slot and fails because a frame
cannot be allocated (for a page table or for a copied page), it returns -1,
the child slot's state is Free, no frame-table entry has the child id as
owner, the parent's `reg_eax` is -1 and the parent is still Runnable,
assuming the kernel page table identity-maps all physical pages. -/
theorem fork_failure_cleanup (L : Layout) (hL : L.WF) (s : KState) (p : KState × Int)
    (slot : Nat)
    (hrange : ∀ f, (s.pageinfo f).refcount ≤ 127)
    (hcur : (s.processes s.current).p_state = procstate.P_RUNNABLE)
    (hid : KernelIdentity L s.mem) (hkt : KernelTablesInUse L s)
    (hslot : fork_find_slot s.processes (L.NPROC - 1) 1 = some slot)
    (h : fork L s = some p) (hfail : p.2 ≠ (slot : Int)) :
    p.2 = -1
    ∧ (p.1.processes slot).p_state = procstate.P_FREE
    ∧ (∀ pn, pn < NPAGES L → (p.1.pageinfo pn).owner ≠ (slot : Int))
    ∧ (p.1.processes s.current).p_registers.reg_eax = 0xFFFFFFFF
    ∧ (p.1.processes s.current).p_state = procstate.P_RUNNABLE
    ∧ p.1.current = s.current := by
  obtain ⟨s1, r⟩ := p
  obtain ⟨hs1, _, hfree, _⟩ := fork_find_slot_some _ _ _ _ hslot
  have hne : slot ≠ s.current := by
    intro e; rw [e, hcur] at hfree; cases hfree
  obtain ⟨hr, hshape⟩ := fork_failure_shape hslot h hfail
  have key : (s1.processes slot).p_state = procstate.P_FREE
      ∧ (∀ pn, pn < NPAGES L → (s1.pageinfo pn).owner ≠ (slot : Int))
      ∧ (s1.processes s.current).p_registers.reg_eax = toU32 (-1)
      ∧ (s1.processes s.current).p_state = (s.processes s.current).p_state
      ∧ s1.current = s.current := by
    rcases hshape with ⟨s2, hcp, hexit⟩ | ⟨s2, cp, hcp, hcpne, hloop⟩
    · obtain ⟨p2, c2, _⟩ := copy_pagetable_frame hcp
      have hm := copy_pagetable_fail hcp
      refine fork_failure_end (by omega) hne (by rw [c2]; rfl) ?_ ?_ ?_ hexit
      · rw [p2]; simp [fork_claim_slot, set_proc]
      · intro j hj
        rw [p2]; simp [fork_claim_slot, set_proc, Function.update, hj]
      · rw [hm]; exact hid
    · obtain ⟨l1, l2, hcp1, hl1, hl2, hne12, _, _, _, hr2, _, _, _, _, inv⟩ :=
        fork_entry_inv hL hrange hcp hcpne
      clear hcp
      subst hcp1
      have hfuel : PAGENUMBER L.PROC_START_ADDR
          + (PAGENUMBER L.MEMSIZE_VIRTUAL - PAGENUMBER L.PROC_START_ADDR) ≤ 1024 := by
        have := hL.virt_le
        have := hL.start_le
        rw [PAGENUMBER_eq_div, PAGENUMBER_eq_div]
        unfold PAGESIZE
        omega
      obtain ⟨sk1, inv1, hexit⟩ :=
        (fork_loop_inv (L := L) hl1 hl2 hne12 hr2 _ _ _ hfuel inv).2 s1 hloop
      exact fork_failure_end (by omega) hne inv1.current_eq inv1.proc_child_pid
        inv1.proc_other (kernel_identity_preserved hid hkt inv1.mem_old) hexit
  obtain ⟨k1, k2, k3, k4, k5⟩ := key
  refine ⟨hr, k1, k2, ?_, ?_, k5⟩
  · show (s1.processes s.current).p_registers.reg_eax = 0xFFFFFFFF
    rw [k3]; exact toU32_neg_one
  · show (s1.processes s.current).p_state = procstate.P_RUNNABLE
    rw [k4]; exact hcur

theorem sampleTight_range : ∀ f, (sampleTight.pageinfo f).refcount ≤ 127 := by
  intro f
  show (if f = 0 ∨ f = 5 then (⟨-1, 1⟩ : physical_pageinfo)
      else if f < 5 then ⟨-2, 1⟩ else if f = 9 ∨ f = 10 then ⟨0, 0⟩ else ⟨1, 1⟩).refcount ≤ 127
  split_ifs <;> decide

theorem sampleTight_identity : KernelIdentity smallLayout sampleTight.mem := by
  unfold KernelIdentity; decide!

theorem sampleTight_tables : KernelTablesInUse smallLayout sampleTight := by
  unfold KernelTablesInUse; decide!

set_option maxRecDepth 100000 in
theorem sampleTightForked_eq : fork smallLayout sampleTight = some sampleTightForked :=
  getD_of_isSome _ _ (by decide!)

set_option maxRecDepth 100000 in
theorem sampleTightForked_ret : sampleTightForked.2 ≠ ((2 : Nat) : Int) := by decide!

/-- Witness of `fork_failure_cleanup`: in `sampleTight` the fork of process 1
gets page tables for slot 2, runs out of frames on the first writable page and
undoes the child. -/
theorem fork_failure_cleanup_witness :
    sampleTightForked.2 = -1
    ∧ (sampleTightForked.1.processes 2).p_state = procstate.P_FREE
    ∧ (∀ pn, pn < NPAGES smallLayout → (sampleTightForked.1.pageinfo pn).owner ≠ ((2 : Nat) : Int))
    ∧ (sampleTightForked.1.processes sampleTight.current).p_registers.reg_eax = 0xFFFFFFFF
    ∧ (sampleTightForked.1.processes sampleTight.current).p_state = procstate.P_RUNNABLE
    ∧ sampleTightForked.1.current = sampleTight.current :=
  fork_failure_cleanup smallLayout smallLayout_WF sampleTight sampleTightForked 2
    sampleTight_range (by decide) sampleTight_identity sampleTight_tables (by decide)
    sampleTightForked_eq sampleTightForked_ret

theorem L2PAGEINDEX_PAGEADDRESS {j : Nat} (hj : j < 1024) : L2PAGEINDEX (PAGEADDRESS j) = j := by
  rw [PAGEADDRESS_eq_mul j (by omega)]
  simp only [L2PAGEINDEX, PAGESHIFT, PAGETABLE_NENTRIES, PAGESIZE, Nat.shiftRight_eq_div_pow]
  omega

theorem PAGEOFFSET_PAGEADDRESS (j : Nat) : PAGEOFFSET (PAGEADDRESS j) = 0 := by
  unfold PAGEOFFSET
  exact PAGEADDRESS_aligned j

theorem PAGENUMBER_PTE_ADDR (e : Nat) : PAGENUMBER (PTE_ADDR e) = PAGENUMBER e := by
  rw [PTE_ADDR_eq, PAGENUMBER_eq_div, PAGENUMBER_eq_div]
  unfold PAGESIZE
  omega

theorem PTE_ADDR_aligned (e : Nat) : PTE_ADDR e % PAGESIZE = 0 := by
  rw [PTE_ADDR_eq]
  unfold PAGESIZE
  omega

theorem PTE_FLAGS_lt (e : Nat) : PTE_FLAGS e < 4096 := by
  unfold PTE_FLAGS
  rw [and_fff_eq_mod]
  unfold PAGESIZE
  omega

/-- A lookup that returns some permission found a present entry: the result
is read off that entry. -/
theorem virtual_memory_lookup_present {mem : Memory} {pt va : Nat}
    (h : (virtual_memory_lookup mem pt va).perm ≠ 0) :
    ∃ pte, mem (PAGENUMBER pt) (L1PAGEINDEX va) &&& PTE_P ≠ 0
      ∧ pte = mem (PAGENUMBER (mem (PAGENUMBER pt) (L1PAGEINDEX va))) (L2PAGEINDEX va)
      ∧ pte &&& PTE_P ≠ 0
      ∧ virtual_memory_lookup mem pt va
          = { pn := PAGENUMBER pte, pa := PTE_ADDR pte + PAGEOFFSET va, perm := PTE_FLAGS pte } := by
  unfold virtual_memory_lookup at h ⊢
  dsimp only at h ⊢
  split at h
  · exact absurd rfl h
  · rename_i h1
    split at h
    · exact absurd rfl h
    · rename_i h2
      refine ⟨_, h1, rfl, h2, ?_⟩
      rw [if_neg h1, if_neg h2]

/-- Reading back a translation: when the outer entry of `va` is present and
the inner entry holds `pa | perm` with the present bit, the lookup returns
the frame of `pa` and the permissions `perm`. -/
theorem virtual_memory_lookup_entry {mem : Memory} {pt va pa perm : Nat}
    (h1 : mem (PAGENUMBER pt) (L1PAGEINDEX va) &&& PTE_P ≠ 0)
    (h2 : mem (PAGENUMBER (mem (PAGENUMBER pt) (L1PAGEINDEX va))) (L2PAGEINDEX va) = pa ||| perm)
    (ha : pa % PAGESIZE = 0) (hp : perm < 4096) (hpp : perm &&& PTE_P ≠ 0) :
    virtual_memory_lookup mem pt va
      = { pn := PAGENUMBER pa, pa := pa + PAGEOFFSET va, perm := perm } := by
  unfold virtual_memory_lookup
  dsimp only
  rw [if_neg h1, h2, pte_present ha hp, if_neg hpp, PAGENUMBER_pte ha hp, PTE_ADDR_pte ha hp,
    PTE_FLAGS_pte ha hp]

/-- During the copy loop of `fork` the lookups in the parent's page table
give what they gave when `fork` was called. -/
theorem fork_lookup_stable {s sk : KState} {slot l1 l2 j : Nat}
    (inv : ForkInv s slot l1 l2 sk) (hne : slot ≠ s.current) (hpt : ParentTablesInUse s)
    (hj : j < 1024) :
    virtual_memory_lookup sk.mem (sk.processes sk.current).p_pagetable (PAGEADDRESS j)
      = virtual_memory_lookup s.mem (s.processes s.current).p_pagetable (PAGEADDRESS j) := by
  rw [inv.current_eq, inv.proc_other _ (fun x => hne x.symm)]
  apply virtual_memory_lookup_congr
  · exact inv.mem_old _ hpt.1
  · rw [L1PAGEINDEX_low (PAGEADDRESS_lt_4M hj)]
    exact inv.mem_old _ hpt.2

/-- The frame and address that a lookup at a page-aligned address returns
belong together. -/
theorem lookup_frame_of_pa {mem : Memory} {pt j : Nat}
    (h : (virtual_memory_lookup mem pt (PAGEADDRESS j)).perm ≠ 0) :
    PAGENUMBER (virtual_memory_lookup mem pt (PAGEADDRESS j)).pa
      = (virtual_memory_lookup mem pt (PAGEADDRESS j)).pn.toNat
    ∧ (virtual_memory_lookup mem pt (PAGEADDRESS j)).pn
      = ((virtual_memory_lookup mem pt (PAGEADDRESS j)).pn.toNat : Int)
    ∧ (virtual_memory_lookup mem pt (PAGEADDRESS j)).perm &&& PTE_P ≠ 0
    ∧ (virtual_memory_lookup mem pt (PAGEADDRESS j)).perm < 4096
    ∧ (virtual_memory_lookup mem pt (PAGEADDRESS j)).pa % PAGESIZE = 0 := by
  obtain ⟨pte, _, _, hp, he⟩ := virtual_memory_lookup_present h
  rw [he]
  dsimp only
  rw [PAGEOFFSET_PAGEADDRESS, Nat.add_zero, PAGENUMBER_PTE_ADDR, PTE_FLAGS_present]
  exact ⟨by simp, by simp, hp, PTE_FLAGS_lt pte, PTE_ADDR_aligned pte⟩

theorem fork_finish_mem (s4 : KState) (slot : Nat) :
    (fork_finish s4 slot).mem = s4.mem ∧ (fork_finish s4 slot).pageinfo = s4.pageinfo
    ∧ (fork_finish s4 slot).current = s4.current := ⟨rfl, rfl, rfl⟩

theorem set_registers_pagetable (s : KState) (pid : Nat) (r : x86_registers) (j : Nat) :
    ((set_registers s pid r).processes j).p_pagetable = (s.processes j).p_pagetable := by
  unfold set_registers set_proc
  by_cases e : j = pid
  · subst e; simp only [Function.update_same]
  · simp only [Function.update_noteq e]

theorem set_eax_pagetable (s : KState) (pid v j : Nat) :
    ((set_eax s pid v).processes j).p_pagetable = (s.processes j).p_pagetable := by
  unfold set_eax
  exact set_registers_pagetable _ _ _ _

theorem fork_finish_pagetable (s4 : KState) (slot j : Nat) :
    ((fork_finish s4 slot).processes j).p_pagetable = (s4.processes j).p_pagetable := by
  unfold fork_finish
  dsimp only
  rw [set_eax_pagetable, set_eax_pagetable, set_registers_pagetable]

theorem fork_range_le {L : Layout} (hL : L.WF) :
    PAGENUMBER L.PROC_START_ADDR
      + (PAGENUMBER L.MEMSIZE_VIRTUAL - PAGENUMBER L.PROC_START_ADDR) ≤ 1024
    ∧ PAGENUMBER L.PROC_START_ADDR
      + (PAGENUMBER L.MEMSIZE_VIRTUAL - PAGENUMBER L.PROC_START_ADDR)
        = PAGENUMBER L.MEMSIZE_VIRTUAL := by
  have := hL.virt_le
  have := hL.start_le
  rw [PAGENUMBER_eq_div, PAGENUMBER_eq_div]
  unfold PAGESIZE
  omega

/-- The lookup of a user page in the child's page table, from the entry that
the copy loop of `fork` wrote for it. -/
theorem child_lookup {mem : Memory} {l1 l2 j pa perm : Nat}
    (hl1 : l1 < 2 ^ 20) (hl2 : l2 < 2 ^ 20) (hj : j < 1024)
    (hm1 : mem l1 = Function.update (fun _ => 0) 0 (PAGEADDRESS l2 ||| 7))
    (hm2 : mem l2 j = pa ||| perm)
    (ha : pa % PAGESIZE = 0) (hp : perm < 4096) (hpp : perm &&& PTE_P ≠ 0) :
    virtual_memory_lookup mem (PAGEADDRESS l1) (PAGEADDRESS j)
      = { pn := PAGENUMBER pa, pa := pa, perm := perm } := by
  have hva := PAGEADDRESS_lt_4M hj
  have h1 : mem (PAGENUMBER (PAGEADDRESS l1)) (L1PAGEINDEX (PAGEADDRESS j)) &&& PTE_P ≠ 0 := by
    rw [PAGENUMBER_PAGEADDRESS hl1, hm1, L1PAGEINDEX_low hva, Function.update_same,
      pte_present (PAGEADDRESS_aligned l2) (by decide)]
    decide
  have h2 : mem (PAGENUMBER (mem (PAGENUMBER (PAGEADDRESS l1)) (L1PAGEINDEX (PAGEADDRESS j))))
      (L2PAGEINDEX (PAGEADDRESS j)) = pa ||| perm := by
    rw [PAGENUMBER_PAGEADDRESS hl1, hm1, l1_entry_frame hl2 hva, L2PAGEINDEX_PAGEADDRESS hj]
    exact hm2
  rw [virtual_memory_lookup_entry h1 h2 ha hp hpp, PAGEOFFSET_PAGEADDRESS, Nat.add_zero]

theorem sampleState_identity : KernelIdentity smallLayout sampleState.mem := by
  unfold KernelIdentity; decide!

theorem sampleExited_eq : sys_exit smallLayout sampleState 1 = some sampleExited :=
  getD_of_isSome _ _ (by decide!)

/-- C12: for every `pid` in `1..NPROC-1` and every frame table, `sys_exit(pid)`
returns, and afterwards no frame-table entry has owner `pid` and
`processes[pid]` is in state Free, assuming the kernel page table
identity-maps all physical pages. -/
theorem sys_exit_reclaims (L : Layout) (s : KState) (pid : Nat)
    (h1 : 1 ≤ pid) (h2 : pid < L.NPROC) (hid : KernelIdentity L s.mem) :
    ∃ s1, sys_exit L s pid = some s1
      ∧ (s1.processes pid).p_state = procstate.P_FREE
      ∧ ∀ pn, pn < NPAGES L → (s1.pageinfo pn).owner ≠ (pid : Int) := by
  obtain ⟨s1, e, _, _, hp, hpi⟩ := sys_exit_identity s pid hid h2
  refine ⟨s1, e, ?_, ?_⟩
  · rw [hp, Function.update_same]
  · intro pn hpn
    rw [hpi pn, if_pos hpn]
    exact sys_exit_record_owner (by omega) _

/-- Witness of `sys_exit_reclaims`: process 1 of `sampleState` exits. -/
theorem sys_exit_reclaims_witness :
    ∃ s1, sys_exit smallLayout sampleState 1 = some s1
      ∧ (s1.processes 1).p_state = procstate.P_FREE
      ∧ ∀ pn, pn < NPAGES smallLayout → (s1.pageinfo pn).owner ≠ ((1 : Nat) : Int) :=
  sys_exit_reclaims smallLayout sampleState 1 (by decide) (by decide) sampleState_identity

/-- C15: `sys_exit(pid)` changes the descriptor of no process other than
`pid`: every other descriptor keeps its state, saved registers and page-table
pointer, and of `pid` itself only the state changes. -/
theorem sys_exit_others (L : Layout) (s s1 : KState) (pid : Nat)
    (h : sys_exit L s pid = some s1) :
    (∀ j, j ≠ pid → s1.processes j = s.processes j)
    ∧ (s1.processes pid).p_registers = (s.processes pid).p_registers
    ∧ (s1.processes pid).p_pagetable = (s.processes pid).p_pagetable
    ∧ (s1.processes pid).p_pid = (s.processes pid).p_pid
    ∧ s1.current = s.current := by
  obtain ⟨hc, _, _, hp⟩ := sys_exit_frame h
  refine ⟨fun j hj => ?_, ?_, ?_, ?_, hc⟩
  · rw [hp, Function.update_noteq hj]
  · rw [hp, Function.update_same]
  · rw [hp, Function.update_same]
  · rw [hp, Function.update_same]

/-- Witness of `sys_exit_others`: process 1 of `sampleState` exits. -/
theorem sys_exit_others_witness :
    (∀ j, j ≠ 1 → sampleExited.processes j = sampleState.processes j)
    ∧ (sampleExited.processes 1).p_registers = (sampleState.processes 1).p_registers
    ∧ (sampleExited.processes 1).p_pagetable = (sampleState.processes 1).p_pagetable
    ∧ (sampleExited.processes 1).p_pid = (sampleState.processes 1).p_pid
    ∧ sampleExited.current = sampleState.current :=
  sys_exit_others smallLayout sampleState sampleExited 1 sampleExited_eq

theorem schedule_loop_none {L : Layout} {s : KState} (fuel : Nat) :
    ∀ c, schedule_loop L s fuel c = none ↔
      ∀ k, 1 ≤ k → k ≤ fuel →
        (s.processes ((c + k) % L.NPROC)).p_state ≠ procstate.P_RUNNABLE := by
  induction fuel with
  | zero =>
    intro c
    simp only [schedule_loop, true_iff]
    intro k h1 h2; omega
  | succ n ih =>
    intro c
    unfold schedule_loop
    dsimp only
    by_cases hr : (s.processes ((c + 1) % L.NPROC)).p_state = procstate.P_RUNNABLE
    · rw [if_pos hr]
      unfold run
      rw [if_pos hr]
      constructor
      · intro h; cases h
      · intro h; exact absurd hr (h 1 (le_refl _) (by omega))
    · rw [if_neg hr, ih]
      constructor
      · intro h k h1 h2
        rcases Nat.eq_or_lt_of_le h1 with e | l
        · rw [← e]; exact hr
        · have := h (k - 1) (by omega) (by omega)
          rw [Nat.mod_add_mod] at this
          rw [show c + k = c + 1 + (k - 1) by omega]
          exact this
      · intro h k h1 h2
        have := h (k + 1) (by omega) (by omega)
        rw [Nat.mod_add_mod]
        rw [show c + 1 + k = c + (k + 1) by omega]
        exact this

theorem schedule_loop_first {L : Layout} {s : KState} (fuel : Nat) :
    ∀ c k, 1 ≤ k → k ≤ fuel →
      (s.processes ((c + k) % L.NPROC)).p_state = procstate.P_RUNNABLE →
      (∀ k1, 1 ≤ k1 → k1 < k →
        (s.processes ((c + k1) % L.NPROC)).p_state ≠ procstate.P_RUNNABLE) →
      schedule_loop L s fuel c = some { s with current := (c + k) % L.NPROC } := by
  induction fuel with
  | zero => intro c k h1 h2; omega
  | succ n ih =>
    intro c k h1 h2 hr hmin
    unfold schedule_loop
    dsimp only
    rcases Nat.eq_or_lt_of_le h1 with e | l
    · subst e
      rw [if_pos hr]
      unfold run
      rw [if_pos hr]
    · rw [if_neg (hmin 1 (le_refl _) l)]
      have := ih ((c + 1) % L.NPROC) (k - 1) (by omega) (by omega)
        (by rw [Nat.mod_add_mod, show c + 1 + (k - 1) = c + k by omega]; exact hr)
        (fun k1 hk1 hk2 => by
          rw [Nat.mod_add_mod, show c + 1 + k1 = c + (k1 + 1) by omega]
          exact hmin (k1 + 1) (by omega) (by omega))
      rw [this, Nat.mod_add_mod, show c + 1 + (k - 1) = c + k by omega]

/-- Every slot is visited by one circular scan. -/
theorem scan_reaches {N : Nat} (hN : 0 < N) (c i : Nat) (hi : i < N) :
    ∃ k, 1 ≤ k ∧ k ≤ N ∧ (c + k) % N = i := by
  by_cases h : (i + N - c % N) % N = 0
  · refine ⟨N, by omega, le_refl _, ?_⟩
    have hc := Nat.mod_lt c hN
    have : i = c % N := by
      have h1 : i + N - c % N < 2 * N := by omega
      by_cases h2 : i + N - c % N < N
      · rw [Nat.mod_eq_of_lt h2] at h; omega
      · have : (i + N - c % N) % N = i + N - c % N - N := by
          rw [Nat.mod_eq_sub_mod (by omega)]
          exact Nat.mod_eq_of_lt (by omega)
        omega
    rw [Nat.add_mod_right, this]
  · refine ⟨(i + N - c % N) % N, by omega, le_of_lt (Nat.mod_lt _ hN), ?_⟩
    have hc := Nat.mod_lt c hN
    rw [Nat.add_mod, Nat.mod_mod]
    by_cases h2 : i + N - c % N < N
    · rw [Nat.mod_eq_of_lt h2]
      have : c % N + (i + N - c % N) = i + N := by omega
      rw [this, Nat.add_mod_right]
      exact Nat.mod_eq_of_lt hi
    · have e : (i + N - c % N) % N = i + N - c % N - N := by
        rw [Nat.mod_eq_sub_mod (by omega)]
        exact Nat.mod_eq_of_lt (by omega)
      rw [e]
      have : c % N + (i + N - c % N - N) = i := by omega
      rw [this]
      exact Nat.mod_eq_of_lt hi

/-- When some descriptor is runnable, there is a first one in circular order
after `c`. -/
theorem first_runnable {L : Layout} (hN : 0 < L.NPROC) (s : KState) (c : Nat)
    (hex : ∃ i, i < L.NPROC ∧ (s.processes i).p_state = procstate.P_RUNNABLE) :
    ∃ k, 1 ≤ k ∧ k ≤ L.NPROC
      ∧ (s.processes ((c + k) % L.NPROC)).p_state = procstate.P_RUNNABLE
      ∧ ∀ k1, 1 ≤ k1 → k1 < k →
          (s.processes ((c + k1) % L.NPROC)).p_state ≠ procstate.P_RUNNABLE := by
  obtain ⟨i, hi, hr⟩ := hex
  obtain ⟨k0, h1, h2, h3⟩ := scan_reaches hN c i hi
  have hP : ∃ k, 1 ≤ k ∧ k ≤ L.NPROC
      ∧ (s.processes ((c + k) % L.NPROC)).p_state = procstate.P_RUNNABLE :=
    ⟨k0, h1, h2, by rw [h3]; exact hr⟩
  refine ⟨Nat.find hP, (Nat.find_spec hP).1, (Nat.find_spec hP).2.1, (Nat.find_spec hP).2.2, ?_⟩
  intro k1 hk1 hk2 hrun
  exact Nat.find_min hP hk2 ⟨hk1, le_trans (le_of_lt hk2) (Nat.find_spec hP).2.1, hrun⟩

/-- C16: for every process table with at least one Runnable descriptor and
every current pid `c`, `schedule()` hands to `run` the descriptor at index
`(c + k) mod NPROC` for the smallest `k` in `1..NPROC` such that that
descriptor is Runnable; it selects the current process itself only when no
other descriptor is Runnable. -/
theorem schedule_picks_next (L : Layout) (hN : 0 < L.NPROC) (s : KState)
    (hex : ∃ i, i < L.NPROC ∧ (s.processes i).p_state = procstate.P_RUNNABLE) :
    ∃ k, 1 ≤ k ∧ k ≤ L.NPROC
      ∧ (s.processes (((s.processes s.current).p_pid + k) % L.NPROC)).p_state
          = procstate.P_RUNNABLE
      ∧ (∀ k1, 1 ≤ k1 → k1 < k →
          (s.processes (((s.processes s.current).p_pid + k1) % L.NPROC)).p_state
            ≠ procstate.P_RUNNABLE)
      ∧ schedule L s
          = some { s with current := ((s.processes s.current).p_pid + k) % L.NPROC }
      ∧ (((s.processes s.current).p_pid + k) % L.NPROC = (s.processes s.current).p_pid →
          ∀ i, i < L.NPROC → i ≠ (s.processes s.current).p_pid →
            (s.processes i).p_state ≠ procstate.P_RUNNABLE) := by
  obtain ⟨k, h1, h2, hr, hmin⟩ := first_runnable hN s (s.processes s.current).p_pid hex
  refine ⟨k, h1, h2, hr, hmin, ?_, ?_⟩
  · unfold schedule
    exact schedule_loop_first L.NPROC _ k h1 h2 hr hmin
  · generalize (s.processes s.current).p_pid = c at *
    intro hc i hi hic
    have hclt : c < L.NPROC := by rw [← hc]; exact Nat.mod_lt _ hN
    have hk : k = L.NPROC := by
      by_contra hne
      have hlt : k < L.NPROC := by omega
      by_cases h3 : c + k < L.NPROC
      · rw [Nat.mod_eq_of_lt h3] at hc; omega
      · have : (c + k) % L.NPROC = c + k - L.NPROC := by
          rw [Nat.mod_eq_sub_mod (by omega)]
          exact Nat.mod_eq_of_lt (by omega)
        omega
    obtain ⟨k1, a1, a2, a3⟩ := scan_reaches hN c i hi
    have hk1 : k1 < k := by
      rw [hk]
      rcases Nat.eq_or_lt_of_le a2 with e | l
      · exfalso
        rw [e, Nat.add_mod_right, Nat.mod_eq_of_lt hclt] at a3
        exact hic a3.symm
      · exact l
    have := hmin k1 a1 hk1
    rw [a3] at this
    exact this

/-- Witness of `schedule_picks_next`: in `sampleState` only process 1 is
runnable. -/
theorem schedule_picks_next_witness :
    ∃ k, 1 ≤ k ∧ k ≤ smallLayout.NPROC
      ∧ (sampleState.processes
          (((sampleState.processes sampleState.current).p_pid + k) % smallLayout.NPROC)).p_state
          = procstate.P_RUNNABLE
      ∧ (∀ k1, 1 ≤ k1 → k1 < k →
          (sampleState.processes
            (((sampleState.processes sampleState.current).p_pid + k1)
              % smallLayout.NPROC)).p_state ≠ procstate.P_RUNNABLE)
      ∧ schedule smallLayout sampleState
          = some { sampleState with
              current := ((sampleState.processes sampleState.current).p_pid + k)
                % smallLayout.NPROC }
      ∧ (((sampleState.processes sampleState.current).p_pid + k) % smallLayout.NPROC
            = (sampleState.processes sampleState.current).p_pid →
          ∀ i, i < smallLayout.NPROC → i ≠ (sampleState.processes sampleState.current).p_pid →
            (sampleState.processes i).p_state ≠ procstate.P_RUNNABLE) :=
  schedule_picks_next smallLayout (by decide) sampleState ⟨1, by decide, by decide⟩

/-- C17: for every process table with at least one Runnable descriptor, the
loop of `schedule()` reaches `run` within `NPROC` iterations; it spins forever
(no number of iterations reaches `run`) exactly when no descriptor is
Runnable. -/
theorem schedule_terminates (L : Layout) (hN : 0 < L.NPROC) (s : KState) :
    ((∃ i, i < L.NPROC ∧ (s.processes i).p_state = procstate.P_RUNNABLE) →
        ∃ s1, schedule_loop L s L.NPROC (s.processes s.current).p_pid = some s1)
    ∧ ((∀ fuel, schedule_loop L s fuel (s.processes s.current).p_pid = none) ↔
        ∀ i, i < L.NPROC → (s.processes i).p_state ≠ procstate.P_RUNNABLE) := by
  constructor
  · intro hex
    obtain ⟨k, h1, h2, hr, hmin⟩ := first_runnable hN s (s.processes s.current).p_pid hex
    exact ⟨_, schedule_loop_first L.NPROC _ k h1 h2 hr hmin⟩
  · constructor
    · intro h i hi
      obtain ⟨k, a1, a2, a3⟩ := scan_reaches hN (s.processes s.current).p_pid i hi
      have := (schedule_loop_none L.NPROC _).mp (h L.NPROC) k a1 a2
      rw [a3] at this
      exact this
    · intro h fuel
      rw [schedule_loop_none]
      intro k _ _
      exact h _ (Nat.mod_lt _ hN)

/-- Witness of `schedule_terminates` on `sampleState`. -/
theorem schedule_terminates_witness :
    ((∃ i, i < smallLayout.NPROC ∧ (sampleState.processes i).p_state = procstate.P_RUNNABLE) →
        ∃ s1, schedule_loop smallLayout sampleState smallLayout.NPROC
          (sampleState.processes sampleState.current).p_pid = some s1)
    ∧ ((∀ fuel, schedule_loop smallLayout sampleState fuel
          (sampleState.processes sampleState.current).p_pid = none) ↔
        ∀ i, i < smallLayout.NPROC → (sampleState.processes i).p_state ≠ procstate.P_RUNNABLE) :=
  schedule_terminates smallLayout (by decide) sampleState

theorem smallLayout_ints : smallLayout.IntsDistinct := by
  unfold Layout.IntsDistinct; decide

theorem ints_ne {L : Layout} (h : L.IntsDistinct) :
    L.INT_SYS_PANIC ≠ L.INT_SYS_GETPID ∧ L.INT_SYS_PANIC ≠ L.INT_SYS_YIELD
    ∧ L.INT_SYS_PANIC ≠ L.INT_SYS_PAGE_ALLOC ∧ L.INT_SYS_PANIC ≠ L.INT_TIMER
    ∧ L.INT_SYS_PANIC ≠ L.INT_SYS_FORK ∧ L.INT_SYS_PANIC ≠ L.INT_SYS_EXIT
    ∧ L.INT_SYS_PANIC ≠ L.INT_PAGEFAULT
    ∧ L.INT_SYS_GETPID ≠ L.INT_SYS_YIELD ∧ L.INT_SYS_GETPID ≠ L.INT_SYS_PAGE_ALLOC
    ∧ L.INT_SYS_GETPID ≠ L.INT_TIMER ∧ L.INT_SYS_GETPID ≠ L.INT_SYS_FORK
    ∧ L.INT_SYS_GETPID ≠ L.INT_SYS_EXIT ∧ L.INT_SYS_GETPID ≠ L.INT_PAGEFAULT
    ∧ L.INT_SYS_YIELD ≠ L.INT_SYS_PAGE_ALLOC ∧ L.INT_SYS_YIELD ≠ L.INT_TIMER
    ∧ L.INT_SYS_YIELD ≠ L.INT_SYS_FORK ∧ L.INT_SYS_YIELD ≠ L.INT_SYS_EXIT
    ∧ L.INT_SYS_YIELD ≠ L.INT_PAGEFAULT
    ∧ L.INT_SYS_PAGE_ALLOC ≠ L.INT_TIMER ∧ L.INT_SYS_PAGE_ALLOC ≠ L.INT_SYS_FORK
    ∧ L.INT_SYS_PAGE_ALLOC ≠ L.INT_SYS_EXIT ∧ L.INT_SYS_PAGE_ALLOC ≠ L.INT_PAGEFAULT
    ∧ L.INT_TIMER ≠ L.INT_SYS_FORK ∧ L.INT_TIMER ≠ L.INT_SYS_EXIT
    ∧ L.INT_TIMER ≠ L.INT_PAGEFAULT
    ∧ L.INT_SYS_FORK ≠ L.INT_SYS_EXIT ∧ L.INT_SYS_FORK ≠ L.INT_PAGEFAULT
    ∧ L.INT_SYS_EXIT ≠ L.INT_PAGEFAULT := by
  unfold Layout.IntsDistinct at h
  simp only [List.nodup_cons, List.mem_cons, List.mem_singleton, not_or, List.not_mem_nil,
    not_false_eq_true, List.nodup_nil, and_true] at h
  obtain ⟨⟨a1, a2, a3, a4, a5, a6, a7⟩, ⟨b1, b2, b3, b4, b5, b6⟩, ⟨c1, c2, c3, c4, c5⟩,
    ⟨d1, d2, d3, d4⟩, ⟨e1, e2, e3⟩, ⟨f1, f2⟩, g1⟩ := h
  exact ⟨a1, a2, a3, a4, a5, a6, a7, b1, b2, b3, b4, b5, b6, c1, c2, c3, c4, c5,
    d1, d2, d3, d4, e1, e2, e3, f1, f2, g1⟩

theorem exception_switch_getpid {L : Layout} (hI : L.IntsDistinct) (s : KState)
    (reg : x86_registers) (h : reg.reg_intno = L.INT_SYS_GETPID) :
    exception_switch L s reg
      = some (Dispatch.handled (set_eax s s.current (s.processes s.current).p_pid)) := by
  obtain ⟨a1, _⟩ := ints_ne hI
  unfold exception_switch
  dsimp only
  rw [h, if_neg a1.symm, if_pos rfl]

theorem exception_switch_page_alloc {L : Layout} (hI : L.IntsDistinct) (s : KState)
    (reg : x86_registers) (h : reg.reg_intno = L.INT_SYS_PAGE_ALLOC) :
    exception_switch L s reg =
      if (physical_page_alloc L s.pageinfo (find_free_page L s.pageinfo)
          (toInt8 (s.processes s.current).p_pid)).2 ≥ 0 then
        match virtual_memory_map L s.mem (s.processes s.current).p_pagetable
            (s.processes s.current).p_registers.reg_eax (find_free_page L s.pageinfo) PAGESIZE
            (PTE_P ||| PTE_W ||| PTE_U) with
        | none => none
        | some m1 =>
          some (Dispatch.handled (set_eax
            { s with
              pageinfo := (physical_page_alloc L s.pageinfo (find_free_page L s.pageinfo)
                (toInt8 (s.processes s.current).p_pid)).1,
              mem := m1 } s.current
            (toU32 (physical_page_alloc L s.pageinfo (find_free_page L s.pageinfo)
              (toInt8 (s.processes s.current).p_pid)).2)))
      else some (Dispatch.handled (set_eax
        { s with
          pageinfo := (physical_page_alloc L s.pageinfo (find_free_page L s.pageinfo)
            (toInt8 (s.processes s.current).p_pid)).1 } s.current
        (toU32 (physical_page_alloc L s.pageinfo (find_free_page L s.pageinfo)
          (toInt8 (s.processes s.current).p_pid)).2))) := by
  obtain ⟨_, _, a3, _, _, _, _, _, b2, _, _, _, _, c1, _⟩ := ints_ne hI
  unfold exception_switch
  dsimp only
  rw [h, if_neg a3.symm, if_neg b2.symm, if_neg c1.symm, if_pos rfl]

theorem exception_switch_fork {L : Layout} (hI : L.IntsDistinct) (s : KState)
    (reg : x86_registers) (h : reg.reg_intno = L.INT_SYS_FORK) :
    exception_switch L s reg = (fork L s).map (fun r => Dispatch.handled r.1) := by
  obtain ⟨_, _, _, _, a5, _, _, _, _, _, b4, _, _, _, _, c3, _, _, _, d2, _, _, e1, _⟩ :=
    ints_ne hI
  unfold exception_switch
  dsimp only
  rw [h, if_neg a5.symm, if_neg b4.symm, if_neg c3.symm, if_neg d2.symm, if_neg e1.symm,
    if_pos rfl]

theorem exception_switch_exit {L : Layout} (hI : L.IntsDistinct) (s : KState)
    (reg : x86_registers) (h : reg.reg_intno = L.INT_SYS_EXIT) :
    exception_switch L s reg
      = (sys_exit L s (s.processes s.current).p_pid).map Dispatch.handled := by
  obtain ⟨_, _, _, _, _, a6, _, _, _, _, _, b5, _, _, _, _, c4, _, _, _, d3, _, _, e2, _,
    f1, _⟩ := ints_ne hI
  unfold exception_switch
  dsimp only
  rw [h, if_neg a6.symm, if_neg b5.symm, if_neg c4.symm, if_neg d3.symm, if_neg e2.symm,
    if_neg f1.symm, if_pos rfl]

theorem exception_switch_pagefault {L : Layout} (hI : L.IntsDistinct) (s : KState)
    (reg : x86_registers) (h : reg.reg_intno = L.INT_PAGEFAULT) :
    exception_switch L s reg
      = if reg.reg_err &&& PFERR_USER = 0 then none
        else some (Dispatch.handled (set_state s s.current procstate.P_BROKEN)) := by
  obtain ⟨_, _, _, _, _, _, a7, _, _, _, _, _, b6, _, _, _, _, c5, _, _, _, d4, _, _, e3, _,
    f2, g1⟩ := ints_ne hI
  unfold exception_switch
  dsimp only
  rw [h, if_neg a7.symm, if_neg b6.symm, if_neg c5.symm, if_neg d4.symm, if_neg e3.symm,
    if_neg f2.symm, if_neg g1.symm, if_pos rfl]

theorem fork_loop_failed_frame {L : Layout} {slot cp : Nat} (fuel : Nat) :
    ∀ (i : Nat) (s s1 : KState), fork_loop L slot cp fuel i s = some (ForkStep.failed s1) →
      ∃ sk, sk.processes = s.processes ∧ sk.current = s.current
        ∧ sys_exit L (set_eax sk sk.current (toU32 (-1))) (sk.processes slot).p_pid = some s1 := by
  induction fuel with
  | zero => intro i s s1 h; simp [fork_loop] at h
  | succ n ih =>
    intro i s s1 h
    unfold fork_loop at h
    split at h
    · cases h
    · rename_i s2 hp
      cases h
      exact ⟨s, rfl, rfl, fork_page_failed hp⟩
    · rename_i s2 hp
      obtain ⟨a, b, _⟩ := fork_page_next_frame hp
      obtain ⟨sk, c, d, e⟩ := ih _ _ _ h
      exact ⟨sk, c.trans a, d.trans b, e⟩

theorem set_eax_proc (s : KState) (pid v j : Nat) :
    ((set_eax s pid v).processes j).p_state = (s.processes j).p_state
    ∧ ((set_eax s pid v).processes j).p_pid = (s.processes j).p_pid
    ∧ ((set_eax s pid v).processes j).p_pagetable = (s.processes j).p_pagetable := by
  unfold set_eax set_registers set_proc
  by_cases e : j = pid
  · subst e; simp only [Function.update_same, and_self]
  · simp only [Function.update_noteq e, and_self]

theorem set_eax_frame (s : KState) (pid v : Nat) :
    (set_eax s pid v).current = s.current ∧ (set_eax s pid v).mem = s.mem
    ∧ (set_eax s pid v).pageinfo = s.pageinfo := ⟨rfl, rfl, rfl⟩

theorem set_eax_eax (s : KState) (pid v : Nat) :
    ((set_eax s pid v).processes pid).p_registers.reg_eax = v := by
  unfold set_eax set_registers set_proc
  simp only [Function.update_same]

/-- The end of a failed `fork`, as far as the parent's descriptor goes. -/
theorem fork_failure_parent {L : Layout} {s sk s1 : KState} {slot v : Nat}
    (hne : slot ≠ s.current) (hcur : sk.current = s.current)
    (hpid : (sk.processes slot).p_pid = slot)
    (hpar : sk.processes s.current = s.processes s.current)
    (h : sys_exit L (set_eax sk sk.current v) (sk.processes slot).p_pid = some s1) :
    s1.current = s.current
    ∧ (s1.processes s.current).p_state = (s.processes s.current).p_state
    ∧ (s1.processes s.current).p_pid = (s.processes s.current).p_pid
    ∧ (s1.processes s.current).p_pagetable = (s.processes s.current).p_pagetable := by
  obtain ⟨hc, _, _, hp⟩ := sys_exit_frame h
  have hne' : s.current ≠ slot := fun x => hne x.symm
  rw [hpid] at hp
  obtain ⟨a, b, c⟩ := set_eax_proc sk sk.current v s.current
  refine ⟨by rw [hc]; exact hcur, ?_, ?_, ?_⟩
  · rw [hp, Function.update_noteq hne', a, hpar]
  · rw [hp, Function.update_noteq hne', b, hpar]
  · rw [hp, Function.update_noteq hne', c, hpar]

/-- Whatever way `fork` returns, the calling process stays current and keeps
its state, pid and page table. -/
theorem fork_parent_kept {L : Layout} {s s1 : KState} {r : Int}
    (h : fork L s = some (s1, r))
    (hcur : (s.processes s.current).p_state ≠ procstate.P_FREE) :
    s1.current = s.current
    ∧ (s1.processes s.current).p_state = (s.processes s.current).p_state
    ∧ (s1.processes s.current).p_pid = (s.processes s.current).p_pid
    ∧ (s1.processes s.current).p_pagetable = (s.processes s.current).p_pagetable := by
  cases hslot : fork_find_slot s.processes (L.NPROC - 1) 1 with
  | none =>
    have hall : ∀ i, 1 ≤ i → i < L.NPROC → (s.processes i).p_state ≠ procstate.P_FREE :=
      fun i h1 h2 => (fork_find_slot_none _ _ _).mp hslot i h1 (by omega)
    rw [fork_no_slot hall] at h
    cases h
    exact ⟨rfl, rfl, rfl, rfl⟩
  | some slot =>
    have hfree := (fork_find_slot_some _ _ _ _ hslot).2.2.1
    have hne : slot ≠ s.current := by
      intro e; rw [e] at hfree; exact hcur hfree
    have hne' : s.current ≠ slot := fun x => hne x.symm
    by_cases hr : r = (slot : Int)
    · have hr1 : r ≠ -1 := by omega
      obtain ⟨slot', cp, hslot', _, _, hc, _, hpar, _⟩ := fork_success_state h hr1 hcur
      refine ⟨hc, ?_, ?_, ?_⟩ <;> rw [hpar]
    · obtain ⟨_, hshape⟩ := fork_failure_shape hslot h hr
      rcases hshape with ⟨s2, hcp, hexit⟩ | ⟨s2, cp, hcp, _, hloop⟩
      · obtain ⟨p2, c2, _⟩ := copy_pagetable_frame hcp
        refine fork_failure_parent hne (by rw [c2]; rfl) ?_ ?_ hexit
        · rw [p2]; simp [fork_claim_slot, set_proc]
        · rw [p2]; simp [fork_claim_slot, set_proc, Function.update, hne']
      · obtain ⟨p2, c2, _⟩ := copy_pagetable_frame hcp
        obtain ⟨sk, pk, ck, hexit⟩ := fork_loop_failed_frame _ _ _ _ hloop
        refine fork_failure_parent hne (by rw [ck]; show s2.current = _; rw [c2]; rfl) ?_ ?_
          hexit
        · rw [pk]; simp [set_pagetable_of, set_proc, p2, fork_claim_slot]
        · rw [pk]
          simp [set_pagetable_of, set_proc, p2, fork_claim_slot, Function.update, hne']

theorem run_current (s : KState)
    (h : (s.processes s.current).p_state = procstate.P_RUNNABLE) : run s s.current = some s := by
  unfold run
  rw [if_pos h]

/-- The tail of `exception`: when the memory check passes and the `switch`
reaches its `break`, the current process is resumed if it is runnable and the
scheduler is called otherwise. -/
theorem exception_handled {L : Layout} {s s1 : KState} {reg : x86_registers}
    (hcheck : virtual_memory_check L (set_registers s s.current reg) = true)
    (h : exception_switch L (set_registers s s.current reg) reg = some (Dispatch.handled s1)) :
    exception L s reg =
      if (s1.processes s1.current).p_state = procstate.P_RUNNABLE then some s1
      else schedule L s1 := by
  unfold exception
  dsimp only
  rw [if_neg (by rw [hcheck]; simp), h]
  dsimp only
  by_cases hr : (s1.processes s1.current).p_state = procstate.P_RUNNABLE
  · rw [if_pos hr, if_pos hr, run_current s1 hr]
  · rw [if_neg hr, if_neg hr]

theorem set_registers_proc (s : KState) (pid : Nat) (r : x86_registers) (j : Nat) :
    ((set_registers s pid r).processes j).p_state = (s.processes j).p_state
    ∧ ((set_registers s pid r).processes j).p_pid = (s.processes j).p_pid
    ∧ ((set_registers s pid r).processes j).p_pagetable = (s.processes j).p_pagetable := by
  unfold set_registers set_proc
  by_cases e : j = pid
  · subst e; simp only [Function.update_same, and_self]
  · simp only [Function.update_noteq e, and_self]

theorem set_registers_regs (s : KState) (pid : Nat) (r : x86_registers) :
    ((set_registers s pid r).processes pid).p_registers = r := by
  unfold set_registers set_proc
  simp only [Function.update_same]

/-- Only get-pid, page allocation, fork, exit and a page fault reach the
`break` of the `switch`. -/
theorem exception_switch_handled_kind {L : Layout} {s s1 : KState} {reg : x86_registers}
    (h : exception_switch L s reg = some (Dispatch.handled s1)) :
    reg.reg_intno = L.INT_SYS_GETPID ∨ reg.reg_intno = L.INT_SYS_PAGE_ALLOC
    ∨ reg.reg_intno = L.INT_SYS_FORK ∨ reg.reg_intno = L.INT_SYS_EXIT
    ∨ (reg.reg_intno = L.INT_PAGEFAULT ∧ reg.reg_err &&& PFERR_USER ≠ 0) := by
  unfold exception_switch at h
  dsimp only at h
  split at h
  · cases h
  · split at h
    · left; assumption
    · split at h
      · exfalso
        cases hs : schedule L s with
        | none => rw [hs] at h; cases h
        | some x => rw [hs] at h; cases h
      · split at h
        · right; left; assumption
        · split at h
          · exfalso
            cases hs : schedule L { s with ticks := (s.ticks + 1) % WORD } with
            | none => rw [hs] at h; cases h
            | some x => rw [hs] at h; cases h
          · split at h
            · right; right; left; assumption
            · split at h
              · right; right; right; left; assumption
              · split at h
                · rename_i hpf
                  split at h
                  · cases h
                  · rename_i hu
                    right; right; right; right
                    exact ⟨hpf, hu⟩
                · cases h

/-- The events after which the caller is still runnable: the state that
get-pid, page allocation or fork leave has the same current process, still
Runnable. -/
theorem exception_switch_keeps_runnable {L : Layout} (hI : L.IntsDistinct) {s s1 : KState}
    {reg : x86_registers}
    (hrun : (s.processes s.current).p_state = procstate.P_RUNNABLE)
    (hk : reg.reg_intno = L.INT_SYS_GETPID ∨ reg.reg_intno = L.INT_SYS_PAGE_ALLOC
      ∨ reg.reg_intno = L.INT_SYS_FORK)
    (h : exception_switch L s reg = some (Dispatch.handled s1)) :
    s1.current = s.current
    ∧ (s1.processes s1.current).p_state = procstate.P_RUNNABLE := by
  rcases hk with hk | hk | hk
  · rw [exception_switch_getpid hI s reg hk] at h
    cases h
    exact ⟨rfl, by rw [(set_eax_proc _ _ _ _).1]; exact hrun⟩
  · rw [exception_switch_page_alloc hI s reg hk] at h
    split at h
    · split at h
      · cases h
      · cases h
        exact ⟨rfl, by rw [(set_eax_proc _ _ _ _).1]; exact hrun⟩
    · cases h
      exact ⟨rfl, by rw [(set_eax_proc _ _ _ _).1]; exact hrun⟩
  · rw [exception_switch_fork hI s reg hk] at h
    cases hf : fork L s with
    | none => rw [hf] at h; cases h
    | some p =>
      rw [hf] at h
      obtain ⟨s2, r⟩ := p
      cases h
      obtain ⟨a, b, _, _⟩ := fork_parent_kept hf (by rw [hrun]; decide)
      exact ⟨a, by rw [a, b]; exact hrun⟩

/-- The events after which the caller is not runnable any more: exit and a
user-mode page fault. -/
theorem exception_switch_stops_caller {L : Layout} (hI : L.IntsDistinct) {s s1 : KState}
    {reg : x86_registers}
    (hpid : (s.processes s.current).p_pid = s.current)
    (hk : reg.reg_intno = L.INT_SYS_EXIT
      ∨ (reg.reg_intno = L.INT_PAGEFAULT ∧ reg.reg_err &&& PFERR_USER ≠ 0))
    (h : exception_switch L s reg = some (Dispatch.handled s1)) :
    s1.current = s.current
    ∧ (s1.processes s1.current).p_state ≠ procstate.P_RUNNABLE := by
  rcases hk with hk | ⟨hk, hu⟩
  · rw [exception_switch_exit hI s reg hk, hpid] at h
    cases he : sys_exit L s s.current with
    | none => rw [he] at h; cases h
    | some s2 =>
      rw [he] at h
      cases h
      obtain ⟨hc, _, _, hp⟩ := sys_exit_frame he
      refine ⟨hc, ?_⟩
      rw [hc, hp, Function.update_same]
      exact (show procstate.P_FREE ≠ procstate.P_RUNNABLE by decide)
  · rw [exception_switch_pagefault hI s reg hk, if_neg hu] at h
    cases h
    refine ⟨rfl, ?_⟩
    show ((set_state s s.current procstate.P_BROKEN).processes s.current).p_state ≠ _
    unfold set_state set_proc
    simp only [Function.update_same]
    exact (show procstate.P_BROKEN ≠ procstate.P_RUNNABLE by decide)

/-- C18: for every event that `exception()` handles without panicking or
calling the scheduler inside the `switch` (get-pid, page allocation, fork,
exit, user page fault), the dispatcher resumes the current process if and only
if its state is Runnable after handling, and otherwise invokes the scheduler:
get-pid, page allocation and fork resume the caller; exit and a user page
fault invoke the scheduler. -/
theorem exception_resume_rule (L : Layout) (hI : L.IntsDistinct) (s s1 : KState)
    (reg : x86_registers)
    (hcheck : virtual_memory_check L (set_registers s s.current reg) = true)
    (hrun : (s.processes s.current).p_state = procstate.P_RUNNABLE)
    (hpid : (s.processes s.current).p_pid = s.current)
    (h : exception_switch L (set_registers s s.current reg) reg = some (Dispatch.handled s1)) :
    (exception L s reg =
        if (s1.processes s1.current).p_state = procstate.P_RUNNABLE then some s1
        else schedule L s1)
    ∧ (reg.reg_intno = L.INT_SYS_GETPID ∨ reg.reg_intno = L.INT_SYS_PAGE_ALLOC
        ∨ reg.reg_intno = L.INT_SYS_FORK ∨ reg.reg_intno = L.INT_SYS_EXIT
        ∨ (reg.reg_intno = L.INT_PAGEFAULT ∧ reg.reg_err &&& PFERR_USER ≠ 0))
    ∧ ((reg.reg_intno = L.INT_SYS_GETPID ∨ reg.reg_intno = L.INT_SYS_PAGE_ALLOC
          ∨ reg.reg_intno = L.INT_SYS_FORK) →
        (s1.processes s1.current).p_state = procstate.P_RUNNABLE
        ∧ s1.current = s.current ∧ exception L s reg = some s1)
    ∧ ((reg.reg_intno = L.INT_SYS_EXIT
          ∨ (reg.reg_intno = L.INT_PAGEFAULT ∧ reg.reg_err &&& PFERR_USER ≠ 0)) →
        (s1.processes s1.current).p_state ≠ procstate.P_RUNNABLE
        ∧ s1.current = s.current ∧ exception L s reg = schedule L s1) := by
  have hrule := exception_handled hcheck h
  have hrun0 : ((set_registers s s.current reg).processes
      (set_registers s s.current reg).current).p_state = procstate.P_RUNNABLE := by
    show ((set_registers s s.current reg).processes s.current).p_state = _
    rw [(set_registers_proc _ _ _ _).1]; exact hrun
  have hpid0 : ((set_registers s s.current reg).processes
      (set_registers s s.current reg).current).p_pid
        = (set_registers s s.current reg).current := by
    show ((set_registers s s.current reg).processes s.current).p_pid = s.current
    rw [(set_registers_proc _ _ _ _).2.1]; exact hpid
  refine ⟨hrule, exception_switch_handled_kind h, ?_, ?_⟩
  · intro hk
    obtain ⟨a, b⟩ := exception_switch_keeps_runnable hI hrun0 hk h
    exact ⟨b, a, by rw [hrule, if_pos b]⟩
  · intro hk
    obtain ⟨a, b⟩ := exception_switch_stops_caller hI hpid0 hk h
    exact ⟨b, a, by rw [hrule, if_neg b]⟩

set_option maxRecDepth 100000 in
theorem sampleState_check_getpid :
    virtual_memory_check smallLayout
      (set_registers sampleState sampleState.current (sampleRegs 7 49)) = true := by decide!

/-- Witness of `exception_resume_rule`: the get-pid request of process 1 in
`sampleState` resumes process 1. -/
theorem exception_resume_rule_witness :
    (sampleGetpid.processes sampleGetpid.current).p_state = procstate.P_RUNNABLE
    ∧ sampleGetpid.current = sampleState.current
    ∧ exception smallLayout sampleState (sampleRegs 7 49) = some sampleGetpid :=
  (exception_resume_rule smallLayout smallLayout_ints sampleState sampleGetpid
    (sampleRegs 7 49) sampleState_check_getpid (by decide) (by decide)
    (exception_switch_getpid smallLayout_ints _ _ rfl)).2.2.1 (Or.inl rfl)

theorem virtual_memory_map_single_ok {L : Layout} {mem : Memory} {pt va pa perm : Nat}
    (hva : va % PAGESIZE = 0) (hva32 : va + PAGESIZE ≤ WORD) (hpa : pa % PAGESIZE = 0)
    (hpal : pa + PAGESIZE ≤ L.MEMSIZE_PHYSICAL) (hperm : perm < 4096)
    (hpt : pt % PAGESIZE = 0)
    (hpde : mem (PAGENUMBER pt) (L1PAGEINDEX va) &&& PTE_P ≠ 0) :
    virtual_memory_map L mem pt va pa PAGESIZE perm
      = some (Function.update mem (PAGENUMBER (mem (PAGENUMBER pt) (L1PAGEINDEX va)))
          (Function.update (mem (PAGENUMBER (mem (PAGENUMBER pt) (L1PAGEINDEX va))))
            (L2PAGEINDEX va) (if perm &&& PTE_P ≠ 0 then pa ||| perm else perm))) := by
  unfold virtual_memory_map
  have hc : va % PAGESIZE = 0 ∧ PAGESIZE % PAGESIZE = 0 ∧ va + PAGESIZE ≤ WORD
      ∧ pa % PAGESIZE = 0 ∧ pa + PAGESIZE ≤ L.MEMSIZE_PHYSICAL
      ∧ perm < 4096 ∧ pt % PAGESIZE = 0 :=
    ⟨hva, by decide, hva32, hpa, hpal, hperm, hpt⟩
  rw [if_pos hc]
  have e : PAGESIZE / PAGESIZE = 1 := by decide
  rw [e, virtual_memory_map_loop_one]
  unfold virtual_memory_map_page
  dsimp only
  rw [if_neg hpde]

theorem alloc_at_minus_one (L : Layout) (pageinfo : PageInfo) (owner : Int) :
    physical_page_alloc L pageinfo UINTPTR_MINUS_ONE owner = (pageinfo, -1) := by
  unfold physical_page_alloc
  have : UINTPTR_MINUS_ONE &&& 0xFFF ≠ 0 := by decide
  rw [if_pos (Or.inl this)]

/-- C20: for a page-allocation request issued when no frame is Free, the
requester is resumed with `reg_eax` = -1, and the frame table, memory (hence
every address space) and every process's state, pid and page-table pointer
are unchanged. -/
theorem page_alloc_exhausted (L : Layout) (hL : L.WF) (hI : L.IntsDistinct) (s : KState)
    (reg : x86_registers)
    (hcheck : virtual_memory_check L (set_registers s s.current reg) = true)
    (hrun : (s.processes s.current).p_state = procstate.P_RUNNABLE)
    (hint : reg.reg_intno = L.INT_SYS_PAGE_ALLOC)
    (hnone : ∀ pn, pn < NPAGES L → (s.pageinfo pn).owner ≠ PO_FREE) :
    ∃ s1, exception L s reg = some s1
      ∧ (s1.processes s.current).p_registers = { reg with reg_eax := 0xFFFFFFFF }
      ∧ s1.pageinfo = s.pageinfo ∧ s1.mem = s.mem ∧ s1.current = s.current
      ∧ ∀ j, (s1.processes j).p_state = (s.processes j).p_state
          ∧ (s1.processes j).p_pid = (s.processes j).p_pid
          ∧ (s1.processes j).p_pagetable = (s.processes j).p_pagetable := by
  have hff : find_free_page L s.pageinfo = UINTPTR_MINUS_ONE :=
    (find_free_page_none_iff L s.pageinfo).mpr hnone
  have hsw : exception_switch L (set_registers s s.current reg) reg
      = some (Dispatch.handled
          (set_eax (set_registers s s.current reg) s.current (toU32 (-1)))) := by
    rw [exception_switch_page_alloc hI _ reg hint]
    have e1 : (set_registers s s.current reg).pageinfo = s.pageinfo := rfl
    rw [e1, hff, alloc_at_minus_one]
    dsimp only
    rw [if_neg (by decide)]
    rfl
  have hr1 : ((set_eax (set_registers s s.current reg) s.current (toU32 (-1))).processes
      (set_eax (set_registers s s.current reg) s.current (toU32 (-1))).current).p_state
        = procstate.P_RUNNABLE := by
    show ((set_eax (set_registers s s.current reg) s.current (toU32 (-1))).processes
      s.current).p_state = _
    rw [(set_eax_proc _ _ _ _).1, (set_registers_proc _ _ _ _).1]; exact hrun
  refine ⟨set_eax (set_registers s s.current reg) s.current (toU32 (-1)),
    by rw [exception_handled hcheck hsw, if_pos hr1], ?_, rfl, rfl, rfl, ?_⟩
  · unfold set_eax set_registers set_proc
    simp only [Function.update_same]
    rw [toU32_neg_one]
  · intro j
    obtain ⟨a1, a2, a3⟩ := set_eax_proc (set_registers s s.current reg) s.current
      (toU32 (-1)) j
    obtain ⟨b1, b2, b3⟩ := set_registers_proc s s.current reg j
    exact ⟨a1.trans b1, a2.trans b2, a3.trans b3⟩

set_option maxRecDepth 100000 in
theorem sampleFull_check :
    virtual_memory_check smallLayout
      (set_registers sampleFull sampleFull.current (sampleRegs 0x19000 51)) = true := by decide!

theorem sampleFull_none : ∀ pn, pn < NPAGES smallLayout → (sampleFull.pageinfo pn).owner ≠ PO_FREE := by
  intro pn _
  show (if pn = 0 ∨ pn = 5 then (⟨-1, 1⟩ : physical_pageinfo)
      else if pn < 5 then ⟨-2, 1⟩ else ⟨1, 1⟩).owner ≠ PO_FREE
  split_ifs <;> decide

/-- Witness of `page_alloc_exhausted`: a page-allocation request of process 1
in `sampleFull`, where no frame is free. -/
theorem page_alloc_exhausted_witness :
    ∃ s1, exception smallLayout sampleFull (sampleRegs 0x19000 51) = some s1
      ∧ (s1.processes sampleFull.current).p_registers
          = { sampleRegs 0x19000 51 with reg_eax := 0xFFFFFFFF }
      ∧ s1.pageinfo = sampleFull.pageinfo ∧ s1.mem = sampleFull.mem
      ∧ s1.current = sampleFull.current
      ∧ ∀ j, (s1.processes j).p_state = (sampleFull.processes j).p_state
          ∧ (s1.processes j).p_pid = (sampleFull.processes j).p_pid
          ∧ (s1.processes j).p_pagetable = (sampleFull.processes j).p_pagetable :=
  page_alloc_exhausted smallLayout smallLayout_WF smallLayout_ints sampleFull
    (sampleRegs 0x19000 51) sampleFull_check (by decide) rfl sampleFull_none

theorem flags7 : PTE_P ||| PTE_W ||| PTE_U = 7 := by decide

/-- C19: for a page-allocation request with page-aligned virtual address `v`
from the current process, when at least one frame is Free and refcount 0 iff
Free holds: the lowest Free frame becomes owned by the current process with
refcount 1 (no other record changes), the current address space maps `v` to
that frame with present, writable and user-accessible permissions, the saved
`reg_eax` is 0 and the process is resumed.  The outer page-table entry of `v`
is present and points to another frame than the outer table. -/
theorem page_alloc_maps (L : Layout) (hL : L.WF) (hI : L.IntsDistinct) (s : KState)
    (reg : x86_registers) (F : Nat)
    (hcheck : virtual_memory_check L (set_registers s s.current reg) = true)
    (hrun : (s.processes s.current).p_state = procstate.P_RUNNABLE)
    (hpid : (s.processes s.current).p_pid = s.current) (hcur : s.current < L.NPROC)
    (hint : reg.reg_intno = L.INT_SYS_PAGE_ALLOC)
    (hinv : ∀ pn, pn < NPAGES L → ((s.pageinfo pn).refcount = 0 ↔ (s.pageinfo pn).owner = PO_FREE))
    (hF : F < NPAGES L) (hfree : (s.pageinfo F).owner = PO_FREE)
    (hlow : ∀ j, j < F → (s.pageinfo j).owner ≠ PO_FREE)
    (hv : reg.reg_eax % PAGESIZE = 0) (hv32 : reg.reg_eax < WORD)
    (hpt : (s.processes s.current).p_pagetable % PAGESIZE = 0)
    (hpde : s.mem (PAGENUMBER (s.processes s.current).p_pagetable)
        (L1PAGEINDEX reg.reg_eax) &&& PTE_P ≠ 0)
    (hne : PAGENUMBER (s.mem (PAGENUMBER (s.processes s.current).p_pagetable)
        (L1PAGEINDEX reg.reg_eax)) ≠ PAGENUMBER (s.processes s.current).p_pagetable) :
    ∃ s1, exception L s reg = some s1
      ∧ s1.pageinfo = Function.update s.pageinfo F { owner := (s.current : Int), refcount := 1 }
      ∧ virtual_memory_lookup s1.mem (s1.processes s.current).p_pagetable reg.reg_eax
          = { pn := F, pa := PAGEADDRESS F, perm := PTE_P ||| PTE_W ||| PTE_U }
      ∧ (s1.processes s.current).p_registers = { reg with reg_eax := 0 }
      ∧ s1.current = s.current
      ∧ (s1.processes s.current).p_state = procstate.P_RUNNABLE := by
  have hF20 : F < 2 ^ 20 := lt_of_lt_of_le hF (NPAGES_lt L hL.phys_lt)
  have hff : find_free_page L s.pageinfo = PAGEADDRESS F := by
    rw [PAGEADDRESS_eq_mul F hF20]
    exact find_free_page_lowest hL.phys_lt s.pageinfo F hF hfree hlow
  have hrc : (s.pageinfo F).refcount = 0 := (hinv F hF).mpr hfree
  have hFlt : PAGEADDRESS F + PAGESIZE ≤ L.MEMSIZE_PHYSICAL := by
    rw [PAGEADDRESS_eq_mul F hF20]
    have := hL.phys_aligned
    unfold NPAGES at hF
    rw [PAGENUMBER_eq_div] at hF
    unfold PAGESIZE at *
    omega
  have hcur128 : (s.current : Int) ≤ 127 := by
    have := hL.nproc_le
    omega
  set s0 := set_registers s s.current reg with hs0
  have hp0 : (s0.processes s0.current).p_pid = s.current := by
    show ((set_registers s s.current reg).processes s.current).p_pid = _
    rw [(set_registers_proc _ _ _ _).2.1]; exact hpid
  have hpt0 : (s0.processes s0.current).p_pagetable = (s.processes s.current).p_pagetable := by
    show ((set_registers s s.current reg).processes s.current).p_pagetable = _
    rw [(set_registers_proc _ _ _ _).2.2]
  have hr0 : (s0.processes s0.current).p_registers = reg := set_registers_regs _ _ _
  have hpi0 : s0.pageinfo = s.pageinfo := rfl
  have hm0 : s0.mem = s.mem := rfl
  have hc0 : s0.current = s.current := rfl
  have halloc : physical_page_alloc L s.pageinfo (PAGEADDRESS F) (toInt8 (s.current : Int))
      = (Function.update s.pageinfo F { owner := (s.current : Int), refcount := 1 }, 0) := by
    unfold physical_page_alloc
    rw [and_fff_eq_mod, PAGENUMBER_PAGEADDRESS hF20, toInt8_of_range (by omega) hcur128]
    have : ¬ (PAGEADDRESS F % PAGESIZE ≠ 0 ∨ PAGEADDRESS F ≥ L.MEMSIZE_PHYSICAL
        ∨ (s.pageinfo F).refcount ≠ 0) := by
      rw [PAGEADDRESS_aligned, hrc]
      unfold PAGESIZE at hFlt
      simp only [ne_eq, not_true_eq_false, ge_iff_le, false_or, or_false, not_le]
      omega
    rw [if_neg this]
  have hmap := @virtual_memory_map_single_ok L s.mem
    (s.processes s.current).p_pagetable reg.reg_eax (PAGEADDRESS F)
    (PTE_P ||| PTE_W ||| PTE_U) hv
    (by unfold PAGESIZE WORD at *; omega) (PAGEADDRESS_aligned F) hFlt (by decide) hpt hpde
  rw [if_pos (by decide)] at hmap
  generalize hm1 : Function.update s.mem
      (PAGENUMBER (s.mem (PAGENUMBER (s.processes s.current).p_pagetable)
        (L1PAGEINDEX reg.reg_eax)))
      (Function.update (s.mem (PAGENUMBER (s.mem (PAGENUMBER (s.processes s.current).p_pagetable)
        (L1PAGEINDEX reg.reg_eax)))) (L2PAGEINDEX reg.reg_eax)
        (PAGEADDRESS F ||| (PTE_P ||| PTE_W ||| PTE_U))) = m1 at hmap
  have hsw : exception_switch L s0 reg
      = some (Dispatch.handled (set_eax
          { s0 with
            pageinfo := Function.update s.pageinfo F
              { owner := (s.current : Int), refcount := 1 },
            mem := m1 } s.current 0)) := by
    rw [exception_switch_page_alloc hI _ reg hint, hp0, hpt0, hr0, hpi0, hm0, hc0, hff, halloc,
      hmap]
    dsimp only
    rw [if_pos (by decide)]
    rfl
  refine ⟨set_eax { s0 with
      pageinfo := Function.update s.pageinfo F { owner := (s.current : Int), refcount := 1 },
      mem := m1 } s.current 0, ?_, rfl, ?_, ?_, rfl, ?_⟩
  · have hR : ∀ S : KState, S = set_eax { s0 with
          pageinfo := Function.update s.pageinfo F { owner := (s.current : Int), refcount := 1 },
          mem := m1 } s.current 0 →
        (S.processes S.current).p_state = procstate.P_RUNNABLE := by
      intro S hS
      subst hS
      show ((set_eax _ s.current 0).processes s.current).p_state = _
      rw [(set_eax_proc _ _ _ _).1]
      show ((set_registers s s.current reg).processes s.current).p_state = _
      rw [(set_registers_proc _ _ _ _).1]; exact hrun
    rw [exception_handled hcheck hsw, if_pos (hR _ rfl)]
  · show virtual_memory_lookup m1 _ reg.reg_eax = _
    rw [(set_eax_proc _ _ _ _).2.2]
    show virtual_memory_lookup m1 ((set_registers s s.current reg).processes s.current).p_pagetable
      reg.reg_eax = _
    rw [(set_registers_proc _ _ _ _).2.2]
    have h1 : m1 (PAGENUMBER (s.processes s.current).p_pagetable) (L1PAGEINDEX reg.reg_eax)
        = s.mem (PAGENUMBER (s.processes s.current).p_pagetable) (L1PAGEINDEX reg.reg_eax) := by
      rw [← hm1, Function.update_noteq hne.symm]
    have e := @virtual_memory_lookup_entry m1
      (s.processes s.current).p_pagetable reg.reg_eax (PAGEADDRESS F)
      (PTE_P ||| PTE_W ||| PTE_U) (by rw [h1]; exact hpde)
      (by rw [h1, ← hm1, Function.update_same, Function.update_same])
      (PAGEADDRESS_aligned F) (by decide) (by decide)
    rw [e, PAGENUMBER_PAGEADDRESS hF20]
    have : PAGEOFFSET reg.reg_eax = 0 := hv
    rw [this, Nat.add_zero]
  · unfold set_eax
    rw [set_registers_regs]
    show { ((set_registers s s.current reg).processes s.current).p_registers with reg_eax := 0 }
      = _
    rw [set_registers_regs]
  · rw [(set_eax_proc _ _ _ _).1]
    show ((set_registers s s.current reg).processes s.current).p_state = _
    rw [(set_registers_proc _ _ _ _).1]; exact hrun

set_option maxRecDepth 100000 in
theorem sampleState_check_alloc :
    virtual_memory_check smallLayout
      (set_registers sampleState sampleState.current (sampleRegs 0x19000 51)) = true := by decide!

theorem sampleState_refinv : ∀ pn, pn < NPAGES smallLayout →
    ((sampleState.pageinfo pn).refcount = 0 ↔ (sampleState.pageinfo pn).owner = PO_FREE) := by
  decide!

/-- Witness of `page_alloc_maps`: process 1 of `sampleState` asks for a page
at `0x19000` and gets frame 9, the lowest free frame. -/
theorem page_alloc_maps_witness :
    ∃ s1, exception smallLayout sampleState (sampleRegs 0x19000 51) = some s1
      ∧ s1.pageinfo = Function.update sampleState.pageinfo 9
          { owner := (sampleState.current : Int), refcount := 1 }
      ∧ virtual_memory_lookup s1.mem (s1.processes sampleState.current).p_pagetable
            (sampleRegs 0x19000 51).reg_eax
          = { pn := (9 : Nat), pa := PAGEADDRESS 9, perm := PTE_P ||| PTE_W ||| PTE_U }
      ∧ (s1.processes sampleState.current).p_registers
          = { sampleRegs 0x19000 51 with reg_eax := 0 }
      ∧ s1.current = sampleState.current
      ∧ (s1.processes sampleState.current).p_state = procstate.P_RUNNABLE :=
  page_alloc_maps smallLayout smallLayout_WF smallLayout_ints sampleState
    (sampleRegs 0x19000 51) 9 sampleState_check_alloc (by decide) (by decide) (by decide) rfl
    sampleState_refinv (by decide) (by decide) (by decide!) (by decide) (by decide)
    (by decide) (by decide!) (by decide!)

/-- A fork request when no slot of `1..NPROC-1` is Free: `exception` resumes
the caller with the registers of the trap, `reg_eax` included. -/
theorem fork_request_no_slot (L : Layout) (hI : L.IntsDistinct) (s : KState)
    (reg : x86_registers)
    (hcheck : virtual_memory_check L (set_registers s s.current reg) = true)
    (hrun : (s.processes s.current).p_state = procstate.P_RUNNABLE)
    (hint : reg.reg_intno = L.INT_SYS_FORK)
    (hbusy : ∀ i, 1 ≤ i → i < L.NPROC → (s.processes i).p_state ≠ procstate.P_FREE) :
    exception L s reg = some (set_registers s s.current reg) := by
  have hfork : fork L (set_registers s s.current reg)
      = some (set_registers s s.current reg, -1) :=
    fork_no_slot (fun i h1 h2 => by rw [(set_registers_proc _ _ _ _).1]; exact hbusy i h1 h2)
  have hsw : exception_switch L (set_registers s s.current reg) reg
      = some (Dispatch.handled (set_registers s s.current reg)) := by
    rw [exception_switch_fork hI _ reg hint, hfork]
    rfl
  have hR : ((set_registers s s.current reg).processes
      (set_registers s s.current reg).current).p_state = procstate.P_RUNNABLE := by
    show ((set_registers s s.current reg).processes s.current).p_state = _
    rw [(set_registers_proc _ _ _ _).1]; exact hrun
  rw [exception_handled hcheck hsw, if_pos hR]

set_option maxRecDepth 100000 in
theorem sampleBusy_check :
    virtual_memory_check smallLayout
      (set_registers sampleBusy sampleBusy.current (trapRegs 0 52)) = true := by decide!

/-- C11, at a failing input: in `sampleBusy` every slot is taken; process 1
asks for a fork with `reg_eax = 0`.  The request fails, `fork` returns -1, and
the process is resumed with `reg_eax = 0`, which is not negative. -/
theorem fork_request_no_slot_eax :
    fork smallLayout (set_registers sampleBusy sampleBusy.current (trapRegs 0 52))
      = some (set_registers sampleBusy sampleBusy.current (trapRegs 0 52), -1)
    ∧ ∃ s1, exception smallLayout sampleBusy (trapRegs 0 52) = some s1
      ∧ s1.current = 1
      ∧ (s1.processes 1).p_state = procstate.P_RUNNABLE
      ∧ (s1.processes 1).p_registers.reg_eax = 0 := by
  have hbusy : ∀ i, 1 ≤ i → i < smallLayout.NPROC →
      (sampleBusy.processes i).p_state ≠ procstate.P_FREE := by decide
  refine ⟨fork_no_slot (fun i h1 h2 => ?_), _,
    fork_request_no_slot smallLayout smallLayout_ints sampleBusy (trapRegs 0 52)
      sampleBusy_check (by decide) rfl hbusy, rfl, by decide, by decide⟩
  rw [(set_registers_proc _ _ _ _).1]
  exact hbusy i h1 h2

/-- For every frame of physical memory that another process owns and that has
more than one reference, `sys_exit(pid)` takes one reference away, whatever
`pid` maps: the loop looks every page up in the kernel page table, which
identity-maps physical memory. -/
theorem sys_exit_decrements_all (L : Layout) (s : KState) (pid pn : Nat)
    (hid : KernelIdentity L s.mem) (hpid : pid < L.NPROC) (hpn : pn < NPAGES L)
    (ho : (s.pageinfo pn).owner ≠ (pid : Int)) (hpos : (s.pageinfo pn).owner > 0)
    (hrc : (s.pageinfo pn).refcount > 1) :
    ∃ s1, sys_exit L s pid = some s1
      ∧ (s1.pageinfo pn).owner = (s.pageinfo pn).owner
      ∧ (s1.pageinfo pn).refcount = (s.pageinfo pn).refcount - 1 := by
  obtain ⟨s1, e, _, _, _, hpi⟩ := sys_exit_identity s pid hid hpid
  refine ⟨s1, e, ?_, ?_⟩
  · rw [hpi pn, if_pos hpn]
    unfold sys_exit_record
    dsimp only
    rw [if_neg ho, if_pos ⟨hrc, hpos⟩]
  · rw [hpi pn, if_pos hpn]
    unfold sys_exit_record
    dsimp only
    rw [if_neg ho, if_pos ⟨hrc, hpos⟩]

set_option maxRecDepth 100000 in
theorem sampleTrioExited_eq : sys_exit smallLayout sampleTrio 3 = some sampleTrioExited :=
  getD_of_isSome _ _ (by decide!)

set_option maxRecDepth 100000 in
/-- C14, at a failing input: in `sampleTrio` frame 16 is owned by process 1
and shared with its child, process 2 (refcount 2); process 3 does not own it
and maps it nowhere.  `sys_exit(3)` nevertheless lowers the refcount of frame
16 to 1, while processes 1 and 2 are both still live and both still map it. -/
theorem sys_exit_unrelated_decrement :
    (sampleTrio.processes 3).p_state = procstate.P_RUNNABLE
    ∧ (sampleTrio.pageinfo 16).owner = 1 ∧ (sampleTrio.pageinfo 16).refcount = 2
    ∧ ¬ maps_frame smallLayout sampleTrio 3 16
    ∧ ∃ s1, sys_exit smallLayout sampleTrio 3 = some s1
      ∧ (s1.pageinfo 16).owner = 1 ∧ (s1.pageinfo 16).refcount = 1
      ∧ (s1.processes 1).p_state = procstate.P_RUNNABLE
      ∧ (s1.processes 2).p_state = procstate.P_RUNNABLE
      ∧ maps_frame smallLayout s1 1 16 ∧ maps_frame smallLayout s1 2 16 :=
  ⟨by decide!, by decide!, by decide!, by decide!, sampleTrioExited, sampleTrioExited_eq,
    by decide!, by decide!, by decide!, by decide!, by decide!, by decide!⟩

theorem countP_split (l : List Nat) (p q r : Nat → Bool)
    (h : ∀ x, x ∈ l → r x = (p x || q x)) (hd : ∀ x, x ∈ l → ¬ (p x = true ∧ q x = true)) :
    l.countP r = l.countP p + l.countP q := by
  induction l with
  | nil => rfl
  | cons a t ih =>
    have iht := ih (fun x hx => h x (List.mem_cons_of_mem _ hx))
      (fun x hx => hd x (List.mem_cons_of_mem _ hx))
    have ha := h a (List.mem_cons_self _ _)
    have hda := hd a (List.mem_cons_self _ _)
    rw [List.countP_cons, List.countP_cons, List.countP_cons, iht, ha]
    cases hp : p a <;> cases hq : q a <;> simp_all <;> omega

/-- The owner that `sys_exit(pid)` leaves in a frame record is Free exactly
when the owner was Free or `pid` before. -/
theorem sys_exit_record_free {pid : Nat} (r : physical_pageinfo) :
    (sys_exit_record pid r).owner = PO_FREE ↔ (r.owner = PO_FREE ∨ r.owner = (pid : Int)) := by
  unfold sys_exit_record
  dsimp only
  by_cases ho : r.owner = (pid : Int)
  · rw [if_pos ho]
    have : ¬ ((0 : Int) > 1 ∧ PO_FREE > 0) := by decide
    rw [if_neg this]
    exact ⟨fun _ => Or.inr ho, fun _ => rfl⟩
  · rw [if_neg ho]
    by_cases hg : r.refcount > 1 ∧ r.owner > 0
    · rw [if_pos hg]
      exact ⟨fun h => Or.inl h, fun h => h.resolve_right ho⟩
    · rw [if_neg hg]
      exact ⟨fun h => Or.inl h, fun h => h.resolve_right ho⟩

/-- A frame record with more than one reference and a positive owner other
than `pid` loses one reference in `sys_exit(pid)` and keeps its owner. -/
theorem sys_exit_record_shared {pid : Nat} (r : physical_pageinfo)
    (ho : r.owner ≠ (pid : Int)) (hpos : r.owner > 0) (hrc : r.refcount > 1) :
    sys_exit_record pid r = { owner := r.owner, refcount := r.refcount - 1 } := by
  unfold sys_exit_record
  dsimp only
  rw [if_neg ho, if_pos ⟨hrc, hpos⟩]

/-- What `sys_exit(pid)` does to the frame table, for `pid` in `1..NPROC-1` and
a kernel page table that identity-maps physical memory: it returns; the number
of Free frames has increased by the number of frames whose owner was `pid`,
whatever their refcount; and every shared frame (refcount > 1) that `pid`
referenced and that another process owns has lost exactly one reference and
kept its owner. -/
theorem sys_exit_free_count (L : Layout) (s : KState) (pid : Nat)
    (h1 : 1 ≤ pid) (h2 : pid < L.NPROC) (hid : KernelIdentity L s.mem) :
    ∃ s1, sys_exit L s pid = some s1
      ∧ free_frames L s1.pageinfo = free_frames L s.pageinfo + owned_frames L s.pageinfo pid
      ∧ ∀ pn, pn < NPAGES L → maps_frame L s pid pn →
          (s.pageinfo pn).refcount > 1 → (s.pageinfo pn).owner > 0 →
          (s.pageinfo pn).owner ≠ (pid : Int) →
          s1.pageinfo pn
            = { owner := (s.pageinfo pn).owner, refcount := (s.pageinfo pn).refcount - 1 } := by
  obtain ⟨s1, e, _, _, _, hpi⟩ := sys_exit_identity s pid hid h2
  refine ⟨s1, e, ?_, ?_⟩
  · unfold free_frames owned_frames
    apply countP_split
    · intro x hx
      have hx1 : x < NPAGES L := List.mem_range.mp hx
      rw [hpi x, if_pos hx1]
      rw [Bool.eq_iff_iff]
      simp only [decide_eq_true_eq, Bool.or_eq_true]
      exact sys_exit_record_free _
    · intro x _ hc
      simp only [decide_eq_true_eq] at hc
      have := hc.1.symm.trans hc.2
      unfold PO_FREE at this
      omega
  · intro pn hpn _ hrc hpos ho
    rw [hpi pn, if_pos hpn]
    exact sys_exit_record_shared _ ho hpos hrc

set_option maxRecDepth 100000 in
theorem sampleParentExited_eq :
    sys_exit smallLayout sampleForked.1 1 = some sampleParentExited :=
  getD_of_isSome _ _ (by decide!)

set_option maxRecDepth 100000 in
/-- C13, the code at the failing input: after the fork in `sampleState` the
parent, process 1, owns five frames, four of them exclusively and the code
frame 16 together with its child (refcount 2).  `sys_exit(1)` raises the
number of Free frames by five, not four, and frame 16, which process 1
referenced, is set to Free instead of losing one reference, while the child
is live and still maps it. -/
theorem sys_exit_frees_shared :
    exclusive_frames smallLayout sampleForked.1.pageinfo 1 = 4
    ∧ maps_frame smallLayout sampleForked.1 1 16
    ∧ (sampleForked.1.pageinfo 16).owner = 1 ∧ (sampleForked.1.pageinfo 16).refcount = 2
    ∧ ∃ s1, sys_exit smallLayout sampleForked.1 1 = some s1
      ∧ free_frames smallLayout s1.pageinfo = free_frames smallLayout sampleForked.1.pageinfo + 5
      ∧ free_frames smallLayout s1.pageinfo
          ≠ free_frames smallLayout sampleForked.1.pageinfo
            + exclusive_frames smallLayout sampleForked.1.pageinfo 1
      ∧ (s1.pageinfo 16).owner = PO_FREE ∧ (s1.pageinfo 16).refcount = 0
      ∧ (s1.pageinfo 16).refcount ≠ (sampleForked.1.pageinfo 16).refcount - 1
      ∧ (s1.processes 2).p_state = procstate.P_RUNNABLE
      ∧ maps_frame smallLayout s1 2 16 :=
  ⟨by decide!, by decide!, by decide!, by decide!, sampleParentExited, sampleParentExited_eq,
    by decide!, by decide!, by decide!, by decide!, by decide!, by decide!, by decide!⟩

/-- One iteration of the copy loop of `fork` keeps `ForkShared` for the
read-only page `j0`. -/
theorem fork_page_shared {L : Layout} {s sk s1 : KState} {slot l1 l2 j0 i : Nat}
    (hl1 : l1 < 2 ^ 20) (hl2 : l2 < 2 ^ 20) (hi : i < 1024) (hj0 : j0 < 1024)
    (hne : slot ≠ s.current) (hpt : ParentTablesInUse s)
    (hi1 : PAGENUMBER L.PROC_START_ADDR ≤ i) (hi2 : i < PAGENUMBER L.MEMSIZE_VIRTUAL)
    (hw0 : (virtual_memory_lookup s.mem (s.processes s.current).p_pagetable
      (PAGEADDRESS j0)).perm &&& PTE_W = 0)
    (hperm0 : (virtual_memory_lookup s.mem (s.processes s.current).p_pagetable
      (PAGEADDRESS j0)).perm ≠ 0)
    (hrc : (s.pageinfo (virtual_memory_lookup s.mem (s.processes s.current).p_pagetable
      (PAGEADDRESS j0)).pn.toNat).refcount > 0)
    (hown : (s.pageinfo (virtual_memory_lookup s.mem (s.processes s.current).p_pagetable
      (PAGEADDRESS j0)).pn.toNat).owner > 0)
    (hlt : (s.pageinfo (virtual_memory_lookup s.mem (s.processes s.current).p_pagetable
      (PAGEADDRESS j0)).pn.toNat).refcount < 127)
    (huniq : SharedOnce L s j0)
    (inv : ForkInv s slot l1 l2 sk) (sh : ForkShared s l2 j0 i sk)
    (h : fork_page L sk slot (PAGEADDRESS l1) i = some (ForkStep.next s1)) :
    ForkShared s l2 j0 (i + 1) s1 := by
  have hva := PAGEADDRESS_lt_4M hi
  have hstab := fork_lookup_stable inv hne hpt hi
  have hrc0 : (s.pageinfo (virtual_memory_lookup s.mem (s.processes s.current).p_pagetable
      (PAGEADDRESS j0)).pn.toNat).refcount ≠ 0 := by omega
  rcases fork_page_next_cases h with ⟨e, hskip⟩ | ⟨hperm, hw, hr, m2, hm2, e⟩
      | ⟨hperm, hw, _, _, _, _, m1, hm1, e⟩
  · -- nothing was done for page `i`
    rw [hstab] at hskip
    subst e
    by_cases hc : i = j0
    · subst hc
      exfalso
      rcases hskip with h0 | ⟨_, hg⟩
      · exact hperm0 h0
      · rw [sh.1 (le_refl _)] at hg
        exact hg ⟨hrc, hown⟩
    · exact ⟨fun hle => sh.1 (by omega), fun hlt => sh.2 (by omega)⟩
  · -- page `i` was copied: it is writable, so it is not page `j0`
    rw [hstab] at hperm hw hm2
    have hc : i ≠ j0 := by
      intro x; subst x; exact hw hw0
    obtain ⟨_, _, hrcA, hpi⟩ := physical_page_alloc_ok hr
    rw [hpi] at e
    rw [inv.proc_child_pid, inv.proc_child_pt] at hm2
    generalize find_free_page L sk.pageinfo = A at *
    have hF1 : l1 ≠ PAGENUMBER A := fun x => inv.rc_l1 (by rw [x]; exact hrcA)
    have hF2 : l2 ≠ PAGENUMBER A := fun x => inv.rc_l2 (by rw [x]; exact hrcA)
    have hF0 : (virtual_memory_lookup s.mem (s.processes s.current).p_pagetable
        (PAGEADDRESS j0)).pn.toNat ≠ PAGENUMBER A :=
      fun x => inv.rc_old _ hrc0 (by rw [x]; exact hrcA)
    have hmc : memcpy_page sk.mem A (virtual_memory_lookup s.mem
        (s.processes s.current).p_pagetable (PAGEADDRESS i)).pa l1
        = Function.update (fun _ => 0) 0 (PAGEADDRESS l2 ||| 7) := by
      unfold memcpy_page
      rw [Function.update_noteq hF1]; exact inv.mem_l1
    obtain ⟨hm2e, _⟩ := map_child_page hl1 hl2 hva hmc hm2
    rw [L2PAGEINDEX_PAGEADDRESS hi] at hm2e
    subst e
    have hpn : ∀ x, (Function.update sk.pageinfo (PAGENUMBER A) x)
        (virtual_memory_lookup s.mem (s.processes s.current).p_pagetable
          (PAGEADDRESS j0)).pn.toNat
        = sk.pageinfo (virtual_memory_lookup s.mem (s.processes s.current).p_pagetable
          (PAGEADDRESS j0)).pn.toNat := fun x => Function.update_noteq hF0 _ _
    have hmm : m2 l2 j0 = sk.mem l2 j0 := by
      rw [hm2e, Function.update_same, Function.update_noteq (Ne.symm hc)]
      unfold memcpy_page
      rw [Function.update_noteq hF2]
    refine ⟨fun hle => ?_, fun hlt => ⟨?_, ?_⟩⟩
    · show Function.update sk.pageinfo (PAGENUMBER A) _ _ = _
      rw [hpn]; exact sh.1 (by omega)
    · show Function.update sk.pageinfo (PAGENUMBER A) _ _ = _
      rw [hpn]; exact (sh.2 (by omega)).1
    · show m2 l2 j0 = _
      rw [hmm]; exact (sh.2 (by omega)).2
  · -- page `i` was shared
    rw [hstab] at hperm hw hm1 e
    obtain ⟨hm1e, _⟩ := map_child_page hl1 hl2 hva inv.mem_l1 hm1
    rw [L2PAGEINDEX_PAGEADDRESS hi] at hm1e
    have hP : (PTE_P ||| PTE_U) &&& PTE_P ≠ 0 := by decide
    rw [if_pos hP] at hm1e
    subst e
    by_cases hc : i = j0
    · subst hc
      refine ⟨fun hle => by omega, fun _ => ⟨?_, ?_⟩⟩
      · show Function.update sk.pageinfo _ _ _ = _
        rw [Function.update_same, sh.1 (le_refl _), toInt8_of_range (by omega) (by omega)]
      · show m1 l2 i = _
        rw [hm1e, Function.update_same, Function.update_same]
    · have hF0 := huniq i hi1 hi2 hc hperm hw
      refine ⟨fun hle => ?_, fun hlt => ⟨?_, ?_⟩⟩
      · show Function.update sk.pageinfo _ _ _ = _
        rw [Function.update_noteq (Ne.symm hF0)]; exact sh.1 (by omega)
      · show Function.update sk.pageinfo _ _ _ = _
        rw [Function.update_noteq (Ne.symm hF0)]; exact (sh.2 (by omega)).1
      · show m1 l2 j0 = _
        rw [hm1e, Function.update_same, Function.update_noteq (Ne.symm hc)]
        exact (sh.2 (by omega)).2

/-- The copy loop of `fork`, when it runs to its end, keeps `ForkInv` and
`ForkShared` for the read-only page `j0`. -/
theorem fork_loop_shared {L : Layout} {s : KState} {slot l1 l2 j0 : Nat}
    (hl1 : l1 < 2 ^ 20) (hl2 : l2 < 2 ^ 20) (hne12 : l1 ≠ l2)
    (h2 : (s.pageinfo l2).refcount = 0) (hj0 : j0 < 1024)
    (hne : slot ≠ s.current) (hpt : ParentTablesInUse s)
    (hw0 : (virtual_memory_lookup s.mem (s.processes s.current).p_pagetable
      (PAGEADDRESS j0)).perm &&& PTE_W = 0)
    (hperm0 : (virtual_memory_lookup s.mem (s.processes s.current).p_pagetable
      (PAGEADDRESS j0)).perm ≠ 0)
    (hrc : (s.pageinfo (virtual_memory_lookup s.mem (s.processes s.current).p_pagetable
      (PAGEADDRESS j0)).pn.toNat).refcount > 0)
    (hown : (s.pageinfo (virtual_memory_lookup s.mem (s.processes s.current).p_pagetable
      (PAGEADDRESS j0)).pn.toNat).owner > 0)
    (hlt : (s.pageinfo (virtual_memory_lookup s.mem (s.processes s.current).p_pagetable
      (PAGEADDRESS j0)).pn.toNat).refcount < 127)
    (huniq : SharedOnce L s j0) (fuel : Nat) :
    ∀ (i : Nat) (sk s1 : KState), i + fuel ≤ 1024 → PAGENUMBER L.PROC_START_ADDR ≤ i →
      i + fuel ≤ PAGENUMBER L.MEMSIZE_VIRTUAL →
      ForkInv s slot l1 l2 sk → ForkShared s l2 j0 i sk →
      fork_loop L slot (PAGEADDRESS l1) fuel i sk = some (ForkStep.next s1) →
      ForkInv s slot l1 l2 s1 ∧ ForkShared s l2 j0 (i + fuel) s1 := by
  induction fuel with
  | zero =>
    intro i sk s1 _ _ _ inv sh h
    simp [fork_loop] at h
    rw [← h]
    exact ⟨inv, sh⟩
  | succ n ih =>
    intro i sk s1 hb hlo hhi inv sh h
    unfold fork_loop at h
    split at h
    · cases h
    · cases h
    · rename_i s2 hp
      have inv2 := fork_page_inv hl1 hl2 hne12 h2 (by omega) inv hp
      have sh2 := fork_page_shared hl1 hl2 (by omega) hj0 hne hpt hlo (by omega)
        hw0 hperm0 hrc hown hlt huniq inv sh hp
      have := ih (i + 1) s2 s1 (by omega) (by omega) (by omega) inv2 sh2 h
      rw [show i + (n + 1) = i + 1 + n by omega]
      exact this

/-- The sharing step of `fork` in any state: after a successful `fork`, for a
virtual page in `[PROC_START_ADDR, MEMSIZE_VIRTUAL)` that the parent maps
present but not writable and whose frame is in use and owned by a process
(refcount > 0 and owner > 0, the guard of the code), the child maps the same
virtual page to the same physical frame, present and user-accessible but not
writable, and the refcount of the frame is exactly one more than before the
fork; the frame record keeps its owner.  Here the refcount of the frame is
below 127 and the parent maps the frame read-only at this one page of the
range, which holds in every reachable state. -/
theorem fork_shares_readonly (L : Layout) (hL : L.WF) (s : KState) (p : KState × Int)
    (h : fork L s = some p) (hr : p.2 ≠ -1)
    (hrange : ∀ f, (s.pageinfo f).refcount ≤ 127)
    (hcur : (s.processes s.current).p_state ≠ procstate.P_FREE)
    (hpt : ParentTablesInUse s) :
    ∃ child : Nat, p.2 = (child : Int) ∧ child ≠ s.current ∧
      ∀ j, PAGENUMBER L.PROC_START_ADDR ≤ j → j < PAGENUMBER L.MEMSIZE_VIRTUAL →
        (virtual_memory_lookup s.mem (s.processes s.current).p_pagetable
          (PAGEADDRESS j)).perm ≠ 0 →
        (virtual_memory_lookup s.mem (s.processes s.current).p_pagetable
          (PAGEADDRESS j)).perm &&& PTE_W = 0 →
        (s.pageinfo (virtual_memory_lookup s.mem (s.processes s.current).p_pagetable
          (PAGEADDRESS j)).pn.toNat).refcount > 0 →
        (s.pageinfo (virtual_memory_lookup s.mem (s.processes s.current).p_pagetable
          (PAGEADDRESS j)).pn.toNat).owner > 0 →
        (s.pageinfo (virtual_memory_lookup s.mem (s.processes s.current).p_pagetable
          (PAGEADDRESS j)).pn.toNat).refcount < 127 →
        SharedOnce L s j →
        virtual_memory_lookup p.1.mem (p.1.processes child).p_pagetable (PAGEADDRESS j)
            = { pn := (virtual_memory_lookup s.mem (s.processes s.current).p_pagetable
                  (PAGEADDRESS j)).pn,
                pa := (virtual_memory_lookup s.mem (s.processes s.current).p_pagetable
                  (PAGEADDRESS j)).pa,
                perm := PTE_P ||| PTE_U }
        ∧ p.1.pageinfo (virtual_memory_lookup s.mem (s.processes s.current).p_pagetable
            (PAGEADDRESS j)).pn.toNat
            = { owner := (s.pageinfo (virtual_memory_lookup s.mem
                  (s.processes s.current).p_pagetable (PAGEADDRESS j)).pn.toNat).owner,
                refcount := (s.pageinfo (virtual_memory_lookup s.mem
                  (s.processes s.current).p_pagetable (PAGEADDRESS j)).pn.toNat).refcount + 1 }
        ∧ virtual_memory_lookup p.1.mem (p.1.processes s.current).p_pagetable (PAGEADDRESS j)
            = virtual_memory_lookup s.mem (s.processes s.current).p_pagetable (PAGEADDRESS j) := by
  obtain ⟨s1, r⟩ := p
  obtain ⟨slot, cp, s2, s4, hslot, hcp, hcpne, hloop, hs1, _⟩ := fork_success_shape h hr
  obtain ⟨slot', _, hslot', hne, hr', _⟩ := fork_success_state h hr hcur
  have hss : slot' = slot := by
    rw [hslot] at hslot'; exact (Option.some.inj hslot').symm
  subst hss
  obtain ⟨l1, l2, hcp1, hl1, hl2, hne12, _, _, hr1, hr2, _, _, hpi, _, inv⟩ :=
    fork_entry_inv hL hrange hcp hcpne
  clear hcp
  subst hcp1
  obtain ⟨hle, heq⟩ := fork_range_le hL
  refine ⟨slot', hr', hne, ?_⟩
  intro j hj1 hj2 hperm hw hrc hown hlt huniq
  have hj : j < 1024 := by omega
  have hrc0 : (s.pageinfo (virtual_memory_lookup s.mem (s.processes s.current).p_pagetable
      (PAGEADDRESS j)).pn.toNat).refcount ≠ 0 := by omega
  have hn1 : (virtual_memory_lookup s.mem (s.processes s.current).p_pagetable
      (PAGEADDRESS j)).pn.toNat ≠ l1 := fun x => hrc0 (by rw [x]; exact hr1)
  have hn2 : (virtual_memory_lookup s.mem (s.processes s.current).p_pagetable
      (PAGEADDRESS j)).pn.toNat ≠ l2 := fun x => hrc0 (by rw [x]; exact hr2)
  have sh0 : ForkShared s l2 j (PAGENUMBER L.PROC_START_ADDR)
      (set_pagetable_of s2 slot' (PAGEADDRESS l1)) := by
    refine ⟨fun _ => ?_, fun hlt => by omega⟩
    show s2.pageinfo _ = _
    rw [hpi, Function.update_noteq hn2, Function.update_noteq hn1]
  obtain ⟨inv4, sh4⟩ := fork_loop_shared hl1 hl2 hne12 hr2 hj hne hpt hw hperm hrc hown hlt
    huniq _ _ _ s4 hle (le_refl _) (le_of_eq heq) inv sh0 hloop
  rw [heq] at sh4
  obtain ⟨hsh1, hsh2⟩ := sh4.2 hj2
  have hstab := fork_lookup_stable inv4 hne hpt hj
  obtain ⟨hpnpa, hpnInt, _, _, hpal⟩ := lookup_frame_of_pa hperm
  generalize (virtual_memory_lookup s.mem (s.processes s.current).p_pagetable
    (PAGEADDRESS j)) = vm at *
  subst hs1
  refine ⟨?_, ?_, ?_⟩
  · show virtual_memory_lookup s4.mem ((fork_finish s4 slot').processes slot').p_pagetable
      (PAGEADDRESS j) = _
    rw [fork_finish_pagetable, inv4.proc_child_pt,
      child_lookup hl1 hl2 hj inv4.mem_l1 hsh2 hpal (by decide) (by decide), hpnpa, ← hpnInt]
  · exact hsh1
  · show virtual_memory_lookup s4.mem ((fork_finish s4 slot').processes s.current).p_pagetable
      (PAGEADDRESS j) = _
    rw [fork_finish_pagetable, ← inv4.current_eq]
    exact hstab

/-! ### The frame-table invariant -/

theorem toInt8_pid_ne_zero {n : Nat} (h1 : 1 ≤ n) (h2 : n ≤ 127) : toInt8 (n : Int) ≠ 0 := by
  rw [toInt8_of_range (by omega) (by omega)]
  omega

theorem RefInv_update {pageinfo : PageInfo} {pn : Nat} {r : physical_pageinfo}
    (h : RefInv pageinfo) (hr : RecordOk r) : RefInv (Function.update pageinfo pn r) := by
  intro k
  by_cases e : k = pn
  · subst e; rw [Function.update_same]; exact hr
  · rw [Function.update_noteq e]; exact h k

theorem RecordOk_alloc {owner : Int} (ho : owner ≠ 0) :
    RecordOk { owner := owner, refcount := 1 } := by
  unfold RecordOk PO_FREE
  dsimp only
  omega

theorem RecordOk_free : RecordOk { owner := PO_FREE, refcount := 0 } := by
  unfold RecordOk PO_FREE
  dsimp only
  omega

theorem RecordOk_decrement {r : physical_pageinfo} (h : RecordOk r)
    (hg : r.refcount > 1 ∧ r.owner > 0) :
    RecordOk { owner := r.owner, refcount := r.refcount - 1 } := by
  unfold RecordOk PO_FREE at *
  dsimp only
  omega

theorem RecordOk_increment {r : physical_pageinfo} (h : RecordOk r)
    (hg : r.refcount > 0 ∧ r.owner > 0) :
    RecordOk { owner := r.owner, refcount := toInt8 (r.refcount + 1) } := by
  unfold RecordOk PO_FREE toInt8 at *
  dsimp only
  omega

theorem physical_page_alloc_refinv {L : Layout} {pageinfo : PageInfo} {addr : Nat} {owner : Int}
    (ho : owner ≠ 0) (h : RefInv pageinfo) :
    RefInv (physical_page_alloc L pageinfo addr owner).1 := by
  unfold physical_page_alloc
  split
  · exact h
  · exact RefInv_update h (RecordOk_alloc ho)

theorem sys_exit_page_refinv {L : Layout} {mem : Memory} {pid : Nat} {pageinfo pi1 : PageInfo}
    {i : Nat} (h : sys_exit_page L mem pid pageinfo i = some pi1) (hr : RefInv pageinfo) :
    RefInv pi1 := by
  unfold sys_exit_page at h
  dsimp only at h
  split at h
  · cases h
    generalize (virtual_memory_lookup mem L.kernel_pagetable (PAGEADDRESS i)).pn.toNat = pn
    have h1 : RefInv (if (pageinfo pn).owner = (pid : Int) then
        Function.update pageinfo pn { owner := PO_FREE, refcount := 0 } else pageinfo) := by
      split
      · exact RefInv_update hr RecordOk_free
      · exact hr
    generalize (if (pageinfo pn).owner = (pid : Int) then
        Function.update pageinfo pn { owner := PO_FREE, refcount := 0 } else pageinfo) = p1 at *
    split
    · rename_i hg
      exact RefInv_update h1 (RecordOk_decrement (h1 pn) hg)
    · exact h1
  · cases h

theorem sys_exit_loop_refinv {L : Layout} {mem : Memory} {pid : Nat} (fuel : Nat) :
    ∀ (i : Nat) (pageinfo pi1 : PageInfo),
      sys_exit_loop L mem pid fuel i pageinfo = some pi1 → RefInv pageinfo → RefInv pi1 := by
  induction fuel with
  | zero => intro i pageinfo pi1 h hr; simp [sys_exit_loop] at h; rw [← h]; exact hr
  | succ n ih =>
    intro i pageinfo pi1 h hr
    unfold sys_exit_loop at h
    split at h
    · cases h
    · rename_i p2 hp
      exact ih _ _ _ h (sys_exit_page_refinv hp hr)

theorem sys_exit_refinv {L : Layout} {s s1 : KState} {pid : Nat}
    (h : sys_exit L s pid = some s1) (hr : RefInv s.pageinfo) : RefInv s1.pageinfo := by
  unfold sys_exit at h
  split at h
  · cases h
  · rename_i p1 hp
    split at h
    · cases h
      exact sys_exit_loop_refinv _ _ _ _ hp hr
    · cases h

theorem copy_pagetable_refinv {L : Layout} {s s1 : KState} {pt o r : Nat}
    (h : copy_pagetable L s pt o = some (s1, r)) (ho : toInt8 (o : Int) ≠ 0)
    (hr : RefInv s.pageinfo) : RefInv s1.pageinfo := by
  have h1 : ∀ a, RefInv (physical_page_alloc L s.pageinfo a (toInt8 o)).1 :=
    fun a => physical_page_alloc_refinv ho hr
  have h2 : ∀ a b, RefInv (physical_page_alloc L
      (physical_page_alloc L s.pageinfo a (toInt8 o)).1 b (toInt8 o)).1 :=
    fun a b => physical_page_alloc_refinv ho (h1 a)
  unfold copy_pagetable at h
  dsimp only at h
  split at h
  · cases h; exact h1 _
  · split at h
    · cases h; exact h2 _ _
    · split at h
      · cases h
      · split at h
        · cases h
        · cases h; exact h2 _ _

theorem fork_page_refinv_next {L : Layout} {sk s1 : KState} {slot cp i : Nat}
    (h : fork_page L sk slot cp i = some (ForkStep.next s1))
    (ho : toInt8 ((sk.processes slot).p_pid : Int) ≠ 0) (hr : RefInv sk.pageinfo) :
    RefInv s1.pageinfo := by
  rcases fork_page_next_cases h with ⟨e, _⟩ | ⟨_, _, _, m2, _, e⟩
      | ⟨_, _, _, _, hg1, hg2, m1, _, e⟩
  · rw [e]; exact hr
  · rw [e]; exact physical_page_alloc_refinv ho hr
  · rw [e]
    exact RefInv_update hr (RecordOk_increment (hr _) ⟨hg1, hg2⟩)

theorem fork_page_refinv_failed {L : Layout} {sk s1 : KState} {slot cp i : Nat}
    (h : fork_page L sk slot cp i = some (ForkStep.failed s1)) (hr : RefInv sk.pageinfo) :
    RefInv s1.pageinfo :=
  sys_exit_refinv (fork_page_failed h) hr

theorem fork_loop_refinv {L : Layout} {slot cp : Nat} (fuel : Nat) :
    ∀ (i : Nat) (sk : KState) (st : ForkStep),
      fork_loop L slot cp fuel i sk = some st →
      toInt8 ((sk.processes slot).p_pid : Int) ≠ 0 → RefInv sk.pageinfo →
      (∀ s1, st = ForkStep.next s1 → RefInv s1.pageinfo)
      ∧ (∀ s1, st = ForkStep.failed s1 → RefInv s1.pageinfo) := by
  induction fuel with
  | zero =>
    intro i sk st h ho hr
    simp [fork_loop] at h
    subst h
    exact ⟨fun s1 e => (by cases e; exact hr), fun s1 e => (by cases e)⟩
  | succ n ih =>
    intro i sk st h ho hr
    unfold fork_loop at h
    split at h
    · cases h
    · rename_i s2 hp
      cases h
      exact ⟨fun s1 e => (by cases e), fun s1 e => (by cases e; exact fork_page_refinv_failed hp hr)⟩
    · rename_i s2 hp
      have hpr := (fork_page_next_frame hp).1
      exact ih _ _ _ h (by rw [hpr]; exact ho) (fork_page_refinv_next hp ho hr)

/-! ### The process-table invariant -/

theorem ProcInv_congr {s s1 : KState} (h : s1.processes = s.processes) (hi : ProcInv s) :
    ProcInv s1 := by
  unfold ProcInv at *
  rw [h]; exact hi

theorem ProcInv_of_frame {s s1 : KState}
    (hp : ∀ j, (s1.processes j).p_pid = (s.processes j).p_pid)
    (h0 : (s1.processes 0).p_state = (s.processes 0).p_state) (hi : ProcInv s) :
    ProcInv s1 :=
  ⟨fun i => by rw [hp i]; exact hi.1 i, by rw [h0]; exact hi.2⟩

theorem ProcInv_set_registers {s : KState} (pid : Nat) (r : x86_registers) (hi : ProcInv s) :
    ProcInv (set_registers s pid r) :=
  ProcInv_of_frame (fun j => (set_registers_proc s pid r j).2.1)
    (set_registers_proc s pid r 0).1 hi

theorem ProcInv_set_eax {s : KState} (pid v : Nat) (hi : ProcInv s) :
    ProcInv (set_eax s pid v) :=
  ProcInv_of_frame (fun j => (set_eax_proc s pid v j).2.1) (set_eax_proc s pid v 0).1 hi

theorem set_pagetable_of_proc (s : KState) (pid pt j : Nat) :
    ((set_pagetable_of s pid pt).processes j).p_state = (s.processes j).p_state
    ∧ ((set_pagetable_of s pid pt).processes j).p_pid = (s.processes j).p_pid := by
  unfold set_pagetable_of set_proc
  by_cases e : j = pid
  · subst e; simp only [Function.update_same, and_self]
  · simp only [Function.update_noteq e, and_self]

theorem ProcInv_set_pagetable_of {s : KState} (pid pt : Nat) (hi : ProcInv s) :
    ProcInv (set_pagetable_of s pid pt) :=
  ProcInv_of_frame (fun j => (set_pagetable_of_proc s pid pt j).2)
    (set_pagetable_of_proc s pid pt 0).1 hi

theorem ProcInv_set_state {s : KState} (pid : Nat) (st : procstate)
    (h : pid ≠ 0 ∨ st = procstate.P_FREE) (hi : ProcInv s) : ProcInv (set_state s pid st) := by
  unfold set_state set_proc
  refine ⟨fun i => ?_, ?_⟩
  · by_cases e : i = pid
    · subst e; simp only [Function.update_same]; exact hi.1 i
    · simp only [Function.update_noteq e]; exact hi.1 i
  · by_cases e : 0 = pid
    · subst e
      simp only [Function.update_same]
      rcases h with h | h
      · exact absurd rfl h
      · exact h
    · simp only [Function.update_noteq e]; exact hi.2

theorem ProcInv_sys_exit {L : Layout} {s s1 : KState} {pid : Nat}
    (h : sys_exit L s pid = some s1) (hi : ProcInv s) : ProcInv s1 := by
  obtain ⟨_, _, _, hp⟩ := sys_exit_frame h
  have : s1.processes = (set_state s pid procstate.P_FREE).processes := by
    rw [hp]; rfl
  exact ProcInv_congr this (ProcInv_set_state pid _ (Or.inr rfl) hi)

theorem ProcInv_fork_claim_slot {s : KState} {slot : Nat} (h : slot ≠ 0) (hi : ProcInv s) :
    ProcInv (fork_claim_slot s slot) := by
  unfold fork_claim_slot set_proc
  refine ⟨fun i => ?_, ?_⟩
  · by_cases e : i = slot
    · subst e; simp only [Function.update_same]
    · simp only [Function.update_noteq e]; exact hi.1 i
  · simp only [Function.update_noteq (Ne.symm h)]; exact hi.2

theorem ProcInv_fork_finish {s4 : KState} (slot : Nat) (hi : ProcInv s4) :
    ProcInv (fork_finish s4 slot) := by
  unfold fork_finish
  exact ProcInv_set_eax _ _ (ProcInv_set_eax _ _ (ProcInv_set_registers _ _ hi))

/-- The function `fork` keeps the frame-table invariant and the process-table
invariant, whatever it returns. -/
theorem fork_inv {L : Layout} (hL : L.WF) {s s1 : KState} {r : Int}
    (h : fork L s = some (s1, r)) (hr : RefInv s.pageinfo) (hi : ProcInv s) :
    RefInv s1.pageinfo ∧ ProcInv s1 := by
  cases hfs : fork_find_slot s.processes (L.NPROC - 1) 1 with
  | none =>
    unfold fork at h
    rw [hfs] at h
    cases h
    exact ⟨hr, hi⟩
  | some slot =>
    obtain ⟨hs1, hs2, _, _⟩ := fork_find_slot_some _ _ _ _ hfs
    have hN := hL.nproc_le
    have hslot0 : slot ≠ 0 := by omega
    have ho : toInt8 (slot : Int) ≠ 0 := toInt8_pid_ne_zero hs1 (by omega)
    have hic := ProcInv_fork_claim_slot hslot0 hi
    have hpidc : ((fork_claim_slot s slot).processes slot).p_pid = slot := hic.1 slot
    by_cases hrs : r = -1
    · -- the failure paths
      have hne : r ≠ (slot : Int) := by omega
      obtain ⟨_, hc⟩ := fork_failure_shape hfs h hne
      rcases hc with ⟨s2, hcp, hex⟩ | ⟨s2, cp, hcp, _, hloop⟩
      · have hr2 := copy_pagetable_refinv hcp (by rw [hpidc]; exact ho) hr
        have hp2 := ProcInv_congr (copy_pagetable_frame hcp).1 hic
        exact ⟨sys_exit_refinv hex hr2, ProcInv_sys_exit hex (ProcInv_set_eax _ _ hp2)⟩
      · have hr2 := copy_pagetable_refinv hcp (by rw [hpidc]; exact ho) hr
        have hp2 := ProcInv_set_pagetable_of slot cp
          (ProcInv_congr (copy_pagetable_frame hcp).1 hic)
        have hpid2 : ((set_pagetable_of s2 slot cp).processes slot).p_pid = slot := hp2.1 slot
        refine ⟨(fork_loop_refinv _ _ _ _ hloop (by rw [hpid2]; exact ho) hr2).2 _ rfl, ?_⟩
        obtain ⟨sk, hsk, _, hex⟩ := fork_loop_failed_frame _ _ _ _ hloop
        exact ProcInv_sys_exit hex (ProcInv_set_eax _ _ (ProcInv_congr hsk hp2))
    · -- success
      obtain ⟨slot', cp, s2, s4, hfs', hcp, _, hloop, he, _⟩ := fork_success_shape h hrs
      have hss : slot' = slot := by
        rw [hfs] at hfs'; exact (Option.some.inj hfs').symm
      subst hss
      have hr2 := copy_pagetable_refinv hcp (by rw [hpidc]; exact ho) hr
      have hp2 := ProcInv_set_pagetable_of slot' cp
        (ProcInv_congr (copy_pagetable_frame hcp).1 hic)
      have hpid2 : ((set_pagetable_of s2 slot' cp).processes slot').p_pid = slot' := hp2.1 slot'
      have hr4 := (fork_loop_refinv _ _ _ _ hloop (by rw [hpid2]; exact ho) hr2).1 _ rfl
      have hp4 := ProcInv_congr (fork_loop_next_frame _ _ _ _ hloop).1 hp2
      subst he
      exact ⟨hr4, ProcInv_fork_finish _ hp4⟩

/-! ### `schedule`, `run` and the dispatcher -/

theorem run_inv {s s1 : KState} {pid : Nat} (h : run s pid = some s1) :
    s1.pageinfo = s.pageinfo ∧ s1.processes = s.processes ∧ s1.mem = s.mem
    ∧ s1.current = pid ∧ (s1.processes s1.current).p_state = procstate.P_RUNNABLE := by
  unfold run at h
  split at h
  · rename_i hr
    cases h
    exact ⟨rfl, rfl, rfl, rfl, hr⟩
  · cases h

theorem schedule_loop_inv {L : Layout} (hN : 0 < L.NPROC) {s s1 : KState} (fuel : Nat) :
    ∀ c, schedule_loop L s fuel c = some s1 →
      s1.pageinfo = s.pageinfo ∧ s1.processes = s.processes ∧ s1.mem = s.mem
      ∧ s1.current < L.NPROC ∧ (s1.processes s1.current).p_state = procstate.P_RUNNABLE := by
  induction fuel with
  | zero => intro c h; simp [schedule_loop] at h
  | succ n ih =>
    intro c h
    unfold schedule_loop at h
    dsimp only at h
    split at h
    · obtain ⟨h1, h2, h3, h4, h5⟩ := run_inv h
      exact ⟨h1, h2, h3, by rw [h4]; exact Nat.mod_lt _ hN, h5⟩
    · exact ih _ h

theorem schedule_inv {L : Layout} (hN : 0 < L.NPROC) {s s1 : KState}
    (h : schedule L s = some s1) :
    s1.pageinfo = s.pageinfo ∧ s1.processes = s.processes ∧ s1.mem = s.mem
    ∧ s1.current < L.NPROC ∧ (s1.processes s1.current).p_state = procstate.P_RUNNABLE :=
  schedule_loop_inv hN _ _ h

theorem KInv_current_pos {L : Layout} {s : KState} (k : KInv L s) : s.current ≠ 0 := by
  intro e
  have h1 := k.cur_run
  rw [e, k.procs.2] at h1
  exact absurd h1 (by decide)

/-- What `exception_switch` keeps: the frame-table and process-table
invariants; a handled request leaves `current` alone. -/
theorem exception_switch_inv {L : Layout} (hL : L.WF) {s : KState} {reg : x86_registers}
    {d : Dispatch} (h : exception_switch L s reg = some d)
    (hr : RefInv s.pageinfo) (hi : ProcInv s) (hc0 : s.current ≠ 0)
    (hc1 : s.current < L.NPROC)
    (hrun : (s.processes s.current).p_state = procstate.P_RUNNABLE) :
    (∀ s1, d = Dispatch.handled s1 →
      RefInv s1.pageinfo ∧ ProcInv s1 ∧ s1.current = s.current)
    ∧ (∀ s1, d = Dispatch.transferred s1 →
      RefInv s1.pageinfo ∧ ProcInv s1 ∧ s1.current < L.NPROC
        ∧ (s1.processes s1.current).p_state = procstate.P_RUNNABLE) := by
  have hN : 0 < L.NPROC := by have := hL.nproc_gt; omega
  have hN2 := hL.nproc_le
  have hown : toInt8 ((s.processes s.current).p_pid : Int) ≠ 0 := by
    rw [hi.1]; exact toInt8_pid_ne_zero (by omega) (by omega)
  unfold exception_switch at h
  dsimp only at h
  split at h
  · cases h
  split at h
  · cases h
    exact ⟨fun s1 e => (by cases e; exact ⟨hr, ProcInv_set_eax _ _ hi, rfl⟩),
      fun s1 e => (by cases e)⟩
  split at h
  · cases hs : schedule L s with
    | none => rw [hs] at h; cases h
    | some s2 =>
      rw [hs] at h
      cases h
      obtain ⟨h1, h2, _, h4, h5⟩ := schedule_inv hN hs
      refine ⟨fun s1 e => (by cases e), fun s1 e => ?_⟩
      cases e
      exact ⟨by rw [h1]; exact hr, ProcInv_congr h2 hi, h4, h5⟩
  split at h
  · have hpa := @physical_page_alloc_refinv L s.pageinfo (find_free_page L s.pageinfo) _ hown hr
    split at h
    · split at h
      · cases h
      · cases h
        exact ⟨fun s1 e => (by cases e; exact ⟨hpa, ProcInv_set_eax _ _ hi, rfl⟩),
          fun s1 e => (by cases e)⟩
    · cases h
      exact ⟨fun s1 e => (by cases e; exact ⟨hpa, ProcInv_set_eax _ _ hi, rfl⟩),
        fun s1 e => (by cases e)⟩
  split at h
  · cases hs : schedule L { s with ticks := (s.ticks + 1) % WORD } with
    | none => rw [hs] at h; cases h
    | some s2 =>
      rw [hs] at h
      cases h
      obtain ⟨h1, h2, _, h4, h5⟩ := schedule_inv hN hs
      refine ⟨fun s1 e => (by cases e), fun s1 e => ?_⟩
      cases e
      exact ⟨by rw [h1]; exact hr, ProcInv_congr h2 hi, h4, h5⟩
  split at h
  · cases hf : fork L s with
    | none => rw [hf] at h; cases h
    | some p =>
      obtain ⟨s2, r⟩ := p
      rw [hf] at h
      cases h
      obtain ⟨h1, h2⟩ := fork_inv hL hf hr hi
      have h3 := (fork_parent_kept hf (by rw [hrun]; decide)).1
      exact ⟨fun s1 e => (by cases e; exact ⟨h1, h2, h3⟩), fun s1 e => (by cases e)⟩
  split at h
  · cases hs : sys_exit L s (s.processes s.current).p_pid with
    | none => rw [hs] at h; cases h
    | some s2 =>
      rw [hs] at h
      cases h
      exact ⟨fun s1 e => (by cases e; exact ⟨sys_exit_refinv hs hr, ProcInv_sys_exit hs hi,
        (sys_exit_frame hs).1⟩), fun s1 e => (by cases e)⟩
  split at h
  · split at h
    · cases h
    · cases h
      exact ⟨fun s1 e => (by cases e; exact ⟨hr, ProcInv_set_state _ _ (Or.inl hc0) hi, rfl⟩),
        fun s1 e => (by cases e)⟩
  · cases h

/-- The function `exception` keeps the state invariant. -/
theorem exception_inv {L : Layout} (hL : L.WF) {s s1 : KState} {reg : x86_registers}
    (h : exception L s reg = some s1) (k : KInv L s) : KInv L s1 := by
  have hN : 0 < L.NPROC := by have := hL.nproc_gt; omega
  have hi0 := ProcInv_set_registers s.current reg k.procs
  have hrun0 : ((set_registers s s.current reg).processes
      (set_registers s s.current reg).current).p_state = procstate.P_RUNNABLE := by
    show ((set_registers s s.current reg).processes s.current).p_state = _
    rw [(set_registers_proc _ _ _ _).1]; exact k.cur_run
  unfold exception at h
  dsimp only at h
  split at h
  · cases h
  · cases hd : exception_switch L (set_registers s s.current reg) reg with
    | none => rw [hd] at h; cases h
    | some d =>
      rw [hd] at h
      obtain ⟨hh, ht⟩ := exception_switch_inv hL hd k.ref hi0
        (show s.current ≠ 0 from KInv_current_pos k) k.cur_lt hrun0
      cases d with
      | transferred s2 =>
        dsimp only at h
        cases h
        obtain ⟨a, b, c, e⟩ := ht _ rfl
        exact ⟨a, b, c, e⟩
      | handled s2 =>
        dsimp only at h
        obtain ⟨a, b, c⟩ := hh _ rfl
        split at h
        · obtain ⟨h1, h2, _, h4, h5⟩ := run_inv h
          exact ⟨by rw [h1]; exact a, ProcInv_congr h2 b,
            by rw [h4, c]; exact k.cur_lt, h5⟩
        · obtain ⟨h1, h2, _, h4, h5⟩ := schedule_inv hN h
          exact ⟨by rw [h1]; exact a, ProcInv_congr h2 b, h4, h5⟩

theorem user_store_inv {L : Layout} {s s1 : KState} {va w : Nat}
    (h : user_store s va w = some s1) (k : KInv L s) : KInv L s1 := by
  unfold user_store at h
  dsimp only at h
  split at h
  · cases h
    exact ⟨k.ref, k.procs, k.cur_lt, k.cur_run⟩
  · cases h

/-! ### Boot -/

theorem pageinfo_init_loop_refinv (L : Layout) (fuel : Nat) :
    ∀ (addr : Nat) (pageinfo : PageInfo), RefInv pageinfo →
      RefInv (pageinfo_init_loop L fuel addr pageinfo) := by
  induction fuel with
  | zero => intro addr pageinfo h; exact h
  | succ n ih =>
    intro addr pageinfo h
    unfold pageinfo_init_loop
    dsimp only
    apply ih
    refine RefInv_update h ?_
    unfold RecordOk
    dsimp only
    split_ifs <;> simp_all [PO_FREE, PO_RESERVED, PO_KERNEL]

theorem pageinfo_init_refinv (L : Layout) : RefInv (pageinfo_init L) := by
  unfold pageinfo_init
  apply pageinfo_init_loop_refinv
  intro pn
  exact RecordOk_free

theorem program_load_pages_inv {L : Layout} {pid : Nat} (pages : List ProgramPage) :
    ∀ (s s1 : KState) (r : Int), program_load_pages L pid pages s = some (s1, r) →
      toInt8 ((s.processes pid).p_pid : Int) ≠ 0 → RefInv s.pageinfo →
      RefInv s1.pageinfo ∧ s1.processes = s.processes ∧ s1.current = s.current := by
  induction pages with
  | nil =>
    intro s s1 r h _ hr
    simp [program_load_pages] at h
    rw [← h.1]
    exact ⟨hr, rfl, rfl⟩
  | cons pg rest ih =>
    intro s s1 r h ho hr
    unfold program_load_pages at h
    dsimp only at h
    split at h
    · cases h
      exact ⟨hr, rfl, rfl⟩
    · split at h
      · cases h
      · obtain ⟨a, b, c⟩ := ih _ _ _ h ho (physical_page_alloc_refinv ho hr)
        exact ⟨a, b, c⟩

theorem program_load_inv {L : Layout} {env : Env} {s s1 : KState} {pid n : Nat} {r : Int}
    (h : program_load L env s pid n = some (s1, r))
    (ho : toInt8 ((s.processes pid).p_pid : Int) ≠ 0) (hr : RefInv s.pageinfo)
    (hi : ProcInv s) :
    RefInv s1.pageinfo ∧ ProcInv s1 ∧ s1.current = s.current := by
  unfold program_load at h
  split at h
  · cases h
  · rename_i s2 r2 hp
    obtain ⟨a, b, c⟩ := program_load_pages_inv _ _ _ _ hp ho hr
    split at h
    · cases h
      exact ⟨a, ProcInv_congr b hi, c⟩
    · cases h
      exact ⟨a, ProcInv_set_registers _ _ (ProcInv_congr b hi), c⟩

theorem process_setup_inv {L : Layout} {env : Env} {s s1 : KState} {pid n : Nat}
    (h : process_setup L env s pid n = some s1) (h1 : 1 ≤ pid) (h2 : pid ≤ 127)
    (hr : RefInv s.pageinfo) (hi : ProcInv s) :
    RefInv s1.pageinfo ∧ ProcInv s1 ∧ s1.current = s.current := by
  have ho : toInt8 (pid : Int) ≠ 0 := toInt8_pid_ne_zero h1 h2
  unfold process_setup at h
  dsimp only at h
  split at h
  · cases h
  · rename_i s2 pt hcp
    have hi0 := ProcInv_set_registers pid env.init_registers hi
    have hr2 := copy_pagetable_refinv hcp ho hr
    obtain ⟨hp2, hc2, _⟩ := copy_pagetable_frame hcp
    have hi2 := ProcInv_set_pagetable_of pid pt (ProcInv_congr hp2 hi0)
    split at h
    · cases h
      exact ⟨hr2, hi2, hc2⟩
    · split at h
      · cases h
      · rename_i s3 r3 hpl
        split at h
        · cases h
        · obtain ⟨hr3, hi3, hc3⟩ := program_load_inv hpl (by rw [hi2.1]; exact ho) hr2 hi2
          split at h
          · cases h
          · cases h
            refine ⟨physical_page_alloc_refinv ho hr3, ?_, ?_⟩
            · exact ProcInv_set_state pid _ (Or.inl (by omega))
                (ProcInv_congr rfl (ProcInv_set_registers pid _ hi3))
            · show s3.current = s.current
              rw [hc3]; exact hc2

theorem kernel_setup_loop_inv {L : Layout} {env : Env} (fuel : Nat) :
    ∀ (i : Nat) (s s1 : KState), kernel_setup_loop L env fuel i s = some s1 →
      1 ≤ i → i + fuel ≤ 128 → RefInv s.pageinfo → ProcInv s →
      RefInv s1.pageinfo ∧ ProcInv s1 := by
  induction fuel with
  | zero =>
    intro i s s1 h _ _ hr hi
    simp [kernel_setup_loop] at h
    rw [← h]
    exact ⟨hr, hi⟩
  | succ n ih =>
    intro i s s1 h h1 h2 hr hi
    unfold kernel_setup_loop at h
    split at h
    · cases h
    · rename_i s2 hp
      obtain ⟨a, b, _⟩ := process_setup_inv hp h1 (by omega) hr hi
      exact ih _ _ _ h (by omega) (by omega) a b

/-- The state in which `kernel` starts the first process satisfies the state
invariant. -/
theorem kernel_inv {L : Layout} (hL : L.WF) {env : Env} {command : Option String} {s : KState}
    (h : kernel L env command = some s) : KInv L s := by
  have hN := hL.nproc_gt
  unfold kernel at h
  dsimp only at h
  split at h
  · cases h
  · rename_i m1 _
    split at h
    · cases h
    · rename_i m2 _
      have hr0 : RefInv (pageinfo_init L) := pageinfo_init_refinv L
      have hi0 : ProcInv
          { processes := fun i =>
              { p_pid := i, p_registers := ⟨0, 0, 0, 0, 0, []⟩, p_state := procstate.P_FREE,
                p_pagetable := 0 },
            current := 0, pageinfo := pageinfo_init L, mem := m2, ticks := 0 } :=
        ⟨fun i => rfl, rfl⟩
      split at h
      · cases h
      · rename_i s3 hs3
        have h3 : RefInv s3.pageinfo ∧ ProcInv s3 := by
          split at hs3
          · obtain ⟨a, b, _⟩ := process_setup_inv hs3 (le_refl _) (by omega) hr0 hi0
            exact ⟨a, b⟩
          · split at hs3
            · obtain ⟨a, b, _⟩ := process_setup_inv hs3 (le_refl _) (by omega) hr0 hi0
              exact ⟨a, b⟩
            · exact kernel_setup_loop_inv _ _ _ _ hs3 (le_refl _) (by omega) hr0 hi0
        obtain ⟨r1, r2, _, r4, r5⟩ := run_inv h
        exact ⟨by rw [r1]; exact h3.1, ProcInv_congr r2 h3.2, by rw [r4]; omega, r5⟩

/-- Every reachable state satisfies the state invariant. -/
theorem reachable_inv {L : Layout} (hL : L.WF) {env : Env} {s : KState}
    (h : Reachable L env s) : KInv L s := by
  induction h with
  | boot command s hk => exact kernel_inv hL hk
  | trap s s1 reg _ he ih => exact exception_inv hL he ih
  | store s s1 va w _ hs ih => exact user_store_inv hs ih

/-- C4: in every kernel state reachable from boot (`pageinfo_init`,
`process_setup`) through dispatcher events and stores of the running process,
every physical frame has refcount 0 if and only if its owner is Free. -/
theorem refcount_zero_iff_free (L : Layout) (hL : L.WF) (env : Env) (s : KState)
    (h : Reachable L env s) :
    ∀ pn, (s.pageinfo pn).refcount = 0 ↔ (s.pageinfo pn).owner = PO_FREE :=
  fun pn => ((reachable_inv hL h).ref pn).1

set_option maxRecDepth 100000 in
theorem smallBoot_eq : kernel smallLayout smallEnv (some "fork") = some smallBoot :=
  getD_of_isSome _ _ (by decide!)

/-- Witness of `refcount_zero_iff_free`: the state in which `kernel("fork")`
starts process 1 on the scaled-down configuration. -/
theorem refcount_zero_iff_free_witness :
    Reachable smallLayout smallEnv smallBoot
    ∧ ∀ pn, (smallBoot.pageinfo pn).refcount = 0 ↔ (smallBoot.pageinfo pn).owner = PO_FREE :=
  ⟨Reachable.boot _ _ smallBoot_eq,
   refcount_zero_iff_free smallLayout smallLayout_WF smallEnv smallBoot
     (Reachable.boot _ _ smallBoot_eq)⟩

/-! ### Isolation of address spaces -/

/-- The first table of an address space has the single entry 0: an address
whose outer entry is present has outer index 0, and its inner table is `l2`. -/
theorem outer_entry_present {l2 : Nat} (hl2 : l2 < 2 ^ 20) {k : Nat}
    (h : (Function.update (fun _ => 0) 0 (PAGEADDRESS l2 ||| 7) : Nat → Nat) k &&& PTE_P ≠ 0) :
    k = 0 ∧ PAGENUMBER ((Function.update (fun _ => 0) 0 (PAGEADDRESS l2 ||| 7) : Nat → Nat) k)
      = l2 := by
  by_cases e : k = 0
  · subst e
    refine ⟨rfl, ?_⟩
    rw [Function.update_same, PAGENUMBER_pte (PAGEADDRESS_aligned l2) (by decide),
      PAGENUMBER_PAGEADDRESS hl2]
  · rw [Function.update_noteq e] at h
    exact absurd (by decide) h

/-- A lookup through an address space of the shape `ProcIso` that finds a
present translation reads it from the inner table `l2`. -/
theorem lookup_of_tables {mem : Memory} {l1 l2 va : Nat} (hl1 : l1 < 2 ^ 20)
    (hl2 : l2 < 2 ^ 20)
    (hm : mem l1 = Function.update (fun _ => 0) 0 (PAGEADDRESS l2 ||| 7))
    (h : (virtual_memory_lookup mem (PAGEADDRESS l1) va).perm ≠ 0) :
    virtual_memory_lookup mem (PAGEADDRESS l1) va
      = { pn := PAGENUMBER (mem l2 (L2PAGEINDEX va)),
          pa := PTE_ADDR (mem l2 (L2PAGEINDEX va)) + PAGEOFFSET va,
          perm := PTE_FLAGS (mem l2 (L2PAGEINDEX va)) } := by
  obtain ⟨pte, h1, h2, _, h4⟩ := virtual_memory_lookup_present h
  rw [PAGENUMBER_PAGEADDRESS hl1, hm] at h1 h2
  obtain ⟨_, e2⟩ := outer_entry_present hl2 h1
  rw [e2] at h2
  rw [h4, h2]

theorem UserWritable_ne_zero {x : Nat} (h : UserWritable x) : x ≠ 0 := by
  intro e
  rw [e] at h
  exact not_UserWritable_zero h

/-- A mapping of process `p` through which user-mode code can store leads to
the console page or to a frame that `p` owns, other than its page tables. -/
theorem ProcIso_user_mapping {L : Layout} {s : KState} {p l1 l2 va pn : Nat}
    (h : ProcIso L s p l1 l2) (hm : maps_user_writable s p va pn) :
    pn = PAGENUMBER L.console
    ∨ ((s.pageinfo pn).owner = (p : Int) ∧ pn ≠ l1 ∧ pn ≠ l2) := by
  obtain ⟨hw, hpn⟩ := hm
  rw [h.pt_eq] at hw hpn
  have e := lookup_of_tables h.l1_lt h.l2_lt h.mem_l1 (UserWritable_ne_zero hw)
  rw [e] at hw hpn
  dsimp only at hw hpn
  have hpn' : PAGENUMBER (s.mem l2 (L2PAGEINDEX va)) = pn := by exact_mod_cast hpn
  rw [UserWritable_flags] at hw
  have := h.user _ hw
  rw [hpn'] at this
  exact this

/-- The isolation invariant gives the isolation property: two different live
processes have mappings through which user-mode code can store to the same
frame only for the console page. -/
theorem IsoInv_unique {L : Layout} {s : KState} (h : IsoInv L s) {p q va vb pn : Nat}
    (hpq : p ≠ q)
    (hp : (s.processes p).p_state ≠ procstate.P_FREE)
    (hq : (s.processes q).p_state ≠ procstate.P_FREE)
    (hmp : maps_user_writable s p va pn) (hmq : maps_user_writable s q vb pn) :
    pn = PAGENUMBER L.console := by
  obtain ⟨a1, a2, ha⟩ := h.live p hp
  obtain ⟨b1, b2, hb⟩ := h.live q hq
  rcases ProcIso_user_mapping ha hmp with e | ⟨e1, _, _⟩
  · exact e
  · rcases ProcIso_user_mapping hb hmq with e | ⟨e2, _, _⟩
    · exact e
    · exfalso
      rw [e1] at e2
      exact hpq (by exact_mod_cast e2)

/-- The description `ProcIso` of an address space survives a change of the
state that keeps the page-table pointer, the outer table and the ownership of
the frames of `p`, and leaves every entry of the inner table as it was or
makes it harmless. -/
theorem ProcIso_update {L : Layout} {s s1 : KState} {p l1 l2 : Nat}
    (h : ProcIso L s p l1 l2)
    (hpt : (s1.processes p).p_pagetable = (s.processes p).p_pagetable)
    (hm1 : s1.mem l1 = s.mem l1)
    (hown : ∀ f, (s.pageinfo f).owner = (p : Int) → (s1.pageinfo f).owner = (p : Int))
    (hm2 : ∀ j, s1.mem l2 j = s.mem l2 j ∨ ¬ UserWritable (s1.mem l2 j)
      ∨ PAGENUMBER (s1.mem l2 j) = PAGENUMBER L.console
      ∨ ((s1.pageinfo (PAGENUMBER (s1.mem l2 j))).owner = (p : Int)
          ∧ PAGENUMBER (s1.mem l2 j) ≠ l1 ∧ PAGENUMBER (s1.mem l2 j) ≠ l2)) :
    ProcIso L s1 p l1 l2 := by
  refine ⟨by rw [hpt]; exact h.pt_eq, h.l1_lt, h.l2_lt, h.l_ne, by rw [hm1]; exact h.mem_l1,
    hown _ h.own_l1, hown _ h.own_l2, ?_⟩
  intro j hw
  rcases hm2 j with e | e | e | e
  · rw [e] at hw ⊢
    rcases h.user j hw with c | ⟨c1, c2, c3⟩
    · exact Or.inl c
    · exact Or.inr ⟨hown _ c1, c2, c3⟩
  · exact absurd hw e
  · exact Or.inl e
  · exact Or.inr e

/-- The description `ProcIso` of the address space of `p` survives a change of
the state that touches neither the memory nor the ownership of the frames
that `p` owns. -/
theorem ProcIso_frame {L : Layout} {s s1 : KState} {p l1 l2 : Nat}
    (h : ProcIso L s p l1 l2)
    (hpt : (s1.processes p).p_pagetable = (s.processes p).p_pagetable)
    (hmem : ∀ f, (s.pageinfo f).owner = (p : Int) → s1.mem f = s.mem f)
    (hown : ∀ f, (s.pageinfo f).owner = (p : Int) → (s1.pageinfo f).owner = (p : Int)) :
    ProcIso L s1 p l1 l2 :=
  ProcIso_update h hpt (hmem _ h.own_l1) hown
    (fun j => Or.inl (by rw [hmem _ h.own_l2]))

/-! ### Footprints -/

theorem Foot_refl (a : Nat) (s : KState) : Foot a s s := fun _ _ _ => ⟨rfl, fun _ => rfl⟩

theorem Foot_trans {a : Nat} {s s1 s2 : KState} (h1 : Foot a s s1) (h2 : Foot a s1 s2) :
    Foot a s s2 := by
  intro f hf ha
  obtain ⟨e1, m1⟩ := h1 f hf ha
  obtain ⟨e2, m2⟩ := h2 f (by rw [e1]; exact hf) (by rw [e1]; exact ha)
  exact ⟨e2.trans e1, fun hp => (m2 (by rw [e1]; exact hp)).trans (m1 hp)⟩

theorem Foot_of_eq {a : Nat} {s s1 : KState} (hm : s1.mem = s.mem)
    (hp : s1.pageinfo = s.pageinfo) : Foot a s s1 := by
  intro f _ _
  rw [hm, hp]
  exact ⟨rfl, fun _ => rfl⟩

/-- An operation that acts for `a` keeps the address space of every other
process. -/
theorem Foot_ProcIso {L : Layout} {a : Nat} {s s1 : KState} {p l1 l2 : Nat}
    (hf : Foot a s s1) (hpa : p ≠ a) (hp0 : 0 < p) (h : ProcIso L s p l1 l2)
    (hpt : (s1.processes p).p_pagetable = (s.processes p).p_pagetable) :
    ProcIso L s1 p l1 l2 := by
  have key : ∀ f, (s.pageinfo f).owner = (p : Int) →
      (s1.pageinfo f).owner = (s.pageinfo f).owner ∧ s1.mem f = s.mem f := by
    intro f ho
    have h1 : (s.pageinfo f).owner ≠ PO_FREE := by rw [ho]; unfold PO_FREE; omega
    have h2 : (s.pageinfo f).owner ≠ (a : Int) := by
      rw [ho]; intro x; exact hpa (by exact_mod_cast x)
    obtain ⟨e, hm⟩ := hf f h1 h2
    exact ⟨e, hm (by rw [ho]; omega)⟩
  exact ProcIso_frame h hpt (fun f ho => (key f ho).2)
    (fun f ho => by rw [(key f ho).1]; exact ho)

theorem Foot_console {L : Layout} {a : Nat} {s s1 : KState} (hf : Foot a s s1)
    (hc : (s.pageinfo (PAGENUMBER L.console)).owner = PO_RESERVED) :
    (s1.pageinfo (PAGENUMBER L.console)).owner = PO_RESERVED := by
  have := (hf (PAGENUMBER L.console) (by rw [hc]; decide)
    (by rw [hc]; unfold PO_RESERVED; omega)).1
  rw [this]; exact hc

/-- A step of the kernel on behalf of process `a` that writes only free frames
and one entry of the inner table of `a`, and changes the record of no frame
in use: the address space of `a` keeps its shape when the new entry is
harmless or leads to a frame that was free and now belongs to `a`. -/
theorem actor_step {L : Layout} {s s1 : KState} {a l1 l2 : Nat} (ha : 0 < a)
    (hiso : ProcIso L s a l1 l2)
    (hpt : (s1.processes a).p_pagetable = (s.processes a).p_pagetable)
    (hmemo : ∀ f, f ≠ l2 → (s.pageinfo f).owner ≠ PO_FREE → s1.mem f = s.mem f)
    (hown : ∀ f, (s.pageinfo f).owner ≠ PO_FREE →
      (s1.pageinfo f).owner = (s.pageinfo f).owner)
    (hl2 : s1.mem l2 = s.mem l2 ∨ ∃ idx e, s1.mem l2 = Function.update (s.mem l2) idx e
        ∧ (¬ UserWritable e ∨ ((s1.pageinfo (PAGENUMBER e)).owner = (a : Int)
              ∧ (s.pageinfo (PAGENUMBER e)).owner = PO_FREE))) :
    ProcIso L s1 a l1 l2 ∧ Foot a s s1 := by
  have hne : ((a : Nat) : Int) ≠ PO_FREE := by unfold PO_FREE; omega
  have ho1 : (s.pageinfo l1).owner ≠ PO_FREE := by rw [hiso.own_l1]; exact hne
  have ho2 : (s.pageinfo l2).owner ≠ PO_FREE := by rw [hiso.own_l2]; exact hne
  constructor
  · refine ProcIso_update hiso hpt (hmemo l1 hiso.l_ne ho1)
      (fun f ho => by rw [hown f (by rw [ho]; exact hne)]; exact ho) ?_
    intro j
    rcases hl2 with e | ⟨idx, e, he, hc⟩
    · left; rw [e]
    · by_cases hj : j = idx
      · subst hj
        rw [he, Function.update_same]
        rcases hc with c | ⟨c1, c2⟩
        · exact Or.inr (Or.inl c)
        · refine Or.inr (Or.inr (Or.inr ⟨c1, ?_, ?_⟩))
          · intro x; rw [x] at c2; exact ho1 c2
          · intro x; rw [x] at c2; exact ho2 c2
      · left; rw [he, Function.update_noteq hj]
  · intro f hf hfa
    refine ⟨hown f hf, fun _ => hmemo f ?_ hf⟩
    intro x
    rw [x, hiso.own_l2] at hfa
    exact hfa rfl

/-- The call `virtual_memory_map` for one page in an address space of the
shape `ProcIso` writes one entry of the inner table. -/
theorem map_own_page {L : Layout} {mem m1 : Memory} {l1 l2 va pa perm : Nat}
    (hl1 : l1 < 2 ^ 20) (hl2 : l2 < 2 ^ 20)
    (hmem : mem l1 = Function.update (fun _ => 0) 0 (PAGEADDRESS l2 ||| 7))
    (h : virtual_memory_map L mem (PAGEADDRESS l1) va pa PAGESIZE perm = some m1) :
    m1 = Function.update mem l2 (Function.update (mem l2) (L2PAGEINDEX va)
          (if perm &&& PTE_P ≠ 0 then pa ||| perm else perm))
    ∧ pa % PAGESIZE = 0 ∧ perm < 4096 := by
  obtain ⟨h1, _, h3, _, h5, h6⟩ := virtual_memory_map_single h
  rw [PAGENUMBER_PAGEADDRESS hl1, hmem] at h1 h6
  rw [(outer_entry_present hl2 h1).2] at h6
  exact ⟨h6, h3, h5⟩

theorem toInt8_pid {a : Nat} (h : a ≤ 127) : toInt8 (a : Int) = (a : Int) :=
  toInt8_of_range (by omega) (by omega)

/-- The kernel allocates a free frame for process `a` and maps it in the
address space of `a`; the frame may be filled before or after it is mapped. -/
theorem alloc_map_step {L : Layout} {s s1 : KState} {a l1 l2 A va perm : Nat} {mem1 m2 : Memory}
    (ha0 : 0 < a) (ha1 : a ≤ 127) (hiso : ProcIso L s a l1 l2) (hr : RefInv s.pageinfo)
    (halloc : (physical_page_alloc L s.pageinfo A (toInt8 (a : Int))).2 ≠ -1)
    (hmem1 : ∀ f, f ≠ PAGENUMBER A → mem1 f = s.mem f)
    (hmap : virtual_memory_map L mem1 (PAGEADDRESS l1) va A PAGESIZE perm = some m2)
    (hpt : (s1.processes a).p_pagetable = (s.processes a).p_pagetable)
    (hpi : s1.pageinfo = (physical_page_alloc L s.pageinfo A (toInt8 (a : Int))).1)
    (hm : ∀ f, f ≠ PAGENUMBER A → s1.mem f = m2 f) :
    ProcIso L s1 a l1 l2 ∧ Foot a s s1 := by
  obtain ⟨hAal, _, hrc, hpi2⟩ := physical_page_alloc_ok halloc
  rw [hpi2, toInt8_pid ha1] at hpi
  have hfree : (s.pageinfo (PAGENUMBER A)).owner = PO_FREE := ((hr _).1).mp hrc
  have hne : ((a : Nat) : Int) ≠ PO_FREE := by unfold PO_FREE; omega
  have hF1 : l1 ≠ PAGENUMBER A := by
    intro x; rw [← x, hiso.own_l1] at hfree; exact hne hfree
  have hF2 : l2 ≠ PAGENUMBER A := by
    intro x; rw [← x, hiso.own_l2] at hfree; exact hne hfree
  have hml1 : mem1 l1 = Function.update (fun _ => 0) 0 (PAGEADDRESS l2 ||| 7) := by
    rw [hmem1 l1 hF1]; exact hiso.mem_l1
  obtain ⟨hm2, _, hperm⟩ := map_own_page hiso.l1_lt hiso.l2_lt hml1 hmap
  refine actor_step ha0 hiso hpt ?_ ?_ (Or.inr ⟨L2PAGEINDEX va,
    (if perm &&& PTE_P ≠ 0 then A ||| perm else perm), ?_, ?_⟩)
  · intro f hf2 hfo
    have hfA : f ≠ PAGENUMBER A := by
      intro x; rw [x] at hfo; exact hfo hfree
    rw [hm f hfA, hm2, Function.update_noteq hf2, hmem1 f hfA]
  · intro f hfo
    have hfA : f ≠ PAGENUMBER A := by
      intro x; rw [x] at hfo; exact hfo hfree
    rw [hpi, Function.update_noteq hfA]
  · rw [hm l2 hF2, hm2, Function.update_same, hmem1 l2 hF2]
  · by_cases hP : perm &&& PTE_P ≠ 0
    · right
      rw [if_pos hP, PAGENUMBER_pte hAal hperm]
      exact ⟨by rw [hpi, Function.update_same], hfree⟩
    · left
      rw [if_neg hP]
      intro hw
      exact hP hw.1

/-- The kernel maps a page read-only in the address space of `a` and changes
the refcount of a frame, as `fork` does for a shared page. -/
theorem share_map_step {L : Layout} {s s1 : KState} {a l1 l2 va pa pn : Nat}
    {r : physical_pageinfo} {m2 : Memory}
    (ha0 : 0 < a) (hiso : ProcIso L s a l1 l2)
    (hmap : virtual_memory_map L s.mem (PAGEADDRESS l1) va pa PAGESIZE (PTE_P ||| PTE_U)
      = some m2)
    (hpt : (s1.processes a).p_pagetable = (s.processes a).p_pagetable)
    (hpi : s1.pageinfo = Function.update s.pageinfo pn r)
    (hro : r.owner = (s.pageinfo pn).owner)
    (hm : s1.mem = m2) :
    ProcIso L s1 a l1 l2 ∧ Foot a s s1 := by
  obtain ⟨hm2, hpal, _⟩ := map_own_page hiso.l1_lt hiso.l2_lt hiso.mem_l1 hmap
  have hown : ∀ f, (s1.pageinfo f).owner = (s.pageinfo f).owner := by
    intro f
    rw [hpi]
    by_cases e : f = pn
    · subst e; rw [Function.update_same]; exact hro
    · rw [Function.update_noteq e]
  refine actor_step ha0 hiso hpt ?_ (fun f _ => hown f) (Or.inr ⟨L2PAGEINDEX va,
    (if (PTE_P ||| PTE_U) &&& PTE_P ≠ 0 then pa ||| (PTE_P ||| PTE_U) else PTE_P ||| PTE_U),
    ?_, ?_⟩)
  · intro f hf2 _
    rw [hm, hm2, Function.update_noteq hf2]
  · rw [hm, hm2, Function.update_same]
  · left
    rw [if_pos (by decide), UserWritable_pte hpal (by decide)]
    intro hw
    exact hw.2.1 (by decide)

/-- The owner that `sys_exit(pid)` leaves in a frame record: the owner before,
or Free when that was `pid`. -/
theorem sys_exit_page_owner {L : Layout} {mem : Memory} {pid : Nat} {pageinfo pi1 : PageInfo}
    {i : Nat} (h : sys_exit_page L mem pid pageinfo i = some pi1) (f : Nat) :
    (pi1 f).owner = (pageinfo f).owner
    ∨ ((pageinfo f).owner = (pid : Int) ∧ (pi1 f).owner = PO_FREE) := by
  unfold sys_exit_page at h
  dsimp only at h
  split at h
  · cases h
    generalize (virtual_memory_lookup mem L.kernel_pagetable (PAGEADDRESS i)).pn.toNat = pn
    have h1 : ∀ f, ((if (pageinfo pn).owner = (pid : Int) then
        Function.update pageinfo pn { owner := PO_FREE, refcount := 0 } else pageinfo) f).owner
          = (pageinfo f).owner
        ∨ ((pageinfo f).owner = (pid : Int) ∧ ((if (pageinfo pn).owner = (pid : Int) then
          Function.update pageinfo pn { owner := PO_FREE, refcount := 0 }
            else pageinfo) f).owner = PO_FREE) := by
      intro f
      split
      · rename_i ho
        by_cases e : f = pn
        · subst e; right; rw [Function.update_same]; exact ⟨ho, rfl⟩
        · left; rw [Function.update_noteq e]
      · left; rfl
    generalize (if (pageinfo pn).owner = (pid : Int) then
        Function.update pageinfo pn { owner := PO_FREE, refcount := 0 } else pageinfo) = p1 at *
    have h2 : (((if (p1 pn).refcount > 1 ∧ (p1 pn).owner > 0 then
        Function.update p1 pn { owner := (p1 pn).owner, refcount := (p1 pn).refcount - 1 }
          else p1) f).owner) = (p1 f).owner := by
      split
      · by_cases e : f = pn
        · subst e; rw [Function.update_same]
        · rw [Function.update_noteq e]
      · rfl
    rw [h2]
    exact h1 f
  · cases h

theorem sys_exit_loop_owner {L : Layout} {mem : Memory} {pid : Nat} (fuel : Nat) :
    ∀ (i : Nat) (pageinfo pi1 : PageInfo),
      sys_exit_loop L mem pid fuel i pageinfo = some pi1 → ∀ f,
      (pi1 f).owner = (pageinfo f).owner
      ∨ ((pageinfo f).owner = (pid : Int) ∧ (pi1 f).owner = PO_FREE) := by
  induction fuel with
  | zero => intro i pageinfo pi1 h f; simp [sys_exit_loop] at h; rw [← h]; exact Or.inl rfl
  | succ n ih =>
    intro i pageinfo pi1 h f
    unfold sys_exit_loop at h
    split at h
    · cases h
    · rename_i p2 hp
      rcases ih _ _ _ h f with e | ⟨e1, e2⟩
      · rcases sys_exit_page_owner hp f with c | ⟨c1, c2⟩
        · left; rw [e, c]
        · right; exact ⟨c1, by rw [e, c2]⟩
      · rcases sys_exit_page_owner hp f with c | ⟨c1, c2⟩
        · right; exact ⟨by rw [← c]; exact e1, e2⟩
        · right; exact ⟨c1, e2⟩

/-- The function `sys_exit(pid)` writes no memory and changes the owner of no
frame that `pid` does not own. -/
theorem sys_exit_foot {L : Layout} {s s1 : KState} {pid : Nat}
    (h : sys_exit L s pid = some s1) : Foot pid s s1 := by
  obtain ⟨_, hm, _, _⟩ := sys_exit_frame h
  intro f _ hfa
  refine ⟨?_, fun _ => by rw [hm]⟩
  unfold sys_exit at h
  split at h
  · cases h
  · rename_i p1 hp
    split at h
    · cases h
      rcases sys_exit_loop_owner _ _ _ _ hp f with e | ⟨e, _⟩
      · exact e
      · exact absurd e hfa
    · cases h

theorem physical_page_alloc_ret (L : Layout) (pageinfo : PageInfo) (addr : Nat) (owner : Int) :
    (physical_page_alloc L pageinfo addr owner).2 = -1
    ∨ (physical_page_alloc L pageinfo addr owner).2 = 0 := by
  unfold physical_page_alloc
  split
  · exact Or.inl rfl
  · exact Or.inr rfl

/-- The function `physical_page_alloc` changes the record of no frame in use. -/
theorem physical_page_alloc_keeps {L : Layout} {pageinfo : PageInfo} {addr : Nat} {owner : Int}
    (hr : RefInv pageinfo) {f : Nat} (hf : (pageinfo f).owner ≠ PO_FREE) :
    (physical_page_alloc L pageinfo addr owner).1 f = pageinfo f := by
  unfold physical_page_alloc
  split
  · rfl
  · rename_i hc
    have hrc : (pageinfo (PAGENUMBER addr)).refcount = 0 := by
      by_contra x
      exact hc (Or.inr (Or.inr x))
    have : f ≠ PAGENUMBER addr := by
      intro x
      rw [x] at hf
      exact hf (((hr _).1).mp hrc)
    exact Function.update_noteq this _ _

/-- The function `copy_pagetable`, called for process `a`, writes only frames
that were free, whatever it returns. -/
theorem copy_pagetable_foot {L : Layout} (hL : L.WF) {s s2 : KState} {pt a cp : Nat}
    (h : copy_pagetable L s pt a = some (s2, cp)) (ho : toInt8 (a : Int) ≠ 0)
    (hr : RefInv s.pageinfo) : Foot a s s2 := by
  by_cases hne : cp = UINTPTR_MINUS_ONE
  · have k1 : ∀ A f, (s.pageinfo f).owner ≠ PO_FREE →
        (physical_page_alloc L s.pageinfo A (toInt8 a)).1 f = s.pageinfo f :=
      fun A f hf => physical_page_alloc_keeps hr hf
    have k2 : ∀ A B f, (s.pageinfo f).owner ≠ PO_FREE →
        (physical_page_alloc L (physical_page_alloc L s.pageinfo A (toInt8 a)).1 B
          (toInt8 a)).1 f = s.pageinfo f := by
      intro A B f hf
      rw [physical_page_alloc_keeps (physical_page_alloc_refinv ho hr)
        (by rw [k1 A f hf]; exact hf), k1 A f hf]
    subst hne
    unfold copy_pagetable at h
    dsimp only at h
    split at h
    · cases h
      intro f hf _
      exact ⟨by show ((physical_page_alloc L s.pageinfo _ _).1 f).owner = _; rw [k1 _ f hf],
        fun _ => rfl⟩
    · split at h
      · cases h
        intro f hf _
        exact ⟨by
          show ((physical_page_alloc L (physical_page_alloc L s.pageinfo _ _).1 _ _).1 f).owner
            = _
          rw [k2 _ _ f hf], fun _ => rfl⟩
      · rename_i hr1 _
        have hal := (physical_page_alloc_ok hr1).1
        split at h
        · cases h
        · split at h
          · cases h
          · exfalso
            have e := congrArg Prod.snd (Option.some.inj h)
            dsimp only at e
            rw [e] at hal
            exact absurd hal (by decide)
  · obtain ⟨l1, l2, _, _, _, _, _, _, _, ho1, ho2, hpi, hmo, _, _⟩ :=
      copy_pagetable_success hL h hne
    intro f hf _
    have h1 : f ≠ l1 := by
      intro x; rw [x] at hf; exact hf ho1
    have h2 : f ≠ l2 := by
      intro x; rw [x] at hf; exact hf ho2
    refine ⟨?_, fun _ => hmo f h1 h2⟩
    rw [hpi, Function.update_noteq h2, Function.update_noteq h1]

/-- After a successful `copy_pagetable` for process `a` and the store of the
new pointer in its descriptor, the address space of `a` has the shape
`ProcIso`. -/
theorem copy_pagetable_iso {L : Layout} (hL : L.WF) {s s2 : KState} {pt a cp : Nat}
    (h : copy_pagetable L s pt a = some (s2, cp)) (hne : cp ≠ UINTPTR_MINUS_ONE)
    (ha : a ≤ 127) :
    ∃ l1 l2, ProcIso L (set_pagetable_of s2 a cp) a l1 l2 := by
  obtain ⟨l1, l2, hcp, _, hb1, hb2, hne12, _, _, _, _, hpi, _, hm1, huw⟩ :=
    copy_pagetable_success hL h hne
  have hv := hL.virt_le
  have hs := hL.start_le
  have hl1 : l1 < 2 ^ 20 := by unfold PAGESIZE at hb1; omega
  have hl2 : l2 < 2 ^ 20 := by unfold PAGESIZE at hb2; omega
  refine ⟨l1, l2, ?_, hl1, hl2, hne12, hm1, ?_, ?_, fun j hw => Or.inl (huw j hw)⟩
  · simp [set_pagetable_of, set_proc, hcp]
  · show (s2.pageinfo l1).owner = _
    rw [hpi, Function.update_noteq hne12, Function.update_same, toInt8_pid ha]
  · show (s2.pageinfo l2).owner = _
    rw [hpi, Function.update_same, toInt8_pid ha]

/-! ### `fork` and the isolation invariant -/

/-- The processes other than `a` keep their address spaces under an operation
that acts for `a` and leaves their descriptors alone. -/
theorem LiveIso_others {L : Layout} {a : Nat} {s s1 : KState} (hf : Foot a s s1)
    (hidle : (s.processes 0).p_state = procstate.P_FREE) (hlive : LiveIso L s)
    (hst : ∀ p, p ≠ a → (s1.processes p).p_state = (s.processes p).p_state
      ∧ (s1.processes p).p_pagetable = (s.processes p).p_pagetable) :
    ∀ p, p ≠ a → (s1.processes p).p_state ≠ procstate.P_FREE →
      ∃ l1 l2, ProcIso L s1 p l1 l2 := by
  intro p hpa hp
  obtain ⟨e1, e2⟩ := hst p hpa
  rw [e1] at hp
  have hp0 : 0 < p := by
    rcases Nat.eq_zero_or_pos p with e | e
    · rw [e] at hp; exact absurd hidle hp
    · exact e
  obtain ⟨l1, l2, h⟩ := hlive p hp
  exact ⟨l1, l2, Foot_ProcIso hf hpa hp0 h e2⟩

theorem fork_page_iso {L : Layout} {s0 sk s1 : KState} {slot l1 l2 i : Nat}
    (hs0 : 0 < slot) (hs1 : slot ≤ 127) (hpid : (s0.processes slot).p_pid = slot)
    (inv : ForkIso L s0 slot l1 l2 sk)
    (h : fork_page L sk slot (PAGEADDRESS l1) i = some (ForkStep.next s1)) :
    ForkIso L s0 slot l1 l2 s1 := by
  have hpidk : (sk.processes slot).p_pid = slot := by rw [inv.procs]; exact hpid
  have ho : toInt8 ((sk.processes slot).p_pid : Int) ≠ 0 := by
    rw [hpidk]; exact toInt8_pid_ne_zero hs0 hs1
  have href := fork_page_refinv_next h ho inv.ref
  have hprocs := (fork_page_next_frame h).1
  rcases fork_page_next_cases h with ⟨e, _⟩ | ⟨_, _, hr, m2, hm2, e⟩
      | ⟨_, _, _, _, _, _, m1, hm1, e⟩
  · rw [e]; exact inv
  · rw [hpidk] at hr hm2 e
    rw [inv.iso.pt_eq] at hm2
    obtain ⟨a, b⟩ := @alloc_map_step L sk s1 slot l1 l2 _ _ _ _ _ hs0 hs1 inv.iso inv.ref hr
      (fun f hf => by unfold memcpy_page; rw [Function.update_noteq hf])
      hm2 (by rw [e]) (by rw [e]) (fun f _ => by rw [e])
    exact ⟨a, Foot_trans inv.foot b, href, by rw [hprocs]; exact inv.procs⟩
  · obtain ⟨a, b⟩ := @share_map_step L sk s1 slot l1 l2 _ _ _ _ _ hs0 inv.iso hm1
      (by rw [e]) (by rw [e]) (by rfl) (by rw [e])
    exact ⟨a, Foot_trans inv.foot b, href, by rw [hprocs]; exact inv.procs⟩

theorem fork_loop_iso {L : Layout} {s0 : KState} {slot l1 l2 : Nat}
    (hs0 : 0 < slot) (hs1 : slot ≤ 127) (hpid : (s0.processes slot).p_pid = slot)
    (fuel : Nat) :
    ∀ (i : Nat) (sk : KState) (st : ForkStep),
      fork_loop L slot (PAGEADDRESS l1) fuel i sk = some st → ForkIso L s0 slot l1 l2 sk →
      (∀ s1, st = ForkStep.next s1 → ForkIso L s0 slot l1 l2 s1)
      ∧ (∀ s1, st = ForkStep.failed s1 → ∃ sk1, ForkIso L s0 slot l1 l2 sk1
          ∧ sys_exit L (set_eax sk1 sk1.current (toU32 (-1))) (sk1.processes slot).p_pid
              = some s1) := by
  induction fuel with
  | zero =>
    intro i sk st h inv
    simp [fork_loop] at h
    subst h
    exact ⟨fun s1 e => (by cases e; exact inv), fun s1 e => (by cases e)⟩
  | succ n ih =>
    intro i sk st h inv
    unfold fork_loop at h
    split at h
    · cases h
    · rename_i s2 hp
      cases h
      exact ⟨fun s1 e => (by cases e),
        fun s1 e => (by cases e; exact ⟨sk, inv, fork_page_failed hp⟩)⟩
    · rename_i s2 hp
      exact ih _ _ _ h (fork_page_iso hs0 hs1 hpid inv hp)

theorem fork_claim_slot_other (s : KState) {slot p : Nat} (h : p ≠ slot) :
    (fork_claim_slot s slot).processes p = s.processes p := by
  unfold fork_claim_slot set_proc
  exact Function.update_noteq h _ _

theorem set_pagetable_of_other (s : KState) {pid p : Nat} (pt : Nat) (h : p ≠ pid) :
    (set_pagetable_of s pid pt).processes p = s.processes p := by
  unfold set_pagetable_of set_proc
  exact Function.update_noteq h _ _

theorem fork_finish_state (s4 : KState) (slot j : Nat) :
    ((fork_finish s4 slot).processes j).p_state = (s4.processes j).p_state := by
  unfold fork_finish
  dsimp only
  rw [(set_eax_proc _ _ _ _).1, (set_eax_proc _ _ _ _).1, (set_registers_proc _ _ _ _).1]

/-- The state in which `fork` enters its copy loop satisfies the loop
invariant `ForkIso`. -/
theorem fork_entry_iso {L : Layout} (hL : L.WF) {s s2 : KState} {slot cp : Nat}
    (hs0 : 0 < slot) (hs1 : slot ≤ 127) (hr : RefInv s.pageinfo)
    (hcp : copy_pagetable L (fork_claim_slot s slot)
        ((fork_claim_slot s slot).processes (fork_claim_slot s slot).current).p_pagetable
        ((fork_claim_slot s slot).processes slot).p_pid = some (s2, cp))
    (hne : cp ≠ UINTPTR_MINUS_ONE) :
    ∃ l1 l2, cp = PAGEADDRESS l1
      ∧ ForkIso L (set_pagetable_of s2 slot cp) slot l1 l2 (set_pagetable_of s2 slot cp)
      ∧ Foot slot s (set_pagetable_of s2 slot cp)
      ∧ (∀ p, p ≠ slot → (set_pagetable_of s2 slot cp).processes p = s.processes p)
      ∧ ((set_pagetable_of s2 slot cp).processes slot).p_pid = slot := by
  have hpidc : ((fork_claim_slot s slot).processes slot).p_pid = slot := by
    simp [fork_claim_slot, set_proc]
  have ho : toInt8 (slot : Int) ≠ 0 := toInt8_pid_ne_zero hs0 hs1
  rw [hpidc] at hcp
  have hp2 := (copy_pagetable_frame hcp).1
  obtain ⟨l1, l2, hiso⟩ := copy_pagetable_iso hL hcp hne hs1
  have hcpe : cp = PAGEADDRESS l1 := by
    have := hiso.pt_eq
    simpa [set_pagetable_of, set_proc] using this
  have hfoot : Foot slot s s2 :=
    Foot_trans (Foot_of_eq rfl rfl : Foot slot s (fork_claim_slot s slot))
      (copy_pagetable_foot hL hcp ho hr)
  refine ⟨l1, l2, hcpe,
    ⟨hiso, Foot_refl _ _, (show RefInv s2.pageinfo from copy_pagetable_refinv hcp ho hr), rfl⟩,
    Foot_trans hfoot (Foot_of_eq rfl rfl), ?_, ?_⟩
  · intro p hp
    rw [set_pagetable_of_other _ _ hp, hp2]
    exact fork_claim_slot_other s hp
  · rw [(set_pagetable_of_proc _ _ _ _).2, hp2]
    exact hpidc

/-- The function `fork` keeps the address spaces of all live processes in the
shape `ProcIso`, the child's included, and acts for one process. -/
theorem fork_live_iso {L : Layout} (hL : L.WF) {s s1 : KState} {r : Int}
    (h : fork L s = some (s1, r)) (hr : RefInv s.pageinfo) (hi : ProcInv s)
    (hlive : LiveIso L s) :
    LiveIso L s1 ∧ ∃ a, Foot a s s1 := by
  cases hfs : fork_find_slot s.processes (L.NPROC - 1) 1 with
  | none =>
    unfold fork at h
    rw [hfs] at h
    cases h
    exact ⟨hlive, 0, Foot_refl _ _⟩
  | some slot =>
    obtain ⟨hs1, hs2, _, _⟩ := fork_find_slot_some _ _ _ _ hfs
    have hN := hL.nproc_le
    have hslot0 : 0 < slot := by omega
    have hslot1 : slot ≤ 127 := by omega
    have ho : toInt8 (slot : Int) ≠ 0 := toInt8_pid_ne_zero hs1 hslot1
    have hpidc : ((fork_claim_slot s slot).processes slot).p_pid = slot := by
      simp [fork_claim_slot, set_proc]
    by_cases hrs : r = -1
    · -- the failure paths end in `sys_exit(slot)`
      have hne : r ≠ (slot : Int) := by omega
      obtain ⟨_, hc⟩ := fork_failure_shape hfs h hne
      have hsk : ∃ sk, Foot slot s sk ∧ (∀ p, p ≠ slot → sk.processes p = s.processes p)
          ∧ (sk.processes slot).p_pid = slot
          ∧ sys_exit L (set_eax sk sk.current (toU32 (-1))) (sk.processes slot).p_pid
              = some s1 := by
        rcases hc with ⟨s2, hcp, hex⟩ | ⟨s2, cp, hcp, hcpne, hloop⟩
        · have hp2 := (copy_pagetable_frame hcp).1
          rw [hpidc] at hcp
          refine ⟨s2, ?_, ?_, ?_, hex⟩
          · exact Foot_trans (Foot_of_eq rfl rfl : Foot slot s (fork_claim_slot s slot))
              (copy_pagetable_foot hL hcp ho hr)
          · intro p hp; rw [hp2]; exact fork_claim_slot_other s hp
          · rw [hp2]; exact hpidc
        · obtain ⟨l1, l2, hcpe, inv0, hf0, hpo, hpk⟩ :=
            fork_entry_iso hL hslot0 hslot1 hr hcp hcpne
          subst hcpe
          obtain ⟨sk1, inv1, hex⟩ :=
            (fork_loop_iso hslot0 hslot1 hpk _ _ _ _ hloop inv0).2 _ rfl
          refine ⟨sk1, Foot_trans hf0 inv1.foot, ?_, ?_, hex⟩
          · intro p hp; rw [inv1.procs]; exact hpo p hp
          · rw [inv1.procs]; exact hpk
      obtain ⟨sk, hf, hpo, hpk, hex⟩ := hsk
      rw [hpk] at hex
      obtain ⟨_, _, _, hp1⟩ := sys_exit_frame hex
      have hfoot : Foot slot s s1 :=
        Foot_trans hf (Foot_trans
          (Foot_of_eq rfl rfl : Foot slot sk (set_eax sk sk.current (toU32 (-1))))
          (sys_exit_foot hex))
      refine ⟨fun p hp => ?_, slot, hfoot⟩
      by_cases e : p = slot
      · subst e
        rw [hp1, Function.update_same] at hp
        exact absurd rfl hp
      · refine LiveIso_others hfoot hi.2 hlive (fun q hq => ?_) p e hp
        rw [hp1, Function.update_noteq hq, (set_eax_proc _ _ _ _).1,
          (set_eax_proc _ _ _ _).2.2, hpo q hq]
        exact ⟨rfl, rfl⟩
    · -- success
      obtain ⟨slot', cp, s2, s4, hfs', hcp, hcpne, hloop, he, _⟩ := fork_success_shape h hrs
      have hss : slot' = slot := by
        rw [hfs] at hfs'; exact (Option.some.inj hfs').symm
      subst hss
      obtain ⟨l1, l2, hcpe, inv0, hf0, hpo, hpk⟩ :=
        fork_entry_iso hL hslot0 hslot1 hr hcp hcpne
      subst hcpe
      have inv4 := (fork_loop_iso hslot0 hslot1 hpk _ _ _ _ hloop inv0).1 _ rfl
      subst he
      have hfoot : Foot slot' s (fork_finish s4 slot') :=
        Foot_trans hf0 (Foot_trans inv4.foot
          (Foot_of_eq rfl rfl : Foot slot' s4 (fork_finish s4 slot')))
      refine ⟨fun p hp => ?_, slot', hfoot⟩
      by_cases e : p = slot'
      · subst e
        exact ⟨l1, l2, ProcIso_frame inv4.iso (fork_finish_pagetable _ _ _)
          (fun f _ => rfl) (fun f ho => ho)⟩
      · refine LiveIso_others hfoot hi.2 hlive (fun q hq => ?_) p e hp
        rw [fork_finish_state, fork_finish_pagetable, inv4.procs, hpo q hq]
        exact ⟨rfl, rfl⟩

/-! ### The dispatcher and the isolation invariant -/

theorem LiveIso_of_same {L : Layout} {s s1 : KState} (hm : s1.mem = s.mem)
    (hp : s1.pageinfo = s.pageinfo)
    (hst : ∀ p, (s1.processes p).p_state ≠ procstate.P_FREE →
      (s.processes p).p_state ≠ procstate.P_FREE)
    (hpt : ∀ p, (s1.processes p).p_pagetable = (s.processes p).p_pagetable)
    (hlive : LiveIso L s) : LiveIso L s1 := by
  intro p hp1
  obtain ⟨l1, l2, h⟩ := hlive p (hst p hp1)
  exact ⟨l1, l2, ProcIso_frame h (hpt p) (fun f _ => by rw [hm])
    (fun f ho => by rw [hp]; exact ho)⟩

theorem LiveIso_set_eax {L : Layout} {s : KState} (pid v : Nat) (hlive : LiveIso L s) :
    LiveIso L (set_eax s pid v) :=
  @LiveIso_of_same L s (set_eax s pid v) rfl rfl (fun p hp => by rw [(set_eax_proc s pid v p).1] at hp; exact hp)
    (fun p => (set_eax_proc s pid v p).2.2) hlive

theorem LiveIso_set_registers {L : Layout} {s : KState} (pid : Nat) (r : x86_registers)
    (hlive : LiveIso L s) : LiveIso L (set_registers s pid r) :=
  @LiveIso_of_same L s (set_registers s pid r) rfl rfl (fun p hp => by rw [(set_registers_proc s pid r p).1] at hp; exact hp)
    (fun p => (set_registers_proc s pid r p).2.2) hlive

theorem set_state_proc (s : KState) (pid : Nat) (st : procstate) (j : Nat) :
    ((set_state s pid st).processes j).p_pagetable = (s.processes j).p_pagetable
    ∧ (j ≠ pid → ((set_state s pid st).processes j).p_state = (s.processes j).p_state) := by
  unfold set_state set_proc
  constructor
  · by_cases e : j = pid
    · subst e; simp only [Function.update_same]
    · simp only [Function.update_noteq e]
  · intro e
    simp only [Function.update_noteq e]

/-- A store of the running process keeps the address spaces of all live
processes: it goes to the console page or to a frame that the process owns and
that is none of its page tables. -/
theorem user_store_live_iso {L : Layout} {s s1 : KState} {va w : Nat}
    (h : user_store s va w = some s1) (k : KInv L s)
    (hcon : (s.pageinfo (PAGENUMBER L.console)).owner = PO_RESERVED)
    (hlive : LiveIso L s) : LiveIso L s1 := by
  have hc0 : 0 < s.current := Nat.pos_of_ne_zero (KInv_current_pos k)
  have hcl : (s.processes s.current).p_state ≠ procstate.P_FREE := by
    rw [k.cur_run]; decide
  obtain ⟨l1, l2, hiso⟩ := hlive s.current hcl
  unfold user_store at h
  dsimp only at h
  split at h
  · rename_i hw
    have hw' : UserWritable
        (virtual_memory_lookup s.mem (s.processes s.current).p_pagetable va).perm := hw
    rw [hiso.pt_eq] at hw' h
    have e := lookup_of_tables hiso.l1_lt hiso.l2_lt hiso.mem_l1 (UserWritable_ne_zero hw')
    rw [e] at hw' h
    dsimp only at hw' h
    rw [UserWritable_flags] at hw'
    have huser := hiso.user _ hw'
    have hF : PAGENUMBER (PTE_ADDR (s.mem l2 (L2PAGEINDEX va)) + PAGEOFFSET va)
        = PAGENUMBER (s.mem l2 (L2PAGEINDEX va)) := by
      rw [PAGENUMBER_add_lt (PTE_ADDR_aligned _)
        (by unfold PAGEOFFSET; exact Nat.mod_lt _ (by decide)), PAGENUMBER_PTE_ADDR]
    generalize PAGENUMBER (s.mem l2 (L2PAGEINDEX va)) = F at huser hF
    have hother : ∀ f, f ≠ F → s1.mem f = s.mem f := by
      intro f hf
      rw [← Option.some.inj h]
      exact write_word_other _ _ _ _ (by rw [hF]; exact hf)
    have hpi : s1.pageinfo = s.pageinfo := by rw [← Option.some.inj h]
    have hpr : s1.processes = s.processes := by rw [← Option.some.inj h]
    have hcne : ((s.current : Nat) : Int) ≠ PO_RESERVED := by unfold PO_RESERVED; omega
    have hF1 : l1 ≠ F := by
      intro x
      rcases huser with c | ⟨_, c, _⟩
      · rw [← x] at c; rw [← c, hiso.own_l1] at hcon; exact hcne hcon
      · exact c x.symm
    have hF2 : l2 ≠ F := by
      intro x
      rcases huser with c | ⟨_, _, c⟩
      · rw [← x] at c; rw [← c, hiso.own_l2] at hcon; exact hcne hcon
      · exact c x.symm
    have hfoot : Foot s.current s s1 := by
      intro f _ hfa
      refine ⟨by rw [hpi], fun hpos => hother f ?_⟩
      intro x
      rcases huser with c | ⟨c, _, _⟩
      · rw [x, c, hcon] at hpos
        exact absurd hpos (by decide)
      · rw [x] at hfa; exact hfa c
    intro p hp
    by_cases ep : p = s.current
    · subst ep
      exact ⟨l1, l2, ProcIso_update hiso (by rw [hpr]) (hother l1 hF1)
        (fun f ho => by rw [hpi]; exact ho) (fun j => Or.inl (by rw [hother l2 hF2]))⟩
    · exact LiveIso_others hfoot k.procs.2 hlive (fun q _ => by rw [hpr]; exact ⟨rfl, rfl⟩) p ep hp
  · cases h

/-- What `exception_switch` keeps of the isolation invariant: the address
spaces of the live processes and the record of the console page. -/
theorem exception_switch_iso {L : Layout} (hL : L.WF) {s : KState} {reg : x86_registers}
    {d : Dispatch} (h : exception_switch L s reg = some d) (k : KInv L s)
    (hcon : (s.pageinfo (PAGENUMBER L.console)).owner = PO_RESERVED)
    (hlive : LiveIso L s) :
    ∀ s1, d = Dispatch.handled s1 ∨ d = Dispatch.transferred s1 →
      LiveIso L s1 ∧ (s1.pageinfo (PAGENUMBER L.console)).owner = PO_RESERVED := by
  have hN : 0 < L.NPROC := by have := hL.nproc_gt; omega
  have hN2 := hL.nproc_le
  have hc0 : 0 < s.current := Nat.pos_of_ne_zero (KInv_current_pos k)
  have hc1 := k.cur_lt
  have hcl : (s.processes s.current).p_state ≠ procstate.P_FREE := by
    rw [k.cur_run]; decide
  have hpid : (s.processes s.current).p_pid = s.current := k.procs.1 _
  have same : ∀ s2 : KState, s2.mem = s.mem → s2.pageinfo = s.pageinfo →
      s2.processes = s.processes →
      LiveIso L s2 ∧ (s2.pageinfo (PAGENUMBER L.console)).owner = PO_RESERVED := by
    intro s2 e1 e2 e3
    exact ⟨LiveIso_of_same e1 e2 (fun p hp => by rw [e3] at hp; exact hp)
      (fun p => by rw [e3]) hlive, by rw [e2]; exact hcon⟩
  unfold exception_switch at h
  dsimp only at h
  split at h
  · cases h
  split at h
  · cases h
    intro s1 e
    rcases e with e | e
    · cases e; exact ⟨LiveIso_set_eax _ _ hlive, hcon⟩
    · cases e
  split at h
  · cases hs : schedule L s with
    | none => rw [hs] at h; cases h
    | some s2 =>
      rw [hs] at h
      cases h
      obtain ⟨h1, h2, h3, _, _⟩ := schedule_inv hN hs
      intro s1 e
      rcases e with e | e
      · cases e
      · cases e; exact same _ h3 h1 h2
  split at h
  · -- page allocation
    obtain ⟨l1, l2, hiso⟩ := hlive s.current hcl
    rw [hpid] at h
    split at h
    · rename_i hge
      have hne : (physical_page_alloc L s.pageinfo (find_free_page L s.pageinfo)
          (toInt8 (s.current : Int))).2 ≠ -1 := by omega
      split at h
      · cases h
      · rename_i m1 hmap
        cases h
        rw [hiso.pt_eq] at hmap
        obtain ⟨a, b⟩ := @alloc_map_step L s
          (set_eax { s with
            pageinfo := (physical_page_alloc L s.pageinfo (find_free_page L s.pageinfo)
              (toInt8 (s.current : Int))).1, mem := m1 } s.current
            (toU32 (physical_page_alloc L s.pageinfo (find_free_page L s.pageinfo)
              (toInt8 (s.current : Int))).2))
          s.current l1 l2 _ _ _ s.mem m1 hc0 (by omega) hiso k.ref hne (fun f _ => rfl) hmap
          ((set_eax_proc _ _ _ _).2.2) rfl (fun f _ => rfl)
        intro s1 e
        rcases e with e | e
        · cases e
          refine ⟨fun p hp => ?_, Foot_console b hcon⟩
          by_cases ep : p = s.current
          · subst ep; exact ⟨l1, l2, a⟩
          · exact LiveIso_others b k.procs.2 hlive
              (fun q _ => ⟨(set_eax_proc _ _ _ _).1, (set_eax_proc _ _ _ _).2.2⟩) p ep hp
        · cases e
    · rename_i hlt
      cases h
      have hfail : (physical_page_alloc L s.pageinfo (find_free_page L s.pageinfo)
          (toInt8 (s.current : Int))).2 = -1 := by
        rcases physical_page_alloc_ret L s.pageinfo (find_free_page L s.pageinfo)
          (toInt8 (s.current : Int)) with e | e
        · exact e
        · rw [e] at hlt; exact absurd (by decide) hlt
      have hpi := physical_page_alloc_fail hfail
      intro s1 e
      rcases e with e | e
      · cases e
        refine ⟨?_, ?_⟩
        · refine @LiveIso_of_same L s _ rfl ?_ (fun p hp => ?_)
            (fun p => (set_eax_proc _ _ _ _).2.2) hlive
          · show (physical_page_alloc L s.pageinfo _ _).1 = s.pageinfo
            exact hpi
          · rw [(set_eax_proc _ _ _ _).1] at hp; exact hp
        · show ((physical_page_alloc L s.pageinfo _ _).1 _).owner = _
          rw [hpi]; exact hcon
      · cases e
  split at h
  · cases hs : schedule L { s with ticks := (s.ticks + 1) % WORD } with
    | none => rw [hs] at h; cases h
    | some s2 =>
      rw [hs] at h
      cases h
      obtain ⟨h1, h2, h3, _, _⟩ := schedule_inv hN hs
      intro s1 e
      rcases e with e | e
      · cases e
      · cases e; exact same _ h3 h1 h2
  split at h
  · cases hf : fork L s with
    | none => rw [hf] at h; cases h
    | some p =>
      obtain ⟨s2, r⟩ := p
      rw [hf] at h
      cases h
      obtain ⟨h1, a, h2⟩ := fork_live_iso hL hf k.ref k.procs hlive
      intro s1 e
      rcases e with e | e
      · cases e; exact ⟨h1, Foot_console h2 hcon⟩
      · cases e
  split at h
  · rw [hpid] at h
    cases hs : sys_exit L s s.current with
    | none => rw [hs] at h; cases h
    | some s2 =>
      rw [hs] at h
      cases h
      have hfoot := sys_exit_foot hs
      obtain ⟨_, _, _, hp1⟩ := sys_exit_frame hs
      intro s1 e
      rcases e with e | e
      · cases e
        refine ⟨fun p hp => ?_, Foot_console hfoot hcon⟩
        by_cases ep : p = s.current
        · subst ep
          rw [hp1, Function.update_same] at hp
          exact absurd rfl hp
        · exact LiveIso_others hfoot k.procs.2 hlive
            (fun q hq => by rw [hp1, Function.update_noteq hq]; exact ⟨rfl, rfl⟩) p ep hp
      · cases e
  split at h
  · split at h
    · cases h
    · cases h
      intro s1 e
      rcases e with e | e
      · cases e
        refine ⟨@LiveIso_of_same L s _ rfl rfl (fun p hp => ?_)
          (fun p => (set_state_proc _ _ _ _).1) hlive, hcon⟩
        by_cases ep : p = s.current
        · rw [ep]; exact hcl
        · rw [(set_state_proc _ _ _ _).2 ep] at hp; exact hp
      · cases e
  · cases h

/-- The function `exception` keeps the isolation invariant. -/
theorem exception_iso {L : Layout} (hL : L.WF) {s s1 : KState} {reg : x86_registers}
    (h : exception L s reg = some s1) (k : IsoInv L s) : IsoInv L s1 := by
  have hN : 0 < L.NPROC := by have := hL.nproc_gt; omega
  have hk1 := exception_inv hL h k.kinv
  have k0 : KInv L (set_registers s s.current reg) :=
    ⟨k.kinv.ref, ProcInv_set_registers _ _ k.kinv.procs, k.kinv.cur_lt, by
      show ((set_registers s s.current reg).processes s.current).p_state = _
      rw [(set_registers_proc _ _ _ _).1]; exact k.kinv.cur_run⟩
  have hl0 : LiveIso L (set_registers s s.current reg) := LiveIso_set_registers _ _ k.live
  unfold exception at h
  dsimp only at h
  split at h
  · cases h
  · cases hd : exception_switch L (set_registers s s.current reg) reg with
    | none => rw [hd] at h; cases h
    | some d =>
      rw [hd] at h
      have hsw := exception_switch_iso hL hd k0 k.console_rec hl0
      cases d with
      | transferred s2 =>
        dsimp only at h
        cases h
        obtain ⟨a, b⟩ := hsw _ (Or.inr rfl)
        exact ⟨hk1, b, a⟩
      | handled s2 =>
        dsimp only at h
        obtain ⟨a, b⟩ := hsw _ (Or.inl rfl)
        have same : s1.pageinfo = s2.pageinfo ∧ s1.processes = s2.processes
            ∧ s1.mem = s2.mem := by
          split at h
          · obtain ⟨h1, h2, h3, _, _⟩ := run_inv h
            exact ⟨h1, h2, h3⟩
          · obtain ⟨h1, h2, h3, _, _⟩ := schedule_inv hN h
            exact ⟨h1, h2, h3⟩
        obtain ⟨e1, e2, e3⟩ := same
        exact ⟨hk1, by rw [e1]; exact b,
          LiveIso_of_same e3 e1 (fun p hp => by rw [e2] at hp; exact hp) (fun p => by rw [e2]) a⟩

theorem user_store_iso {L : Layout} {s s1 : KState} {va w : Nat}
    (h : user_store s va w = some s1) (k : IsoInv L s) : IsoInv L s1 := by
  refine ⟨user_store_inv h k.kinv, ?_, user_store_live_iso h k.kinv k.console_rec k.live⟩
  unfold user_store at h
  dsimp only at h
  split at h
  · cases h; exact k.console_rec
  · cases h

/-! ### Boot and the isolation invariant -/

/-- With a consistent frame table, allocating the frame that `find_free_page`
found succeeds. -/
theorem alloc_free_page_ok {L : Layout} (hL : L.WF) {pageinfo : PageInfo} (hr : RefInv pageinfo)
    (owner : Int) (h : find_free_page L pageinfo ≠ UINTPTR_MINUS_ONE) :
    (physical_page_alloc L pageinfo (find_free_page L pageinfo) owner).2 ≠ -1 := by
  have h20 := NPAGES_lt L hL.phys_lt
  have hph := hL.phys_aligned
  unfold find_free_page at h ⊢
  rcases find_free_scan_cases pageinfo (NPAGES L) 0 with e | ⟨k, _, hk, hfree, _, e⟩
  · exact absurd e h
  · rw [e]
    have hk20 : k < 2 ^ 20 := by omega
    unfold physical_page_alloc
    rw [and_fff_eq_mod, PAGEADDRESS_aligned, PAGENUMBER_PAGEADDRESS hk20,
      ((hr k).1).mpr hfree, PAGEADDRESS_eq_mul k hk20]
    have hlt : k * PAGESIZE < L.MEMSIZE_PHYSICAL := by
      unfold NPAGES at hk
      rw [PAGENUMBER_eq_div] at hk
      unfold PAGESIZE at *
      omega
    rw [if_neg (by omega)]
    exact (show (0 : Int) ≠ -1 by decide)

theorem program_load_pages_iso {L : Layout} {pid l1 l2 : Nat} (h0 : 0 < pid) (h1 : pid ≤ 127)
    (pages : List ProgramPage) :
    ∀ (s s1 : KState) (r : Int), program_load_pages L pid pages s = some (s1, r) →
      (s.processes pid).p_pid = pid → RefInv s.pageinfo → ProcIso L s pid l1 l2 →
      ProcIso L s1 pid l1 l2 ∧ Foot pid s s1 := by
  induction pages with
  | nil =>
    intro s s1 r h _ _ hiso
    simp [program_load_pages] at h
    rw [← h.1]
    exact ⟨hiso, Foot_refl _ _⟩
  | cons pg rest ih =>
    intro s s1 r h hpid hr hiso
    unfold program_load_pages at h
    dsimp only at h
    rw [hpid] at h
    split at h
    · cases h
      exact ⟨hiso, Foot_refl _ _⟩
    · rename_i hge
      split at h
      · cases h
      · rename_i m1 hmap
        have hne : (physical_page_alloc L s.pageinfo pg.va (toInt8 (pid : Int))).2 ≠ -1 := by
          omega
        rw [hiso.pt_eq] at hmap
        obtain ⟨a, b⟩ := @alloc_map_step L s
          { s with
            pageinfo := (physical_page_alloc L s.pageinfo pg.va (toInt8 (pid : Int))).1,
            mem := Function.update m1 (PAGENUMBER pg.va) pg.contents }
          pid l1 l2 pg.va pg.va _ s.mem m1 h0 h1 hiso hr hne (fun f _ => rfl) hmap rfl rfl
          (fun f hf => Function.update_noteq hf _ _)
        obtain ⟨c, d⟩ := ih _ _ _ h hpid
          (physical_page_alloc_refinv (toInt8_pid_ne_zero h0 h1) hr) a
        exact ⟨c, Foot_trans b d⟩

theorem set_registers_other (s : KState) {pid p : Nat} (r : x86_registers) (h : p ≠ pid) :
    (set_registers s pid r).processes p = s.processes p := by
  unfold set_registers set_proc
  exact Function.update_noteq h _ _

theorem ProcIso_set_registers {L : Layout} {s : KState} {p l1 l2 : Nat} (pid : Nat)
    (r : x86_registers) (h : ProcIso L s p l1 l2) : ProcIso L (set_registers s pid r) p l1 l2 :=
  ProcIso_frame h (set_registers_pagetable _ _ _ _) (fun _ _ => rfl) (fun _ ho => ho)

theorem program_load_iso {L : Layout} {env : Env} {s s1 : KState} {pid n l1 l2 : Nat} {r : Int}
    (h0 : 0 < pid) (h1 : pid ≤ 127)
    (h : program_load L env s pid n = some (s1, r))
    (hpid : (s.processes pid).p_pid = pid) (hr : RefInv s.pageinfo)
    (hiso : ProcIso L s pid l1 l2) :
    ProcIso L s1 pid l1 l2 ∧ Foot pid s s1
    ∧ (∀ q, q ≠ pid → s1.processes q = s.processes q)
    ∧ (s1.processes pid).p_state = (s.processes pid).p_state := by
  unfold program_load at h
  split at h
  · cases h
  · rename_i s2 r2 hp
    obtain ⟨a, b⟩ := program_load_pages_iso h0 h1 _ _ _ _ hp hpid hr hiso
    obtain ⟨_, c, _⟩ := program_load_pages_inv _ _ _ _ hp
      (by rw [hpid]; exact toInt8_pid_ne_zero h0 h1) hr
    split at h
    · cases h
      exact ⟨a, b, fun q _ => by rw [c], by rw [c]⟩
    · cases h
      refine ⟨ProcIso_set_registers _ _ a, Foot_trans b (Foot_of_eq rfl rfl), ?_, ?_⟩
      · intro q hq
        rw [set_registers_other _ _ hq, c]
      · rw [(set_registers_proc _ _ _ _).1, c]

/-- The function `process_setup(pid, n)`, called for a free descriptor, keeps
the address spaces of the live processes and gives the new process one of the
shape `ProcIso`. -/
theorem process_setup_iso {L : Layout} (hL : L.WF) {env : Env} {s s1 : KState} {pid n : Nat}
    (h : process_setup L env s pid n = some s1) (h1 : 1 ≤ pid) (h2 : pid ≤ 127)
    (hr : RefInv s.pageinfo) (hi : ProcInv s)
    (hfree : (s.processes pid).p_state = procstate.P_FREE) (hlive : LiveIso L s)
    (hcon : (s.pageinfo (PAGENUMBER L.console)).owner = PO_RESERVED) :
    LiveIso L s1 ∧ (s1.pageinfo (PAGENUMBER L.console)).owner = PO_RESERVED
    ∧ (∀ q, q ≠ pid → s1.processes q = s.processes q) := by
  have ho : toInt8 (pid : Int) ≠ 0 := toInt8_pid_ne_zero h1 h2
  have finish : ∀ sx : KState, Foot pid s sx →
      (∀ q, q ≠ pid → sx.processes q = s.processes q) →
      ((sx.processes pid).p_state ≠ procstate.P_FREE → ∃ l1 l2, ProcIso L sx pid l1 l2) →
      LiveIso L sx ∧ (sx.pageinfo (PAGENUMBER L.console)).owner = PO_RESERVED
      ∧ (∀ q, q ≠ pid → sx.processes q = s.processes q) := by
    intro sx hf hq hp
    refine ⟨fun p hpl => ?_, Foot_console hf hcon, hq⟩
    by_cases e : p = pid
    · subst e; exact hp hpl
    · exact LiveIso_others hf hi.2 hlive (fun q hqq => by rw [hq q hqq]; exact ⟨rfl, rfl⟩) p e hpl
  unfold process_setup at h
  dsimp only at h
  split at h
  · cases h
  · rename_i s2 pt hcp
    have hp2 := (copy_pagetable_frame hcp).1
    have hf2 : Foot pid s s2 :=
      Foot_trans (Foot_of_eq rfl rfl : Foot pid s (set_registers s pid env.init_registers))
        (copy_pagetable_foot hL hcp ho hr)
    have hr2 : RefInv s2.pageinfo := copy_pagetable_refinv hcp ho hr
    have hq2 : ∀ q, q ≠ pid → (set_pagetable_of s2 pid pt).processes q = s.processes q := by
      intro q hq
      rw [set_pagetable_of_other _ _ hq, hp2, set_registers_other _ _ hq]
    have hst2 : ((set_pagetable_of s2 pid pt).processes pid).p_state = procstate.P_FREE := by
      rw [(set_pagetable_of_proc _ _ _ _).1, hp2, (set_registers_proc _ _ _ _).1]
      exact hfree
    have hpid2 : ((set_pagetable_of s2 pid pt).processes pid).p_pid = pid := by
      rw [(set_pagetable_of_proc _ _ _ _).2, hp2, (set_registers_proc _ _ _ _).2.1]
      exact hi.1 pid
    split at h
    · cases h
      exact finish _ (Foot_trans hf2 (Foot_of_eq rfl rfl)) hq2
        (fun hp => absurd hst2 hp)
    · rename_i hpt
      obtain ⟨l1, l2, hiso2⟩ := copy_pagetable_iso hL hcp hpt h2
      split at h
      · cases h
      · rename_i s3 r3 hpl
        split at h
        · cases h
        · obtain ⟨hiso3, hf3, hq3, hst3⟩ := program_load_iso h1 h2 hpl hpid2 hr2 hiso2
          obtain ⟨hr3, hi3, _⟩ := program_load_inv hpl (by rw [hpid2]; exact ho) hr2
            (ProcInv_set_pagetable_of pid pt (ProcInv_congr hp2
              (ProcInv_set_registers pid env.init_registers hi)))
          split at h
          · cases h
          · rename_i m5 hmap
            cases h
            generalize hs4 : set_registers s3 pid
              { (s3.processes pid).p_registers with reg_esp := L.MEMSIZE_VIRTUAL } = s4 at *
            have hiso4 : ProcIso L s4 pid l1 l2 := by
              rw [← hs4]; exact ProcIso_set_registers _ _ hiso3
            have hr4 : RefInv s4.pageinfo := by rw [← hs4]; exact hr3
            have hq4 : ∀ q, q ≠ pid → s4.processes q = s.processes q := by
              intro q hq
              rw [← hs4, set_registers_other _ _ hq, hq3 q hq, hq2 q hq]
            have hf4 : Foot pid s s4 := by
              rw [← hs4]
              exact Foot_trans hf2 (Foot_trans (Foot_of_eq rfl rfl)
                (Foot_trans hf3 (Foot_of_eq rfl rfl)))
            rw [hiso4.pt_eq] at hmap
            have hal := (virtual_memory_map_single hmap).2.2.1
            have hne : find_free_page L s4.pageinfo ≠ UINTPTR_MINUS_ONE := by
              intro x
              rw [x] at hal
              exact absurd hal (by decide)
            have hok := alloc_free_page_ok hL hr4 (toInt8 (pid : Int)) hne
            obtain ⟨a, b⟩ := @alloc_map_step L s4
              (set_state { s4 with
                pageinfo := (physical_page_alloc L s4.pageinfo (find_free_page L s4.pageinfo)
                  (toInt8 (pid : Int))).1, mem := m5 } pid procstate.P_RUNNABLE)
              pid l1 l2 _ _ _ s4.mem m5 h1 h2 hiso4 hr4 hok (fun f _ => rfl) hmap
              ((set_state_proc _ _ _ _).1) rfl (fun f _ => rfl)
            refine finish _ (Foot_trans hf4 b) ?_ (fun _ => ⟨l1, l2, a⟩)
            intro q hq
            unfold set_state set_proc
            dsimp only
            rw [Function.update_noteq hq]
            exact hq4 q hq

theorem kernel_setup_loop_iso {L : Layout} (hL : L.WF) {env : Env} (fuel : Nat) :
    ∀ (i : Nat) (s s1 : KState), kernel_setup_loop L env fuel i s = some s1 →
      1 ≤ i → i + fuel ≤ 128 → RefInv s.pageinfo → ProcInv s → LiveIso L s →
      (s.pageinfo (PAGENUMBER L.console)).owner = PO_RESERVED →
      (∀ j, i ≤ j → (s.processes j).p_state = procstate.P_FREE) →
      LiveIso L s1 ∧ (s1.pageinfo (PAGENUMBER L.console)).owner = PO_RESERVED := by
  induction fuel with
  | zero =>
    intro i s s1 h _ _ _ _ hlive hcon _
    simp [kernel_setup_loop] at h
    rw [← h]
    exact ⟨hlive, hcon⟩
  | succ n ih =>
    intro i s s1 h h1 h2 hr hi hlive hcon hfree
    unfold kernel_setup_loop at h
    split at h
    · cases h
    · rename_i s2 hp
      obtain ⟨a, b, _⟩ := process_setup_inv hp h1 (by omega) hr hi
      obtain ⟨c, d, e⟩ := process_setup_iso hL hp h1 (by omega) hr hi (hfree i (le_refl _))
        hlive hcon
      exact ih _ _ _ h (by omega) (by omega) a b c d
        (fun j hj => by rw [e j (by omega)]; exact hfree j (by omega))

theorem pageinfo_init_loop_below (L : Layout) (fuel : Nat) :
    ∀ (addr : Nat) (pageinfo : PageInfo) (k : Nat), addr % PAGESIZE = 0 →
      k < PAGENUMBER addr → pageinfo_init_loop L fuel addr pageinfo k = pageinfo k := by
  induction fuel with
  | zero => intro addr pageinfo k _ _; rfl
  | succ n ih =>
    intro addr pageinfo k ha hk
    unfold pageinfo_init_loop
    dsimp only
    rw [PAGENUMBER_eq_div] at hk
    rw [ih _ _ k (by unfold PAGESIZE at *; omega)
      (by rw [PAGENUMBER_eq_div]; unfold PAGESIZE at *; omega),
      Function.update_noteq (by rw [PAGENUMBER_eq_div]; omega)]

/-- The function `pageinfo_init` marks every reserved page of physical memory
with the owner `PO_RESERVED`. -/
theorem pageinfo_init_loop_reserved (L : Layout) (fuel : Nat) :
    ∀ (addr : Nat) (pageinfo : PageInfo) (k : Nat), addr % PAGESIZE = 0 →
      PAGENUMBER addr ≤ k → k < PAGENUMBER addr + fuel →
      L.physical_memory_isreserved (k * PAGESIZE) = true →
      (pageinfo_init_loop L fuel addr pageinfo k).owner = PO_RESERVED := by
  induction fuel with
  | zero => intro addr pageinfo k _ h1 h2 _; omega
  | succ n ih =>
    intro addr pageinfo k ha h1 h2 hres
    unfold pageinfo_init_loop
    dsimp only
    have hpn : PAGENUMBER (addr + PAGESIZE) = PAGENUMBER addr + 1 := by
      rw [PAGENUMBER_eq_div, PAGENUMBER_eq_div]; unfold PAGESIZE at *; omega
    have ha2 : (addr + PAGESIZE) % PAGESIZE = 0 := by unfold PAGESIZE at *; omega
    rcases Nat.eq_or_lt_of_le h1 with e | l
    · rw [pageinfo_init_loop_below L n _ _ k ha2 (by rw [hpn]; omega), ← e,
        Function.update_same]
      have hk : k * PAGESIZE = addr := by
        rw [← e, PAGENUMBER_eq_div]; unfold PAGESIZE at *; omega
      rw [hk] at hres
      dsimp only
      rw [if_pos hres]
    · exact ih _ _ k ha2 (by rw [hpn]; omega) (by rw [hpn]; omega) hres

theorem pageinfo_init_console {L : Layout} (hC : L.ConsoleReserved) :
    (pageinfo_init L (PAGENUMBER L.console)).owner = PO_RESERVED := by
  obtain ⟨h1, h2, h3⟩ := hC
  unfold pageinfo_init
  apply pageinfo_init_loop_reserved L _ 0 _ _ (by decide)
  · exact Nat.zero_le _
  · rw [PAGENUMBER_eq_div, PAGENUMBER_eq_div]; unfold PAGESIZE at *; omega
  · have : PAGENUMBER L.console * PAGESIZE = L.console := by
      rw [PAGENUMBER_eq_div]; unfold PAGESIZE at *; omega
    rw [this]; exact h1

/-- The state in which `kernel` starts the first process satisfies the
isolation invariant. -/
theorem kernel_iso {L : Layout} (hL : L.WF) (hC : L.ConsoleReserved) {env : Env}
    {command : Option String} {s : KState} (h : kernel L env command = some s) :
    IsoInv L s := by
  have hk := kernel_inv hL h
  have hN := hL.nproc_gt
  unfold kernel at h
  dsimp only at h
  split at h
  · cases h
  · rename_i m1 _
    split at h
    · cases h
    · rename_i m2 _
      have key : ∀ s0 : KState, s0.pageinfo = pageinfo_init L →
          (∀ j, (s0.processes j).p_state = procstate.P_FREE) → ProcInv s0 →
          ∀ s3, (if command = some "fork" then process_setup L env s0 1 4
            else if command = some "forkexit" then process_setup L env s0 1 5
            else kernel_setup_loop L env 4 1 s0) = some s3 →
          LiveIso L s3 ∧ (s3.pageinfo (PAGENUMBER L.console)).owner = PO_RESERVED := by
        intro s0 hp0 hf0 hi0 s3 hs3
        have hr0 : RefInv s0.pageinfo := by rw [hp0]; exact pageinfo_init_refinv L
        have hl0 : LiveIso L s0 := fun p hp => absurd (hf0 p) hp
        have hc0 : (s0.pageinfo (PAGENUMBER L.console)).owner = PO_RESERVED := by
          rw [hp0]; exact pageinfo_init_console hC
        split at hs3
        · obtain ⟨a, b, _⟩ := process_setup_iso hL hs3 (le_refl _) (by omega) hr0 hi0
            (hf0 1) hl0 hc0
          exact ⟨a, b⟩
        · split at hs3
          · obtain ⟨a, b, _⟩ := process_setup_iso hL hs3 (le_refl _) (by omega) hr0 hi0
              (hf0 1) hl0 hc0
            exact ⟨a, b⟩
          · exact kernel_setup_loop_iso hL _ _ _ _ hs3 (le_refl _) (by omega) hr0 hi0 hl0
              hc0 (fun j _ => hf0 j)
      split at h
      · cases h
      · rename_i s3 hs3
        have h3 := key _ rfl (fun j => rfl) ⟨fun i => rfl, rfl⟩ s3 hs3
        obtain ⟨r1, r2, r3, _, _⟩ := run_inv h
        exact ⟨hk, by rw [r1]; exact h3.2,
          LiveIso_of_same r3 r1 (fun p hp => by rw [r2] at hp; exact hp) (fun p => by rw [r2])
            h3.1⟩

/-- Every reachable state satisfies the isolation invariant. -/
theorem reachable_iso {L : Layout} (hL : L.WF) (hC : L.ConsoleReserved) {env : Env}
    {s : KState} (h : Reachable L env s) : IsoInv L s := by
  induction h with
  | boot command s hk => exact kernel_iso hL hC hk
  | trap s s1 reg _ he ih => exact exception_iso hL he ih
  | store s s1 va w _ hs ih => exact user_store_iso hs ih

/-- C5 (amended): in every reachable kernel state, for every physical frame
other than the console page, at most one live (non-Free) process's address
space holds a mapping to that frame through which user-mode code can store
(present, writable and user-accessible): two live processes with such
mappings to the same frame are the same process.  The console page is a
reserved page of the layout. -/
theorem user_writable_unique (L : Layout) (hL : L.WF) (hC : L.ConsoleReserved) (env : Env)
    (s : KState) (h : Reachable L env s) (p q va vb pn : Nat)
    (hp : (s.processes p).p_state ≠ procstate.P_FREE)
    (hq : (s.processes q).p_state ≠ procstate.P_FREE)
    (hmp : maps_user_writable s p va pn) (hmq : maps_user_writable s q vb pn)
    (hpn : pn ≠ PAGENUMBER L.console) : p = q := by
  by_contra hpq
  exact hpn (IsoInv_unique (reachable_iso hL hC h) hpq hp hq hmp hmq)

set_option maxRecDepth 100000 in
theorem quadBoot_eq : kernel quadLayout quadEnv none = some quadBoot :=
  getD_of_isSome _ _ (by decide!)

theorem quadLayout_WF : quadLayout.WF := by
  constructor <;> decide

set_option maxRecDepth 100000 in
theorem quadBoot_data :
    (quadBoot.processes 1).p_state ≠ procstate.P_FREE
    ∧ (quadBoot.processes 2).p_state ≠ procstate.P_FREE
    ∧ maps_user_writable quadBoot 1 0x15000 21
    ∧ maps_user_writable quadBoot 1 0x15004 21
    ∧ maps_user_writable quadBoot 2 0x17000 23 := by
  unfold maps_user_writable UserWritable
  decide!

/-- Witness of `user_writable_unique`: after `kernel(NULL)` on `quadLayout`
process 1 maps its data page, frame 21, for user-mode stores at two addresses
of the same page. -/
theorem user_writable_unique_witness :
    (quadLayout.WF ∧ quadLayout.ConsoleReserved ∧ Reachable quadLayout quadEnv quadBoot
      ∧ (quadBoot.processes 1).p_state ≠ procstate.P_FREE
      ∧ maps_user_writable quadBoot 1 0x15000 21 ∧ maps_user_writable quadBoot 1 0x15004 21
      ∧ 21 ≠ PAGENUMBER quadLayout.console)
    ∧ 1 = 1 :=
  ⟨⟨quadLayout_WF, ⟨rfl, by decide, by decide⟩, Reachable.boot _ _ quadBoot_eq,
      quadBoot_data.1, quadBoot_data.2.2.1, quadBoot_data.2.2.2.1, by decide⟩,
    user_writable_unique quadLayout quadLayout_WF ⟨rfl, by decide, by decide⟩ quadEnv quadBoot
      (Reachable.boot _ _ quadBoot_eq) 1 1 0x15000 0x15004 21 quadBoot_data.1 quadBoot_data.1
      quadBoot_data.2.2.1 quadBoot_data.2.2.2.1 (by decide)⟩

set_option maxRecDepth 100000 in
theorem quadBoot_shared :
    maps_writable quadBoot 1 0x1000 1 ∧ maps_writable quadBoot 2 0x1000 1
    ∧ maps_user_writable quadBoot 1 0x5000 5 ∧ maps_user_writable quadBoot 2 0x5000 5
    ∧ (quadBoot.pageinfo 1).owner = PO_KERNEL := by
  unfold maps_writable maps_user_writable UserWritable
  decide!

/-- C5, counterexample: in the state in which `kernel(NULL)` starts process 1
on `quadLayout`, which is reachable, the live processes 1 and 2 both hold a
writable mapping to frame 1, a frame of the kernel, at virtual address
`0x1000`, and both hold a writable and user-accessible mapping to the console
page, frame 5. -/
theorem writable_mapping_shared :
    Reachable quadLayout quadEnv quadBoot
    ∧ (quadBoot.processes 1).p_state ≠ procstate.P_FREE
    ∧ (quadBoot.processes 2).p_state ≠ procstate.P_FREE
    ∧ (1 : Nat) ≠ 2
    ∧ maps_writable quadBoot 1 0x1000 1 ∧ maps_writable quadBoot 2 0x1000 1
    ∧ maps_user_writable quadBoot 1 0x5000 5 ∧ maps_user_writable quadBoot 2 0x5000 5 :=
  ⟨Reachable.boot _ _ quadBoot_eq, quadBoot_data.1, quadBoot_data.2.1, by decide,
    quadBoot_shared.1, quadBoot_shared.2.1, quadBoot_shared.2.2.1, quadBoot_shared.2.2.2.1⟩

/-! ### Slot 0, get-pid and the user-mode page fault -/

/-- C29: in every reachable state slot 0 is Free: it is not the current
process, `run` on it would fail its assertion, the slot search of `fork`
never returns it, and `schedule()` never selects it although its circular scan
does reach index 0. -/
theorem slot_zero_free (L : Layout) (hL : L.WF) (env : Env) (s : KState)
    (h : Reachable L env s) :
    (s.processes 0).p_state = procstate.P_FREE
    ∧ s.current ≠ 0
    ∧ run s 0 = none
    ∧ (∀ slot, fork_find_slot s.processes (L.NPROC - 1) 1 = some slot → slot ≠ 0)
    ∧ (∀ s1, schedule L s = some s1 → s1.current ≠ 0)
    ∧ (∃ k, 1 ≤ k ∧ k ≤ L.NPROC ∧ ((s.processes s.current).p_pid + k) % L.NPROC = 0) := by
  have k := reachable_inv hL h
  have hN : 0 < L.NPROC := by have := hL.nproc_gt; omega
  have h0 := k.procs.2
  refine ⟨h0, KInv_current_pos k, ?_, ?_, ?_, scan_reaches hN _ 0 hN⟩
  · unfold run
    rw [if_neg (by rw [h0]; decide)]
  · intro slot hs
    have := (fork_find_slot_some _ _ _ _ hs).1
    omega
  · intro s1 hs e
    obtain ⟨_, hp, _, _, hr⟩ := schedule_inv hN hs
    rw [e, hp, h0] at hr
    exact absurd hr (by decide)

/-- Witness of `slot_zero_free`: the state in which `kernel("fork")` starts
process 1 on the scaled-down configuration. -/
theorem slot_zero_free_witness :
    (smallBoot.processes 0).p_state = procstate.P_FREE
    ∧ smallBoot.current ≠ 0
    ∧ run smallBoot 0 = none
    ∧ (∀ slot, fork_find_slot smallBoot.processes (smallLayout.NPROC - 1) 1 = some slot →
        slot ≠ 0)
    ∧ (∀ s1, schedule smallLayout smallBoot = some s1 → s1.current ≠ 0)
    ∧ (∃ k, 1 ≤ k ∧ k ≤ smallLayout.NPROC
        ∧ ((smallBoot.processes smallBoot.current).p_pid + k) % smallLayout.NPROC = 0) :=
  slot_zero_free smallLayout smallLayout_WF smallEnv smallBoot
    (Reachable.boot (some "fork") smallBoot smallBoot_eq)

/-- C28: for a get-pid request, after `exception()` the current process is
resumed; its saved `reg_eax` is its pid and every other saved register is the
trap-time snapshot; the frame table, memory and every other descriptor are
unchanged, and no process state changes. -/
theorem getpid_effect (L : Layout) (hI : L.IntsDistinct) (s : KState) (reg : x86_registers)
    (hcheck : virtual_memory_check L (set_registers s s.current reg) = true)
    (hrun : (s.processes s.current).p_state = procstate.P_RUNNABLE)
    (hint : reg.reg_intno = L.INT_SYS_GETPID) :
    ∃ s1, exception L s reg = some s1
      ∧ s1.current = s.current
      ∧ (s1.processes s.current).p_registers
          = { reg with reg_eax := (s.processes s.current).p_pid }
      ∧ s1.pageinfo = s.pageinfo ∧ s1.mem = s.mem
      ∧ (∀ j, (s1.processes j).p_state = (s.processes j).p_state
          ∧ (s1.processes j).p_pid = (s.processes j).p_pid
          ∧ (s1.processes j).p_pagetable = (s.processes j).p_pagetable)
      ∧ ∀ j, j ≠ s.current → s1.processes j = s.processes j := by
  have hsw := exception_switch_getpid hI (set_registers s s.current reg) reg hint
  have hpid : ((set_registers s s.current reg).processes
      (set_registers s s.current reg).current).p_pid = (s.processes s.current).p_pid :=
    (set_registers_proc s s.current reg s.current).2.1
  rw [hpid] at hsw
  have hex := exception_handled hcheck hsw
  have hst : ∀ j, ((set_eax (set_registers s s.current reg)
        (set_registers s s.current reg).current (s.processes s.current).p_pid).processes j).p_state
          = (s.processes j).p_state
      ∧ ((set_eax (set_registers s s.current reg)
        (set_registers s s.current reg).current (s.processes s.current).p_pid).processes j).p_pid
          = (s.processes j).p_pid
      ∧ ((set_eax (set_registers s s.current reg)
        (set_registers s s.current reg).current
          (s.processes s.current).p_pid).processes j).p_pagetable
          = (s.processes j).p_pagetable := by
    intro j
    obtain ⟨a, b, c⟩ := set_eax_proc (set_registers s s.current reg)
      (set_registers s s.current reg).current (s.processes s.current).p_pid j
    obtain ⟨a1, b1, c1⟩ := set_registers_proc s s.current reg j
    exact ⟨a.trans a1, b.trans b1, c.trans c1⟩
  rw [if_pos (by
    show ((set_eax (set_registers s s.current reg) (set_registers s s.current reg).current
      (s.processes s.current).p_pid).processes s.current).p_state = _
    rw [(hst s.current).1]; exact hrun)] at hex
  refine ⟨_, hex, rfl, ?_, rfl, rfl, hst, ?_⟩
  · show ((set_eax (set_registers s s.current reg) s.current
      (s.processes s.current).p_pid).processes s.current).p_registers = _
    unfold set_eax set_registers set_proc
    simp only [Function.update_same]
  · intro j hj
    show ((set_eax (set_registers s s.current reg) s.current
      (s.processes s.current).p_pid).processes j) = _
    unfold set_eax set_registers set_proc
    simp only [Function.update_noteq hj]

/-- Witness of `getpid_effect`: the get-pid request of process 1 in
`sampleState`. -/
theorem getpid_effect_witness :
    ∃ s1, exception smallLayout sampleState (sampleRegs 7 49) = some s1
      ∧ s1.current = sampleState.current
      ∧ (s1.processes sampleState.current).p_registers
          = { sampleRegs 7 49 with
              reg_eax := (sampleState.processes sampleState.current).p_pid }
      ∧ s1.pageinfo = sampleState.pageinfo ∧ s1.mem = sampleState.mem
      ∧ (∀ j, (s1.processes j).p_state = (sampleState.processes j).p_state
          ∧ (s1.processes j).p_pid = (sampleState.processes j).p_pid
          ∧ (s1.processes j).p_pagetable = (sampleState.processes j).p_pagetable)
      ∧ ∀ j, j ≠ sampleState.current → s1.processes j = sampleState.processes j :=
  getpid_effect smallLayout smallLayout_ints sampleState (sampleRegs 7 49)
    sampleState_check_getpid (by decide) rfl

theorem set_registers_state (s : KState) (pid : Nat) (r : x86_registers) (j : Nat) :
    ((set_registers s pid r).processes j).p_state = (s.processes j).p_state :=
  (set_registers_proc s pid r j).1

theorem set_registers_frame (s : KState) (pid : Nat) (r : x86_registers) :
    (set_registers s pid r).current = s.current ∧ (set_registers s pid r).mem = s.mem
    ∧ (set_registers s pid r).pageinfo = s.pageinfo := ⟨rfl, rfl, rfl⟩

/-- The memory check does not read the saved registers. -/
theorem virtual_memory_check_regs (L : Layout) (s : KState) (pid : Nat) (r : x86_registers) :
    virtual_memory_check L (set_registers s pid r) = virtual_memory_check L s := by
  unfold virtual_memory_check check_pagetable expected_kernel_refcount
  simp only [set_registers_state, set_registers_pagetable, (set_registers_frame s pid r).2.1,
    (set_registers_frame s pid r).2.2]

/-- The descriptors after a user-mode page fault: the current one is Broken
and holds the trap-time registers, the others are untouched. -/
theorem pagefault_state (s : KState) (reg : x86_registers) :
    ((set_state (set_registers s s.current reg) s.current procstate.P_BROKEN).processes
        s.current).p_state = procstate.P_BROKEN
    ∧ ((set_state (set_registers s s.current reg) s.current procstate.P_BROKEN).processes
        s.current).p_pid = (s.processes s.current).p_pid
    ∧ ∀ j, j ≠ s.current →
        (set_state (set_registers s s.current reg) s.current procstate.P_BROKEN).processes j
          = s.processes j := by
  unfold set_state set_registers set_proc
  refine ⟨by simp only [Function.update_same], by simp only [Function.update_same], ?_⟩
  intro j hj
  simp only [Function.update_noteq hj]

/-- C21: for a page fault with the user-mode bit set, `exception()` sets the
current process's state to Broken, leaves every other descriptor, the frame
table and memory unchanged, and calls the scheduler in that state: the
faulting process is not resumed, and the next Runnable process in circular
order is run if one exists. -/
theorem user_pagefault_effect (L : Layout) (hI : L.IntsDistinct) (s : KState)
    (reg : x86_registers)
    (hcheck : virtual_memory_check L (set_registers s s.current reg) = true)
    (hint : reg.reg_intno = L.INT_PAGEFAULT) (hu : reg.reg_err &&& PFERR_USER ≠ 0) :
    exception L s reg
        = schedule L (set_state (set_registers s s.current reg) s.current procstate.P_BROKEN)
    ∧ ((set_state (set_registers s s.current reg) s.current procstate.P_BROKEN).processes
        s.current).p_state = procstate.P_BROKEN
    ∧ (∀ j, j ≠ s.current →
        (set_state (set_registers s s.current reg) s.current procstate.P_BROKEN).processes j
          = s.processes j)
    ∧ (set_state (set_registers s s.current reg) s.current procstate.P_BROKEN).pageinfo
        = s.pageinfo
    ∧ (∀ s1, exception L s reg = some s1 →
        (s1.processes s.current).p_state = procstate.P_BROKEN
        ∧ (∀ j, j ≠ s.current → s1.processes j = s.processes j)
        ∧ s1.pageinfo = s.pageinfo ∧ s1.mem = s.mem
        ∧ s1.current ≠ s.current
        ∧ (s1.processes s1.current).p_state = procstate.P_RUNNABLE)
    ∧ ((∃ i, i < L.NPROC ∧ i ≠ s.current
          ∧ (s.processes i).p_state = procstate.P_RUNNABLE) →
        ∃ k, 1 ≤ k ∧ k ≤ L.NPROC
          ∧ ((s.processes s.current).p_pid + k) % L.NPROC ≠ s.current
          ∧ (s.processes (((s.processes s.current).p_pid + k) % L.NPROC)).p_state
              = procstate.P_RUNNABLE
          ∧ (∀ k1, 1 ≤ k1 → k1 < k →
              ((s.processes s.current).p_pid + k1) % L.NPROC ≠ s.current →
              (s.processes (((s.processes s.current).p_pid + k1) % L.NPROC)).p_state
                ≠ procstate.P_RUNNABLE)
          ∧ exception L s reg
              = some { set_state (set_registers s s.current reg) s.current procstate.P_BROKEN
                        with current := ((s.processes s.current).p_pid + k) % L.NPROC }) := by
  obtain ⟨hB, hP, hO⟩ := pagefault_state s reg
  have hsw : exception_switch L (set_registers s s.current reg) reg
      = some (Dispatch.handled
          (set_state (set_registers s s.current reg) s.current procstate.P_BROKEN)) := by
    rw [exception_switch_pagefault hI _ reg hint, if_neg hu]
    rfl
  have hex := exception_handled hcheck hsw
  rw [if_neg (by
    show ((set_state (set_registers s s.current reg) s.current procstate.P_BROKEN).processes
      s.current).p_state ≠ _
    rw [hB]; decide)] at hex
  refine ⟨hex, hB, hO, rfl, ?_, ?_⟩
  · intro s1 h1
    rw [hex] at h1
    by_cases hN : 0 < L.NPROC
    · obtain ⟨a, b, c, _, e⟩ := schedule_inv hN h1
      have hne : s1.current ≠ s.current := by
        intro x
        rw [x, b, hB] at e
        exact absurd e (by decide)
      exact ⟨by rw [b]; exact hB, fun j hj => by rw [b]; exact hO j hj, a, c, hne, e⟩
    · exfalso
      have h0 : L.NPROC = 0 := by omega
      unfold schedule at h1
      rw [h0] at h1
      simp [schedule_loop] at h1
  · rintro ⟨i, hi, hne, hr⟩
    have hN : 0 < L.NPROC := by omega
    obtain ⟨k, h1, h2, hrk, hmin⟩ := first_runnable hN
      (set_state (set_registers s s.current reg) s.current procstate.P_BROKEN)
      (s.processes s.current).p_pid ⟨i, hi, by rw [hO i hne]; exact hr⟩
    have hkne : ((s.processes s.current).p_pid + k) % L.NPROC ≠ s.current := by
      intro x
      rw [x, hB] at hrk
      exact absurd hrk (by decide)
    refine ⟨k, h1, h2, hkne, by rw [← hO _ hkne]; exact hrk, ?_, ?_⟩
    · intro k1 a1 a2 a3
      rw [← hO _ a3]
      exact hmin k1 a1 a2
    · rw [hex]
      unfold schedule
      have := schedule_loop_first L.NPROC
        ((set_state (set_registers s s.current reg) s.current procstate.P_BROKEN).processes
          (set_state (set_registers s s.current reg) s.current procstate.P_BROKEN).current).p_pid
        k h1 h2
        (by
          show ((set_state (set_registers s s.current reg) s.current
            procstate.P_BROKEN).processes
              ((((set_state (set_registers s s.current reg) s.current
                procstate.P_BROKEN).processes s.current).p_pid + k) % L.NPROC)).p_state = _
          rw [hP]; exact hrk)
        (by
          show ∀ k1, 1 ≤ k1 → k1 < k → ((set_state (set_registers s s.current reg) s.current
            procstate.P_BROKEN).processes
              ((((set_state (set_registers s s.current reg) s.current
                procstate.P_BROKEN).processes s.current).p_pid + k1) % L.NPROC)).p_state ≠ _
          rw [hP]; exact hmin)
      rw [this]
      show some { set_state (set_registers s s.current reg) s.current procstate.P_BROKEN with
        current := (((set_state (set_registers s s.current reg) s.current
                procstate.P_BROKEN).processes s.current).p_pid + k) % L.NPROC } = _
      rw [hP]

theorem sampleBusy_check_any (r : x86_registers) :
    virtual_memory_check smallLayout (set_registers sampleBusy sampleBusy.current r) = true := by
  rw [virtual_memory_check_regs, ← virtual_memory_check_regs smallLayout sampleBusy
    sampleBusy.current (trapRegs 0 52)]
  exact sampleBusy_check

/-- Witness of `user_pagefault_effect`: process 1 of `sampleBusy` faults in
user mode (error code 6: a user-mode write to a missing page). -/
theorem user_pagefault_effect_witness :
    ∃ s1, exception smallLayout sampleBusy ⟨0, 0x18000, 0x10000, 14, 6, []⟩ = some s1
      ∧ (s1.processes sampleBusy.current).p_state = procstate.P_BROKEN
      ∧ s1.current ≠ sampleBusy.current :=
  have h := user_pagefault_effect smallLayout smallLayout_ints sampleBusy
    ⟨0, 0x18000, 0x10000, 14, 6, []⟩ (sampleBusy_check_any _) rfl (by decide)
  have hk := h.2.2.2.2.2 ⟨2, by decide, by decide, by decide⟩
  hk.elim (fun _ hk1 =>
    ⟨_, hk1.2.2.2.2.2, (h.2.2.2.2.1 _ hk1.2.2.2.2.2).1, (h.2.2.2.2.1 _ hk1.2.2.2.2.2).2.2.2.2.1⟩)

/-! ### `copy_pagetable` runs to completion -/

theorem L2PAGEINDEX_mul {v : Nat} (h : v < 1024) : L2PAGEINDEX (v * PAGESIZE) = v := by
  unfold L2PAGEINDEX PAGETABLE_NENTRIES PAGESHIFT PAGESIZE
  rw [Nat.shiftRight_eq_div_pow]
  omega

/-- The loop of `virtual_memory_map` over `n` pages from page number `v`, when
the inner table is present: it runs to completion, writes the inner table only,
and there exactly the entries `v .. v + n - 1`. -/
theorem virtual_memory_map_loop_run {pt perm : Nat} (n : Nat) :
    ∀ (mem : Memory) (v pa : Nat), v + n ≤ 1024 →
      mem (PAGENUMBER pt) 0 &&& PTE_P ≠ 0 →
      PAGENUMBER (mem (PAGENUMBER pt) 0) ≠ PAGENUMBER pt →
      ∃ m1, virtual_memory_map_loop pt perm n mem (v * PAGESIZE) pa = some m1
        ∧ (∀ f, f ≠ PAGENUMBER (mem (PAGENUMBER pt) 0) → m1 f = mem f)
        ∧ ∀ j, m1 (PAGENUMBER (mem (PAGENUMBER pt) 0)) j
            = if v ≤ j ∧ j < v + n then
                (if perm &&& PTE_P ≠ 0 then (pa + (j - v) * PAGESIZE) ||| perm else perm)
              else mem (PAGENUMBER (mem (PAGENUMBER pt) 0)) j := by
  induction n with
  | zero =>
    intro mem v pa _ _ _
    refine ⟨mem, rfl, fun f _ => rfl, fun j => ?_⟩
    rw [if_neg (by omega)]
  | succ n ih =>
    intro mem v pa hv hp hne
    have h0 : L1PAGEINDEX (v * PAGESIZE) = 0 :=
      L1PAGEINDEX_low (by unfold PAGESIZE; omega)
    have hidx : L2PAGEINDEX (v * PAGESIZE) = v := L2PAGEINDEX_mul (by omega)
    unfold virtual_memory_map_loop virtual_memory_map_page
    dsimp only
    rw [h0, if_neg (by simpa using hp), hidx]
    dsimp only
    generalize hF : PAGENUMBER (mem (PAGENUMBER pt) 0) = F at *
    generalize hval : (if perm &&& PTE_P ≠ 0 then pa ||| perm else perm) = val
    have hpt : Function.update mem F (Function.update (mem F) v val) (PAGENUMBER pt)
        = mem (PAGENUMBER pt) := Function.update_noteq (Ne.symm hne) _ _
    obtain ⟨m1, hm1, hoth, hent⟩ := ih (Function.update mem F (Function.update (mem F) v val))
      (v + 1) (pa + PAGESIZE) (by omega) (by rw [hpt]; exact hp) (by rw [hpt, hF]; exact hne)
    rw [hpt, hF] at hoth hent
    rw [show v * PAGESIZE + PAGESIZE = (v + 1) * PAGESIZE by ring]
    refine ⟨m1, hm1, fun f hf => ?_, fun j => ?_⟩
    · rw [hoth f hf, Function.update_noteq hf]
    · rw [hent j]
      by_cases hj : j = v
      · rw [hj, if_neg (show ¬ (v + 1 ≤ v ∧ v < v + 1 + n) by omega),
          if_pos (show v ≤ v ∧ v < v + (n + 1) by omega), Function.update_same,
          Function.update_same, ← hval]
        simp
      · by_cases hj2 : v + 1 ≤ j ∧ j < v + 1 + n
        · rw [if_pos hj2, if_pos (show v ≤ j ∧ j < v + (n + 1) by omega)]
          have : pa + PAGESIZE + (j - (v + 1)) * PAGESIZE = pa + (j - v) * PAGESIZE := by
            have : j - v = (j - (v + 1)) + 1 := by omega
            rw [this]; ring
          rw [this]
        · rw [if_neg hj2, if_neg (show ¬ (v ≤ j ∧ j < v + (n + 1)) by omega),
            Function.update_same, Function.update_noteq hj]

/-- The function `virtual_memory_map` on valid arguments within the first
inner table, when that table is present. -/
theorem virtual_memory_map_run {L : Layout} {mem : Memory} {pt v pa n perm : Nat}
    (hv : v + n ≤ 1024) (hpa : pa % PAGESIZE = 0)
    (hpal : pa + n * PAGESIZE ≤ L.MEMSIZE_PHYSICAL) (hperm : perm < 4096)
    (hpt : pt % PAGESIZE = 0)
    (hp : mem (PAGENUMBER pt) 0 &&& PTE_P ≠ 0)
    (hne : PAGENUMBER (mem (PAGENUMBER pt) 0) ≠ PAGENUMBER pt) :
    ∃ m1, virtual_memory_map L mem pt (v * PAGESIZE) pa (n * PAGESIZE) perm = some m1
      ∧ (∀ f, f ≠ PAGENUMBER (mem (PAGENUMBER pt) 0) → m1 f = mem f)
      ∧ ∀ j, m1 (PAGENUMBER (mem (PAGENUMBER pt) 0)) j
          = if v ≤ j ∧ j < v + n then
              (if perm &&& PTE_P ≠ 0 then (pa + (j - v) * PAGESIZE) ||| perm else perm)
            else mem (PAGENUMBER (mem (PAGENUMBER pt) 0)) j := by
  unfold virtual_memory_map
  have hc : (v * PAGESIZE) % PAGESIZE = 0 ∧ (n * PAGESIZE) % PAGESIZE = 0
      ∧ v * PAGESIZE + n * PAGESIZE ≤ WORD
      ∧ pa % PAGESIZE = 0 ∧ pa + n * PAGESIZE ≤ L.MEMSIZE_PHYSICAL
      ∧ perm < 4096 ∧ pt % PAGESIZE = 0 :=
    ⟨Nat.mul_mod_left _ _, Nat.mul_mod_left _ _, by unfold PAGESIZE WORD; omega, hpa, hpal,
      hperm, hpt⟩
  rw [if_pos hc, Nat.mul_div_cancel _ (by decide : 0 < PAGESIZE)]
  exact virtual_memory_map_loop_run n mem v pa hv hp hne


theorem physical_page_alloc_free {L : Layout} {pageinfo : PageInfo} {k : Nat} (owner : Int)
    (hk : k < 2 ^ 20) (hlt : PAGEADDRESS k < L.MEMSIZE_PHYSICAL)
    (hr : (pageinfo k).refcount = 0) :
    physical_page_alloc L pageinfo (PAGEADDRESS k) owner
      = (Function.update pageinfo k { owner := owner, refcount := 1 }, 0) := by
  unfold physical_page_alloc
  rw [and_fff_eq_mod, PAGEADDRESS_aligned, PAGENUMBER_PAGEADDRESS hk, hr]
  rw [if_neg (by omega)]

/-- When `find_free_page_table` finds the frame `l1`, and after its allocation
the frame `l2`, both with refcount 0, `copy_pagetable` runs to completion and
returns the address of `l1`: the two frames belong to `owner` with refcount 1,
no other frame is written, the outer table holds the single entry 0, which
points to the inner table, and the inner table maps the pages below
`PROC_START_ADDR` to themselves, kernel-only except for the console page. -/
theorem copy_pagetable_run {L : Layout} (hL : L.WF)
    (hS : L.PROC_START_ADDR ≤ L.MEMSIZE_PHYSICAL) (hC : L.console % PAGESIZE = 0)
    (s : KState) (pt o : Nat) {l1 l2 : Nat}
    (hl1 : l1 < L.PROC_START_ADDR / PAGESIZE) (hl2 : l2 < L.PROC_START_ADDR / PAGESIZE)
    (hne : l1 ≠ l2)
    (hA1 : find_free_page_table L s.pageinfo = PAGEADDRESS l1)
    (hr1 : (s.pageinfo l1).refcount = 0)
    (hA2 : find_free_page_table L
      (Function.update s.pageinfo l1 { owner := toInt8 o, refcount := 1 }) = PAGEADDRESS l2)
    (hr2 : (s.pageinfo l2).refcount = 0) :
    ∃ m6, copy_pagetable L s pt o
        = some ({ s with
                  pageinfo := Function.update
                    (Function.update s.pageinfo l1 { owner := toInt8 o, refcount := 1 }) l2
                    { owner := toInt8 o, refcount := 1 },
                  mem := m6 }, PAGEADDRESS l1)
      ∧ (∀ f, f ≠ l1 → f ≠ l2 → m6 f = s.mem f)
      ∧ m6 l1 = Function.update (fun _ => 0) 0 (PAGEADDRESS l2 ||| 7)
      ∧ ∀ j, m6 l2 j =
          if j = PAGENUMBER L.console then L.console ||| 7
          else if j < L.PROC_START_ADDR / PAGESIZE then j * PAGESIZE ||| 3 else 0 := by
  have hv := hL.virt_le
  have hs := hL.start_le
  have hc := hL.console_lt
  have hsa := hL.start_aligned
  have hK : L.PROC_START_ADDR / PAGESIZE ≤ 1024 := by unfold PAGESIZE; omega
  have hl1lt : l1 < 2 ^ 20 := by omega
  have hl2lt : l2 < 2 ^ 20 := by omega
  have hne21 : l2 ≠ l1 := fun e => hne e.symm
  have hlt1 : PAGEADDRESS l1 < L.MEMSIZE_PHYSICAL := by
    rw [PAGEADDRESS_eq_mul l1 hl1lt]; unfold PAGESIZE at *; omega
  have hlt2 : PAGEADDRESS l2 < L.MEMSIZE_PHYSICAL := by
    rw [PAGEADDRESS_eq_mul l2 hl2lt]; unfold PAGESIZE at *; omega
  have hpn1 := @PAGENUMBER_PAGEADDRESS l1 hl1lt
  have hpn2 := @PAGENUMBER_PAGEADDRESS l2 hl2lt
  have hal1 := PAGEADDRESS_aligned l1
  have hal2 := PAGEADDRESS_aligned l2
  unfold copy_pagetable
  dsimp only
  rw [hA1, physical_page_alloc_free (toInt8 o) hl1lt hlt1 hr1]
  dsimp only
  rw [if_neg (show ¬ ((0 : Int) = -1) by decide), hA2,
    physical_page_alloc_free (toInt8 o) hl2lt hlt2
      (by rw [Function.update_noteq hne21]; exact hr2)]
  dsimp only
  rw [if_neg (show ¬ ((0 : Int) = -1) by decide)]
  generalize hm3 : write_word (memset_page (memset_page s.mem (PAGEADDRESS l1)) (PAGEADDRESS l2))
      (PAGEADDRESS l1) (PAGEADDRESS l2 ||| PTE_P ||| PTE_W ||| PTE_U) = m3
  have hm3l1 : m3 l1 = Function.update (fun _ => 0) 0 (PAGEADDRESS l2 ||| 7) := by
    have e0 : PAGEOFFSET (PAGEADDRESS l1) / 4 = 0 := by unfold PAGEOFFSET; rw [hal1]
    have := write_word_same (memset_page (memset_page s.mem (PAGEADDRESS l1)) (PAGEADDRESS l2))
      (PAGEADDRESS l1) (PAGEADDRESS l2 ||| PTE_P ||| PTE_W ||| PTE_U)
    rw [hm3, hpn1, e0, or_flags7,
      memset_page_other _ _ _ (by rw [hpn2]; exact hne)] at this
    rw [this]
    have h2 := memset_page_same s.mem (PAGEADDRESS l1)
    rw [hpn1] at h2
    rw [h2]
  have hm3l2 : m3 l2 = fun _ => 0 := by
    have := memset_page_same (memset_page s.mem (PAGEADDRESS l1)) (PAGEADDRESS l2)
    rw [hpn2] at this
    rw [← hm3, write_word_other _ _ _ _ (by rw [hpn1]; exact hne21), this]
  have hm3o : ∀ f, f ≠ l1 → f ≠ l2 → m3 f = s.mem f := by
    intro f h1 h2
    rw [← hm3, write_word_other _ _ _ _ (by rw [hpn1]; exact h1),
      memset_page_other _ _ _ (by rw [hpn2]; exact h2),
      memset_page_other _ _ _ (by rw [hpn1]; exact h1)]
  generalize hm4 : memcpy_words m3 (PAGEADDRESS l2) (PTE_ADDR (read_word m3 pt)) (offset L / 4)
    = m4
  have hn : offset L / 4 = L.PROC_START_ADDR / PAGESIZE := by
    unfold offset; rw [PAGENUMBER_eq_div]; omega
  have hm4o : ∀ f, f ≠ l2 → m4 f = m3 f := by
    intro f hf
    rw [← hm4]; unfold memcpy_words
    exact memcpy_words_loop_other _ _ hal2 _ 0 m3 (by omega) f (by rw [hpn2]; exact hf)
  have hm4l2 : ∀ j, L.PROC_START_ADDR / PAGESIZE ≤ j → m4 l2 j = 0 := by
    intro j hj
    rw [← hm4]; unfold memcpy_words
    have := memcpy_words_loop_above (PAGEADDRESS l2) (PTE_ADDR (read_word m3 pt)) hal2
      (offset L / 4) 0 m3 (by omega) j (by omega)
    rw [hpn2] at this
    rw [this, hm3l2]
  have hent : ∀ m : Memory, m l1 = m3 l1 →
      m (PAGENUMBER (PAGEADDRESS l1)) 0 = PAGEADDRESS l2 ||| 7 := by
    intro m hm
    rw [hpn1, hm, hm3l1, Function.update_same]
  have hpres : (PAGEADDRESS l2 ||| 7) &&& PTE_P ≠ 0 := by
    have : PTE_FLAGS (PAGEADDRESS l2 ||| 7) = 7 := PTE_FLAGS_pte hal2 (by decide)
    have h2 := @PTE_FLAGS_and (PAGEADDRESS l2 ||| 7) PTE_P (by decide)
    rw [this] at h2
    rw [← h2]
    decide
  have hpde : PAGENUMBER (PAGEADDRESS l2 ||| 7) = l2 := by
    rw [PAGENUMBER_pte hal2 (by decide), hpn2]
  -- the first call of virtual_memory_map
  obtain ⟨m5, h5, h5o, h5e⟩ := @virtual_memory_map_run L m4 (PAGEADDRESS l1) 0 0
    (L.PROC_START_ADDR / PAGESIZE) (PTE_P ||| PTE_W) (by omega) (by decide)
    (by rw [Nat.div_mul_cancel (Nat.dvd_of_mod_eq_zero hsa)]; omega) (by decide) hal1
    (by rw [hent m4 (hm4o l1 hne)]; exact hpres)
    (by rw [hent m4 (hm4o l1 hne), hpde, hpn1]; exact hne21)
  rw [Nat.zero_mul, Nat.div_mul_cancel (Nat.dvd_of_mod_eq_zero hsa)] at h5
  rw [hent m4 (hm4o l1 hne), hpde] at h5o h5e
  rw [h5]
  dsimp only
  have h5l1 : m5 l1 = m3 l1 := by rw [h5o l1 hne, hm4o l1 hne]
  -- the second call
  have hcv : L.console / PAGESIZE * PAGESIZE = L.console :=
    Nat.div_mul_cancel (Nat.dvd_of_mod_eq_zero hC)
  obtain ⟨m6, h6, h6o, h6e⟩ := @virtual_memory_map_run L m5 (PAGEADDRESS l1)
    (L.console / PAGESIZE) L.console 1 (PTE_P ||| PTE_W ||| PTE_U)
    (by unfold PAGESIZE; omega) hC
    (by unfold PAGESIZE at *; omega) (by decide) hal1
    (by rw [hent m5 h5l1]; exact hpres)
    (by rw [hent m5 h5l1, hpde, hpn1]; exact hne21)
  rw [hcv, Nat.one_mul] at h6
  rw [hent m5 h5l1, hpde] at h6o h6e
  rw [h6]
  refine ⟨m6, rfl, ?_, ?_, ?_⟩
  · intro f hf1 hf2
    rw [h6o f hf2, h5o f hf2, hm4o f hf2, hm3o f hf1 hf2]
  · rw [h6o l1 hne, h5l1, hm3l1]
  · intro j
    rw [h6e j, h5e j, PAGENUMBER_eq_div]
    by_cases hj : j = L.console / PAGESIZE
    · rw [if_pos (show L.console / PAGESIZE ≤ j ∧ j < L.console / PAGESIZE + 1 by omega),
        if_pos hj, if_pos (show (PTE_P ||| PTE_W ||| PTE_U) &&& PTE_P ≠ 0 by decide), hj,
        Nat.sub_self, Nat.zero_mul, Nat.add_zero]
      rfl
    · rw [if_neg (show ¬ (L.console / PAGESIZE ≤ j ∧ j < L.console / PAGESIZE + 1) by omega),
        if_neg hj]
      by_cases hj2 : j < L.PROC_START_ADDR / PAGESIZE
      · rw [if_pos (show 0 ≤ j ∧ j < 0 + L.PROC_START_ADDR / PAGESIZE by omega), if_pos hj2,
          if_pos (show (PTE_P ||| PTE_W) &&& PTE_P ≠ 0 by decide), Nat.zero_add, Nat.sub_zero]
        rfl
      · rw [if_neg (show ¬ (0 ≤ j ∧ j < 0 + L.PROC_START_ADDR / PAGESIZE) by omega),
          if_neg hj2, hm4l2 j (by omega)]


/-- What a successful `copy_pagetable` tells about the state it started in:
the two scans found the frames `l1` and `l2`, and the layout allowed both
calls of `virtual_memory_map`. -/
theorem copy_pagetable_shape {L : Layout} (hL : L.WF) {s s2 : KState} {pt o cp : Nat}
    (h : copy_pagetable L s pt o = some (s2, cp)) (hne : cp ≠ UINTPTR_MINUS_ONE) :
    ∃ l1 l2 : Nat, l1 < L.PROC_START_ADDR / PAGESIZE ∧ l2 < L.PROC_START_ADDR / PAGESIZE
      ∧ l1 ≠ l2
      ∧ find_free_page_table L s.pageinfo = PAGEADDRESS l1
      ∧ (s.pageinfo l1).refcount = 0
      ∧ find_free_page_table L
          (Function.update s.pageinfo l1 { owner := toInt8 o, refcount := 1 }) = PAGEADDRESS l2
      ∧ (s.pageinfo l2).refcount = 0
      ∧ L.PROC_START_ADDR ≤ L.MEMSIZE_PHYSICAL ∧ L.console % PAGESIZE = 0 := by
  have hv := hL.virt_le
  have hs := hL.start_le
  have hn20 : L.PROC_START_ADDR / PAGESIZE ≤ 2 ^ 20 := by unfold PAGESIZE; omega
  unfold copy_pagetable at h
  dsimp only at h
  unfold find_free_page_table at h ⊢
  generalize hA1 : find_free_scan s.pageinfo (L.PROC_START_ADDR / PAGESIZE) 0 = A1 at h
  generalize hR1 : physical_page_alloc L s.pageinfo A1 (toInt8 o) = R1 at h
  generalize hA2 : find_free_scan R1.1 (L.PROC_START_ADDR / PAGESIZE) 0 = A2 at h
  generalize hR2 : physical_page_alloc L R1.1 A2 (toInt8 o) = R2 at h
  split at h
  · cases h; exact absurd rfl hne
  · rename_i hr1
    split at h
    · cases h; exact absurd rfl hne
    · rename_i hr2
      rw [← hR1, ← hA1] at hr1
      obtain ⟨l1, hl1, ha1, hpn1, ho1, hrc1, _⟩ := alloc_of_scan hn20 hr1
      have hpi1 := (physical_page_alloc_ok hr1).2.2.2
      rw [hA1, hR1, ← hA1, hpn1] at hpi1
      rw [← hR2, ← hA2] at hr2
      obtain ⟨l2, hl2, ha2, hpn2, ho2, hrc2, _⟩ := alloc_of_scan hn20 hr2
      rw [hpi1] at hrc2 ha2
      have hne12 : l1 ≠ l2 := by
        intro e
        rw [← e] at hrc2
        simp [Function.update] at hrc2
      have hrc2' : (s.pageinfo l2).refcount = 0 := by
        rw [Function.update_noteq (fun e => hne12 e.symm)] at hrc2
        exact hrc2
      split at h
      · cases h
      · rename_i m5 hmap5
        split at h
        · cases h
        · rename_i m6 hmap6
          obtain ⟨_, _, hph, _, _⟩ := virtual_memory_map_some hmap5
          obtain ⟨hcal, _, _, _, _⟩ := virtual_memory_map_some hmap6
          exact ⟨l1, l2, hl1, hl2, hne12, by rw [← hA1]; exact ha1, hrc1, ha2, hrc2',
            by omega, hcal⟩

/-- C30: after a successful `copy_pagetable` from any source table, the new
address space maps every page-aligned address below `PROC_START_ADDR` to
itself with permissions P|W (no U), except the console page, which it maps to
itself with P|W|U; it maps no address at or above `PROC_START_ADDR`; and both
page-table frames lie below `PROC_START_ADDR`. -/
theorem copy_pagetable_mappings (L : Layout) (hL : L.WF) (s s2 : KState) (pt o cp : Nat)
    (h : copy_pagetable L s pt o = some (s2, cp)) (hne : cp ≠ UINTPTR_MINUS_ONE) :
    (∀ va, va % PAGESIZE = 0 → va < L.PROC_START_ADDR → va ≠ L.console →
        virtual_memory_lookup s2.mem cp va
          = { pn := PAGENUMBER va, pa := va, perm := PTE_P ||| PTE_W })
    ∧ virtual_memory_lookup s2.mem cp L.console
        = { pn := PAGENUMBER L.console, pa := L.console, perm := PTE_P ||| PTE_W ||| PTE_U }
    ∧ (∀ va, L.PROC_START_ADDR ≤ va → va < WORD →
        virtual_memory_lookup s2.mem cp va = vamapping_none)
    ∧ cp % PAGESIZE = 0 ∧ cp < L.PROC_START_ADDR
    ∧ s2.mem (PAGENUMBER cp) 0 &&& PTE_P ≠ 0
    ∧ PTE_ADDR (s2.mem (PAGENUMBER cp) 0) < L.PROC_START_ADDR := by
  obtain ⟨l1, l2, hl1, hl2, hne12, hA1, hr1, hA2, hr2, hS, hC⟩ := copy_pagetable_shape hL h hne
  obtain ⟨m6, hrun, _, hm1, hm2⟩ := copy_pagetable_run hL hS hC s pt o hl1 hl2 hne12 hA1 hr1
    hA2 hr2
  rw [hrun] at h
  cases h
  have hv := hL.virt_le
  have hs := hL.start_le
  have hc := hL.console_lt
  have hsa := hL.start_aligned
  have hl1lt : l1 < 2 ^ 20 := by unfold PAGESIZE at hl1; omega
  have hl2lt : l2 < 2 ^ 20 := by unfold PAGESIZE at hl2; omega
  have hpn1 := @PAGENUMBER_PAGEADDRESS l1 hl1lt
  have hal2 := PAGEADDRESS_aligned l2
  have hpres : (PAGEADDRESS l2 ||| 7) &&& PTE_P ≠ 0 := by
    have : PTE_FLAGS (PAGEADDRESS l2 ||| 7) = 7 := PTE_FLAGS_pte hal2 (by decide)
    have h2 := @PTE_FLAGS_and (PAGEADDRESS l2 ||| 7) PTE_P (by decide)
    rw [this] at h2
    rw [← h2]
    decide
  have hpde : PAGENUMBER (PAGEADDRESS l2 ||| 7) = l2 := by
    rw [PAGENUMBER_pte hal2 (by decide), PAGENUMBER_PAGEADDRESS hl2lt]
  have hidx : ∀ va, va % PAGESIZE = 0 → va < 0x400000 →
      L2PAGEINDEX va = va / PAGESIZE ∧ va / PAGESIZE * PAGESIZE = va := by
    intro va ha hlt
    have e : va / PAGESIZE * PAGESIZE = va := Nat.div_mul_cancel (Nat.dvd_of_mod_eq_zero ha)
    refine ⟨?_, e⟩
    have := @L2PAGEINDEX_mul (va / PAGESIZE) (by unfold PAGESIZE; omega)
    rw [e] at this
    exact this
  have hlow : ∀ va, va < 0x400000 →
      m6 (PAGENUMBER (PAGEADDRESS l1)) (L1PAGEINDEX va) = PAGEADDRESS l2 ||| 7 := by
    intro va hlt
    rw [hpn1, hm1, L1PAGEINDEX_low hlt, Function.update_same]
  refine ⟨?_, ?_, ?_, PAGEADDRESS_aligned l1, ?_, ?_, ?_⟩
  · intro va ha hlt hnc
    have hva : va < 0x400000 := by omega
    obtain ⟨hi, he⟩ := hidx va ha hva
    have hj : va / PAGESIZE ≠ PAGENUMBER L.console := by
      rw [PAGENUMBER_eq_div]
      intro e
      have := Nat.div_mul_cancel (Nat.dvd_of_mod_eq_zero hC)
      rw [← e, he] at this
      exact hnc this
    have := @virtual_memory_lookup_entry m6 (PAGEADDRESS l1) va va (PTE_P ||| PTE_W)
      (by rw [hlow va hva]; exact hpres)
      (by
        rw [hlow va hva, hpde, hm2, hi, if_neg hj,
          if_pos (show va / PAGESIZE < L.PROC_START_ADDR / PAGESIZE by
            unfold PAGESIZE at ha hsa ⊢; omega), he]
        rfl)
      ha (by decide) (by decide)
    rw [this]
    have e0 : PAGEOFFSET va = 0 := ha
    rw [e0, Nat.add_zero]
  · have hva : L.console < 0x400000 := by omega
    obtain ⟨hi, he⟩ := hidx L.console hC hva
    have := @virtual_memory_lookup_entry m6 (PAGEADDRESS l1) L.console L.console
      (PTE_P ||| PTE_W ||| PTE_U)
      (by rw [hlow _ hva]; exact hpres)
      (by
        rw [hlow _ hva, hpde, hm2, hi,
          if_pos (show L.console / PAGESIZE = PAGENUMBER L.console by rw [PAGENUMBER_eq_div])]
        rfl)
      hC (by decide) (by decide)
    rw [this]
    have e0 : PAGEOFFSET L.console = 0 := hC
    rw [e0, Nat.add_zero]
  · intro va hge hw
    unfold virtual_memory_lookup
    dsimp only
    by_cases hva : va < 0x400000
    · rw [hlow va hva, if_neg (by simpa using hpres), hpde, hm2]
      have hj : L2PAGEINDEX va = va / PAGESIZE := by
        unfold L2PAGEINDEX PAGETABLE_NENTRIES PAGESHIFT PAGESIZE
        rw [Nat.shiftRight_eq_div_pow]
        omega
      rw [hj, if_neg (show ¬ (va / PAGESIZE = PAGENUMBER L.console) by
          rw [PAGENUMBER_eq_div]; unfold PAGESIZE at *; omega),
        if_neg (show ¬ (va / PAGESIZE < L.PROC_START_ADDR / PAGESIZE) by
          unfold PAGESIZE at *; omega)]
      rfl
    · have hk : L1PAGEINDEX va ≠ 0 := by
        unfold L1PAGEINDEX PAGETABLE_NENTRIES
        rw [Nat.shiftRight_eq_div_pow]
        unfold WORD at hw
        omega
      rw [hpn1, hm1, Function.update_noteq hk]
      rfl
  · rw [PAGEADDRESS_eq_mul l1 hl1lt]
    unfold PAGESIZE at *
    omega
  · show m6 (PAGENUMBER (PAGEADDRESS l1)) 0 &&& PTE_P ≠ 0
    rw [hpn1, hm1, Function.update_same]
    exact hpres
  · show PTE_ADDR (m6 (PAGENUMBER (PAGEADDRESS l1)) 0) < L.PROC_START_ADDR
    rw [hpn1, hm1, Function.update_same]
    have : PTE_ADDR (PAGEADDRESS l2 ||| 7) = PAGEADDRESS l2 := by
      unfold PTE_ADDR
      have := hpde
      unfold PAGENUMBER at this
      rw [this]
      unfold PAGEADDRESS
      rw [Nat.mod_eq_of_lt]
      unfold PAGESHIFT WORD
      rw [Nat.shiftLeft_eq]
      omega
    rw [this, PAGEADDRESS_eq_mul l2 hl2lt]
    unfold PAGESIZE at *
    omega


/-- C24: `copy_pagetable(pagetable, owner)` returns, and succeeds exactly when
both page-table frames can be obtained, that is when two frames below
`PROC_START_ADDR` are Free; on success it has allocated two distinct frames
that were Free, each now owned by `owner` with refcount 1, and entry 0 of the
outer table points to the inner table; otherwise it returns the failure value
`(x86_pagetable*) -1`. -/
theorem copy_pagetable_spec (L : Layout) (hL : L.WF)
    (hS : L.PROC_START_ADDR ≤ L.MEMSIZE_PHYSICAL) (hC : L.console % PAGESIZE = 0)
    (s : KState) (pt o : Nat) (hr : RefInv s.pageinfo) (ho1 : 0 < o) (ho2 : o ≤ 127) :
    ∃ s2 cp, copy_pagetable L s pt o = some (s2, cp)
      ∧ (cp ≠ UINTPTR_MINUS_ONE ↔
          ∃ f1 f2, f1 ≠ f2 ∧ f1 < L.PROC_START_ADDR / PAGESIZE
            ∧ f2 < L.PROC_START_ADDR / PAGESIZE
            ∧ (s.pageinfo f1).owner = PO_FREE ∧ (s.pageinfo f2).owner = PO_FREE)
      ∧ (cp ≠ UINTPTR_MINUS_ONE →
          ∃ l1 l2, cp = PAGEADDRESS l1 ∧ l1 ≠ l2
            ∧ l1 < L.PROC_START_ADDR / PAGESIZE ∧ l2 < L.PROC_START_ADDR / PAGESIZE
            ∧ (s.pageinfo l1).owner = PO_FREE ∧ (s.pageinfo l2).owner = PO_FREE
            ∧ s2.pageinfo l1 = { owner := (o : Int), refcount := 1 }
            ∧ s2.pageinfo l2 = { owner := (o : Int), refcount := 1 }
            ∧ (∀ f, f ≠ l1 → f ≠ l2 → s2.pageinfo f = s.pageinfo f)
            ∧ s2.mem l1 0 = PAGEADDRESS l2 ||| (PTE_P ||| PTE_W ||| PTE_U)
            ∧ ∀ j, j ≠ 0 → s2.mem l1 j = 0) := by
  have hv := hL.virt_le
  have hs := hL.start_le
  have hto : toInt8 (o : Int) = (o : Int) := toInt8_pid ho2
  have hto0 : toInt8 (o : Int) ≠ PO_FREE := by
    rw [hto]; unfold PO_FREE; omega
  rcases find_free_scan_cases s.pageinfo (L.PROC_START_ADDR / PAGESIZE) 0 with
    e | ⟨l1, _, hl1, hf1, hlow1, e1⟩
  · -- no frame for the outer table
    refine ⟨{ s with pageinfo := s.pageinfo }, UINTPTR_MINUS_ONE, ?_, ?_, ?_⟩
    · unfold copy_pagetable find_free_page_table
      dsimp only
      rw [e, alloc_at_minus_one]
      dsimp only
      rw [if_pos rfl]
    · constructor
      · intro h; exact absurd rfl h
      · rintro ⟨f1, f2, _, hf1, _, hfree, _⟩
        exact absurd hfree ((find_free_scan_none _ _ _).mp e f1 (Nat.zero_le _) (by omega))
    · intro h; exact absurd rfl h
  · have hr1 : (s.pageinfo l1).refcount = 0 := ((hr l1).1).mpr hf1
    rw [Nat.zero_add] at hl1
    rcases find_free_scan_cases
        (Function.update s.pageinfo l1 { owner := toInt8 (o : Int), refcount := 1 })
        (L.PROC_START_ADDR / PAGESIZE) 0 with e | ⟨l2, _, hl2, hf2, hlow2, e2⟩
    · -- no frame for the inner table
      have hl1lt : l1 < 2 ^ 20 := by unfold PAGESIZE at hl1; omega
      have hlt1 : PAGEADDRESS l1 < L.MEMSIZE_PHYSICAL := by
        rw [PAGEADDRESS_eq_mul l1 hl1lt]; unfold PAGESIZE at *; omega
      refine ⟨{ s with pageinfo :=
          Function.update s.pageinfo l1 { owner := toInt8 (o : Int), refcount := 1 } },
        UINTPTR_MINUS_ONE, ?_, ?_, ?_⟩
      · unfold copy_pagetable find_free_page_table
        dsimp only
        rw [e1, physical_page_alloc_free (toInt8 o) hl1lt hlt1 hr1]
        dsimp only
        rw [if_neg (show ¬ ((0 : Int) = -1) by decide), e, alloc_at_minus_one]
        dsimp only
        rw [if_pos rfl]
      · constructor
        · intro h; exact absurd rfl h
        · rintro ⟨f1, f2, hne, hf1', hf2', hfree1, hfree2⟩
          exfalso
          have hnone := (find_free_scan_none _ _ _).mp e
          by_cases h1 : f1 = l1
          · have h2 : f2 ≠ l1 := fun x => hne (h1.trans x.symm)
            refine hnone f2 (Nat.zero_le _) (by omega) ?_
            rw [Function.update_noteq h2]; exact hfree2
          · refine hnone f1 (Nat.zero_le _) (by omega) ?_
            rw [Function.update_noteq h1]; exact hfree1
      · intro h; exact absurd rfl h
    · rw [Nat.zero_add] at hl2
      have hne21 : l2 ≠ l1 := by
        intro x
        rw [x, Function.update_same] at hf2
        exact hto0 hf2
      have hne12 : l1 ≠ l2 := fun x => hne21 x.symm
      rw [Function.update_noteq hne21] at hf2
      have hr2 : (s.pageinfo l2).refcount = 0 := ((hr l2).1).mpr hf2
      obtain ⟨m6, hrun, _, hm1, _⟩ := copy_pagetable_run hL hS hC s pt o hl1 hl2 hne12 e1 hr1
        e2 hr2
      refine ⟨_, _, hrun, ?_, ?_⟩
      · constructor
        · intro _
          exact ⟨l1, l2, hne12, hl1, hl2, hf1, hf2⟩
        · intro _
          exact PAGEADDRESS_ne_minus_one l1
      · intro _
        refine ⟨l1, l2, rfl, hne12, hl1, hl2, hf1, hf2, ?_, ?_, ?_, ?_, ?_⟩
        · show Function.update (Function.update s.pageinfo l1 _) l2 _ l1 = _
          rw [Function.update_noteq hne12, Function.update_same, hto]
        · show Function.update (Function.update s.pageinfo l1 _) l2 _ l2 = _
          rw [Function.update_same, hto]
        · intro f h1 h2
          show Function.update (Function.update s.pageinfo l1 _) l2 _ f = _
          rw [Function.update_noteq h2, Function.update_noteq h1]
        · show m6 l1 0 = _
          rw [hm1, Function.update_same]
          rfl
        · intro j hj
          show m6 l1 j = _
          rw [hm1, Function.update_noteq hj]


/-- Witness of `copy_pagetable_spec`: the state in which `kernel("fork")`
starts process 1 on the scaled-down configuration, and owner 2. -/
theorem copy_pagetable_spec_witness :
    ∃ s2 cp, copy_pagetable smallLayout smallBoot smallLayout.kernel_pagetable 2 = some (s2, cp)
      ∧ (cp ≠ UINTPTR_MINUS_ONE ↔
          ∃ f1 f2, f1 ≠ f2 ∧ f1 < smallLayout.PROC_START_ADDR / PAGESIZE
            ∧ f2 < smallLayout.PROC_START_ADDR / PAGESIZE
            ∧ (smallBoot.pageinfo f1).owner = PO_FREE ∧ (smallBoot.pageinfo f2).owner = PO_FREE)
      ∧ (cp ≠ UINTPTR_MINUS_ONE →
          ∃ l1 l2, cp = PAGEADDRESS l1 ∧ l1 ≠ l2
            ∧ l1 < smallLayout.PROC_START_ADDR / PAGESIZE
            ∧ l2 < smallLayout.PROC_START_ADDR / PAGESIZE
            ∧ (smallBoot.pageinfo l1).owner = PO_FREE ∧ (smallBoot.pageinfo l2).owner = PO_FREE
            ∧ s2.pageinfo l1 = { owner := ((2 : Nat) : Int), refcount := 1 }
            ∧ s2.pageinfo l2 = { owner := ((2 : Nat) : Int), refcount := 1 }
            ∧ (∀ f, f ≠ l1 → f ≠ l2 → s2.pageinfo f = smallBoot.pageinfo f)
            ∧ s2.mem l1 0 = PAGEADDRESS l2 ||| (PTE_P ||| PTE_W ||| PTE_U)
            ∧ ∀ j, j ≠ 0 → s2.mem l1 j = 0) :=
  copy_pagetable_spec smallLayout smallLayout_WF (by decide) (by decide) smallBoot
    smallLayout.kernel_pagetable 2
    (reachable_inv smallLayout_WF (Reachable.boot (some "fork") smallBoot smallBoot_eq)).ref
    (by decide) (by decide)

set_option maxRecDepth 100000 in
theorem sampleCopy_eq :
    copy_pagetable smallLayout sampleState smallLayout.kernel_pagetable 2 = some sampleCopy :=
  getD_of_isSome _ _ (by decide!)

set_option maxRecDepth 100000 in
theorem sampleCopy_ret : sampleCopy.2 ≠ UINTPTR_MINUS_ONE := by decide!

/-- Witness of `copy_pagetable_mappings`: `copy_pagetable(kernel_pagetable, 2)`
in `sampleState`. -/
theorem copy_pagetable_mappings_witness :
    (∀ va, va % PAGESIZE = 0 → va < smallLayout.PROC_START_ADDR → va ≠ smallLayout.console →
        virtual_memory_lookup sampleCopy.1.mem sampleCopy.2 va
          = { pn := PAGENUMBER va, pa := va, perm := PTE_P ||| PTE_W })
    ∧ virtual_memory_lookup sampleCopy.1.mem sampleCopy.2 smallLayout.console
        = { pn := PAGENUMBER smallLayout.console, pa := smallLayout.console,
            perm := PTE_P ||| PTE_W ||| PTE_U }
    ∧ (∀ va, smallLayout.PROC_START_ADDR ≤ va → va < WORD →
        virtual_memory_lookup sampleCopy.1.mem sampleCopy.2 va = vamapping_none)
    ∧ sampleCopy.2 % PAGESIZE = 0 ∧ sampleCopy.2 < smallLayout.PROC_START_ADDR
    ∧ sampleCopy.1.mem (PAGENUMBER sampleCopy.2) 0 &&& PTE_P ≠ 0
    ∧ PTE_ADDR (sampleCopy.1.mem (PAGENUMBER sampleCopy.2) 0) < smallLayout.PROC_START_ADDR :=
  copy_pagetable_mappings smallLayout smallLayout_WF sampleState sampleCopy.1
    smallLayout.kernel_pagetable 2 sampleCopy.2 sampleCopy_eq sampleCopy_ret

/-! ### `process_setup` -/

/-- The program loader leaves the records of the frames that are in use. -/
theorem program_load_pages_keeps {L : Layout} {pid : Nat} (pages : List ProgramPage) :
    ∀ (s s1 : KState) (r : Int), program_load_pages L pid pages s = some (s1, r) →
      toInt8 ((s.processes pid).p_pid : Int) ≠ 0 → RefInv s.pageinfo →
      ∀ f, (s.pageinfo f).owner ≠ PO_FREE → s1.pageinfo f = s.pageinfo f := by
  induction pages with
  | nil =>
    intro s s1 r h _ _ f _
    simp [program_load_pages] at h
    rw [← h.1]
  | cons pg rest ih =>
    intro s s1 r h ho hr f hf
    unfold program_load_pages at h
    dsimp only at h
    split at h
    · cases h; rfl
    · split at h
      · cases h
      · rename_i m1 hmap
        have hk := @physical_page_alloc_keeps L s.pageinfo pg.va
          (toInt8 ((s.processes pid).p_pid : Int)) hr f hf
        have := ih _ _ _ h ho (physical_page_alloc_refinv ho hr) f (by
          show ((physical_page_alloc L s.pageinfo pg.va
            (toInt8 ((s.processes pid).p_pid : Int))).1 f).owner ≠ PO_FREE
          rw [hk]; exact hf)
        rw [this]
        exact hk

theorem program_load_keeps {L : Layout} {env : Env} {s s1 : KState} {pid n : Nat} {r : Int}
    (h : program_load L env s pid n = some (s1, r))
    (ho : toInt8 ((s.processes pid).p_pid : Int) ≠ 0) (hr : RefInv s.pageinfo) :
    ∀ f, (s.pageinfo f).owner ≠ PO_FREE → s1.pageinfo f = s.pageinfo f := by
  unfold program_load at h
  split at h
  · cases h
  · rename_i s2 r2 hp
    have := program_load_pages_keeps _ _ _ _ hp ho hr
    split at h
    · cases h; exact this
    · cases h; exact this


/-- C25: when `process_setup(pid, program_number)` returns after a successful
page-table copy, the saved stack pointer of the process is `MEMSIZE_VIRTUAL`,
one frame that was Free is owned by `pid` with refcount 1 and mapped at
`MEMSIZE_VIRTUAL - PAGESIZE` with P|W|U, and the state of the process is
Runnable; when the page-table copy fails, the state of the slot is left as it
was (Free at boot). -/
theorem process_setup_spec (L : Layout) (hL : L.WF) (env : Env) (s s1 : KState) (pid n : Nat)
    (h : process_setup L env s pid n = some s1) (h1 : 1 ≤ pid) (h2 : pid ≤ 127)
    (hr : RefInv s.pageinfo) (hi : ProcInv s) :
    ∃ s2 cp, copy_pagetable L (set_registers s pid env.init_registers) L.kernel_pagetable pid
        = some (s2, cp)
      ∧ (cp = UINTPTR_MINUS_ONE →
          (s1.processes pid).p_state = (s.processes pid).p_state)
      ∧ (cp ≠ UINTPTR_MINUS_ONE →
          (s1.processes pid).p_state = procstate.P_RUNNABLE
          ∧ (s1.processes pid).p_registers.reg_esp = L.MEMSIZE_VIRTUAL
          ∧ (s1.processes pid).p_pagetable = cp
          ∧ ∃ f, f < NPAGES L ∧ (s.pageinfo f).owner = PO_FREE
            ∧ s1.pageinfo f = { owner := (pid : Int), refcount := 1 }
            ∧ virtual_memory_lookup s1.mem cp (L.MEMSIZE_VIRTUAL - PAGESIZE)
                = { pn := (f : Int), pa := PAGEADDRESS f,
                    perm := PTE_P ||| PTE_W ||| PTE_U }) := by
  have ho : toInt8 (pid : Int) ≠ 0 := toInt8_pid_ne_zero h1 h2
  unfold process_setup at h
  dsimp only at h
  split at h
  · cases h
  · rename_i s2 pt hcp
    refine ⟨s2, pt, hcp, ?_, ?_⟩
    · intro hpt
      rw [if_pos hpt] at h
      cases h
      rw [(set_pagetable_of_proc _ _ _ _).1, (copy_pagetable_frame hcp).1,
        (set_registers_proc _ _ _ _).1]
    · intro hpt
      rw [if_neg hpt] at h
      have hp2 := (copy_pagetable_frame hcp).1
      have hr2 : RefInv s2.pageinfo := copy_pagetable_refinv hcp ho hr
      have hpid2 : ((set_pagetable_of s2 pid pt).processes pid).p_pid = pid := by
        rw [(set_pagetable_of_proc _ _ _ _).2, hp2, (set_registers_proc _ _ _ _).2.1]
        exact hi.1 pid
      obtain ⟨l1, l2, hiso2⟩ := copy_pagetable_iso hL hcp hpt h2
      obtain ⟨k1, k2, hcpeq, _, _, _, _, _, _, hk1, hk2, hpi2, _⟩ :=
        copy_pagetable_success hL hcp hpt
      have hkeep2 : ∀ f, (s.pageinfo f).owner ≠ PO_FREE → s2.pageinfo f = s.pageinfo f := by
        intro f hf
        rw [hpi2, Function.update_noteq (fun e => hf (by rw [e]; exact hk2)),
          Function.update_noteq (fun e => hf (by rw [e]; exact hk1))]
        rfl
      split at h
      · cases h
      · rename_i s3 r3 hpl
        split at h
        · cases h
        · obtain ⟨hiso3, _, _, _⟩ := program_load_iso h1 h2 hpl hpid2 hr2 hiso2
          obtain ⟨hr3, _, _⟩ := program_load_inv hpl (by rw [hpid2]; exact ho) hr2
            (ProcInv_set_pagetable_of pid pt (ProcInv_congr hp2
              (ProcInv_set_registers pid env.init_registers hi)))
          have hkeep3 := program_load_keeps hpl (by rw [hpid2]; exact ho) hr2
          split at h
          · cases h
          · rename_i m5 hmap
            cases h
            generalize hs4 : set_registers s3 pid
              { (s3.processes pid).p_registers with reg_esp := L.MEMSIZE_VIRTUAL } = s4 at *
            have hesp : (s4.processes pid).p_registers.reg_esp = L.MEMSIZE_VIRTUAL := by
              rw [← hs4, set_registers_regs]
            have hiso4 : ProcIso L s4 pid l1 l2 := by
              rw [← hs4]; exact ProcIso_set_registers _ _ hiso3
            have hr4 : RefInv s4.pageinfo := by rw [← hs4]; exact hr3
            have hpi4 : s4.pageinfo = s3.pageinfo := by rw [← hs4]; rfl
            have hl1 := hiso4.l1_lt
            have hl2 := hiso4.l2_lt
            have hpt : pt = PAGEADDRESS l1 := by
              have := hiso2.pt_eq
              unfold set_pagetable_of set_proc at this
              simp only [Function.update_same] at this
              exact this
            have hpn1 := @PAGENUMBER_PAGEADDRESS l1 hl1
            rw [hiso4.pt_eq, hesp] at hmap
            obtain ⟨hpde, hva, hal, hpal, _, _⟩ := virtual_memory_map_single hmap
            obtain ⟨hm5, _, _⟩ := map_own_page hl1 hl2 hiso4.mem_l1 hmap
            rw [hpn1, hiso4.mem_l1] at hpde
            obtain ⟨hidx, _⟩ := outer_entry_present hl2 hpde
            have hne : find_free_page L s4.pageinfo ≠ UINTPTR_MINUS_ONE := by
              intro x
              rw [x] at hal
              exact absurd hal (by decide)
            have h20 := NPAGES_lt L hL.phys_lt
            unfold find_free_page at hne hmap hm5 hpal
            rcases find_free_scan_cases s4.pageinfo (NPAGES L) 0 with e | ⟨f, _, hf, hfree, _, e⟩
            · exact absurd e hne
            · rw [Nat.zero_add] at hf
              have hf20 : f < 2 ^ 20 := by omega
              have hpnf := @PAGENUMBER_PAGEADDRESS f hf20
              rw [e] at hpal hm5
              have hfree0 : (s.pageinfo f).owner = PO_FREE := by
                by_contra hx
                have a2 := hkeep2 f hx
                have a3 := hkeep3 f (by
                  show (s2.pageinfo f).owner ≠ PO_FREE
                  rw [a2]; exact hx)
                rw [hpi4, a3] at hfree
                have : (s2.pageinfo f).owner = PO_FREE := hfree
                rw [a2] at this
                exact hx this
              refine ⟨?_, ?_, ?_, f, hf, hfree0, ?_, ?_⟩
              · unfold set_state set_proc
                simp only [Function.update_same]
              · unfold set_state set_proc
                simp only [Function.update_same]
                exact hesp
              · unfold set_state set_proc
                simp only [Function.update_same]
                rw [hiso4.pt_eq, hpt]
              · show (physical_page_alloc L s4.pageinfo (find_free_scan s4.pageinfo (NPAGES L) 0)
                  (toInt8 (pid : Int))).1 f = _
                rw [e, physical_page_alloc_free (toInt8 (pid : Int)) hf20 (by
                    unfold PAGESIZE at hpal; omega) (((hr4 f).1).mpr hfree),
                  toInt8_pid h2]
                dsimp only
                rw [Function.update_same]
              · show virtual_memory_lookup m5 pt (L.MEMSIZE_VIRTUAL - PAGESIZE) = _
                rw [hpt]
                have hm5l1 : m5 l1 = Function.update (fun _ => 0) 0 (PAGEADDRESS l2 ||| 7) := by
                  rw [hm5, Function.update_noteq hiso4.l_ne, hiso4.mem_l1]
                have hpde2 : PAGENUMBER (PAGEADDRESS l2 ||| 7) = l2 := by
                  rw [PAGENUMBER_pte (PAGEADDRESS_aligned l2) (by decide),
                    PAGENUMBER_PAGEADDRESS hl2]
                have := @virtual_memory_lookup_entry m5 (PAGEADDRESS l1)
                  (L.MEMSIZE_VIRTUAL - PAGESIZE) (PAGEADDRESS f) (PTE_P ||| PTE_W ||| PTE_U)
                  (by rw [hpn1, hm5l1]; exact hpde)
                  (by
                    rw [hpn1, hm5l1, hidx, Function.update_same, hpde2, hm5,
                      Function.update_same, Function.update_same,
                      if_pos (show (PTE_P ||| PTE_W ||| PTE_U) &&& PTE_P ≠ 0 by decide)])
                  (PAGEADDRESS_aligned f) (by decide) (by decide)
                rw [this, hpnf]
                have e0 : PAGEOFFSET (L.MEMSIZE_VIRTUAL - PAGESIZE) = 0 := hva
                rw [e0, Nat.add_zero]


theorem sampleState_RefInv : RefInv sampleState.pageinfo := by
  intro pn
  unfold RecordOk sampleState PO_FREE
  dsimp only
  split_ifs <;> decide

theorem sampleState_ProcInv : ProcInv sampleState := by
  refine ⟨fun i => ?_, by decide⟩
  unfold sampleState
  dsimp only
  split_ifs with e
  · exact e.symm
  · rfl

set_option maxRecDepth 100000 in
theorem sampleSetup_eq : process_setup smallLayout smallEnv sampleState 2 1 = some sampleSetup :=
  getD_of_isSome _ _ (by decide!)

/-- Witness of `process_setup_spec`: `process_setup(2, 1)` called in
`sampleState`. -/
theorem process_setup_spec_witness :
    ∃ s2 cp, copy_pagetable smallLayout (set_registers sampleState 2 smallEnv.init_registers)
        smallLayout.kernel_pagetable 2 = some (s2, cp)
      ∧ (cp = UINTPTR_MINUS_ONE →
          (sampleSetup.processes 2).p_state = (sampleState.processes 2).p_state)
      ∧ (cp ≠ UINTPTR_MINUS_ONE →
          (sampleSetup.processes 2).p_state = procstate.P_RUNNABLE
          ∧ (sampleSetup.processes 2).p_registers.reg_esp = smallLayout.MEMSIZE_VIRTUAL
          ∧ (sampleSetup.processes 2).p_pagetable = cp
          ∧ ∃ f, f < NPAGES smallLayout ∧ (sampleState.pageinfo f).owner = PO_FREE
            ∧ sampleSetup.pageinfo f = { owner := ((2 : Nat) : Int), refcount := 1 }
            ∧ virtual_memory_lookup sampleSetup.mem cp (smallLayout.MEMSIZE_VIRTUAL - PAGESIZE)
                = { pn := (f : Int), pa := PAGEADDRESS f,
                    perm := PTE_P ||| PTE_W ||| PTE_U }) :=
  process_setup_spec smallLayout smallLayout_WF smallEnv sampleState sampleSetup 2 1
    sampleSetup_eq (by decide) (by decide) sampleState_RefInv sampleState_ProcInv

/-! ### Boot -/

theorem program_load_pages_procs {L : Layout} {pid : Nat} (pages : List ProgramPage) :
    ∀ (s s1 : KState) (r : Int), program_load_pages L pid pages s = some (s1, r) →
      s1.processes = s.processes ∧ s1.current = s.current := by
  induction pages with
  | nil =>
    intro s s1 r h
    simp [program_load_pages] at h
    rw [← h.1]
    exact ⟨rfl, rfl⟩
  | cons pg rest ih =>
    intro s s1 r h
    unfold program_load_pages at h
    dsimp only at h
    split at h
    · cases h; exact ⟨rfl, rfl⟩
    · split at h
      · cases h
      · obtain ⟨a, b⟩ := ih _ _ _ h
        exact ⟨a, b⟩

/-- What a successful `program_load` does to the process table: only the saved
instruction pointer of the process changes, to the entry point of the image. -/
theorem program_load_desc {L : Layout} {env : Env} {s s1 : KState} {pid n : Nat} {r : Int}
    (h : program_load L env s pid n = some (s1, r)) (hr : ¬ r < 0) :
    s1.current = s.current
    ∧ (∀ q, q ≠ pid → s1.processes q = s.processes q)
    ∧ (s1.processes pid).p_state = (s.processes pid).p_state
    ∧ (s1.processes pid).p_pagetable = (s.processes pid).p_pagetable
    ∧ (s1.processes pid).p_registers.reg_eip = (env.programs n).entry := by
  unfold program_load at h
  split at h
  · cases h
  · rename_i s2 r2 hp
    obtain ⟨a, b⟩ := program_load_pages_procs _ _ _ _ hp
    split at h
    · rename_i hneg
      cases h
      exact absurd hneg hr
    · cases h
      refine ⟨b, fun q hq => ?_, ?_, ?_, ?_⟩
      · rw [set_registers_other _ _ hq, a]
      · rw [(set_registers_proc _ _ _ _).1, a]
      · rw [(set_registers_proc _ _ _ _).2.2, a]
      · rw [set_registers_regs]

/-- The descriptors after `process_setup(pid, n)`: the others are untouched;
the process is Runnable with the entry point of program `n` and the stack
pointer `MEMSIZE_VIRTUAL`, or the page-table copy failed and its state is
unchanged. -/
theorem process_setup_desc {L : Layout} {env : Env} {s s1 : KState} {pid n : Nat}
    (h : process_setup L env s pid n = some s1) :
    s1.current = s.current
    ∧ (∀ q, q ≠ pid → s1.processes q = s.processes q)
    ∧ (((s1.processes pid).p_state = procstate.P_RUNNABLE
          ∧ (s1.processes pid).p_registers.reg_eip = (env.programs n).entry
          ∧ (s1.processes pid).p_registers.reg_esp = L.MEMSIZE_VIRTUAL
          ∧ (s1.processes pid).p_pagetable ≠ UINTPTR_MINUS_ONE)
        ∨ ((s1.processes pid).p_pagetable = UINTPTR_MINUS_ONE
          ∧ (s1.processes pid).p_state = (s.processes pid).p_state)) := by
  unfold process_setup at h
  dsimp only at h
  split at h
  · cases h
  · rename_i s2 pt hcp
    obtain ⟨hp2, hc2, _⟩ := copy_pagetable_frame hcp
    have hq2 : ∀ q, q ≠ pid → (set_pagetable_of s2 pid pt).processes q = s.processes q := by
      intro q hq
      rw [set_pagetable_of_other _ _ hq, hp2, set_registers_other _ _ hq]
    have hpt2 : ((set_pagetable_of s2 pid pt).processes pid).p_pagetable = pt := by
      unfold set_pagetable_of set_proc
      simp only [Function.update_same]
    split at h
    · rename_i hpt
      cases h
      refine ⟨hc2, hq2, Or.inr ⟨by rw [hpt2]; exact hpt, ?_⟩⟩
      rw [(set_pagetable_of_proc _ _ _ _).1, hp2, (set_registers_proc _ _ _ _).1]
    · rename_i hpt
      split at h
      · cases h
      · rename_i s3 r3 hpl
        split at h
        · cases h
        · rename_i hr3
          obtain ⟨c3, q3, _, pt3, eip3⟩ := program_load_desc hpl hr3
          split at h
          · cases h
          · rename_i m5 hmap
            cases h
            refine ⟨?_, ?_, Or.inl ⟨?_, ?_, ?_, ?_⟩⟩
            · show s3.current = s.current
              rw [c3]; exact hc2
            · intro q hq
              unfold set_state set_proc
              dsimp only
              rw [Function.update_noteq hq, set_registers_other _ _ hq, q3 q hq, hq2 q hq]
            · unfold set_state set_proc
              simp only [Function.update_same]
            · unfold set_state set_proc
              simp only [Function.update_same]
              rw [set_registers_regs]
              exact eip3
            · unfold set_state set_proc
              simp only [Function.update_same]
              rw [set_registers_regs]
            · unfold set_state set_proc
              simp only [Function.update_same]
              rw [set_registers_pagetable, pt3, hpt2]
              exact hpt

/-- The descriptors after the boot loop `for (i = ..; ..; ++i)
process_setup(i, i - 1)`. -/
theorem kernel_setup_loop_desc {L : Layout} {env : Env} (fuel : Nat) :
    ∀ (i : Nat) (s s1 : KState), kernel_setup_loop L env fuel i s = some s1 →
      s1.current = s.current
      ∧ (∀ q, (q < i ∨ i + fuel ≤ q) → s1.processes q = s.processes q)
      ∧ ∀ q, i ≤ q → q < i + fuel →
          ((s1.processes q).p_state = procstate.P_RUNNABLE
            ∧ (s1.processes q).p_registers.reg_eip = (env.programs (q - 1)).entry
            ∧ (s1.processes q).p_registers.reg_esp = L.MEMSIZE_VIRTUAL
            ∧ (s1.processes q).p_pagetable ≠ UINTPTR_MINUS_ONE)
          ∨ ((s1.processes q).p_pagetable = UINTPTR_MINUS_ONE
            ∧ (s1.processes q).p_state = (s.processes q).p_state) := by
  induction fuel with
  | zero =>
    intro i s s1 h
    simp [kernel_setup_loop] at h
    rw [← h]
    exact ⟨rfl, fun _ _ => rfl, fun q h1 h2 => by omega⟩
  | succ n ih =>
    intro i s s1 h
    unfold kernel_setup_loop at h
    split at h
    · cases h
    · rename_i s2 hps
      obtain ⟨c2, q2, d2⟩ := process_setup_desc hps
      obtain ⟨c3, q3, d3⟩ := ih _ _ _ h
      refine ⟨c3.trans c2, fun q hq => ?_, fun q hq1 hq2 => ?_⟩
      · rw [q3 q (by omega), q2 q (by omega)]
      · by_cases e : q = i
        · rw [e, q3 i (by omega)]
          exact d2
        · have := d3 q (by omega) (by omega)
          rw [q2 q e] at this
          exact this

/-- The boot loop is the four calls `process_setup(1, 0)` to
`process_setup(4, 3)`. -/
theorem kernel_setup_loop_four {L : Layout} {env : Env} {s s1 : KState}
    (h : kernel_setup_loop L env 4 1 s = some s1) :
    ∃ a b c, process_setup L env s 1 0 = some a ∧ process_setup L env a 2 1 = some b
      ∧ process_setup L env b 3 2 = some c ∧ process_setup L env c 4 3 = some s1 := by
  unfold kernel_setup_loop at h
  split at h
  · cases h
  · rename_i a ha
    unfold kernel_setup_loop at h
    split at h
    · cases h
    · rename_i b hb
      unfold kernel_setup_loop at h
      split at h
      · cases h
      · rename_i c hc
        unfold kernel_setup_loop at h
        split at h
        · cases h
        · rename_i d hd
          unfold kernel_setup_loop at h
          cases h
          exact ⟨a, b, c, ha, hb, hc, hd⟩

/-- C27: `kernel(command)` sets up exactly process 1 with program 4 when the
command is "fork", exactly process 1 with program 5 when it is "forkexit",
and processes 1 to 4 with programs 0 to 3 otherwise (including a null
command); a process whose setup succeeded is Runnable, with the entry point
of its program, every other slot is Free, and control is transferred by `run`
to process 1. -/
theorem kernel_setup (L : Layout) (env : Env) (command : Option String) (s : KState)
    (h : kernel L env command = some s) :
    s.current = 1
    ∧ (s.processes 1).p_state = procstate.P_RUNNABLE
    ∧ (command = some "fork" →
        (∃ s0 s3, (∀ q, (s0.processes q).p_state = procstate.P_FREE)
          ∧ process_setup L env s0 1 4 = some s3 ∧ run s3 1 = some s)
        ∧ (s.processes 1).p_registers.reg_eip = (env.programs 4).entry
        ∧ ∀ q, q ≠ 1 → (s.processes q).p_state = procstate.P_FREE)
    ∧ (command = some "forkexit" →
        (∃ s0 s3, (∀ q, (s0.processes q).p_state = procstate.P_FREE)
          ∧ process_setup L env s0 1 5 = some s3 ∧ run s3 1 = some s)
        ∧ (s.processes 1).p_registers.reg_eip = (env.programs 5).entry
        ∧ ∀ q, q ≠ 1 → (s.processes q).p_state = procstate.P_FREE)
    ∧ (command ≠ some "fork" → command ≠ some "forkexit" →
        (∃ s0 a b c s3, (∀ q, (s0.processes q).p_state = procstate.P_FREE)
          ∧ process_setup L env s0 1 0 = some a ∧ process_setup L env a 2 1 = some b
          ∧ process_setup L env b 3 2 = some c ∧ process_setup L env c 4 3 = some s3
          ∧ run s3 1 = some s)
        ∧ (∀ q, (q = 0 ∨ 4 < q) → (s.processes q).p_state = procstate.P_FREE)
        ∧ ∀ q, 1 ≤ q → q ≤ 4 →
            ((s.processes q).p_state = procstate.P_RUNNABLE
              ∧ (s.processes q).p_registers.reg_eip = (env.programs (q - 1)).entry
              ∧ (s.processes q).p_pagetable ≠ UINTPTR_MINUS_ONE)
            ∨ ((s.processes q).p_pagetable = UINTPTR_MINUS_ONE
              ∧ (s.processes q).p_state = procstate.P_FREE)) := by
  unfold kernel at h
  dsimp only at h
  split at h
  · cases h
  · rename_i m1 hm1
    split at h
    · cases h
    · rename_i m2 hm2
      split at h
      · cases h
      · rename_i s3 hs3
        obtain ⟨hpi, hp, _, hc, hrun⟩ := run_inv h
        have single : ∀ n, process_setup L env
            { processes := fun i =>
                { p_pid := i, p_registers := ⟨0, 0, 0, 0, 0, []⟩, p_state := procstate.P_FREE,
                  p_pagetable := 0 },
              current := 0, pageinfo := pageinfo_init L, mem := m2, ticks := 0 } 1 n = some s3 →
            (s.processes 1).p_registers.reg_eip = (env.programs n).entry
            ∧ ∀ q, q ≠ 1 → (s.processes q).p_state = procstate.P_FREE := by
          intro n hps
          obtain ⟨_, q2, d2⟩ := process_setup_desc hps
          rw [hc, hp] at hrun
          refine ⟨?_, fun q hq => ?_⟩
          · rcases d2 with ⟨_, e, _⟩ | ⟨_, e⟩
            · rw [hp]; exact e
            · rw [e] at hrun
              exact absurd hrun (show procstate.P_FREE ≠ procstate.P_RUNNABLE by decide)
          · rw [hp, q2 q hq]
        refine ⟨hc, by rw [← hc]; exact hrun, ?_, ?_, ?_⟩
        · intro hcmd
          rw [if_pos hcmd] at hs3
          exact ⟨⟨_, s3, fun _ => rfl, hs3, h⟩, single 4 hs3⟩
        · intro hcmd
          rw [if_neg (by rw [hcmd]; decide), if_pos hcmd] at hs3
          exact ⟨⟨_, s3, fun _ => rfl, hs3, h⟩, single 5 hs3⟩
        · intro hc1 hc2
          rw [if_neg hc1, if_neg hc2] at hs3
          obtain ⟨_, q3, d3⟩ := kernel_setup_loop_desc 4 1 _ _ hs3
          obtain ⟨a, b, c, ha, hb, hcc, hd⟩ := kernel_setup_loop_four hs3
          refine ⟨⟨_, a, b, c, s3, fun _ => rfl, ha, hb, hcc, hd, h⟩, fun q hq => ?_,
            fun q hq1 hq2 => ?_⟩
          · rw [hp, q3 q (by omega)]
          · rw [hp]
            rcases d3 q hq1 (by omega) with ⟨a, b, _, c⟩ | ⟨a, b⟩
            · exact Or.inl ⟨a, b, c⟩
            · exact Or.inr ⟨a, b⟩

/-- Witness of `kernel_setup`: `kernel("fork")` on the scaled-down
configuration. -/
theorem kernel_setup_witness :
    smallBoot.current = 1
    ∧ (smallBoot.processes 1).p_state = procstate.P_RUNNABLE
    ∧ (smallBoot.processes 1).p_registers.reg_eip = (smallEnv.programs 4).entry
    ∧ ∀ q, q ≠ 1 → (smallBoot.processes q).p_state = procstate.P_FREE :=
  have h := kernel_setup smallLayout smallEnv (some "fork") smallBoot smallBoot_eq
  ⟨h.1, h.2.1, (h.2.2.1 rfl).2.1, (h.2.2.1 rfl).2.2⟩

/-! ### Broken processes -/

/-- Whatever way `fork` returns, every process that was not Free keeps its
state. -/
theorem fork_others {L : Layout} {s s1 : KState} {r : Int} (h : fork L s = some (s1, r))
    {p : Nat} (hp : (s.processes p).p_state ≠ procstate.P_FREE) :
    (s1.processes p).p_state = (s.processes p).p_state := by
  cases hslot : fork_find_slot s.processes (L.NPROC - 1) 1 with
  | none =>
    unfold fork at h
    rw [hslot] at h
    cases h
    rfl
  | some slot =>
    have hfree := (fork_find_slot_some _ _ _ _ hslot).2.2.1
    have hne : p ≠ slot := by
      intro e; rw [e] at hp; exact hp hfree
    have hpidc : ((fork_claim_slot s slot).processes slot).p_pid = slot := by
      simp [fork_claim_slot, set_proc]
    by_cases hr : r = -1
    · have hrs : r ≠ (slot : Int) := by omega
      obtain ⟨_, hshape⟩ := fork_failure_shape hslot h hrs
      have hsk : ∃ sk, sk.processes p = s.processes p ∧ (sk.processes slot).p_pid = slot
          ∧ sys_exit L (set_eax sk sk.current (toU32 (-1))) (sk.processes slot).p_pid
              = some s1 := by
        rcases hshape with ⟨s2, hcp, hexit⟩ | ⟨s2, cp, hcp, _, hloop⟩
        · obtain ⟨p2, _, _⟩ := copy_pagetable_frame hcp
          exact ⟨s2, by rw [p2]; exact fork_claim_slot_other s hne, by rw [p2]; exact hpidc,
            hexit⟩
        · obtain ⟨p2, _, _⟩ := copy_pagetable_frame hcp
          obtain ⟨sk, pk, _, hexit⟩ := fork_loop_failed_frame _ _ _ _ hloop
          refine ⟨sk, ?_, ?_, hexit⟩
          · rw [pk, set_pagetable_of_other _ _ hne, p2]
            exact fork_claim_slot_other s hne
          · rw [pk, (set_pagetable_of_proc _ _ _ _).2, p2]
            exact hpidc
      obtain ⟨sk, hpk, hpid, hexit⟩ := hsk
      rw [hpid] at hexit
      obtain ⟨_, _, _, hp1⟩ := sys_exit_frame hexit
      rw [hp1, Function.update_noteq hne, (set_eax_proc _ _ _ _).1, hpk]
    · obtain ⟨slot', cp, s2, s4, hfs', hcp, _, hloop, he, _⟩ := fork_success_shape h hr
      have hss : slot' = slot := by
        rw [hslot] at hfs'; exact (Option.some.inj hfs').symm
      subst hss
      obtain ⟨p2, _, _⟩ := copy_pagetable_frame hcp
      obtain ⟨p4, _, _⟩ := fork_loop_next_frame _ _ _ _ hloop
      rw [he, fork_finish_state, p4, set_pagetable_of_other _ _ hne, p2,
        fork_claim_slot_other s hne]

/-- The `switch` of `exception` leaves a Broken process Broken, when the
current process is another one. -/
theorem exception_switch_broken {L : Layout} {s : KState} {reg : x86_registers} {d : Dispatch}
    (h : exception_switch L s reg = some d) (hN : 0 < L.NPROC)
    (hpid : (s.processes s.current).p_pid = s.current) {p : Nat}
    (hne : p ≠ s.current) (hb : (s.processes p).p_state = procstate.P_BROKEN) :
    ∀ s1, d = Dispatch.handled s1 ∨ d = Dispatch.transferred s1 →
      (s1.processes p).p_state = procstate.P_BROKEN := by
  have hsched : ∀ (sx sy : KState), sx.processes = s.processes → schedule L sx = some sy →
      (sy.processes p).p_state = procstate.P_BROKEN := by
    intro sx sy e hs
    rw [(schedule_inv hN hs).2.1, e]; exact hb
  unfold exception_switch at h
  dsimp only at h
  intro s1 hd
  split at h
  · cases h
  · split at h
    · cases h
      rcases hd with hd | hd <;> cases hd
      rw [(set_eax_proc _ _ _ _).1]; exact hb
    · split at h
      · cases hs : schedule L s with
        | none => rw [hs] at h; cases h
        | some x =>
          rw [hs] at h
          cases h
          rcases hd with hd | hd <;> cases hd
          exact hsched s _ rfl hs
      · split at h
        · split at h
          · split at h
            · cases h
            · cases h
              rcases hd with hd | hd <;> cases hd
              rw [(set_eax_proc _ _ _ _).1]; exact hb
          · cases h
            rcases hd with hd | hd <;> cases hd
            rw [(set_eax_proc _ _ _ _).1]; exact hb
        · split at h
          · cases hs : schedule L { s with ticks := (s.ticks + 1) % WORD } with
            | none => rw [hs] at h; cases h
            | some x =>
              rw [hs] at h
              cases h
              rcases hd with hd | hd <;> cases hd
              exact hsched { s with ticks := (s.ticks + 1) % WORD } _ rfl hs
          · split at h
            · cases hf : fork L s with
              | none => rw [hf] at h; cases h
              | some x =>
                rw [hf] at h
                obtain ⟨s2, r⟩ := x
                cases h
                rcases hd with hd | hd <;> cases hd
                rw [fork_others hf (by rw [hb]; decide)]; exact hb
            · split at h
              · rw [hpid] at h
                cases he : sys_exit L s s.current with
                | none => rw [he] at h; cases h
                | some x =>
                  rw [he] at h
                  cases h
                  rcases hd with hd | hd <;> cases hd
                  rw [(sys_exit_frame he).2.2.2, Function.update_noteq hne]; exact hb
              · split at h
                · split at h
                  · cases h
                  · cases h
                    rcases hd with hd | hd <;> cases hd
                    rw [(set_state_proc _ _ _ _).2 hne]; exact hb
                · cases h

/-- One dispatcher event leaves a Broken process Broken. -/
theorem exception_broken {L : Layout} {s s1 : KState} {reg : x86_registers}
    (h : exception L s reg = some s1) (hN : 0 < L.NPROC)
    (hrun : (s.processes s.current).p_state = procstate.P_RUNNABLE)
    (hpid : (s.processes s.current).p_pid = s.current) {p : Nat}
    (hb : (s.processes p).p_state = procstate.P_BROKEN) :
    (s1.processes p).p_state = procstate.P_BROKEN := by
  have hne : p ≠ s.current := by
    intro e; rw [e, hrun] at hb; exact absurd hb (by decide)
  have hb0 : ((set_registers s s.current reg).processes p).p_state = procstate.P_BROKEN := by
    rw [(set_registers_proc _ _ _ _).1]; exact hb
  have hpid0 : ((set_registers s s.current reg).processes
      (set_registers s s.current reg).current).p_pid
        = (set_registers s s.current reg).current := by
    show ((set_registers s s.current reg).processes s.current).p_pid = s.current
    rw [(set_registers_proc _ _ _ _).2.1]; exact hpid
  unfold exception at h
  dsimp only at h
  split at h
  · cases h
  · cases hd : exception_switch L (set_registers s s.current reg) reg with
    | none => rw [hd] at h; cases h
    | some d =>
      rw [hd] at h
      have hsw := exception_switch_broken hd hN hpid0 hne hb0
      cases d with
      | transferred s2 =>
        dsimp only at h
        cases h
        exact hsw _ (Or.inr rfl)
      | handled s2 =>
        dsimp only at h
        split at h
        · rw [(run_inv h).2.1]; exact hsw _ (Or.inl rfl)
        · rw [(schedule_inv hN h).2.1]; exact hsw _ (Or.inl rfl)

theorem Steps_inv {L : Layout} (hL : L.WF) {s s1 : KState} (h : Steps L s s1)
    (k : KInv L s) : KInv L s1 := by
  induction h with
  | refl => exact k
  | trap s1 s2 reg _ he ih => exact exception_inv hL he ih
  | store s1 s2 va w _ hs ih => exact user_store_inv hs ih

/-- C22: once a process is Broken it stays Broken along every sequence of
dispatcher events and user stores: in every later state its state is Broken,
it is not the running process (neither `schedule()` nor `exception()` has
passed it to `run`, and `run` on it would fail its assertion), the scheduler
does not select it, and the slot search of `fork` does not return its slot.
The start is any state that satisfies the kernel invariant `KInv`, which every
reachable state does. -/
theorem broken_stays_broken (L : Layout) (hL : L.WF) (s s1 : KState) (p : Nat)
    (k : KInv L s) (hb : (s.processes p).p_state = procstate.P_BROKEN)
    (h : Steps L s s1) :
    (s1.processes p).p_state = procstate.P_BROKEN
    ∧ s1.current ≠ p
    ∧ run s1 p = none
    ∧ (∀ s2, schedule L s1 = some s2 → s2.current ≠ p)
    ∧ (∀ slot, fork_find_slot s1.processes (L.NPROC - 1) 1 = some slot → slot ≠ p) := by
  have hN : 0 < L.NPROC := by have := hL.nproc_gt; omega
  have key : (s1.processes p).p_state = procstate.P_BROKEN := by
    induction h with
    | refl => exact hb
    | trap s1 s2 reg hst he ih =>
      have k1 := Steps_inv hL hst k
      exact exception_broken he hN k1.cur_run (k1.procs.1 _) ih
    | store s1 s2 va w hst hs ih =>
      unfold user_store at hs
      dsimp only at hs
      split at hs
      · cases hs; exact ih
      · cases hs
  have k1 := Steps_inv hL h k
  refine ⟨key, ?_, ?_, ?_, ?_⟩
  · intro e
    have := k1.cur_run
    rw [e, key] at this
    exact absurd this (by decide)
  · unfold run
    rw [if_neg (by rw [key]; decide)]
  · intro s2 hs e
    obtain ⟨_, hp, _, _, hr⟩ := schedule_inv hN hs
    rw [e, hp, key] at hr
    exact absurd hr (by decide)
  · intro slot hs e
    have := (fork_find_slot_some _ _ _ _ hs).2.2.1
    rw [e, key] at this
    exact absurd this (by decide)


theorem RecordOk_used {o : Int} (h : o ≠ 0) : RecordOk { owner := o, refcount := 1 } := by
  unfold RecordOk PO_FREE
  dsimp only
  refine ⟨⟨fun x => absurd x (by decide), fun x => absurd x h⟩, by decide, by decide⟩

theorem sampleBusy_RefInv : RefInv sampleBusy.pageinfo := by
  intro pn
  unfold sampleBusy
  dsimp only
  split_ifs with h1 h2 h3 h4
  · exact RecordOk_used (by decide)
  · exact RecordOk_used (by decide)
  · refine RecordOk_used (fun h => ?_)
    have : (pn - 4) / 2 = 0 := by exact_mod_cast h
    omega
  · refine RecordOk_used (fun h => ?_)
    have : pn - 15 = 0 := by exact_mod_cast h
    omega
  · exact RecordOk_free

theorem sampleBroken_KInv : KInv smallLayout sampleBroken := by
  refine ⟨sampleBusy_RefInv, ⟨fun i => ?_, by decide⟩, by decide, by decide⟩
  unfold sampleBroken sampleBusy
  dsimp only
  split_ifs with h1 h2 h3
  · exact h1.symm
  · exact absurd h1 (by omega)
  · rfl
  · rfl

set_option maxRecDepth 100000 in
theorem sampleBroken_check : virtual_memory_check smallLayout sampleBroken = true := by decide!

/-- Process 1 of `sampleBroken` asks for its pid and is resumed. -/
theorem sampleBroken_getpid :
    ∃ s1, exception smallLayout sampleBroken (trapRegs 0 49) = some s1 := by
  have hsw := exception_switch_getpid smallLayout_ints
    (set_registers sampleBroken sampleBroken.current (trapRegs 0 49)) (trapRegs 0 49) rfl
  have hex := exception_handled
    ((virtual_memory_check_regs smallLayout sampleBroken sampleBroken.current
      (trapRegs 0 49)).trans sampleBroken_check) hsw
  rw [if_pos (by
    show ((set_eax (set_registers sampleBroken sampleBroken.current (trapRegs 0 49))
      sampleBroken.current _).processes sampleBroken.current).p_state = _
    rw [(set_eax_proc _ _ _ _).1, (set_registers_proc _ _ _ _).1]
    decide)] at hex
  exact ⟨_, hex⟩

/-- Witness of `broken_stays_broken`: in `sampleBroken` process 2 is Broken;
process 1 asks for its pid. -/
theorem broken_stays_broken_witness :
    ∃ s1, exception smallLayout sampleBroken (trapRegs 0 49) = some s1
      ∧ (s1.processes 2).p_state = procstate.P_BROKEN
      ∧ s1.current ≠ 2
      ∧ run s1 2 = none
      ∧ (∀ s2, schedule smallLayout s1 = some s2 → s2.current ≠ 2)
      ∧ (∀ slot, fork_find_slot s1.processes (smallLayout.NPROC - 1) 1 = some slot →
          slot ≠ 2) :=
  sampleBroken_getpid.elim (fun s1 h1 =>
    ⟨s1, h1, broken_stays_broken smallLayout smallLayout_WF sampleBroken s1 2 sampleBroken_KInv
      (by decide) (Steps.trap _ _ _ _ (Steps.refl _) h1)⟩)

/-! ### The fatal stops of the dispatcher -/

/-- With a runnable current process `schedule()` hands the CPU to some
process. -/
theorem schedule_total {L : Layout} (s : KState) (hlt : s.current < L.NPROC)
    (hrun : (s.processes s.current).p_state = procstate.P_RUNNABLE) :
    ∃ s1, schedule L s = some s1 := by
  have hN : 0 < L.NPROC := by omega
  obtain ⟨k, h1, h2, hr, hmin⟩ :=
    first_runnable hN s (s.processes s.current).p_pid ⟨s.current, hlt, hrun⟩
  exact ⟨_, schedule_loop_first L.NPROC _ k h1 h2 hr hmin⟩

/-- The `switch` of `exception()` ends in a fatal stop of its own exactly for
the explicit panic request, for a page fault that lacks the user-mode bit, and
for an interrupt number that is none of the recognised classes; for every
other event it stops only when the kernel stops inside `virtual_memory_map`,
`fork` or `sys_exit`.  In the three classes `exception()` stops whatever the
state. -/
theorem exception_panic_iff (L : Layout) (hI : L.IntsDistinct) (s : KState)
    (reg : x86_registers) (hlt : s.current < L.NPROC)
    (hrun : (s.processes s.current).p_state = procstate.P_RUNNABLE) :
    (exception_switch L s reg = none ↔
      reg.reg_intno = L.INT_SYS_PANIC
      ∨ (reg.reg_intno = L.INT_PAGEFAULT ∧ reg.reg_err &&& PFERR_USER = 0)
      ∨ (reg.reg_intno ≠ L.INT_SYS_PANIC ∧ reg.reg_intno ≠ L.INT_SYS_GETPID
          ∧ reg.reg_intno ≠ L.INT_SYS_YIELD ∧ reg.reg_intno ≠ L.INT_SYS_PAGE_ALLOC
          ∧ reg.reg_intno ≠ L.INT_TIMER ∧ reg.reg_intno ≠ L.INT_SYS_FORK
          ∧ reg.reg_intno ≠ L.INT_SYS_EXIT ∧ reg.reg_intno ≠ L.INT_PAGEFAULT)
      ∨ (reg.reg_intno = L.INT_SYS_PAGE_ALLOC
          ∧ (physical_page_alloc L s.pageinfo (find_free_page L s.pageinfo)
              (toInt8 (s.processes s.current).p_pid)).2 ≥ 0
          ∧ virtual_memory_map L s.mem (s.processes s.current).p_pagetable
              (s.processes s.current).p_registers.reg_eax (find_free_page L s.pageinfo) PAGESIZE
              (PTE_P ||| PTE_W ||| PTE_U) = none)
      ∨ (reg.reg_intno = L.INT_SYS_FORK ∧ fork L s = none)
      ∨ (reg.reg_intno = L.INT_SYS_EXIT
          ∧ sys_exit L s (s.processes s.current).p_pid = none))
    ∧ ((reg.reg_intno = L.INT_SYS_PANIC
        ∨ (reg.reg_intno = L.INT_PAGEFAULT ∧ reg.reg_err &&& PFERR_USER = 0)
        ∨ (reg.reg_intno ≠ L.INT_SYS_PANIC ∧ reg.reg_intno ≠ L.INT_SYS_GETPID
          ∧ reg.reg_intno ≠ L.INT_SYS_YIELD ∧ reg.reg_intno ≠ L.INT_SYS_PAGE_ALLOC
          ∧ reg.reg_intno ≠ L.INT_TIMER ∧ reg.reg_intno ≠ L.INT_SYS_FORK
          ∧ reg.reg_intno ≠ L.INT_SYS_EXIT ∧ reg.reg_intno ≠ L.INT_PAGEFAULT)) →
        ∀ s0, exception L s0 reg = none) := by
  obtain ⟨a1, a2, a3, a4, a5, a6, a7, b2, b3, b4, b5, b6, b7, c3, c4, c5, c6, c7, d4, d5, d6,
    d7, e5, e6, e7, f6, f7, g7⟩ := ints_ne hI
  have hclass : (reg.reg_intno = L.INT_SYS_PANIC
        ∨ (reg.reg_intno = L.INT_PAGEFAULT ∧ reg.reg_err &&& PFERR_USER = 0)
        ∨ (reg.reg_intno ≠ L.INT_SYS_PANIC ∧ reg.reg_intno ≠ L.INT_SYS_GETPID
          ∧ reg.reg_intno ≠ L.INT_SYS_YIELD ∧ reg.reg_intno ≠ L.INT_SYS_PAGE_ALLOC
          ∧ reg.reg_intno ≠ L.INT_TIMER ∧ reg.reg_intno ≠ L.INT_SYS_FORK
          ∧ reg.reg_intno ≠ L.INT_SYS_EXIT ∧ reg.reg_intno ≠ L.INT_PAGEFAULT)) →
        ∀ s0, exception_switch L s0 reg = none := by
    intro hc s0
    unfold exception_switch
    dsimp only
    rcases hc with h | ⟨h, hu⟩ | ⟨h1, h2, h3, h4, h5, h6, h7, h8⟩
    · rw [if_pos h]
    · rw [h, if_neg a7.symm, if_neg b7.symm, if_neg c7.symm, if_neg d7.symm, if_neg e7.symm,
        if_neg f7.symm, if_neg g7.symm, if_pos rfl, if_pos hu]
    · rw [if_neg h1, if_neg h2, if_neg h3, if_neg h4, if_neg h5, if_neg h6, if_neg h7,
        if_neg h8]
  constructor
  · constructor
    · intro h
      by_cases k1 : reg.reg_intno = L.INT_SYS_PANIC
      · exact Or.inl k1
      by_cases k2 : reg.reg_intno = L.INT_SYS_GETPID
      · rw [exception_switch_getpid hI s reg k2] at h; cases h
      by_cases k3 : reg.reg_intno = L.INT_SYS_YIELD
      · exfalso
        unfold exception_switch at h
        dsimp only at h
        rw [if_neg k1, if_neg k2, if_pos k3] at h
        obtain ⟨s1, hs⟩ := @schedule_total L s hlt hrun
        rw [hs] at h
        cases h
      by_cases k4 : reg.reg_intno = L.INT_SYS_PAGE_ALLOC
      · rw [exception_switch_page_alloc hI s reg k4] at h
        split at h
        · rename_i hge
          split at h
          · rename_i hmap
            exact Or.inr (Or.inr (Or.inr (Or.inl ⟨k4, hge, hmap⟩)))
          · cases h
        · cases h
      by_cases k5 : reg.reg_intno = L.INT_TIMER
      · exfalso
        unfold exception_switch at h
        dsimp only at h
        rw [if_neg k1, if_neg k2, if_neg k3, if_neg k4, if_pos k5] at h
        obtain ⟨s1, hs⟩ := @schedule_total L { s with ticks := (s.ticks + 1) % WORD } hlt hrun
        rw [hs] at h
        cases h
      by_cases k6 : reg.reg_intno = L.INT_SYS_FORK
      · rw [exception_switch_fork hI s reg k6] at h
        by_cases hf : fork L s = none
        · exact Or.inr (Or.inr (Or.inr (Or.inr (Or.inl ⟨k6, hf⟩))))
        · obtain ⟨x, hx⟩ := Option.ne_none_iff_exists'.mp hf
          rw [hx] at h; cases h
      by_cases k7 : reg.reg_intno = L.INT_SYS_EXIT
      · rw [exception_switch_exit hI s reg k7] at h
        by_cases he : sys_exit L s (s.processes s.current).p_pid = none
        · exact Or.inr (Or.inr (Or.inr (Or.inr (Or.inr ⟨k7, he⟩))))
        · obtain ⟨x, hx⟩ := Option.ne_none_iff_exists'.mp he
          rw [hx] at h; cases h
      by_cases k8 : reg.reg_intno = L.INT_PAGEFAULT
      · rw [exception_switch_pagefault hI s reg k8] at h
        split at h
        · rename_i hu
          exact Or.inr (Or.inl ⟨k8, hu⟩)
        · cases h
      exact Or.inr (Or.inr (Or.inl ⟨k1, k2, k3, k4, k5, k6, k7, k8⟩))
    · intro h
      rcases h with h | h | h | ⟨h, hge, hmap⟩ | ⟨h, hf⟩ | ⟨h, he⟩
      · exact hclass (Or.inl h) s
      · exact hclass (Or.inr (Or.inl h)) s
      · exact hclass (Or.inr (Or.inr h)) s
      · rw [exception_switch_page_alloc hI s reg h, if_pos hge, hmap]
      · rw [exception_switch_fork hI s reg h, hf]
        rfl
      · rw [exception_switch_exit hI s reg h, he]
        rfl
  · intro hc s0
    unfold exception
    dsimp only
    split
    · rfl
    · rw [hclass hc]

/-! ### Page tables are never shared -/

theorem HighShare_update {L : Layout} {tbl : Nat → Nat} (h : HighShare L tbl) (idx e : Nat)
    (he : L.PROC_START_ADDR / PAGESIZE ≤ idx → e &&& PTE_P ≠ 0 → e &&& PTE_W = 0 →
      L.PROC_START_ADDR / PAGESIZE ≤ PAGENUMBER e) :
    HighShare L (Function.update tbl idx e) := by
  intro j hj hp hw
  by_cases x : j = idx
  · subst x
    rw [Function.update_same] at hp hw ⊢
    exact he hj hp hw
  · rw [Function.update_noteq x] at hp hw ⊢
    exact h j hj hp hw

theorem LowOnce_update {L : Layout} {pageinfo : PageInfo} (h : LowOnce L pageinfo) (pn : Nat)
    (r : physical_pageinfo)
    (hr : pn < L.PROC_START_ADDR / PAGESIZE → r.refcount = 0 ∨ r.refcount = 1) :
    LowOnce L (Function.update pageinfo pn r) := by
  intro f hf
  by_cases x : f = pn
  · subst x
    rw [Function.update_same]
    exact hr hf
  · rw [Function.update_noteq x]
    exact h f hf

theorem LowOnce_alloc {L : Layout} {pageinfo : PageInfo} (h : LowOnce L pageinfo) (addr : Nat)
    (owner : Int) : LowOnce L (physical_page_alloc L pageinfo addr owner).1 := by
  unfold physical_page_alloc
  split
  · exact h
  · exact LowOnce_update h _ _ (fun _ => Or.inr rfl)

theorem sys_exit_page_low {L : Layout} {mem : Memory} {pid : Nat} {pageinfo pi1 : PageInfo}
    {i : Nat} (h : sys_exit_page L mem pid pageinfo i = some pi1) (hr : LowOnce L pageinfo) :
    LowOnce L pi1 := by
  unfold sys_exit_page at h
  dsimp only at h
  split at h
  · cases h
    generalize (virtual_memory_lookup mem L.kernel_pagetable (PAGEADDRESS i)).pn.toNat = pn
    have h1 : LowOnce L (if (pageinfo pn).owner = (pid : Int) then
        Function.update pageinfo pn { owner := PO_FREE, refcount := 0 } else pageinfo) := by
      split
      · exact LowOnce_update hr _ _ (fun _ => Or.inl rfl)
      · exact hr
    generalize (if (pageinfo pn).owner = (pid : Int) then
        Function.update pageinfo pn { owner := PO_FREE, refcount := 0 } else pageinfo) = p1 at *
    split
    · rename_i hg
      refine LowOnce_update h1 _ _ (fun hlt => ?_)
      exfalso
      have := h1 pn hlt
      omega
    · exact h1
  · cases h

theorem sys_exit_loop_low {L : Layout} {mem : Memory} {pid : Nat} (fuel : Nat) :
    ∀ (i : Nat) (pageinfo pi1 : PageInfo),
      sys_exit_loop L mem pid fuel i pageinfo = some pi1 → LowOnce L pageinfo →
      LowOnce L pi1 := by
  induction fuel with
  | zero => intro i pageinfo pi1 h hr; simp [sys_exit_loop] at h; rw [← h]; exact hr
  | succ n ih =>
    intro i pageinfo pi1 h hr
    unfold sys_exit_loop at h
    split at h
    · cases h
    · rename_i p2 hp
      exact ih _ _ _ h (sys_exit_page_low hp hr)

theorem sys_exit_low {L : Layout} {s s1 : KState} {pid : Nat}
    (h : sys_exit L s pid = some s1) (hr : LowOnce L s.pageinfo) : LowOnce L s1.pageinfo := by
  unfold sys_exit at h
  split at h
  · cases h
  · rename_i p1 hp
    split at h
    · cases h
      exact sys_exit_loop_low _ _ _ _ hp hr
    · cases h

/-- Processes other than the one a kernel operation acts for keep their page
tables. -/
theorem LiveTab_others {L : Layout} {a : Nat} {s s1 : KState} (hf : Foot a s s1)
    (hidle : (s.processes 0).p_state = procstate.P_FREE) (hlive : LiveTab L s)
    (hst : ∀ p, p ≠ a → (s1.processes p).p_state = (s.processes p).p_state
      ∧ (s1.processes p).p_pagetable = (s.processes p).p_pagetable) :
    ∀ p, p ≠ a → (s1.processes p).p_state ≠ procstate.P_FREE →
      ∃ l1 l2, ProcIso L s1 p l1 l2 ∧ l1 < L.PROC_START_ADDR / PAGESIZE
        ∧ l2 < L.PROC_START_ADDR / PAGESIZE ∧ HighShare L (s1.mem l2) := by
  intro p hpa hp
  rw [(hst p hpa).1] at hp
  have hp0 : 0 < p := by
    rcases Nat.eq_zero_or_pos p with e | e
    · rw [e] at hp; exact absurd hidle hp
    · exact e
  obtain ⟨l1, l2, hiso, h1, h2, hs⟩ := hlive p hp
  refine ⟨l1, l2, Foot_ProcIso hf hpa hp0 hiso (hst p hpa).2, h1, h2, ?_⟩
  have hown := hiso.own_l2
  have := (hf l2 (by rw [hown]; unfold PO_FREE; omega)
    (by rw [hown]; intro x; exact hpa (by exact_mod_cast x))).2 (by rw [hown]; omega)
  rw [this]
  exact hs

theorem LiveTab_of_same {L : Layout} {s s1 : KState} (hm : s1.mem = s.mem)
    (hp : s1.pageinfo = s.pageinfo)
    (hst : ∀ p, (s1.processes p).p_state ≠ procstate.P_FREE →
      (s.processes p).p_state ≠ procstate.P_FREE)
    (hpt : ∀ p, (s1.processes p).p_pagetable = (s.processes p).p_pagetable)
    (hlive : LiveTab L s) : LiveTab L s1 := by
  intro p hp1
  obtain ⟨l1, l2, h, a, b, c⟩ := hlive p (hst p hp1)
  exact ⟨l1, l2, ProcIso_frame h (hpt p) (fun f _ => by rw [hm])
    (fun f ho => by rw [hp]; exact ho), a, b, by rw [hm]; exact c⟩


/-- The page tables of an address space of the shape `ProcIso` are determined
by the state. -/
theorem ProcIso_unique {L : Layout} {s : KState} {p l1 l2 k1 k2 : Nat}
    (h : ProcIso L s p l1 l2) (k : ProcIso L s p k1 k2) : l1 = k1 ∧ l2 = k2 := by
  have e1 : l1 = k1 := by
    have := h.pt_eq.symm.trans k.pt_eq
    have a := congrArg PAGENUMBER this
    rw [PAGENUMBER_PAGEADDRESS h.l1_lt, PAGENUMBER_PAGEADDRESS k.l1_lt] at a
    exact a
  refine ⟨e1, ?_⟩
  have a := h.mem_l1
  rw [e1, k.mem_l1] at a
  have b := congrFun a 0
  rw [Function.update_same, Function.update_same] at b
  have c := congrArg PAGENUMBER b
  rw [PAGENUMBER_pte (PAGEADDRESS_aligned _) (by decide),
    PAGENUMBER_pte (PAGEADDRESS_aligned _) (by decide),
    PAGENUMBER_PAGEADDRESS h.l2_lt, PAGENUMBER_PAGEADDRESS k.l2_lt] at c
  exact c.symm

/-- The address space that a successful `copy_pagetable` builds: both tables
lie below `PROC_START_ADDR`, and the inner table has no entry at or above
it. -/
theorem copy_pagetable_tab {L : Layout} (hL : L.WF) {s s2 : KState} {pt a cp : Nat}
    (h : copy_pagetable L s pt a = some (s2, cp)) (hne : cp ≠ UINTPTR_MINUS_ONE)
    (hlow : LowOnce L s.pageinfo) :
    LowOnce L s2.pageinfo
    ∧ ∀ l1 l2, ProcIso L (set_pagetable_of s2 a cp) a l1 l2 →
        l1 < L.PROC_START_ADDR / PAGESIZE ∧ l2 < L.PROC_START_ADDR / PAGESIZE
        ∧ HighShare L (s2.mem l2) := by
  obtain ⟨k1, k2, hk1, hk2, hne12, hA1, hr1, hA2, hr2, hS, hC⟩ := copy_pagetable_shape hL h hne
  obtain ⟨m6, hrun, _, hm1, hm2⟩ := copy_pagetable_run hL hS hC s pt a hk1 hk2 hne12 hA1 hr1
    hA2 hr2
  rw [hrun] at h
  cases h
  have hc := hL.console_lt
  have hsa := hL.start_aligned
  have hv := hL.virt_le
  have hs := hL.start_le
  refine ⟨?_, ?_⟩
  · exact LowOnce_update (LowOnce_update hlow _ _ (fun _ => Or.inr rfl)) _ _
      (fun _ => Or.inr rfl)
  · intro l1 l2 hiso
    have hk1lt : k1 < 2 ^ 20 := by unfold PAGESIZE at hk1; omega
    have hk2lt : k2 < 2 ^ 20 := by unfold PAGESIZE at hk2; omega
    have e1 : l1 = k1 := by
      have := hiso.pt_eq
      unfold set_pagetable_of set_proc at this
      simp only [Function.update_same] at this
      have a := congrArg PAGENUMBER this
      rw [PAGENUMBER_PAGEADDRESS hk1lt, PAGENUMBER_PAGEADDRESS hiso.l1_lt] at a
      exact a.symm
    have e2 : l2 = k2 := by
      have a : m6 l1 = Function.update (fun _ => 0) 0 (PAGEADDRESS l2 ||| 7) := hiso.mem_l1
      rw [e1, hm1] at a
      have b := congrFun a 0
      rw [Function.update_same, Function.update_same] at b
      have c := congrArg PAGENUMBER b
      rw [PAGENUMBER_pte (PAGEADDRESS_aligned _) (by decide),
        PAGENUMBER_pte (PAGEADDRESS_aligned _) (by decide),
        PAGENUMBER_PAGEADDRESS hk2lt, PAGENUMBER_PAGEADDRESS hiso.l2_lt] at c
      exact c.symm
    rw [e1, e2]
    refine ⟨hk1, hk2, ?_⟩
    intro j hj hp _
    exfalso
    have : m6 k2 j = 0 := by
      rw [hm2 j, if_neg (show ¬ (j = PAGENUMBER L.console) by
          rw [PAGENUMBER_eq_div]; unfold PAGESIZE at *; omega),
        if_neg (show ¬ (j < L.PROC_START_ADDR / PAGESIZE) by omega)]
    have hp' : m6 k2 j &&& PTE_P ≠ 0 := hp
    rw [this] at hp'
    exact hp' (by decide)


theorem flags_writable {pa perm : Nat} (ha : pa % PAGESIZE = 0) (hp : perm < 4096) :
    (pa ||| perm) &&& PTE_W = perm &&& PTE_W := by
  rw [← @PTE_FLAGS_and (pa ||| perm) PTE_W (by decide), PTE_FLAGS_pte ha hp]

/-- A frame that a process maps read-only at or above `PROC_START_ADDR` lies
at or above it. -/
theorem lookup_high {L : Layout} {s : KState} {p l1 l2 i : Nat} (hiso : ProcIso L s p l1 l2)
    (hs : HighShare L (s.mem l2)) (hi : L.PROC_START_ADDR / PAGESIZE ≤ i) (hi2 : i < 1024)
    (hp : (virtual_memory_lookup s.mem (s.processes p).p_pagetable (PAGEADDRESS i)).perm ≠ 0)
    (hw : (virtual_memory_lookup s.mem (s.processes p).p_pagetable
      (PAGEADDRESS i)).perm &&& PTE_W = 0) :
    ∃ pn : Nat, L.PROC_START_ADDR / PAGESIZE ≤ pn
      ∧ (virtual_memory_lookup s.mem (s.processes p).p_pagetable (PAGEADDRESS i)).pn
          = (pn : Int)
      ∧ PAGENUMBER (virtual_memory_lookup s.mem (s.processes p).p_pagetable
          (PAGEADDRESS i)).pa = pn := by
  rw [hiso.pt_eq] at hp hw ⊢
  obtain ⟨pte, _, hpte, hpres, _⟩ := virtual_memory_lookup_present hp
  have e := lookup_of_tables hiso.l1_lt hiso.l2_lt hiso.mem_l1 hp
  rw [L2PAGEINDEX_PAGEADDRESS hi2, PAGEOFFSET_PAGEADDRESS, Nat.add_zero] at e
  rw [PAGENUMBER_PAGEADDRESS hiso.l1_lt, hiso.mem_l1,
    L1PAGEINDEX_low (by rw [PAGEADDRESS_eq_mul i (by omega)]; unfold PAGESIZE; omega),
    Function.update_same, PAGENUMBER_pte (PAGEADDRESS_aligned _) (by decide),
    PAGENUMBER_PAGEADDRESS hiso.l2_lt, L2PAGEINDEX_PAGEADDRESS hi2] at hpte
  rw [hpte] at hpres
  rw [e] at hw ⊢
  dsimp only at hw ⊢
  rw [PTE_FLAGS_and (show 0xFFF &&& PTE_W = PTE_W by decide)] at hw
  exact ⟨PAGENUMBER (s.mem l2 i), hs i hi hpres hw, rfl, PAGENUMBER_PTE_ADDR _⟩


/-- One iteration of the copy loop of `fork` keeps `ForkTab`. -/
theorem fork_page_tab {L : Layout} {s0 sk s1 : KState} {slot l1 l2 lp1 lp2 i : Nat}
    (hs0 : 0 < slot) (hs1 : slot ≤ 127) (hpid : (s0.processes slot).p_pid = slot)
    (hpar : ProcIso L s0 s0.current lp1 lp2) (hps : HighShare L (s0.mem lp2))
    (hc0 : 0 < s0.current) (hcs : s0.current ≠ slot)
    (hi : L.PROC_START_ADDR / PAGESIZE ≤ i) (hi2 : i < 1024)
    (inv : ForkTab L s0 slot l1 l2 sk)
    (h : fork_page L sk slot (PAGEADDRESS l1) i = some (ForkStep.next s1)) :
    ForkTab L s0 slot l1 l2 s1 := by
  have hiso := fork_page_iso hs0 hs1 hpid inv.iso h
  have hcur : s1.current = s0.current := ((fork_page_next_frame h).2.1).trans inv.cur
  have hpidk : (sk.processes slot).p_pid = slot := by rw [inv.iso.procs]; exact hpid
  have hl1 := inv.iso.iso.l1_lt
  have hl2 := inv.iso.iso.l2_lt
  rcases fork_page_next_cases h with ⟨e, _⟩ | ⟨_, hw, hr, m2, hm2, e⟩
      | ⟨hp, hw, _, _, _, _, m1, hm1, e⟩
  · rw [e]; exact inv
  · -- a writable page is copied into a new frame
    rw [hpidk] at hr hm2 e
    rw [inv.iso.iso.pt_eq] at hm2
    obtain ⟨_, hA, hrc, _⟩ := physical_page_alloc_ok hr
    have hfree : ∀ f, (sk.pageinfo f).owner = (slot : Int) →
        f ≠ PAGENUMBER (find_free_page L sk.pageinfo) := by
      intro f hf x
      rw [← x] at hrc
      have := ((inv.iso.ref f).1).mp hrc
      rw [hf] at this
      unfold PO_FREE at this
      omega
    have hm1' : memcpy_page sk.mem (find_free_page L sk.pageinfo)
        (virtual_memory_lookup sk.mem (sk.processes sk.current).p_pagetable (PAGEADDRESS i)).pa l1
        = Function.update (fun _ => 0) 0 (PAGEADDRESS l2 ||| 7) := by
      unfold memcpy_page
      rw [Function.update_noteq (hfree l1 inv.iso.iso.own_l1)]
      exact inv.iso.iso.mem_l1
    obtain ⟨hm, hal, hperm⟩ := map_own_page hl1 hl2 hm1' hm2
    refine ⟨hiso, hcur, ?_, ?_⟩
    · rw [e]; exact LowOnce_alloc inv.low _ _
    · rw [e]
      show HighShare L (m2 l2)
      rw [hm, Function.update_same]
      have : memcpy_page sk.mem (find_free_page L sk.pageinfo)
          (virtual_memory_lookup sk.mem (sk.processes sk.current).p_pagetable
            (PAGEADDRESS i)).pa l2 = sk.mem l2 := by
        unfold memcpy_page
        rw [Function.update_noteq (hfree l2 inv.iso.iso.own_l2)]
      rw [this]
      refine HighShare_update inv.share _ _ (fun _ _ hw0 => ?_)
      exfalso
      split at hw0
      · rw [flags_writable hal hperm] at hw0
        exact hw hw0
      · exact hw hw0
  · -- a read-only page is shared
    have hpk : ProcIso L sk sk.current lp1 lp2 := by
      rw [inv.cur]
      exact Foot_ProcIso inv.iso.foot hcs hc0 hpar (by rw [inv.iso.procs])
    have hmk : sk.mem lp2 = s0.mem lp2 := by
      have hown := hpar.own_l2
      exact (inv.iso.foot lp2 (by rw [hown]; unfold PO_FREE; omega)
        (by rw [hown]; intro x; exact hcs (by exact_mod_cast x))).2 (by rw [hown]; omega)
    obtain ⟨pn, hpn, hpne, hpa⟩ := lookup_high hpk (by rw [hmk]; exact hps) hi hi2 hp hw
    rw [hpne] at e
    obtain ⟨hm, hal, hperm⟩ := map_own_page hl1 hl2 inv.iso.iso.mem_l1 hm1
    refine ⟨hiso, hcur, ?_, ?_⟩
    · rw [e]
      exact LowOnce_update inv.low _ _ (fun hlt => by
        exfalso
        have : (pn : Int).toNat = pn := Int.toNat_natCast pn
        rw [this] at hlt
        omega)
    · rw [e]
      show HighShare L (m1 l2)
      rw [hm, Function.update_same]
      refine HighShare_update inv.share _ _ (fun _ _ _ => ?_)
      rw [if_pos (show (PTE_P ||| PTE_U) &&& PTE_P ≠ 0 by decide), PAGENUMBER_pte hal hperm, hpa]
      exact hpn

theorem fork_loop_tab {L : Layout} {s0 : KState} {slot l1 l2 lp1 lp2 : Nat}
    (hs0 : 0 < slot) (hs1 : slot ≤ 127) (hpid : (s0.processes slot).p_pid = slot)
    (hpar : ProcIso L s0 s0.current lp1 lp2) (hps : HighShare L (s0.mem lp2))
    (hc0 : 0 < s0.current) (hcs : s0.current ≠ slot) (fuel : Nat) :
    ∀ (i : Nat) (sk : KState) (st : ForkStep),
      L.PROC_START_ADDR / PAGESIZE ≤ i → i + fuel ≤ 1024 →
      fork_loop L slot (PAGEADDRESS l1) fuel i sk = some st → ForkTab L s0 slot l1 l2 sk →
      (∀ s1, st = ForkStep.next s1 → ForkTab L s0 slot l1 l2 s1)
      ∧ (∀ s1, st = ForkStep.failed s1 → ∃ sk1, ForkTab L s0 slot l1 l2 sk1
          ∧ sys_exit L (set_eax sk1 sk1.current (toU32 (-1))) (sk1.processes slot).p_pid
              = some s1) := by
  induction fuel with
  | zero =>
    intro i sk st _ _ h inv
    simp [fork_loop] at h
    subst h
    exact ⟨fun s1 e => (by cases e; exact inv), fun s1 e => (by cases e)⟩
  | succ n ih =>
    intro i sk st hi hi2 h inv
    unfold fork_loop at h
    split at h
    · cases h
    · rename_i s2 hp
      cases h
      exact ⟨fun s1 e => (by cases e),
        fun s1 e => (by cases e; exact ⟨sk, inv, fork_page_failed hp⟩)⟩
    · rename_i s2 hp
      exact ih _ _ _ (by omega) (by omega) h
        (fork_page_tab hs0 hs1 hpid hpar hps hc0 hcs hi (by omega) inv hp)


theorem copy_pagetable_low {L : Layout} {s s2 : KState} {pt a cp : Nat}
    (h : copy_pagetable L s pt a = some (s2, cp)) (hlow : LowOnce L s.pageinfo) :
    LowOnce L s2.pageinfo := by
  unfold copy_pagetable at h
  dsimp only at h
  split at h
  · cases h
    exact LowOnce_alloc hlow _ _
  · split at h
    · cases h
      exact LowOnce_alloc (LowOnce_alloc hlow _ _) _ _
    · split at h
      · cases h
      · split at h
        · cases h
        · cases h
          exact LowOnce_alloc (LowOnce_alloc hlow _ _) _ _

/-- Whatever way `fork` returns, every live process has its page tables below
`PROC_START_ADDR`, read-only mappings of process memory stay above it, and no
frame below it has more than one reference. -/
theorem fork_live_tab {L : Layout} (hL : L.WF) {s s1 : KState} {r : Int}
    (h : fork L s = some (s1, r)) (hr : RefInv s.pageinfo) (hi : ProcInv s)
    (hc0 : 0 < s.current) (hcl : (s.processes s.current).p_state ≠ procstate.P_FREE)
    (hlive : LiveTab L s) (hlow : LowOnce L s.pageinfo) :
    LiveTab L s1 ∧ LowOnce L s1.pageinfo := by
  cases hfs : fork_find_slot s.processes (L.NPROC - 1) 1 with
  | none =>
    unfold fork at h
    rw [hfs] at h
    cases h
    exact ⟨hlive, hlow⟩
  | some slot =>
    obtain ⟨hs1, hs2, hsfree, _⟩ := fork_find_slot_some _ _ _ _ hfs
    have hN := hL.nproc_le
    have hslot0 : 0 < slot := by omega
    have hslot1 : slot ≤ 127 := by omega
    have ho : toInt8 (slot : Int) ≠ 0 := toInt8_pid_ne_zero hs1 hslot1
    have hcs : s.current ≠ slot := by
      intro e; rw [e] at hcl; exact hcl hsfree
    have hpidc : ((fork_claim_slot s slot).processes slot).p_pid = slot := by
      simp [fork_claim_slot, set_proc]
    obtain ⟨lp1, lp2, hpar, _, _, hps⟩ := hlive s.current hcl
    -- the state in which the copy loop starts
    have entry : ∀ s2 cp, copy_pagetable L (fork_claim_slot s slot)
          ((fork_claim_slot s slot).processes (fork_claim_slot s slot).current).p_pagetable
          ((fork_claim_slot s slot).processes slot).p_pid = some (s2, cp) →
        cp ≠ UINTPTR_MINUS_ONE →
        ∃ l1 l2, cp = PAGEADDRESS l1
          ∧ ForkTab L (set_pagetable_of s2 slot cp) slot l1 l2 (set_pagetable_of s2 slot cp)
          ∧ l1 < L.PROC_START_ADDR / PAGESIZE ∧ l2 < L.PROC_START_ADDR / PAGESIZE
          ∧ Foot slot s (set_pagetable_of s2 slot cp)
          ∧ (∀ p, p ≠ slot → (set_pagetable_of s2 slot cp).processes p = s.processes p)
          ∧ ((set_pagetable_of s2 slot cp).processes slot).p_pid = slot
          ∧ (set_pagetable_of s2 slot cp).current = s.current := by
      intro s2 cp hcp hcpne
      obtain ⟨l1, l2, hcpe, inv0, hf0, hpo, hpk⟩ :=
        fork_entry_iso hL hslot0 hslot1 hr hcp hcpne
      have hcur2 := (copy_pagetable_frame hcp).2.1
      rw [hpidc] at hcp
      obtain ⟨hlow2, htab⟩ := copy_pagetable_tab hL hcp hcpne
        (show LowOnce L (fork_claim_slot s slot).pageinfo from hlow)
      obtain ⟨a, b, c⟩ := htab l1 l2 inv0.iso
      exact ⟨l1, l2, hcpe, ⟨inv0, rfl, hlow2, c⟩, a, b, hf0, hpo, hpk, hcur2⟩
    have parent : ∀ s0 : KState, Foot slot s s0 →
        (∀ p, p ≠ slot → s0.processes p = s.processes p) → s0.current = s.current →
        ProcIso L s0 s0.current lp1 lp2 ∧ HighShare L (s0.mem lp2) := by
      intro s0 hf0 hpo hc
      rw [hc]
      refine ⟨Foot_ProcIso hf0 hcs hc0 hpar (by rw [hpo _ hcs]), ?_⟩
      have hown := hpar.own_l2
      rw [(hf0 lp2 (by rw [hown]; unfold PO_FREE; omega)
        (by rw [hown]; intro x; exact hcs (by exact_mod_cast x))).2 (by rw [hown]; omega)]
      exact hps
    have hK : PAGENUMBER L.PROC_START_ADDR = L.PROC_START_ADDR / PAGESIZE :=
      PAGENUMBER_eq_div _
    by_cases hrs : r = -1
    · -- the failure paths end in `sys_exit(slot)`
      have hne : r ≠ (slot : Int) := by omega
      obtain ⟨_, hc⟩ := fork_failure_shape hfs h hne
      have hsk : ∃ sk, Foot slot s sk ∧ (∀ p, p ≠ slot → sk.processes p = s.processes p)
          ∧ (sk.processes slot).p_pid = slot ∧ LowOnce L sk.pageinfo
          ∧ sys_exit L (set_eax sk sk.current (toU32 (-1))) (sk.processes slot).p_pid
              = some s1 := by
        rcases hc with ⟨s2, hcp, hex⟩ | ⟨s2, cp, hcp, hcpne, hloop⟩
        · have hp2 := (copy_pagetable_frame hcp).1
          have hl2 := copy_pagetable_low hcp
            (show LowOnce L (fork_claim_slot s slot).pageinfo from hlow)
          rw [hpidc] at hcp
          refine ⟨s2, ?_, ?_, ?_, hl2, hex⟩
          · exact Foot_trans (Foot_of_eq rfl rfl : Foot slot s (fork_claim_slot s slot))
              (copy_pagetable_foot hL hcp ho hr)
          · intro p hp; rw [hp2]; exact fork_claim_slot_other s hp
          · rw [hp2]; exact hpidc
        · obtain ⟨l1, l2, hcpe, inv0, _, _, hf0, hpo, hpk, hcur⟩ := entry s2 cp hcp hcpne
          subst hcpe
          obtain ⟨hpar0, hps0⟩ := parent _ hf0 hpo hcur
          obtain ⟨sk1, inv1, hex⟩ :=
            (fork_loop_tab hslot0 hslot1 hpk hpar0 hps0 (by rw [hcur]; exact hc0)
              (by rw [hcur]; exact hcs) _ _ _ _ (by rw [hK]) (fork_range_le hL).1 hloop inv0).2
              _ rfl
          refine ⟨sk1, Foot_trans hf0 inv1.iso.foot, ?_, ?_, inv1.low, hex⟩
          · intro p hp; rw [inv1.iso.procs]; exact hpo p hp
          · rw [inv1.iso.procs]; exact hpk
      obtain ⟨sk, hf, hpo, hpk, hlk, hex⟩ := hsk
      rw [hpk] at hex
      obtain ⟨_, _, _, hp1⟩ := sys_exit_frame hex
      have hfoot : Foot slot s s1 :=
        Foot_trans hf (Foot_trans
          (Foot_of_eq rfl rfl : Foot slot sk (set_eax sk sk.current (toU32 (-1))))
          (sys_exit_foot hex))
      refine ⟨fun p hp => ?_, sys_exit_low hex hlk⟩
      by_cases e : p = slot
      · subst e
        rw [hp1, Function.update_same] at hp
        exact absurd rfl hp
      · refine LiveTab_others hfoot hi.2 hlive (fun q hq => ?_) p e hp
        rw [hp1, Function.update_noteq hq, (set_eax_proc _ _ _ _).1,
          (set_eax_proc _ _ _ _).2.2, hpo q hq]
        exact ⟨rfl, rfl⟩
    · -- success
      obtain ⟨slot', cp, s2, s4, hfs', hcp, hcpne, hloop, he, _⟩ := fork_success_shape h hrs
      have hss : slot' = slot := by
        rw [hfs] at hfs'; exact (Option.some.inj hfs').symm
      subst hss
      obtain ⟨l1, l2, hcpe, inv0, hl1, hl2, hf0, hpo, hpk, hcur⟩ := entry s2 cp hcp hcpne
      subst hcpe
      obtain ⟨hpar0, hps0⟩ := parent _ hf0 hpo hcur
      have inv4 := (fork_loop_tab hslot0 hslot1 hpk hpar0 hps0 (by rw [hcur]; exact hc0)
        (by rw [hcur]; exact hcs) _ _ _ _ (by rw [hK]) (fork_range_le hL).1 hloop inv0).1 _ rfl
      subst he
      have hfoot : Foot slot' s (fork_finish s4 slot') :=
        Foot_trans hf0 (Foot_trans inv4.iso.foot
          (Foot_of_eq rfl rfl : Foot slot' s4 (fork_finish s4 slot')))
      refine ⟨fun p hp => ?_, inv4.low⟩
      by_cases e : p = slot'
      · subst e
        exact ⟨l1, l2, ProcIso_frame inv4.iso.iso (fork_finish_pagetable _ _ _)
          (fun f _ => rfl) (fun f ho => ho), hl1, hl2, inv4.share⟩
      · refine LiveTab_others hfoot hi.2 hlive (fun q hq => ?_) p e hp
        rw [fork_finish_state, fork_finish_pagetable, inv4.iso.procs, hpo q hq]
        exact ⟨rfl, rfl⟩


theorem LiveTab_set_registers {L : Layout} {s : KState} (pid : Nat) (r : x86_registers)
    (hlive : LiveTab L s) : LiveTab L (set_registers s pid r) :=
  @LiveTab_of_same L s (set_registers s pid r) rfl rfl
    (fun p hp => by rw [(set_registers_proc s pid r p).1] at hp; exact hp)
    (fun p => (set_registers_proc s pid r p).2.2) hlive

theorem LiveTab_set_eax {L : Layout} {s : KState} (pid v : Nat) (hlive : LiveTab L s) :
    LiveTab L (set_eax s pid v) :=
  @LiveTab_of_same L s (set_eax s pid v) rfl rfl
    (fun p hp => by rw [(set_eax_proc s pid v p).1] at hp; exact hp)
    (fun p => (set_eax_proc s pid v p).2.2) hlive

/-- The `switch` of `exception` keeps `LiveTab` and `LowOnce`. -/
theorem exception_switch_tab {L : Layout} (hL : L.WF) {s : KState} {reg : x86_registers}
    {d : Dispatch} (h : exception_switch L s reg = some d) (k : KInv L s)
    (hlive : LiveTab L s) (hlow : LowOnce L s.pageinfo) :
    ∀ s1, d = Dispatch.handled s1 ∨ d = Dispatch.transferred s1 →
      LiveTab L s1 ∧ LowOnce L s1.pageinfo := by
  have hN : 0 < L.NPROC := by have := hL.nproc_gt; omega
  have hN2 := hL.nproc_le
  have hc0 : 0 < s.current := Nat.pos_of_ne_zero (KInv_current_pos k)
  have hc1 := k.cur_lt
  have hcl : (s.processes s.current).p_state ≠ procstate.P_FREE := by
    rw [k.cur_run]; decide
  have hpid : (s.processes s.current).p_pid = s.current := k.procs.1 _
  have same : ∀ s2 : KState, s2.mem = s.mem → s2.pageinfo = s.pageinfo →
      s2.processes = s.processes → LiveTab L s2 ∧ LowOnce L s2.pageinfo := by
    intro s2 e1 e2 e3
    exact ⟨LiveTab_of_same e1 e2 (fun p hp => by rw [e3] at hp; exact hp)
      (fun p => by rw [e3]) hlive, by rw [e2]; exact hlow⟩
  unfold exception_switch at h
  dsimp only at h
  split at h
  · cases h
  split at h
  · cases h
    intro s1 e
    rcases e with e | e
    · cases e; exact ⟨LiveTab_set_eax _ _ hlive, hlow⟩
    · cases e
  split at h
  · cases hs : schedule L s with
    | none => rw [hs] at h; cases h
    | some s2 =>
      rw [hs] at h
      cases h
      obtain ⟨h1, h2, h3, _, _⟩ := schedule_inv hN hs
      intro s1 e
      rcases e with e | e
      · cases e
      · cases e; exact same _ h3 h1 h2
  split at h
  · -- page allocation
    obtain ⟨l1, l2, hiso, hl1, hl2, hsh⟩ := hlive s.current hcl
    rw [hpid] at h
    split at h
    · rename_i hge
      have hne : (physical_page_alloc L s.pageinfo (find_free_page L s.pageinfo)
          (toInt8 (s.current : Int))).2 ≠ -1 := by omega
      split at h
      · cases h
      · rename_i m1 hmap
        cases h
        rw [hiso.pt_eq] at hmap
        obtain ⟨a, b⟩ := @alloc_map_step L s
          (set_eax { s with
            pageinfo := (physical_page_alloc L s.pageinfo (find_free_page L s.pageinfo)
              (toInt8 (s.current : Int))).1, mem := m1 } s.current
            (toU32 (physical_page_alloc L s.pageinfo (find_free_page L s.pageinfo)
              (toInt8 (s.current : Int))).2))
          s.current l1 l2 _ _ _ s.mem m1 hc0 (by omega) hiso k.ref hne (fun f _ => rfl) hmap
          ((set_eax_proc _ _ _ _).2.2) rfl (fun f _ => rfl)
        obtain ⟨hm, hal, hperm⟩ := map_own_page hiso.l1_lt hiso.l2_lt hiso.mem_l1 hmap
        intro s1 e
        rcases e with e | e
        · cases e
          refine ⟨fun p hp => ?_, LowOnce_alloc hlow _ _⟩
          by_cases ep : p = s.current
          · subst ep
            refine ⟨l1, l2, a, hl1, hl2, ?_⟩
            show HighShare L (m1 l2)
            rw [hm, Function.update_same]
            refine HighShare_update hsh _ _ (fun _ _ hw0 => ?_)
            exfalso
            rw [if_pos (show (PTE_P ||| PTE_W ||| PTE_U) &&& PTE_P ≠ 0 by decide),
              flags_writable hal hperm] at hw0
            exact absurd hw0 (by decide)
          · exact LiveTab_others b k.procs.2 hlive
              (fun q _ => ⟨(set_eax_proc _ _ _ _).1, (set_eax_proc _ _ _ _).2.2⟩) p ep hp
        · cases e
    · rename_i hlt
      cases h
      have hfail : (physical_page_alloc L s.pageinfo (find_free_page L s.pageinfo)
          (toInt8 (s.current : Int))).2 = -1 := by
        rcases physical_page_alloc_ret L s.pageinfo (find_free_page L s.pageinfo)
          (toInt8 (s.current : Int)) with e | e
        · exact e
        · rw [e] at hlt; exact absurd (by decide) hlt
      have hpi := physical_page_alloc_fail hfail
      intro s1 e
      rcases e with e | e
      · cases e
        refine ⟨?_, LowOnce_alloc hlow _ _⟩
        refine @LiveTab_of_same L s _ rfl ?_ (fun p hp => ?_)
          (fun p => (set_eax_proc _ _ _ _).2.2) hlive
        · show (physical_page_alloc L s.pageinfo _ _).1 = s.pageinfo
          exact hpi
        · rw [(set_eax_proc _ _ _ _).1] at hp; exact hp
      · cases e
  split at h
  · cases hs : schedule L { s with ticks := (s.ticks + 1) % WORD } with
    | none => rw [hs] at h; cases h
    | some s2 =>
      rw [hs] at h
      cases h
      obtain ⟨h1, h2, h3, _, _⟩ := schedule_inv hN hs
      intro s1 e
      rcases e with e | e
      · cases e
      · cases e; exact same _ h3 h1 h2
  split at h
  · cases hf : fork L s with
    | none => rw [hf] at h; cases h
    | some p =>
      obtain ⟨s2, r⟩ := p
      rw [hf] at h
      cases h
      have := fork_live_tab hL hf k.ref k.procs hc0 hcl hlive hlow
      intro s1 e
      rcases e with e | e
      · cases e; exact this
      · cases e
  split at h
  · rw [hpid] at h
    cases hs : sys_exit L s s.current with
    | none => rw [hs] at h; cases h
    | some s2 =>
      rw [hs] at h
      cases h
      have hfoot := sys_exit_foot hs
      obtain ⟨_, _, _, hp1⟩ := sys_exit_frame hs
      intro s1 e
      rcases e with e | e
      · cases e
        refine ⟨fun p hp => ?_, sys_exit_low hs hlow⟩
        by_cases ep : p = s.current
        · subst ep
          rw [hp1, Function.update_same] at hp
          exact absurd rfl hp
        · exact LiveTab_others hfoot k.procs.2 hlive
            (fun q hq => by rw [hp1, Function.update_noteq hq]; exact ⟨rfl, rfl⟩) p ep hp
      · cases e
  split at h
  · split at h
    · cases h
    · cases h
      intro s1 e
      rcases e with e | e
      · cases e
        refine ⟨@LiveTab_of_same L s _ rfl rfl (fun p hp => ?_)
          (fun p => (set_state_proc _ _ _ _).1) hlive, hlow⟩
        by_cases ep : p = s.current
        · rw [ep]; exact hcl
        · rw [(set_state_proc _ _ _ _).2 ep] at hp; exact hp
      · cases e
  · cases h

/-- The function `exception` keeps the page-table invariant. -/
theorem exception_tab {L : Layout} (hL : L.WF) {s s1 : KState} {reg : x86_registers}
    (h : exception L s reg = some s1) (k : TabInv L s) : TabInv L s1 := by
  have hN : 0 < L.NPROC := by have := hL.nproc_gt; omega
  have hiso1 := exception_iso hL h k.iso
  have k0 : KInv L (set_registers s s.current reg) :=
    ⟨k.iso.kinv.ref, ProcInv_set_registers _ _ k.iso.kinv.procs, k.iso.kinv.cur_lt, by
      show ((set_registers s s.current reg).processes s.current).p_state = _
      rw [(set_registers_proc _ _ _ _).1]; exact k.iso.kinv.cur_run⟩
  have hl0 : LiveTab L (set_registers s s.current reg) := LiveTab_set_registers _ _ k.tab
  unfold exception at h
  dsimp only at h
  split at h
  · cases h
  · cases hd : exception_switch L (set_registers s s.current reg) reg with
    | none => rw [hd] at h; cases h
    | some d =>
      rw [hd] at h
      have hsw := exception_switch_tab hL hd k0 hl0 k.low
      cases d with
      | transferred s2 =>
        dsimp only at h
        cases h
        obtain ⟨a, b⟩ := hsw _ (Or.inr rfl)
        exact ⟨hiso1, b, a⟩
      | handled s2 =>
        dsimp only at h
        obtain ⟨a, b⟩ := hsw _ (Or.inl rfl)
        have same : s1.pageinfo = s2.pageinfo ∧ s1.processes = s2.processes
            ∧ s1.mem = s2.mem := by
          split at h
          · obtain ⟨h1, h2, h3, _, _⟩ := run_inv h
            exact ⟨h1, h2, h3⟩
          · obtain ⟨h1, h2, h3, _, _⟩ := schedule_inv hN h
            exact ⟨h1, h2, h3⟩
        obtain ⟨e1, e2, e3⟩ := same
        exact ⟨hiso1, by rw [e1]; exact b,
          LiveTab_of_same e3 e1 (fun p hp => by rw [e2] at hp; exact hp) (fun p => by rw [e2]) a⟩


/-- A store of the running process leaves every page table as it is. -/
theorem user_store_live_tab {L : Layout} {s s1 : KState} {va w : Nat}
    (h : user_store s va w = some s1) (k : KInv L s)
    (hcon : (s.pageinfo (PAGENUMBER L.console)).owner = PO_RESERVED)
    (hlive : LiveTab L s) : LiveTab L s1 := by
  have hc0 : 0 < s.current := Nat.pos_of_ne_zero (KInv_current_pos k)
  have hcl : (s.processes s.current).p_state ≠ procstate.P_FREE := by
    rw [k.cur_run]; decide
  obtain ⟨l1, l2, hiso, hl1, hl2, hsh⟩ := hlive s.current hcl
  unfold user_store at h
  dsimp only at h
  split at h
  · rename_i hw
    have hw' : UserWritable
        (virtual_memory_lookup s.mem (s.processes s.current).p_pagetable va).perm := hw
    rw [hiso.pt_eq] at hw' h
    have e := lookup_of_tables hiso.l1_lt hiso.l2_lt hiso.mem_l1 (UserWritable_ne_zero hw')
    rw [e] at hw' h
    dsimp only at hw' h
    rw [UserWritable_flags] at hw'
    have huser := hiso.user _ hw'
    have hF : PAGENUMBER (PTE_ADDR (s.mem l2 (L2PAGEINDEX va)) + PAGEOFFSET va)
        = PAGENUMBER (s.mem l2 (L2PAGEINDEX va)) := by
      rw [PAGENUMBER_add_lt (PTE_ADDR_aligned _)
        (by unfold PAGEOFFSET; exact Nat.mod_lt _ (by decide)), PAGENUMBER_PTE_ADDR]
    generalize PAGENUMBER (s.mem l2 (L2PAGEINDEX va)) = F at huser hF
    have hother : ∀ f, f ≠ F → s1.mem f = s.mem f := by
      intro f hf
      rw [← Option.some.inj h]
      exact write_word_other _ _ _ _ (by rw [hF]; exact hf)
    have hpi : s1.pageinfo = s.pageinfo := by rw [← Option.some.inj h]
    have hpr : s1.processes = s.processes := by rw [← Option.some.inj h]
    have hcne : ((s.current : Nat) : Int) ≠ PO_RESERVED := by unfold PO_RESERVED; omega
    have hF1 : l1 ≠ F := by
      intro x
      rcases huser with c | ⟨_, c, _⟩
      · rw [← x] at c; rw [← c, hiso.own_l1] at hcon; exact hcne hcon
      · exact c x.symm
    have hF2 : l2 ≠ F := by
      intro x
      rcases huser with c | ⟨_, _, c⟩
      · rw [← x] at c; rw [← c, hiso.own_l2] at hcon; exact hcne hcon
      · exact c x.symm
    have hfoot : Foot s.current s s1 := by
      intro f _ hfa
      refine ⟨by rw [hpi], fun hpos => hother f ?_⟩
      intro x
      rcases huser with c | ⟨c, _, _⟩
      · rw [x, c, hcon] at hpos
        exact absurd hpos (by decide)
      · rw [x] at hfa; exact hfa c
    intro p hp
    by_cases ep : p = s.current
    · subst ep
      exact ⟨l1, l2, ProcIso_update hiso (by rw [hpr]) (hother l1 hF1)
        (fun f ho => by rw [hpi]; exact ho) (fun j => Or.inl (by rw [hother l2 hF2])),
        hl1, hl2, by rw [hother l2 hF2]; exact hsh⟩
    · exact LiveTab_others hfoot k.procs.2 hlive (fun q _ => by rw [hpr]; exact ⟨rfl, rfl⟩) p ep hp
  · cases h

theorem user_store_tab {L : Layout} {s s1 : KState} {va w : Nat}
    (h : user_store s va w = some s1) (k : TabInv L s) : TabInv L s1 := by
  refine ⟨user_store_iso h k.iso, ?_,
    user_store_live_tab h k.iso.kinv k.iso.console_rec k.tab⟩
  unfold user_store at h
  dsimp only at h
  split at h
  · cases h; exact k.low
  · cases h


theorem L2PAGEINDEX_le (va : Nat) : L2PAGEINDEX va ≤ PAGENUMBER va := by
  unfold L2PAGEINDEX PAGENUMBER PAGETABLE_NENTRIES
  exact Nat.mod_le _ _

/-- The program loader keeps `LowOnce` and the `HighShare` property of the
inner table of the process: it maps every page to the frame of the same
number. -/
theorem program_load_pages_tab {L : Layout} {pid l1 l2 : Nat} (h0 : 0 < pid) (h1 : pid ≤ 127)
    (pages : List ProgramPage) :
    ∀ (s s1 : KState) (r : Int), program_load_pages L pid pages s = some (s1, r) →
      (s.processes pid).p_pid = pid → RefInv s.pageinfo → ProcIso L s pid l1 l2 →
      LowOnce L s.pageinfo → HighShare L (s.mem l2) →
      LowOnce L s1.pageinfo ∧ HighShare L (s1.mem l2) := by
  induction pages with
  | nil =>
    intro s s1 r h _ _ _ hlow hsh
    simp [program_load_pages] at h
    rw [← h.1]
    exact ⟨hlow, hsh⟩
  | cons pg rest ih =>
    intro s s1 r h hpid hr hiso hlow hsh
    unfold program_load_pages at h
    dsimp only at h
    rw [hpid] at h
    split at h
    · cases h
      exact ⟨hlow, hsh⟩
    · rename_i hge
      split at h
      · cases h
      · rename_i m1 hmap
        have hne : (physical_page_alloc L s.pageinfo pg.va (toInt8 (pid : Int))).2 ≠ -1 := by
          omega
        rw [hiso.pt_eq] at hmap
        generalize (if pg.writable = true then PTE_P ||| PTE_W ||| PTE_U
          else PTE_P ||| PTE_U) = perm at hmap
        obtain ⟨a, _⟩ := @alloc_map_step L s
          { s with
            pageinfo := (physical_page_alloc L s.pageinfo pg.va (toInt8 (pid : Int))).1,
            mem := Function.update m1 (PAGENUMBER pg.va) pg.contents }
          pid l1 l2 pg.va pg.va _ s.mem m1 h0 h1 hiso hr hne (fun f _ => rfl) hmap rfl rfl
          (fun f hf => Function.update_noteq hf _ _)
        obtain ⟨hm, hal, hperm⟩ := map_own_page hiso.l1_lt hiso.l2_lt hiso.mem_l1 hmap
        obtain ⟨_, _, hrc, _⟩ := physical_page_alloc_ok hne
        have hl2ne : l2 ≠ PAGENUMBER pg.va := by
          intro x
          rw [← x] at hrc
          have := ((hr l2).1).mp hrc
          rw [hiso.own_l2] at this
          unfold PO_FREE at this
          omega
        refine ih _ _ _ h hpid (physical_page_alloc_refinv (toInt8_pid_ne_zero h0 h1) hr) a
          (LowOnce_alloc hlow _ _) ?_
        show HighShare L (Function.update m1 (PAGENUMBER pg.va) pg.contents l2)
        rw [Function.update_noteq hl2ne, hm, Function.update_same]
        refine HighShare_update hsh _ _ (fun hidx hp _ => ?_)
        have hK := L2PAGEINDEX_le pg.va
        by_cases hpp : perm &&& PTE_P ≠ 0
        · rw [if_pos hpp, PAGENUMBER_pte hal hperm]
          omega
        · rw [if_neg hpp] at hp
          exact absurd hp hpp

theorem program_load_tab {L : Layout} {env : Env} {s s1 : KState} {pid n l1 l2 : Nat} {r : Int}
    (h0 : 0 < pid) (h1 : pid ≤ 127)
    (h : program_load L env s pid n = some (s1, r))
    (hpid : (s.processes pid).p_pid = pid) (hr : RefInv s.pageinfo)
    (hiso : ProcIso L s pid l1 l2) (hlow : LowOnce L s.pageinfo)
    (hsh : HighShare L (s.mem l2)) :
    LowOnce L s1.pageinfo ∧ HighShare L (s1.mem l2) := by
  unfold program_load at h
  split at h
  · cases h
  · rename_i s2 r2 hp
    have := program_load_pages_tab h0 h1 _ _ _ _ hp hpid hr hiso hlow hsh
    split at h
    · cases h; exact this
    · cases h; exact this


/-- The function `process_setup(pid, n)`, called for a free descriptor, keeps
`LiveTab` and `LowOnce`. -/
theorem process_setup_tab {L : Layout} (hL : L.WF) {env : Env} {s s1 : KState} {pid n : Nat}
    (h : process_setup L env s pid n = some s1) (h1 : 1 ≤ pid) (h2 : pid ≤ 127)
    (hr : RefInv s.pageinfo) (hi : ProcInv s)
    (hfree : (s.processes pid).p_state = procstate.P_FREE) (hlive : LiveTab L s)
    (hlow : LowOnce L s.pageinfo) :
    LiveTab L s1 ∧ LowOnce L s1.pageinfo := by
  have ho : toInt8 (pid : Int) ≠ 0 := toInt8_pid_ne_zero h1 h2
  have finish : ∀ sx : KState, Foot pid s sx →
      (∀ q, q ≠ pid → sx.processes q = s.processes q) →
      ((sx.processes pid).p_state ≠ procstate.P_FREE →
        ∃ l1 l2, ProcIso L sx pid l1 l2 ∧ l1 < L.PROC_START_ADDR / PAGESIZE
          ∧ l2 < L.PROC_START_ADDR / PAGESIZE ∧ HighShare L (sx.mem l2)) →
      LiveTab L sx := by
    intro sx hf hq hp p hpl
    by_cases e : p = pid
    · subst e; exact hp hpl
    · exact LiveTab_others hf hi.2 hlive (fun q hqq => by rw [hq q hqq]; exact ⟨rfl, rfl⟩) p e hpl
  unfold process_setup at h
  dsimp only at h
  split at h
  · cases h
  · rename_i s2 pt hcp
    have hp2 := (copy_pagetable_frame hcp).1
    have hf2 : Foot pid s s2 :=
      Foot_trans (Foot_of_eq rfl rfl : Foot pid s (set_registers s pid env.init_registers))
        (copy_pagetable_foot hL hcp ho hr)
    have hr2 : RefInv s2.pageinfo := copy_pagetable_refinv hcp ho hr
    have hlow2 : LowOnce L s2.pageinfo := copy_pagetable_low hcp
      (show LowOnce L (set_registers s pid env.init_registers).pageinfo from hlow)
    have hq2 : ∀ q, q ≠ pid → (set_pagetable_of s2 pid pt).processes q = s.processes q := by
      intro q hq
      rw [set_pagetable_of_other _ _ hq, hp2, set_registers_other _ _ hq]
    have hst2 : ((set_pagetable_of s2 pid pt).processes pid).p_state = procstate.P_FREE := by
      rw [(set_pagetable_of_proc _ _ _ _).1, hp2, (set_registers_proc _ _ _ _).1]
      exact hfree
    have hpid2 : ((set_pagetable_of s2 pid pt).processes pid).p_pid = pid := by
      rw [(set_pagetable_of_proc _ _ _ _).2, hp2, (set_registers_proc _ _ _ _).2.1]
      exact hi.1 pid
    split at h
    · cases h
      exact ⟨finish _ (Foot_trans hf2 (Foot_of_eq rfl rfl)) hq2 (fun hp => absurd hst2 hp),
        hlow2⟩
    · rename_i hpt
      obtain ⟨l1, l2, hiso2⟩ := copy_pagetable_iso hL hcp hpt h2
      obtain ⟨hl1, hl2, hsh2⟩ := (copy_pagetable_tab hL hcp hpt
        (show LowOnce L (set_registers s pid env.init_registers).pageinfo from hlow)).2
        l1 l2 hiso2
      split at h
      · cases h
      · rename_i s3 r3 hpl
        split at h
        · cases h
        · obtain ⟨hiso3, hf3, hq3, hst3⟩ := program_load_iso h1 h2 hpl hpid2 hr2 hiso2
          obtain ⟨hr3, hi3, _⟩ := program_load_inv hpl (by rw [hpid2]; exact ho) hr2
            (ProcInv_set_pagetable_of pid pt (ProcInv_congr hp2
              (ProcInv_set_registers pid env.init_registers hi)))
          obtain ⟨hlow3, hsh3⟩ := program_load_tab h1 h2 hpl hpid2 hr2 hiso2
            (show LowOnce L (set_pagetable_of s2 pid pt).pageinfo from hlow2)
            (show HighShare L ((set_pagetable_of s2 pid pt).mem l2) from hsh2)
          split at h
          · cases h
          · rename_i m5 hmap
            cases h
            generalize hs4 : set_registers s3 pid
              { (s3.processes pid).p_registers with reg_esp := L.MEMSIZE_VIRTUAL } = s4 at *
            have hiso4 : ProcIso L s4 pid l1 l2 := by
              rw [← hs4]; exact ProcIso_set_registers _ _ hiso3
            have hr4 : RefInv s4.pageinfo := by rw [← hs4]; exact hr3
            have hlow4 : LowOnce L s4.pageinfo := by rw [← hs4]; exact hlow3
            have hsh4 : HighShare L (s4.mem l2) := by rw [← hs4]; exact hsh3
            have hq4 : ∀ q, q ≠ pid → s4.processes q = s.processes q := by
              intro q hq
              rw [← hs4, set_registers_other _ _ hq, hq3 q hq, hq2 q hq]
            have hf4 : Foot pid s s4 := by
              rw [← hs4]
              exact Foot_trans hf2 (Foot_trans (Foot_of_eq rfl rfl)
                (Foot_trans hf3 (Foot_of_eq rfl rfl)))
            rw [hiso4.pt_eq] at hmap
            have hal := (virtual_memory_map_single hmap).2.2.1
            have hne : find_free_page L s4.pageinfo ≠ UINTPTR_MINUS_ONE := by
              intro x
              rw [x] at hal
              exact absurd hal (by decide)
            have hok := alloc_free_page_ok hL hr4 (toInt8 (pid : Int)) hne
            obtain ⟨a, b⟩ := @alloc_map_step L s4
              (set_state { s4 with
                pageinfo := (physical_page_alloc L s4.pageinfo (find_free_page L s4.pageinfo)
                  (toInt8 (pid : Int))).1, mem := m5 } pid procstate.P_RUNNABLE)
              pid l1 l2 _ _ _ s4.mem m5 h1 h2 hiso4 hr4 hok (fun f _ => rfl) hmap
              ((set_state_proc _ _ _ _).1) rfl (fun f _ => rfl)
            obtain ⟨hm, hal5, hperm⟩ := map_own_page hiso4.l1_lt hiso4.l2_lt hiso4.mem_l1 hmap
            refine ⟨finish _ (Foot_trans hf4 b) ?_ (fun _ => ⟨l1, l2, a, hl1, hl2, ?_⟩),
              LowOnce_alloc hlow4 _ _⟩
            · intro q hq
              unfold set_state set_proc
              dsimp only
              rw [Function.update_noteq hq]
              exact hq4 q hq
            · show HighShare L (m5 l2)
              rw [hm, Function.update_same]
              refine HighShare_update hsh4 _ _ (fun _ _ hw0 => ?_)
              exfalso
              rw [if_pos (show (PTE_P ||| PTE_W ||| PTE_U) &&& PTE_P ≠ 0 by decide),
                flags_writable hal5 hperm] at hw0
              exact absurd hw0 (by decide)

theorem kernel_setup_loop_tab {L : Layout} (hL : L.WF) {env : Env} (fuel : Nat) :
    ∀ (i : Nat) (s s1 : KState), kernel_setup_loop L env fuel i s = some s1 →
      1 ≤ i → i + fuel ≤ 128 → RefInv s.pageinfo → ProcInv s → LiveTab L s →
      LowOnce L s.pageinfo →
      (∀ j, i ≤ j → (s.processes j).p_state = procstate.P_FREE) →
      LiveTab L s1 ∧ LowOnce L s1.pageinfo := by
  induction fuel with
  | zero =>
    intro i s s1 h _ _ _ _ hlive hlow _
    simp [kernel_setup_loop] at h
    rw [← h]
    exact ⟨hlive, hlow⟩
  | succ n ih =>
    intro i s s1 h h1 h2 hr hi hlive hlow hfree
    unfold kernel_setup_loop at h
    split at h
    · cases h
    · rename_i s2 hp
      obtain ⟨a, b, _⟩ := process_setup_inv hp h1 (by omega) hr hi
      obtain ⟨c, d⟩ := process_setup_tab hL hp h1 (by omega) hr hi (hfree i (le_refl _))
        hlive hlow
      have e := (process_setup_desc hp).2.1
      exact ih _ _ _ h (by omega) (by omega) a b c d
        (fun j hj => by rw [e j (by omega)]; exact hfree j (by omega))

theorem pageinfo_init_loop_once (L : Layout) (fuel : Nat) :
    ∀ (addr : Nat) (pageinfo : PageInfo),
      (∀ f, (pageinfo f).refcount = 0 ∨ (pageinfo f).refcount = 1) →
      ∀ f, (pageinfo_init_loop L fuel addr pageinfo f).refcount = 0
        ∨ (pageinfo_init_loop L fuel addr pageinfo f).refcount = 1 := by
  induction fuel with
  | zero => intro addr pageinfo h; exact h
  | succ n ih =>
    intro addr pageinfo h
    unfold pageinfo_init_loop
    dsimp only
    apply ih
    intro f
    by_cases e : f = PAGENUMBER addr
    · rw [e, Function.update_same]
      dsimp only
      split_ifs
      all_goals first | exact Or.inr rfl | exact Or.inl rfl
    · rw [Function.update_noteq e]
      exact h f

theorem pageinfo_init_low (L : Layout) : LowOnce L (pageinfo_init L) := by
  intro f _
  unfold pageinfo_init
  exact pageinfo_init_loop_once L _ 0 _ (fun _ => Or.inl rfl) f

/-- The state in which `kernel` starts the first process satisfies the
page-table invariant. -/
theorem kernel_tab {L : Layout} (hL : L.WF) (hC : L.ConsoleReserved) {env : Env}
    {command : Option String} {s : KState} (h : kernel L env command = some s) :
    TabInv L s := by
  have hk := kernel_iso hL hC h
  have hN := hL.nproc_gt
  unfold kernel at h
  dsimp only at h
  split at h
  · cases h
  · rename_i m1 _
    split at h
    · cases h
    · rename_i m2 _
      have key : ∀ s0 : KState, s0.pageinfo = pageinfo_init L →
          (∀ j, (s0.processes j).p_state = procstate.P_FREE) → ProcInv s0 →
          ∀ s3, (if command = some "fork" then process_setup L env s0 1 4
            else if command = some "forkexit" then process_setup L env s0 1 5
            else kernel_setup_loop L env 4 1 s0) = some s3 →
          LiveTab L s3 ∧ LowOnce L s3.pageinfo := by
        intro s0 hp0 hf0 hi0 s3 hs3
        have hr0 : RefInv s0.pageinfo := by rw [hp0]; exact pageinfo_init_refinv L
        have hl0 : LiveTab L s0 := fun p hp => absurd (hf0 p) hp
        have hw0 : LowOnce L s0.pageinfo := by rw [hp0]; exact pageinfo_init_low L
        split at hs3
        · exact process_setup_tab hL hs3 (le_refl _) (by omega) hr0 hi0 (hf0 1) hl0 hw0
        · split at hs3
          · exact process_setup_tab hL hs3 (le_refl _) (by omega) hr0 hi0 (hf0 1) hl0 hw0
          · exact kernel_setup_loop_tab hL _ _ _ _ hs3 (le_refl _) (by omega) hr0 hi0 hl0
              hw0 (fun j _ => hf0 j)
      split at h
      · cases h
      · rename_i s3 hs3
        have h3 := key _ rfl (fun j => rfl) ⟨fun i => rfl, rfl⟩ s3 hs3
        obtain ⟨r1, r2, r3, _, _⟩ := run_inv h
        exact ⟨hk, by rw [r1]; exact h3.2,
          LiveTab_of_same r3 r1 (fun p hp => by rw [r2] at hp; exact hp) (fun p => by rw [r2])
            h3.1⟩

/-- Every reachable state satisfies the page-table invariant. -/
theorem reachable_tab {L : Layout} (hL : L.WF) (hC : L.ConsoleReserved) {env : Env}
    {s : KState} (h : Reachable L env s) : TabInv L s := by
  induction h with
  | boot command s hk => exact kernel_tab hL hC hk
  | trap s s1 reg _ he ih => exact exception_tab hL he ih
  | store s s1 va w _ hs ih => exact user_store_tab hs ih

/-- C26: in every reachable state, for every process that is not Free, the
frame of its outer page table and the frame of every present entry of the
outer table are owned by that process with refcount exactly 1, and both lie
below `PROC_START_ADDR`. -/
theorem page_tables_exclusive (L : Layout) (hL : L.WF) (hC : L.ConsoleReserved) (env : Env)
    (s : KState) (h : Reachable L env s) (p : Nat)
    (hp : (s.processes p).p_state ≠ procstate.P_FREE) :
    (s.pageinfo (PAGENUMBER (s.processes p).p_pagetable)).owner = (p : Int)
    ∧ (s.pageinfo (PAGENUMBER (s.processes p).p_pagetable)).refcount = 1
    ∧ PAGENUMBER (s.processes p).p_pagetable < L.PROC_START_ADDR / PAGESIZE
    ∧ ∀ j, s.mem (PAGENUMBER (s.processes p).p_pagetable) j &&& PTE_P ≠ 0 →
        (s.pageinfo (PAGENUMBER (s.mem (PAGENUMBER (s.processes p).p_pagetable) j))).owner
          = (p : Int)
        ∧ (s.pageinfo (PAGENUMBER (s.mem (PAGENUMBER (s.processes p).p_pagetable) j))).refcount
          = 1
        ∧ PAGENUMBER (s.mem (PAGENUMBER (s.processes p).p_pagetable) j)
          < L.PROC_START_ADDR / PAGESIZE := by
  have k := reachable_tab hL hC h
  obtain ⟨l1, l2, hiso, hl1, hl2, _⟩ := k.tab p hp
  have hp0 : 0 < p := by
    rcases Nat.eq_zero_or_pos p with e | e
    · rw [e] at hp; exact absurd k.iso.kinv.procs.2 hp
    · exact e
  have once : ∀ f, f < L.PROC_START_ADDR / PAGESIZE → (s.pageinfo f).owner = (p : Int) →
      (s.pageinfo f).refcount = 1 := by
    intro f hf ho
    rcases k.low f hf with e | e
    · have := ((k.iso.kinv.ref f).1).mp e
      rw [ho] at this
      unfold PO_FREE at this
      omega
    · exact e
  rw [hiso.pt_eq, PAGENUMBER_PAGEADDRESS hiso.l1_lt]
  refine ⟨hiso.own_l1, once l1 hl1 hiso.own_l1, hl1, ?_⟩
  intro j hj
  rw [hiso.mem_l1] at hj ⊢
  obtain ⟨_, e⟩ := outer_entry_present hiso.l2_lt hj
  rw [e]
  exact ⟨hiso.own_l2, once l2 hl2 hiso.own_l2, hl2⟩


/-- Witness of `page_tables_exclusive`: process 1 in the state in which
`kernel(NULL)` starts it on `quadLayout`. -/
theorem page_tables_exclusive_witness :
    (quadBoot.pageinfo (PAGENUMBER (quadBoot.processes 1).p_pagetable)).owner = ((1 : Nat) : Int)
    ∧ (quadBoot.pageinfo (PAGENUMBER (quadBoot.processes 1).p_pagetable)).refcount = 1
    ∧ PAGENUMBER (quadBoot.processes 1).p_pagetable < quadLayout.PROC_START_ADDR / PAGESIZE
    ∧ ∀ j, quadBoot.mem (PAGENUMBER (quadBoot.processes 1).p_pagetable) j &&& PTE_P ≠ 0 →
        (quadBoot.pageinfo
          (PAGENUMBER (quadBoot.mem (PAGENUMBER (quadBoot.processes 1).p_pagetable) j))).owner
          = ((1 : Nat) : Int)
        ∧ (quadBoot.pageinfo
          (PAGENUMBER (quadBoot.mem (PAGENUMBER (quadBoot.processes 1).p_pagetable) j))).refcount
          = 1
        ∧ PAGENUMBER (quadBoot.mem (PAGENUMBER (quadBoot.processes 1).p_pagetable) j)
          < quadLayout.PROC_START_ADDR / PAGESIZE :=
  page_tables_exclusive quadLayout quadLayout_WF ⟨rfl, by decide, by decide⟩ quadEnv quadBoot
    (Reachable.boot none quadBoot quadBoot_eq) 1 quadBoot_data.1

/-! ### Failure paths that leave traces in the frame table -/

set_option maxRecDepth 100000 in
theorem sampleLast_frames :
    sampleLast.pageinfo 9 = { owner := PO_FREE, refcount := 0 }
    ∧ ∀ pn, pn < smallLayout.PROC_START_ADDR / PAGESIZE → pn ≠ 9 →
        (sampleLast.pageinfo pn).owner ≠ PO_FREE := by decide!

set_option maxRecDepth 100000 in
theorem sampleLast_copy :
    (copy_pagetable smallLayout sampleLast smallLayout.kernel_pagetable 2).map
        (fun r => (r.2, r.1.pageinfo 9))
      = some (UINTPTR_MINUS_ONE, { owner := 2, refcount := 1 }) := by decide!

set_option maxRecDepth 100000 in
theorem sampleLast_setup :
    (process_setup smallLayout smallEnv sampleLast 2 1).map
        (fun s1 => ((s1.processes 2).p_state, (s1.processes 2).p_pagetable, s1.pageinfo 9))
      = some (procstate.P_FREE, UINTPTR_MINUS_ONE, { owner := 2, refcount := 1 }) := by decide!

set_option maxRecDepth 100000 in
theorem smallLayout_boot_four :
    (kernel smallLayout smallEnv none).map
        (fun s => (s.current, (s.processes 4).p_state, (s.processes 4).p_pagetable,
          s.pageinfo 15))
      = some (1, procstate.P_FREE, UINTPTR_MINUS_ONE, { owner := 4, refcount := 1 }) := by
  decide!

/-- C33, the code at the failing input: in `sampleLast` exactly one frame below
`PROC_START_ADDR` is Free, frame 9.  `copy_pagetable(kernel_pagetable, 2)`
takes it for the outer table, finds no frame for the inner table and returns
`(x86_pagetable*) -1` with frame 9 still allocated to owner 2;
`process_setup(2, 1)` then returns with process 2 Free and frame 9 owned by
it.  The same happens when `kernel(NULL)` boots the scaled-down layout: the
fourth `process_setup` leaves frame 15 owned by process 4, which is Free. -/
theorem copy_pagetable_leaks_outer :
    (sampleLast.pageinfo 9 = { owner := PO_FREE, refcount := 0 }
      ∧ ∀ pn, pn < smallLayout.PROC_START_ADDR / PAGESIZE → pn ≠ 9 →
          (sampleLast.pageinfo pn).owner ≠ PO_FREE)
    ∧ (copy_pagetable smallLayout sampleLast smallLayout.kernel_pagetable 2).map
          (fun r => (r.2, r.1.pageinfo 9))
        = some (UINTPTR_MINUS_ONE, { owner := 2, refcount := 1 })
    ∧ (process_setup smallLayout smallEnv sampleLast 2 1).map
          (fun s1 => ((s1.processes 2).p_state, (s1.processes 2).p_pagetable, s1.pageinfo 9))
        = some (procstate.P_FREE, UINTPTR_MINUS_ONE, { owner := 2, refcount := 1 })
    ∧ (kernel smallLayout smallEnv none).map
          (fun s => (s.current, (s.processes 4).p_state, (s.processes 4).p_pagetable,
            s.pageinfo 15))
        = some (1, procstate.P_FREE, UINTPTR_MINUS_ONE, { owner := 4, refcount := 1 }) :=
  ⟨sampleLast_frames, sampleLast_copy, sampleLast_setup, smallLayout_boot_four⟩

set_option maxRecDepth 100000 in
theorem sampleReforked_eq : fork smallLayout sampleForked.1 = some sampleReforked :=
  getD_of_isSome _ _ (by decide!)

set_option maxRecDepth 100000 in
theorem sampleReforked_data :
    sampleReforked.2 = 3
    ∧ sampleReforked.1.current = 1
    ∧ (∀ p, 1 ≤ p → p ≤ 3 →
        (sampleReforked.1.processes p).p_state = procstate.P_RUNNABLE
        ∧ (virtual_memory_lookup sampleReforked.1.mem
            (sampleReforked.1.processes p).p_pagetable (PAGEADDRESS 16))
          = { pn := 16, pa := PAGEADDRESS 16, perm := PTE_P ||| PTE_U })
    ∧ sampleReforked.1.pageinfo 16 = { owner := 1, refcount := 3 }
    ∧ fork_find_slot sampleReforked.1.processes (smallLayout.NPROC - 1) 1 = some 4
    ∧ find_free_page_table smallLayout sampleReforked.1.pageinfo = UINTPTR_MINUS_ONE := by
  decide!

set_option maxRecDepth 100000 in
theorem sampleForkFailed_eq : fork smallLayout sampleReforked.1 = some sampleForkFailed :=
  getD_of_isSome _ _ (by decide!)

set_option maxRecDepth 100000 in
theorem sampleForkFailed_data :
    sampleForkFailed.2 = -1
    ∧ (∀ p, 1 ≤ p → p ≤ 3 →
        (sampleForkFailed.1.processes p).p_state = procstate.P_RUNNABLE
        ∧ (virtual_memory_lookup sampleForkFailed.1.mem
            (sampleForkFailed.1.processes p).p_pagetable (PAGEADDRESS 16))
          = { pn := 16, pa := PAGEADDRESS 16, perm := PTE_P ||| PTE_U })
    ∧ sampleForkFailed.1.pageinfo 16 = { owner := 1, refcount := 2 } := by
  decide!

/-- C34, the code at the failing input: in `sampleReforked` the processes 1,
2 and 3 are Runnable and map the read-only code frame 16, whose refcount is 3,
and no frame below `PROC_START_ADDR` is Free.  A further `fork()` of process 1
chooses slot 4, fails in `copy_pagetable` before it has incremented any
refcount, and returns -1; its teardown `sys_exit(4)` takes one reference from
frame 16, which the three processes still map. -/
theorem failed_fork_drops_reference :
    (sampleReforked.2 = 3
      ∧ sampleReforked.1.current = 1
      ∧ (∀ p, 1 ≤ p → p ≤ 3 →
          (sampleReforked.1.processes p).p_state = procstate.P_RUNNABLE
          ∧ (virtual_memory_lookup sampleReforked.1.mem
              (sampleReforked.1.processes p).p_pagetable (PAGEADDRESS 16))
            = { pn := 16, pa := PAGEADDRESS 16, perm := PTE_P ||| PTE_U })
      ∧ sampleReforked.1.pageinfo 16 = { owner := 1, refcount := 3 }
      ∧ fork_find_slot sampleReforked.1.processes (smallLayout.NPROC - 1) 1 = some 4
      ∧ find_free_page_table smallLayout sampleReforked.1.pageinfo = UINTPTR_MINUS_ONE)
    ∧ fork smallLayout sampleReforked.1 = some sampleForkFailed
    ∧ (sampleForkFailed.2 = -1
      ∧ (∀ p, 1 ≤ p → p ≤ 3 →
          (sampleForkFailed.1.processes p).p_state = procstate.P_RUNNABLE
          ∧ (virtual_memory_lookup sampleForkFailed.1.mem
              (sampleForkFailed.1.processes p).p_pagetable (PAGEADDRESS 16))
            = { pn := 16, pa := PAGEADDRESS 16, perm := PTE_P ||| PTE_U })
      ∧ sampleForkFailed.1.pageinfo 16 = { owner := 1, refcount := 2 }) :=
  ⟨sampleReforked_data, sampleForkFailed_eq, sampleForkFailed_data⟩

set_option maxRecDepth 100000 in
theorem sampleState_page1 :
    virtual_memory_lookup sampleState.mem (sampleState.processes 1).p_pagetable 0x1000
      = { pn := 1, pa := 0x1000, perm := PTE_P ||| PTE_W }
    ∧ 0x1000 < smallLayout.PROC_START_ADDR ∧ 0x1000 ≠ smallLayout.console
    ∧ sampleState.current = 1 := by decide!

set_option maxRecDepth 100000 in
theorem sampleState_alloc_low :
    (exception smallLayout sampleState (sampleRegs 0x1000 51)).map
        (fun s1 => (s1.current,
          virtual_memory_lookup s1.mem (s1.processes 1).p_pagetable 0x1000,
          (s1.processes 1).p_registers.reg_eax, (s1.processes 1).p_state))
      = some (1, { pn := 9, pa := 0x9000, perm := PTE_P ||| PTE_W ||| PTE_U }, 0,
          procstate.P_RUNNABLE) := by decide!

/-- C36, the code at the failing input: process 1 of `sampleState` asks for a
page at the virtual address `0x1000`, which lies below `PROC_START_ADDR`, is
not the console page and was mapped for the kernel only (`PTE_P | PTE_W`).
`exception` takes the address from `reg_eax` unchecked, maps it to the new
frame 9 with `PTE_P | PTE_W | PTE_U` and resumes process 1 with `reg_eax = 0`:
the page is user-accessible afterwards. -/
theorem page_alloc_maps_low_page :
    (virtual_memory_lookup sampleState.mem (sampleState.processes 1).p_pagetable 0x1000
        = { pn := 1, pa := 0x1000, perm := PTE_P ||| PTE_W }
      ∧ 0x1000 < smallLayout.PROC_START_ADDR ∧ 0x1000 ≠ smallLayout.console
      ∧ sampleState.current = 1)
    ∧ (sampleRegs 0x1000 51).reg_intno = smallLayout.INT_SYS_PAGE_ALLOC
    ∧ (sampleRegs 0x1000 51).reg_eax = 0x1000
    ∧ (exception smallLayout sampleState (sampleRegs 0x1000 51)).map
          (fun s1 => (s1.current,
            virtual_memory_lookup s1.mem (s1.processes 1).p_pagetable 0x1000,
            (s1.processes 1).p_registers.reg_eax, (s1.processes 1).p_state))
        = some (1, { pn := 9, pa := 0x9000, perm := PTE_P ||| PTE_W ||| PTE_U }, 0,
            procstate.P_RUNNABLE) :=
  ⟨sampleState_page1, rfl, rfl, sampleState_alloc_low⟩

/-! ### Reference counts and mappings after an exit -/

set_option maxRecDepth 100000 in
theorem bootOrphan_facts :
    virtual_memory_check smallLayout smallBoot = true
    ∧ (fork smallLayout bootForkTrap).isSome = true
    ∧ (bootForked.processes bootForked.current).p_state = procstate.P_RUNNABLE
    ∧ virtual_memory_check smallLayout bootForked = true
    ∧ (sys_exit smallLayout bootExitTrap
        (bootExitTrap.processes bootExitTrap.current).p_pid).isSome = true
    ∧ (bootExited.processes bootExited.current).p_state ≠ procstate.P_RUNNABLE
    ∧ (schedule smallLayout bootExited).isSome = true
    ∧ (bootForked.pageinfo 16 = { owner := 1, refcount := 2 }
      ∧ live_mappers smallLayout bootForked 16 = 2)
    ∧ (bootOrphan.current = 2
      ∧ (bootOrphan.processes 2).p_state = procstate.P_RUNNABLE
      ∧ (PAGENUMBER smallLayout.PROC_START_ADDR ≤ 16
        ∧ 16 < PAGENUMBER smallLayout.MEMSIZE_VIRTUAL)
      ∧ virtual_memory_lookup bootOrphan.mem (bootOrphan.processes 2).p_pagetable
          (PAGEADDRESS 16) = { pn := 16, pa := PAGEADDRESS 16, perm := PTE_P ||| PTE_U }
      ∧ bootOrphan.pageinfo 16 = { owner := PO_FREE, refcount := 0 }
      ∧ live_mappers smallLayout bootOrphan 16 = 1) := by decide!


/-- The fork request of process 1 in the boot state resumes process 1 in
`bootForked`. -/
theorem bootForked_eq : exception smallLayout smallBoot (trapRegs 0 52) = some bootForked := by
  obtain ⟨hc, hf, hr, _⟩ := bootOrphan_facts
  have hsw : exception_switch smallLayout (set_registers smallBoot smallBoot.current
      (trapRegs 0 52)) (trapRegs 0 52) = some (Dispatch.handled bootForked) := by
    rw [exception_switch_fork smallLayout_ints _ _ rfl]
    show (fork smallLayout bootForkTrap).map (fun r => Dispatch.handled r.1) = _
    rw [getD_of_isSome _ (zeroState, -1) hf]
    rfl
  rw [exception_handled (by rw [virtual_memory_check_regs]; exact hc) hsw, if_pos hr]

/-- The exit request of process 1 in `bootForked` hands the CPU to process 2
in `bootOrphan`. -/
theorem bootOrphan_eq : exception smallLayout bootForked (trapRegs 0 53) = some bootOrphan := by
  obtain ⟨_, _, _, hc, he, hs, hsch, _⟩ := bootOrphan_facts
  have hsw : exception_switch smallLayout (set_registers bootForked bootForked.current
      (trapRegs 0 53)) (trapRegs 0 53) = some (Dispatch.handled bootExited) := by
    rw [exception_switch_exit smallLayout_ints _ _ rfl]
    show (sys_exit smallLayout bootExitTrap
      (bootExitTrap.processes bootExitTrap.current).p_pid).map Dispatch.handled = _
    rw [getD_of_isSome _ zeroState he]
    rfl
  rw [exception_handled (by rw [virtual_memory_check_regs]; exact hc) hsw, if_neg hs]
  exact getD_of_isSome _ _ hsch

theorem bootOrphan_reachable : Reachable smallLayout smallEnv bootOrphan :=
  Reachable.trap _ _ _
    (Reachable.trap _ _ _ (Reachable.boot (some "fork") smallBoot smallBoot_eq) bootForked_eq)
    bootOrphan_eq

/-- C35, the code at the failing input: `kernel("fork")` on the scaled-down
layout, then a fork request and an exit request of process 1.  After the fork
frame 16, the read-only code page, has owner 1 and refcount 2 and two live
processes map it.  The exit frees every frame that process 1 owns, shared or
not: in the reachable state `bootOrphan` process 2 is Runnable and maps its
page 16 to frame 16, but the frame is Free with refcount 0, while one live
process maps it. -/
theorem orphan_maps_free_frame :
    Reachable smallLayout smallEnv bootOrphan
    ∧ (bootForked.pageinfo 16 = { owner := 1, refcount := 2 }
      ∧ live_mappers smallLayout bootForked 16 = 2)
    ∧ (bootOrphan.current = 2
      ∧ (bootOrphan.processes 2).p_state = procstate.P_RUNNABLE
      ∧ (PAGENUMBER smallLayout.PROC_START_ADDR ≤ 16
        ∧ 16 < PAGENUMBER smallLayout.MEMSIZE_VIRTUAL)
      ∧ virtual_memory_lookup bootOrphan.mem (bootOrphan.processes 2).p_pagetable
          (PAGEADDRESS 16) = { pn := 16, pa := PAGEADDRESS 16, perm := PTE_P ||| PTE_U }
      ∧ bootOrphan.pageinfo 16 = { owner := PO_FREE, refcount := 0 }
      ∧ live_mappers smallLayout bootOrphan 16 = 1) :=
  ⟨bootOrphan_reachable, bootOrphan_facts.2.2.2.2.2.2.2.1, bootOrphan_facts.2.2.2.2.2.2.2.2⟩

/-! ### What a successful `fork` leaves alone -/

/-- A lookup gives the same result in two memories that agree on the outer
table and, when the outer entry is present, on the inner table. -/
theorem virtual_memory_lookup_stable {mem mem1 : Memory} {pt va : Nat}
    (h1 : mem1 (PAGENUMBER pt) = mem (PAGENUMBER pt))
    (h2 : mem (PAGENUMBER pt) (L1PAGEINDEX va) &&& PTE_P ≠ 0 →
      mem1 (PAGENUMBER (mem (PAGENUMBER pt) (L1PAGEINDEX va)))
        = mem (PAGENUMBER (mem (PAGENUMBER pt) (L1PAGEINDEX va)))) :
    virtual_memory_lookup mem1 pt va = virtual_memory_lookup mem pt va := by
  unfold virtual_memory_lookup
  simp only [h1]
  by_cases hp : mem (PAGENUMBER pt) (L1PAGEINDEX va) &&& PTE_P = 0
  · rw [if_pos hp, if_pos hp]
  · rw [if_neg hp, if_neg hp, h2 hp]

theorem L1PAGEINDEX_lt (va : Nat) : L1PAGEINDEX va < PAGETABLE_NENTRIES := by
  unfold L1PAGEINDEX
  exact Nat.mod_lt _ (by decide)

/-- An iteration of the copy loop of `fork` that goes on changes the owner of
no frame in use. -/
theorem fork_page_owner {L : Layout} {sk s1 : KState} {slot cp i : Nat}
    (h : fork_page L sk slot cp i = some (ForkStep.next s1)) (hr : RefInv sk.pageinfo)
    {f : Nat} (hf : (sk.pageinfo f).owner ≠ PO_FREE) :
    (s1.pageinfo f).owner = (sk.pageinfo f).owner := by
  rcases fork_page_next_cases h with ⟨e, _⟩ | ⟨_, _, _, m2, _, e⟩
      | ⟨_, _, _, _, _, _, m1, _, e⟩
  · rw [e]
  · rw [e]
    show ((physical_page_alloc L sk.pageinfo _ _).1 f).owner = _
    rw [physical_page_alloc_keeps hr hf]
  · rw [e]
    show (Function.update sk.pageinfo _ _ f).owner = _
    by_cases x : f = (virtual_memory_lookup sk.mem (sk.processes sk.current).p_pagetable
        (PAGEADDRESS i)).pn.toNat
    · rw [x, Function.update_same]
    · rw [Function.update_noteq x]

theorem fork_loop_owner {L : Layout} {slot cp : Nat} (fuel : Nat) :
    ∀ (i : Nat) (sk s1 : KState),
      fork_loop L slot cp fuel i sk = some (ForkStep.next s1) →
      toInt8 ((sk.processes slot).p_pid : Int) ≠ 0 → RefInv sk.pageinfo →
      ∀ f, (sk.pageinfo f).owner ≠ PO_FREE → (s1.pageinfo f).owner = (sk.pageinfo f).owner := by
  induction fuel with
  | zero =>
    intro i sk s1 h _ _ f _
    simp [fork_loop] at h
    rw [h]
  | succ n ih =>
    intro i sk s1 h ho hr f hf
    unfold fork_loop at h
    split at h
    · cases h
    · cases h
    · rename_i s2 hp
      have e := fork_page_owner hp hr hf
      have hpr := (fork_page_next_frame hp).1
      rw [ih _ _ _ h (by rw [hpr]; exact ho) (fork_page_refinv_next hp ho hr) f
        (by rw [e]; exact hf), e]

/-- C38: a successful `fork`, called in a state with a consistent frame table
in which the page-table frames of the caller are in use, leaves the address
space of the parent unchanged (its page-table pointer is the same and every
virtual address resolves to the same frame with the same permissions), leaves
the owner of every frame that was not Free unchanged, and changes the state of
no process other than the child, which was Free. -/
theorem fork_keeps_parent (L : Layout) (hL : L.WF) (s : KState) (p : KState × Int)
    (h : fork L s = some p) (hr : p.2 ≠ -1)
    (href : RefInv s.pageinfo)
    (hcur : (s.processes s.current).p_state ≠ procstate.P_FREE)
    (hpt : ParentSpaceInUse s) :
    ∃ child : Nat, p.2 = (child : Int) ∧ child ≠ s.current
      ∧ (s.processes child).p_state = procstate.P_FREE
      ∧ p.1.current = s.current
      ∧ (p.1.processes s.current).p_pagetable = (s.processes s.current).p_pagetable
      ∧ (∀ va, virtual_memory_lookup p.1.mem (p.1.processes s.current).p_pagetable va
          = virtual_memory_lookup s.mem (s.processes s.current).p_pagetable va)
      ∧ (∀ f, (s.pageinfo f).owner ≠ PO_FREE → (p.1.pageinfo f).owner = (s.pageinfo f).owner)
      ∧ (∀ j, j ≠ child → (p.1.processes j).p_state = (s.processes j).p_state) := by
  obtain ⟨s1, r⟩ := p
  obtain ⟨slot, cp, s2, s4, hslot, hcp, hcpne, hloop, hs1, _⟩ := fork_success_shape h hr
  obtain ⟨slot', _, hslot', hne, hr', hc1, _⟩ := fork_success_state h hr hcur
  have hss : slot' = slot := by
    rw [hslot] at hslot'; exact (Option.some.inj hslot').symm
  subst hss
  obtain ⟨hs1', hs2', hfree, _⟩ := fork_find_slot_some _ _ _ _ hslot
  have hrange : ∀ f, (s.pageinfo f).refcount ≤ 127 := fun f => (href f).2.2
  have hto : toInt8 ((slot' : Nat) : Int) ≠ 0 :=
    toInt8_pid_ne_zero hs1' (by have := hL.nproc_le; omega)
  have hpid : ((fork_claim_slot s slot').processes slot').p_pid = slot' := by
    simp [fork_claim_slot, set_proc]
  have href2 : RefInv s2.pageinfo :=
    copy_pagetable_refinv hcp (by rw [hpid]; exact hto) href
  obtain ⟨l1, l2, hcp1, hl1, hl2, hne12, _, _, hr1, hr2, ho1, ho2, hpi, _, inv⟩ :=
    fork_entry_inv hL hrange hcp hcpne
  clear hcp
  subst hcp1
  obtain ⟨hle, heq⟩ := fork_range_le hL
  have inv4 := (fork_loop_inv (L := L) hl1 hl2 hne12 hr2 _ _ _ hle inv).1 s4 hloop
  have hown4 := fork_loop_owner _ _ _ _ hloop (by rw [inv.proc_child_pid]; exact hto)
    (show RefInv (set_pagetable_of s2 slot' (PAGEADDRESS l1)).pageinfo from href2)
  have hne' : s.current ≠ slot' := fun x => hne x.symm
  subst hs1
  refine ⟨slot', hr', hne, hfree, hc1, ?_, ?_, ?_, ?_⟩
  · rw [fork_finish_pagetable, inv4.proc_other _ hne']
  · intro va
    rw [fork_finish_pagetable, inv4.proc_other _ hne', (fork_finish_mem s4 slot').1]
    exact virtual_memory_lookup_stable (inv4.mem_old _ hpt.1)
      (fun hp => inv4.mem_old _ (hpt.2 _ (L1PAGEINDEX_lt va) hp))
  · intro f hf
    have hf1 : f ≠ l1 := fun x => hf (by rw [x]; exact ho1)
    have hf2 : f ≠ l2 := fun x => hf (by rw [x]; exact ho2)
    have e2 : (set_pagetable_of s2 slot' (PAGEADDRESS l1)).pageinfo f = s.pageinfo f := by
      show s2.pageinfo f = _
      rw [hpi, Function.update_noteq hf2, Function.update_noteq hf1]
    rw [(fork_finish_mem s4 slot').2.1, hown4 f (by rw [e2]; exact hf), e2]
  · intro j hj
    rw [fork_finish_state, inv4.proc_other j hj]

set_option maxRecDepth 100000 in
theorem sampleState_space : ParentSpaceInUse sampleState := by
  unfold ParentSpaceInUse
  decide!

/-- Witness of `fork_keeps_parent`: the fork of process 1 in `sampleState`. -/
theorem fork_keeps_parent_witness :
    ∃ child : Nat, sampleForked.2 = (child : Int) ∧ child ≠ sampleState.current
      ∧ (sampleState.processes child).p_state = procstate.P_FREE
      ∧ sampleForked.1.current = sampleState.current
      ∧ (sampleForked.1.processes sampleState.current).p_pagetable
          = (sampleState.processes sampleState.current).p_pagetable
      ∧ (∀ va, virtual_memory_lookup sampleForked.1.mem
            (sampleForked.1.processes sampleState.current).p_pagetable va
          = virtual_memory_lookup sampleState.mem
            (sampleState.processes sampleState.current).p_pagetable va)
      ∧ (∀ f, (sampleState.pageinfo f).owner ≠ PO_FREE →
          (sampleForked.1.pageinfo f).owner = (sampleState.pageinfo f).owner)
      ∧ (∀ j, j ≠ child →
          (sampleForked.1.processes j).p_state = (sampleState.processes j).p_state) :=
  fork_keeps_parent smallLayout smallLayout_WF sampleState sampleForked sampleForked_eq
    sampleForked_ret sampleState_RefInv (by decide) sampleState_space

/-! ### Counting live processes -/

theorem countP_range_change (p q : Nat → Bool) (k : Nat) (h : ∀ x, x ≠ k → p x = q x) :
    ∀ n, (List.range n).countP p + (if k < n ∧ q k = true then 1 else 0)
      = (List.range n).countP q + (if k < n ∧ p k = true then 1 else 0) := by
  intro n
  induction n with
  | zero => simp
  | succ n ih =>
    rw [List.range_succ, List.countP_append, List.countP_append, List.countP_singleton,
      List.countP_singleton]
    by_cases e : n = k
    · subst e
      have a1 : ¬ (n < n ∧ q n = true) := fun x => absurd x.1 (Nat.lt_irrefl _)
      have a2 : ¬ (n < n ∧ p n = true) := fun x => absurd x.1 (Nat.lt_irrefl _)
      rw [if_neg a1, if_neg a2] at ih
      by_cases hp : p n = true <;> by_cases hq : q n = true <;>
        simp [hp, hq] at ih ⊢ <;> omega
    · have hpq := h n e
      rw [hpq]
      by_cases hk : k < n
      · have b1 : (k < n + 1 ∧ q k = true) ↔ (k < n ∧ q k = true) :=
          ⟨fun x => ⟨hk, x.2⟩, fun x => ⟨by omega, x.2⟩⟩
        have b2 : (k < n + 1 ∧ p k = true) ↔ (k < n ∧ p k = true) :=
          ⟨fun x => ⟨hk, x.2⟩, fun x => ⟨by omega, x.2⟩⟩
        simp only [b1, b2]
        omega
      · have c1 : ¬ (k < n ∧ q k = true) := fun x => hk x.1
        have c2 : ¬ (k < n ∧ p k = true) := fun x => hk x.1
        have c3 : ¬ (k < n + 1 ∧ q k = true) := fun x => by
          have := x.1
          exact e (by omega)
        have c4 : ¬ (k < n + 1 ∧ p k = true) := fun x => by
          have := x.1
          exact e (by omega)
        rw [if_neg c1, if_neg c2] at ih
        rw [if_neg c3, if_neg c4]
        omega

theorem live_count_congr {L : Layout} {s s1 : KState}
    (h : ∀ p, (s1.processes p).p_state = (s.processes p).p_state) :
    live_count L s1 = live_count L s := by
  unfold live_count
  simp only [h]

/-- A descriptor that was Free and is in use now adds one live process. -/
theorem live_count_claim {L : Layout} {s s1 : KState} {k : Nat} (hk : k < L.NPROC)
    (h : ∀ p, p ≠ k → (s1.processes p).p_state = (s.processes p).p_state)
    (h0 : (s.processes k).p_state = procstate.P_FREE)
    (h1 : (s1.processes k).p_state ≠ procstate.P_FREE) :
    live_count L s1 = live_count L s + 1 := by
  have := countP_range_change
    (fun p => decide ((s.processes p).p_state ≠ procstate.P_FREE))
    (fun p => decide ((s1.processes p).p_state ≠ procstate.P_FREE)) k
    (fun x hx => by simp only [h x hx]) L.NPROC
  unfold live_count
  rw [if_pos ⟨hk, by simpa using h1⟩, if_neg (by simp [h0])] at this
  omega

/-- A descriptor that was in use and is Free now takes one live process
away. -/
theorem live_count_release {L : Layout} {s s1 : KState} {k : Nat} (hk : k < L.NPROC)
    (h : ∀ p, p ≠ k → (s1.processes p).p_state = (s.processes p).p_state)
    (h0 : (s.processes k).p_state ≠ procstate.P_FREE)
    (h1 : (s1.processes k).p_state = procstate.P_FREE) :
    live_count L s = live_count L s1 + 1 := by
  have := @live_count_claim L s1 s k hk (fun p hp => (h p hp).symm) h1 h0
  omega

theorem live_count_mono {L : Layout} {s s1 : KState}
    (h : ∀ p, (s.processes p).p_state ≠ procstate.P_FREE →
      (s1.processes p).p_state ≠ procstate.P_FREE) :
    live_count L s ≤ live_count L s1 := by
  unfold live_count
  apply List.countP_mono_left
  intro x _ hx
  simp only [decide_eq_true_eq] at hx ⊢
  exact h x hx

theorem live_count_pos {L : Layout} {s : KState} {k : Nat} (hk : k < L.NPROC)
    (h : (s.processes k).p_state ≠ procstate.P_FREE) : 1 ≤ live_count L s := by
  unfold live_count
  apply List.countP_pos_iff.mpr
  exact ⟨k, List.mem_range.mpr hk, by simpa using h⟩

/-- Slot 0 is never in use, so fewer than `NPROC` processes are live. -/
theorem live_count_lt {L : Layout} {s : KState} (hN : 0 < L.NPROC)
    (h0 : (s.processes 0).p_state = procstate.P_FREE) : live_count L s + 1 ≤ L.NPROC := by
  have := countP_range_change
    (fun p => decide ((s.processes p).p_state ≠ procstate.P_FREE))
    (fun p => decide (p = 0 ∨ (s.processes p).p_state ≠ procstate.P_FREE)) 0
    (fun x hx => by simp [hx]) L.NPROC
  rw [if_pos ⟨hN, by simp⟩, if_neg (by simp [h0])] at this
  have hle := @List.countP_le_length _
    (fun p => decide (p = 0 ∨ (s.processes p).p_state ≠ procstate.P_FREE)) (List.range L.NPROC)
  rw [List.length_range] at hle
  unfold live_count
  omega

/-! ### The kernel page table and the frame records under `sys_exit` -/

theorem RoDiag_update {L : Layout} {tbl : Nat → Nat} (h : RoDiag L tbl) (idx e : Nat)
    (he : L.PROC_START_ADDR / PAGESIZE ≤ idx → e &&& PTE_P ≠ 0 → e &&& PTE_W = 0 →
      e = idx * PAGESIZE ||| (PTE_P ||| PTE_U)) :
    RoDiag L (Function.update tbl idx e) := by
  intro j hj hp hw
  by_cases x : j = idx
  · subst x
    rw [Function.update_same] at hp hw ⊢
    exact he hj hp hw
  · rw [Function.update_noteq x] at hp hw ⊢
    exact h j hj hp hw

theorem NPAGES_le_1024 {L : Layout} (hP : L.MEMSIZE_PHYSICAL ≤ 0x400000) : NPAGES L ≤ 1024 := by
  unfold NPAGES
  rw [PAGENUMBER_eq_div]
  unfold PAGESIZE
  omega

/-- A kernel page table of the shape `KTab` maps every physical page to
itself. -/
theorem KTab_identity {L : Layout} {k1 k2 : Nat} {s : KState}
    (hP : L.MEMSIZE_PHYSICAL ≤ 0x400000) (k : KTab L k1 k2 s) : KernelIdentity L s.mem := by
  intro i hi
  have hi2 : i < 1024 := by have := NPAGES_le_1024 hP; omega
  obtain ⟨hp, hn⟩ := k.ident i hi
  unfold virtual_memory_lookup
  dsimp only
  rw [k.pt_eq, PAGENUMBER_PAGEADDRESS k.k1_lt, L1PAGEINDEX_low (PAGEADDRESS_lt_4M hi2),
    if_neg k.pde_p, k.pde, L2PAGEINDEX_PAGEADDRESS hi2, if_neg hp]
  dsimp only
  rw [hn]

/-- The shape `KTab` is kept when the two frames of the kernel page table keep
their contents and their owner. -/
theorem KTab_keep {L : Layout} {k1 k2 : Nat} {s s1 : KState} (k : KTab L k1 k2 s)
    (hm : ∀ f, (s.pageinfo f).owner = PO_KERNEL → s1.mem f = s.mem f)
    (ho : ∀ f, (s.pageinfo f).owner = PO_KERNEL → (s1.pageinfo f).owner = PO_KERNEL) :
    KTab L k1 k2 s1 := by
  have e1 := hm k1 k.own1
  have e2 := hm k2 k.own2
  refine ⟨k.pt_eq, k.k1_lt, ?_, ?_, ?_, ho k1 k.own1, ho k2 k.own2⟩
  · rw [e1]; exact k.pde_p
  · rw [e1]; exact k.pde
  · intro i hi
    rw [e2]; exact k.ident i hi

theorem KTab_of_same {L : Layout} {k1 k2 : Nat} {s s1 : KState} (k : KTab L k1 k2 s)
    (hm : s1.mem = s.mem) (hp : s1.pageinfo = s.pageinfo) : KTab L k1 k2 s1 :=
  KTab_keep k (fun f _ => by rw [hm]) (fun f ho => by rw [hp]; exact ho)

theorem RcBound_mono {L : Layout} {pageinfo : PageInfo} {B C : Int} (h : B ≤ C)
    (hb : RcBound L pageinfo B) : RcBound L pageinfo C := by
  intro f
  obtain ⟨a, b, c⟩ := hb f
  exact ⟨a, by omega, c⟩

theorem RcBound_update {L : Layout} {pageinfo : PageInfo} {B : Int}
    (hb : RcBound L pageinfo B) (pn : Nat) (r : physical_pageinfo)
    (hr : 0 ≤ r.refcount ∧ r.refcount ≤ B
      ∧ (1 < r.refcount → 0 < r.owner ∧ pn < NPAGES L)) :
    RcBound L (Function.update pageinfo pn r) B := by
  intro f
  by_cases x : f = pn
  · subst x
    rw [Function.update_same]
    exact hr
  · rw [Function.update_noteq x]
    exact hb f

theorem RcBound_alloc {L : Layout} {pageinfo : PageInfo} {B : Int} (hB : 1 ≤ B)
    (hb : RcBound L pageinfo B) (addr : Nat) (owner : Int) :
    RcBound L (physical_page_alloc L pageinfo addr owner).1 B := by
  unfold physical_page_alloc
  split
  · exact hb
  · exact RcBound_update hb _ _ ⟨show (0 : Int) ≤ 1 by decide, hB,
      fun x => absurd x (show ¬ (1 : Int) < 1 by decide)⟩

/-- What `sys_exit(pid)` does to the refcounts: none grows, and one that was
above 1 has dropped by one or to zero. -/
theorem sys_exit_rcbound {L : Layout} {s s1 : KState} {pid : Nat}
    (hid : KernelIdentity L s.mem) (h : sys_exit L s pid = some s1) {B : Int} (hB : 1 ≤ B)
    (hb : RcBound L s.pageinfo (B + 1)) : RcBound L s1.pageinfo B := by
  have hpid : pid < L.NPROC := by
    unfold sys_exit at h
    split at h
    · cases h
    · split at h
      · assumption
      · cases h
  obtain ⟨s2, e, _, _, _, hpi⟩ := sys_exit_identity s pid hid hpid
  rw [h] at e
  cases e
  intro f
  obtain ⟨a, b, c⟩ := hb f
  rw [hpi f]
  by_cases hf : f < NPAGES L
  · rw [if_pos hf]
    unfold sys_exit_record
    dsimp only
    by_cases ho : (s.pageinfo f).owner = (pid : Int)
    · rw [if_pos ho]
      rw [if_neg (show ¬ ((0 : Int) > 1 ∧ PO_FREE > 0) by decide)]
      exact ⟨show (0 : Int) ≤ 0 from le_refl _, show (0 : Int) ≤ B by omega,
        fun x => absurd x (show ¬ (1 : Int) < 0 by decide)⟩
    · rw [if_neg ho]
      by_cases hg : (s.pageinfo f).refcount > 1 ∧ (s.pageinfo f).owner > 0
      · rw [if_pos hg]
        exact ⟨show 0 ≤ (s.pageinfo f).refcount - 1 by omega,
          show (s.pageinfo f).refcount - 1 ≤ B by omega, fun _ => ⟨hg.2, hf⟩⟩
      · rw [if_neg hg]
        have : ¬ 1 < (s.pageinfo f).refcount := fun x => hg ⟨x, (c x).1⟩
        exact ⟨a, by omega, fun x => absurd x this⟩
  · rw [if_neg hf]
    have : ¬ 1 < (s.pageinfo f).refcount := fun x => hf (c x).2
    exact ⟨a, by omega, fun x => absurd x this⟩

/-- After `sys_exit(pid)` every frame that a process owns is owned by a live
process, when that was so for the frames of the other processes before. -/
theorem sys_exit_ownlive {L : Layout} {s s1 : KState} {pid : Nat} (hp0 : 0 < pid)
    (hid : KernelIdentity L s.mem) (h : sys_exit L s pid = some s1)
    (ho : ∀ f, f < NPAGES L → 0 < (s.pageinfo f).owner → (s.pageinfo f).owner ≠ (pid : Int) →
      (s.pageinfo f).owner.toNat < L.NPROC
      ∧ (s.processes (s.pageinfo f).owner.toNat).p_state ≠ procstate.P_FREE) :
    OwnLive L s1 := by
  have hpid : pid < L.NPROC := by
    unfold sys_exit at h
    split at h
    · cases h
    · split at h
      · assumption
      · cases h
  obtain ⟨s2, e, _, _, hpr, hpi⟩ := sys_exit_identity s pid hid hpid
  rw [h] at e
  cases e
  intro f hf hpos
  rw [hpi f, if_pos hf] at hpos ⊢
  have hne := @sys_exit_record_owner pid hp0 (s.pageinfo f)
  have hsame : (sys_exit_record pid (s.pageinfo f)).owner = (s.pageinfo f).owner := by
    unfold sys_exit_record at hpos ⊢
    dsimp only at hpos ⊢
    by_cases ho1 : (s.pageinfo f).owner = (pid : Int)
    · rw [if_pos ho1] at hpos
      rw [if_neg (show ¬ ((0 : Int) > 1 ∧ PO_FREE > 0) by decide)] at hpos
      exact absurd hpos (by decide)
    · rw [if_neg ho1]
      split <;> rfl
  rw [hsame] at hpos hne ⊢
  obtain ⟨a, b⟩ := ho f hf hpos hne
  refine ⟨a, ?_⟩
  have : (s.pageinfo f).owner.toNat ≠ pid := by
    intro x
    apply hne
    rw [← x]
    omega
  rw [hpr, Function.update_noteq this]
  exact b

/-- A present read-only page of process memory in an address space whose
inner table satisfies `RoDiag` resolves to the frame of its own number, with
the flags `PTE_P | PTE_U`. -/
theorem lookup_diag {L : Layout} {s : KState} {p l1 l2 i : Nat} (hiso : ProcIso L s p l1 l2)
    (hd : RoDiag L (s.mem l2)) (hi : L.PROC_START_ADDR / PAGESIZE ≤ i) (hi2 : i < 1024)
    (hp : (virtual_memory_lookup s.mem (s.processes p).p_pagetable (PAGEADDRESS i)).perm ≠ 0)
    (hw : (virtual_memory_lookup s.mem (s.processes p).p_pagetable
      (PAGEADDRESS i)).perm &&& PTE_W = 0) :
    virtual_memory_lookup s.mem (s.processes p).p_pagetable (PAGEADDRESS i)
      = { pn := (i : Int), pa := PAGEADDRESS i, perm := PTE_P ||| PTE_U } := by
  rw [hiso.pt_eq] at hp hw ⊢
  obtain ⟨pte, _, hpte, hpres, _⟩ := virtual_memory_lookup_present hp
  have e := lookup_of_tables hiso.l1_lt hiso.l2_lt hiso.mem_l1 hp
  rw [L2PAGEINDEX_PAGEADDRESS hi2, PAGEOFFSET_PAGEADDRESS, Nat.add_zero] at e
  rw [PAGENUMBER_PAGEADDRESS hiso.l1_lt, hiso.mem_l1,
    L1PAGEINDEX_low (PAGEADDRESS_lt_4M hi2),
    Function.update_same, PAGENUMBER_pte (PAGEADDRESS_aligned _) (by decide),
    PAGENUMBER_PAGEADDRESS hiso.l2_lt, L2PAGEINDEX_PAGEADDRESS hi2] at hpte
  rw [hpte] at hpres
  rw [e] at hw ⊢
  dsimp only at hw
  rw [PTE_FLAGS_and (show 0xFFF &&& PTE_W = PTE_W by decide)] at hw
  have hent := hd i hi hpres hw
  have hal : (i * PAGESIZE) % PAGESIZE = 0 := Nat.mul_mod_left _ _
  rw [hent, PAGENUMBER_pte hal (by decide), PTE_ADDR_pte hal (by decide),
    PTE_FLAGS_pte hal (by decide), PAGEADDRESS_eq_mul i (by omega), PAGENUMBER_eq_div,
    Nat.mul_div_cancel _ (show 0 < PAGESIZE by decide)]

/-! ### The copy loop of `fork` and the refcounts -/

/-- The inner table that a successful `copy_pagetable` builds has no entry at
or above `PROC_START_ADDR`. -/
theorem copy_pagetable_diag {L : Layout} (hL : L.WF) {s s2 : KState} {pt a cp : Nat}
    (h : copy_pagetable L s pt a = some (s2, cp)) (hne : cp ≠ UINTPTR_MINUS_ONE) :
    ∀ l1 l2, ProcIso L (set_pagetable_of s2 a cp) a l1 l2 → RoDiag L (s2.mem l2) := by
  obtain ⟨k1, k2, hk1, hk2, hne12, hA1, hr1, hA2, hr2, hS, hC⟩ := copy_pagetable_shape hL h hne
  obtain ⟨m6, hrun, _, hm1, hm2⟩ := copy_pagetable_run hL hS hC s pt a hk1 hk2 hne12 hA1 hr1
    hA2 hr2
  rw [hrun] at h
  cases h
  have hc := hL.console_lt
  have hsa := hL.start_aligned
  have hv := hL.virt_le
  have hs := hL.start_le
  intro l1 l2 hiso
  have hk1lt : k1 < 2 ^ 20 := by unfold PAGESIZE at hk1; omega
  have hk2lt : k2 < 2 ^ 20 := by unfold PAGESIZE at hk2; omega
  have e1 : l1 = k1 := by
    have := hiso.pt_eq
    unfold set_pagetable_of set_proc at this
    simp only [Function.update_same] at this
    have a := congrArg PAGENUMBER this
    rw [PAGENUMBER_PAGEADDRESS hk1lt, PAGENUMBER_PAGEADDRESS hiso.l1_lt] at a
    exact a.symm
  have e2 : l2 = k2 := by
    have a : m6 l1 = Function.update (fun _ => 0) 0 (PAGEADDRESS l2 ||| 7) := hiso.mem_l1
    rw [e1, hm1] at a
    have b := congrFun a 0
    rw [Function.update_same, Function.update_same] at b
    have c := congrArg PAGENUMBER b
    rw [PAGENUMBER_pte (PAGEADDRESS_aligned _) (by decide),
      PAGENUMBER_pte (PAGEADDRESS_aligned _) (by decide),
      PAGENUMBER_PAGEADDRESS hk2lt, PAGENUMBER_PAGEADDRESS hiso.l2_lt] at c
    exact c.symm
  rw [e2]
  intro j hj hp _
  exfalso
  have : m6 k2 j = 0 := by
    rw [hm2 j, if_neg (show ¬ (j = PAGENUMBER L.console) by
        rw [PAGENUMBER_eq_div]; unfold PAGESIZE at *; omega),
      if_neg (show ¬ (j < L.PROC_START_ADDR / PAGESIZE) by omega)]
  have hp' : m6 k2 j &&& PTE_P ≠ 0 := hp
  rw [this] at hp'
  exact hp' (by decide)

/-- One iteration of the copy loop of `fork` keeps `ForkAcc`. -/
theorem fork_page_acc {L : Layout} {s s0 sk s1 : KState} {N0 : Int}
    {slot l1 l2 lp1 lp2 i : Nat}
    (hN0 : 1 ≤ N0) (hN1 : N0 + 1 ≤ 127)
    (hs0 : 0 < slot) (hs1 : slot ≤ 127) (hpid : (s0.processes slot).p_pid = slot)
    (hpar : ProcIso L s0 s0.current lp1 lp2) (hpd : RoDiag L (s0.mem lp2))
    (hc0 : 0 < s0.current) (hcs : s0.current ≠ slot)
    (hi : L.PROC_START_ADDR / PAGESIZE ≤ i) (hi2 : i < 1024)
    (tab : ForkTab L s0 slot l1 l2 sk) (acc : ForkAcc L s N0 slot l2 i sk)
    (h : fork_page L sk slot (PAGEADDRESS l1) i = some (ForkStep.next s1)) :
    ForkAcc L s N0 slot l2 (i + 1) s1 := by
  have hpidk : (sk.processes slot).p_pid = slot := by rw [tab.iso.procs]; exact hpid
  have hl1 := tab.iso.iso.l1_lt
  have hl2 := tab.iso.iso.l2_lt
  have hmono : ∀ f, (sk.pageinfo f).refcount ≤ N0 + (if f < i then 1 else 0) →
      (sk.pageinfo f).refcount ≤ N0 + (if f < i + 1 then 1 else 0) := by
    intro f hf
    split_ifs at hf ⊢ <;> omega
  rcases fork_page_next_cases h with ⟨e, _⟩ | ⟨_, hw, hr, m2, hm2, e⟩
      | ⟨hp, hw, _, hlt, hg1, hg2, m1, hm1, e⟩
  · rw [e]
    exact ⟨acc.diag, fun f => ⟨(acc.rc f).1, hmono f (acc.rc f).2.1, (acc.rc f).2.2⟩, acc.own⟩
  · -- a writable page is copied into a new frame
    rw [hpidk] at hr hm2 e
    rw [tab.iso.iso.pt_eq] at hm2
    obtain ⟨_, hA, hrc, hpi⟩ := physical_page_alloc_ok hr
    have hfree : ∀ f, (sk.pageinfo f).owner = (slot : Int) →
        f ≠ PAGENUMBER (find_free_page L sk.pageinfo) := by
      intro f hf x
      rw [← x] at hrc
      have := ((tab.iso.ref f).1).mp hrc
      rw [hf] at this
      unfold PO_FREE at this
      omega
    have hm1' : memcpy_page sk.mem (find_free_page L sk.pageinfo)
        (virtual_memory_lookup sk.mem (sk.processes sk.current).p_pagetable (PAGEADDRESS i)).pa l1
        = Function.update (fun _ => 0) 0 (PAGEADDRESS l2 ||| 7) := by
      unfold memcpy_page
      rw [Function.update_noteq (hfree l1 tab.iso.iso.own_l1)]
      exact tab.iso.iso.mem_l1
    obtain ⟨hm, hal, hperm⟩ := map_own_page hl1 hl2 hm1' hm2
    have hdiag : RoDiag L (m2 l2) := by
      rw [hm, Function.update_same]
      have : memcpy_page sk.mem (find_free_page L sk.pageinfo)
          (virtual_memory_lookup sk.mem (sk.processes sk.current).p_pagetable
            (PAGEADDRESS i)).pa l2 = sk.mem l2 := by
        unfold memcpy_page
        rw [Function.update_noteq (hfree l2 tab.iso.iso.own_l2)]
      rw [this]
      refine RoDiag_update acc.diag _ _ (fun _ _ hw0 => ?_)
      exfalso
      split at hw0
      · rw [flags_writable hal hperm] at hw0
        exact hw hw0
      · exact hw hw0
    have hrcN : ∀ f, 0 ≤ ((physical_page_alloc L sk.pageinfo (find_free_page L sk.pageinfo)
          (toInt8 (slot : Int))).1 f).refcount
        ∧ ((physical_page_alloc L sk.pageinfo (find_free_page L sk.pageinfo)
          (toInt8 (slot : Int))).1 f).refcount ≤ N0 + (if f < i + 1 then 1 else 0)
        ∧ (1 < ((physical_page_alloc L sk.pageinfo (find_free_page L sk.pageinfo)
          (toInt8 (slot : Int))).1 f).refcount →
            0 < ((physical_page_alloc L sk.pageinfo (find_free_page L sk.pageinfo)
              (toInt8 (slot : Int))).1 f).owner ∧ f < NPAGES L) := by
      intro f
      rw [hpi]
      by_cases x : f = PAGENUMBER (find_free_page L sk.pageinfo)
      · rw [x]
        simp only [Function.update_same]
        refine ⟨by decide, ?_, fun y => absurd y (by decide)⟩
        split_ifs <;> omega
      · rw [Function.update_noteq x]
        exact ⟨(acc.rc f).1, hmono f (acc.rc f).2.1, (acc.rc f).2.2⟩
    have hownN : ∀ f, ((physical_page_alloc L sk.pageinfo (find_free_page L sk.pageinfo)
          (toInt8 (slot : Int))).1 f).owner = (s.pageinfo f).owner
        ∨ ((physical_page_alloc L sk.pageinfo (find_free_page L sk.pageinfo)
          (toInt8 (slot : Int))).1 f).owner = (slot : Int) := by
      intro f
      rw [hpi]
      by_cases x : f = PAGENUMBER (find_free_page L sk.pageinfo)
      · rw [x]
        simp only [Function.update_same]
        exact Or.inr (toInt8_pid hs1)
      · rw [Function.update_noteq x]
        exact acc.own f
    rw [e]
    exact ⟨hdiag, hrcN, hownN⟩
  · -- a read-only page is shared
    have hpk : ProcIso L sk sk.current lp1 lp2 := by
      rw [tab.cur]
      exact Foot_ProcIso tab.iso.foot hcs hc0 hpar (by rw [tab.iso.procs])
    have hmk : sk.mem lp2 = s0.mem lp2 := by
      have hown := hpar.own_l2
      exact (tab.iso.foot lp2 (by rw [hown]; unfold PO_FREE; omega)
        (by rw [hown]; intro x; exact hcs (by exact_mod_cast x))).2 (by rw [hown]; omega)
    have hlook := lookup_diag hpk (by rw [hmk]; exact hpd) hi hi2 hp hw
    rw [hlook] at e hm1 hg1 hg2 hlt
    dsimp only at e hm1 hg1 hg2 hlt
    have hto : (i : Int).toNat = i := Int.toNat_natCast i
    rw [hto] at e hg1 hg2
    obtain ⟨hm, hal, hperm⟩ := map_own_page hl1 hl2 tab.iso.iso.mem_l1 hm1
    obtain ⟨r0, r1, r2⟩ := acc.rc i
    rw [if_neg (Nat.lt_irrefl i)] at r1
    have hinc : toInt8 ((sk.pageinfo i).refcount + 1) = (sk.pageinfo i).refcount + 1 :=
      toInt8_of_range (by omega) (by omega)
    have hdiag : RoDiag L (m1 l2) := by
      rw [hm, Function.update_same]
      refine RoDiag_update acc.diag _ _ (fun _ _ _ => ?_)
      rw [if_pos (show (PTE_P ||| PTE_U) &&& PTE_P ≠ 0 by decide), L2PAGEINDEX_PAGEADDRESS hi2,
        PAGEADDRESS_eq_mul i (by omega)]
    have hrcN : ∀ f, 0 ≤ (Function.update sk.pageinfo i
          { owner := (sk.pageinfo i).owner,
            refcount := toInt8 ((sk.pageinfo i).refcount + 1) } f).refcount
        ∧ (Function.update sk.pageinfo i
          { owner := (sk.pageinfo i).owner,
            refcount := toInt8 ((sk.pageinfo i).refcount + 1) } f).refcount
            ≤ N0 + (if f < i + 1 then 1 else 0)
        ∧ (1 < (Function.update sk.pageinfo i
          { owner := (sk.pageinfo i).owner,
            refcount := toInt8 ((sk.pageinfo i).refcount + 1) } f).refcount →
            0 < (Function.update sk.pageinfo i
              { owner := (sk.pageinfo i).owner,
                refcount := toInt8 ((sk.pageinfo i).refcount + 1) } f).owner
            ∧ f < NPAGES L) := by
      intro f
      by_cases x : f = i
      · rw [x]
        simp only [Function.update_same]
        rw [hinc, if_pos (Nat.lt_succ_self i)]
        exact ⟨by omega, by omega, fun _ => ⟨hg2, by exact_mod_cast hlt⟩⟩
      · rw [Function.update_noteq x]
        exact ⟨(acc.rc f).1, hmono f (acc.rc f).2.1, (acc.rc f).2.2⟩
    have hownN : ∀ f, (Function.update sk.pageinfo i
          { owner := (sk.pageinfo i).owner,
            refcount := toInt8 ((sk.pageinfo i).refcount + 1) } f).owner = (s.pageinfo f).owner
        ∨ (Function.update sk.pageinfo i
          { owner := (sk.pageinfo i).owner,
            refcount := toInt8 ((sk.pageinfo i).refcount + 1) } f).owner = (slot : Int) := by
      intro f
      by_cases x : f = i
      · rw [x]
        simp only [Function.update_same]
        exact acc.own i
      · rw [Function.update_noteq x]
        exact acc.own f
    rw [e]
    exact ⟨hdiag, hrcN, hownN⟩

/-- The copy loop of `fork` keeps `ForkInv`, `ForkTab` and `ForkAcc`, whether
it runs to its end or stops at a failed allocation. -/
theorem fork_loop_acc {L : Layout} {s s0 : KState} {N0 : Int} {slot l1 l2 lp1 lp2 : Nat}
    (hN0 : 1 ≤ N0) (hN1 : N0 + 1 ≤ 127)
    (hl1 : l1 < 2 ^ 20) (hl2 : l2 < 2 ^ 20) (hne12 : l1 ≠ l2)
    (h2 : (s.pageinfo l2).refcount = 0)
    (hs0 : 0 < slot) (hs1 : slot ≤ 127) (hpid : (s0.processes slot).p_pid = slot)
    (hpar : ProcIso L s0 s0.current lp1 lp2) (hps : HighShare L (s0.mem lp2))
    (hpd : RoDiag L (s0.mem lp2))
    (hc0 : 0 < s0.current) (hcs : s0.current ≠ slot) (fuel : Nat) :
    ∀ (i : Nat) (sk : KState) (st : ForkStep),
      L.PROC_START_ADDR / PAGESIZE ≤ i → i + fuel ≤ 1024 →
      fork_loop L slot (PAGEADDRESS l1) fuel i sk = some st →
      ForkInv s slot l1 l2 sk → ForkTab L s0 slot l1 l2 sk → ForkAcc L s N0 slot l2 i sk →
      (∀ s1, st = ForkStep.next s1 →
        ForkInv s slot l1 l2 s1 ∧ ForkTab L s0 slot l1 l2 s1
        ∧ ForkAcc L s N0 slot l2 (i + fuel) s1)
      ∧ (∀ s1, st = ForkStep.failed s1 → ∃ sk1 j,
          ForkInv s slot l1 l2 sk1 ∧ ForkTab L s0 slot l1 l2 sk1
          ∧ ForkAcc L s N0 slot l2 j sk1
          ∧ sys_exit L (set_eax sk1 sk1.current (toU32 (-1))) (sk1.processes slot).p_pid
              = some s1) := by
  induction fuel with
  | zero =>
    intro i sk st _ _ h inv tab acc
    simp [fork_loop] at h
    subst h
    exact ⟨fun s1 e => (by cases e; exact ⟨inv, tab, acc⟩), fun s1 e => (by cases e)⟩
  | succ n ih =>
    intro i sk st hi hi2 h inv tab acc
    unfold fork_loop at h
    split at h
    · cases h
    · rename_i s2 hp
      cases h
      exact ⟨fun s1 e => (by cases e),
        fun s1 e => (by cases e; exact ⟨sk, i, inv, tab, acc, fork_page_failed hp⟩)⟩
    · rename_i s2 hp
      have := ih (i + 1) s2 st (by omega) (by omega) h
        (fork_page_inv hl1 hl2 hne12 h2 (by omega) inv hp)
        (fork_page_tab hs0 hs1 hpid hpar hps hc0 hcs hi (by omega) tab hp)
        (fork_page_acc hN0 hN1 hs0 hs1 hpid hpar hpd hc0 hcs hi (by omega) tab acc hp)
      rw [show i + (n + 1) = i + 1 + n by omega]
      exact this

/-! ### `fork` and the refcounts -/

/-- Processes other than the one a kernel operation acts for keep the
read-only entries of their inner tables. -/
theorem LiveDiag_others {L : Layout} {a : Nat} {s s1 : KState} (hf : Foot a s s1)
    (hidle : (s.processes 0).p_state = procstate.P_FREE) (hlive : LiveDiag L s)
    (hst : ∀ p, p ≠ a → (s1.processes p).p_state = (s.processes p).p_state
      ∧ (s1.processes p).p_pagetable = (s.processes p).p_pagetable) :
    ∀ p, p ≠ a → (s1.processes p).p_state ≠ procstate.P_FREE →
      ∃ l1 l2, ProcIso L s1 p l1 l2 ∧ RoDiag L (s1.mem l2) := by
  intro p hpa hp
  rw [(hst p hpa).1] at hp
  have hp0 : 0 < p := by
    rcases Nat.eq_zero_or_pos p with e | e
    · rw [e] at hp; exact absurd hidle hp
    · exact e
  obtain ⟨l1, l2, hiso, hs⟩ := hlive p hp
  refine ⟨l1, l2, Foot_ProcIso hf hpa hp0 hiso (hst p hpa).2, ?_⟩
  have hown := hiso.own_l2
  have := (hf l2 (by rw [hown]; unfold PO_FREE; omega)
    (by rw [hown]; intro x; exact hpa (by exact_mod_cast x))).2 (by rw [hown]; omega)
  rw [this]
  exact hs

theorem LiveDiag_of_same {L : Layout} {s s1 : KState} (hm : s1.mem = s.mem)
    (hp : s1.pageinfo = s.pageinfo)
    (hst : ∀ p, (s1.processes p).p_state ≠ procstate.P_FREE →
      (s.processes p).p_state ≠ procstate.P_FREE)
    (hpt : ∀ p, (s1.processes p).p_pagetable = (s.processes p).p_pagetable)
    (hlive : LiveDiag L s) : LiveDiag L s1 := by
  intro p hp1
  obtain ⟨l1, l2, h, c⟩ := hlive p (hst p hp1)
  exact ⟨l1, l2, ProcIso_frame h (hpt p) (fun f _ => by rw [hm])
    (fun f ho => by rw [hp]; exact ho), by rw [hm]; exact c⟩

/-- The two frames of a page table of the shape `ProcIso` are determined by
the pointer to the outer table and the contents of memory. -/
theorem table_frames_unique {mem : Memory} {l1 l2 k1 k2 : Nat} (h1 : l1 < 2 ^ 20)
    (h2 : l2 < 2 ^ 20) (g1 : k1 < 2 ^ 20) (g2 : k2 < 2 ^ 20)
    (e : PAGEADDRESS l1 = PAGEADDRESS k1)
    (m1 : mem l1 = Function.update (fun _ => 0) 0 (PAGEADDRESS l2 ||| 7))
    (m2 : mem k1 = Function.update (fun _ => 0) 0 (PAGEADDRESS k2 ||| 7)) :
    l1 = k1 ∧ l2 = k2 := by
  have e1 : l1 = k1 := by
    have a := congrArg PAGENUMBER e
    rw [PAGENUMBER_PAGEADDRESS h1, PAGENUMBER_PAGEADDRESS g1] at a
    exact a
  refine ⟨e1, ?_⟩
  rw [e1, m2] at m1
  have b := congrFun m1 0
  rw [Function.update_same, Function.update_same] at b
  have c := congrArg PAGENUMBER b
  rw [PAGENUMBER_pte (PAGEADDRESS_aligned _) (by decide),
    PAGENUMBER_pte (PAGEADDRESS_aligned _) (by decide),
    PAGENUMBER_PAGEADDRESS h2, PAGENUMBER_PAGEADDRESS g2] at c
  exact c.symm

theorem OwnTrack_alloc {L : Layout} {a : Nat} {s : KState} {pageinfo : PageInfo}
    (h : ∀ f, (pageinfo f).owner = (s.pageinfo f).owner ∨ (pageinfo f).owner = (a : Int))
    (addr : Nat) :
    ∀ f, ((physical_page_alloc L pageinfo addr (a : Int)).1 f).owner = (s.pageinfo f).owner
      ∨ ((physical_page_alloc L pageinfo addr (a : Int)).1 f).owner = (a : Int) := by
  intro f
  unfold physical_page_alloc
  split
  · exact h f
  · by_cases x : f = PAGENUMBER addr
    · rw [x]
      simp only [Function.update_same]
      exact Or.inr trivial
    · simp only [Function.update_noteq x]
      exact h f

/-- Whatever `copy_pagetable` returns, it leaves no refcount above 1 that was
not there, and changes owners only to the new owner. -/
theorem copy_pagetable_acc {L : Layout} {s s2 : KState} {pt a cp : Nat} {B : Int}
    (h : copy_pagetable L s pt a = some (s2, cp)) (ha : toInt8 (a : Int) = (a : Int))
    (hB : 1 ≤ B) (hb : RcBound L s.pageinfo B) :
    RcBound L s2.pageinfo B ∧ OwnTrack a s s2 := by
  have t0 : ∀ f, (s.pageinfo f).owner = (s.pageinfo f).owner
      ∨ (s.pageinfo f).owner = (a : Int) := fun f => Or.inl rfl
  unfold copy_pagetable at h
  dsimp only at h
  rw [ha] at h
  split at h
  · cases h
    exact ⟨RcBound_alloc hB hb _ _, OwnTrack_alloc t0 _⟩
  · split at h
    · cases h
      exact ⟨RcBound_alloc hB (RcBound_alloc hB hb _ _) _ _,
        OwnTrack_alloc (OwnTrack_alloc t0 _) _⟩
    · split at h
      · cases h
      · split at h
        · cases h
        · cases h
          exact ⟨RcBound_alloc hB (RcBound_alloc hB hb _ _) _ _,
            OwnTrack_alloc (OwnTrack_alloc t0 _) _⟩

/-- The whole of `fork` keeps the kernel page table, the read-only entries of
the live address spaces, the bound of every refcount by the number of live
processes, and the liveness of owners. -/
theorem fork_acc {L : Layout} (hL : L.WF) (hP : L.MEMSIZE_PHYSICAL ≤ 0x400000) {k1 k2 : Nat}
    {s s1 : KState} {r : Int} (h : fork L s = some (s1, r)) (k : TabInv L s)
    (kt : KTab L k1 k2 s) (hd : LiveDiag L s)
    (hb : RcBound L s.pageinfo (live_count L s)) :
    KTab L k1 k2 s1 ∧ LiveDiag L s1 ∧ RcBound L s1.pageinfo (live_count L s1)
    ∧ (OwnLive L s → OwnLive L s1) := by
  have kinv := k.iso.kinv
  have hr := kinv.ref
  have hi := kinv.procs
  have hN := hL.nproc_le
  have hc0 : 0 < s.current := Nat.pos_of_ne_zero (KInv_current_pos kinv)
  have hcl : (s.processes s.current).p_state ≠ procstate.P_FREE := by
    rw [kinv.cur_run]; decide
  have hN0 : (1 : Int) ≤ (live_count L s : Int) := by
    exact_mod_cast live_count_pos kinv.cur_lt hcl
  have hkern : ∀ f, (s.pageinfo f).owner = PO_KERNEL → (s.pageinfo f).refcount ≠ 0 := by
    intro f ho e
    have := ((hr f).1).1 e
    rw [ho] at this
    exact absurd this (by decide)
  cases hfs : fork_find_slot s.processes (L.NPROC - 1) 1 with
  | none =>
    unfold fork at h
    rw [hfs] at h
    cases h
    exact ⟨kt, hd, hb, id⟩
  | some slot =>
    obtain ⟨hs1, hs2, hsfree, _⟩ := fork_find_slot_some _ _ _ _ hfs
    have hslot0 : 0 < slot := by omega
    have hslot1 : slot ≤ 127 := by omega
    have hslotN : slot < L.NPROC := by omega
    have ho : toInt8 (slot : Int) ≠ 0 := toInt8_pid_ne_zero hs1 hslot1
    have hcs : s.current ≠ slot := by
      intro e; rw [e] at hcl; exact hcl hsfree
    have hpidc : ((fork_claim_slot s slot).processes slot).p_pid = slot := by
      simp [fork_claim_slot, set_proc]
    have hrange : ∀ f, (s.pageinfo f).refcount ≤ 127 := fun f => (hr f).2.2
    have hcount : live_count L (fork_claim_slot s slot) = live_count L s + 1 :=
      live_count_claim hslotN (fun p hp => by rw [fork_claim_slot_other s hp]) hsfree
        (by simp [fork_claim_slot, set_proc])
    have hN1 : (live_count L s : Int) + 1 ≤ 127 := by
      have := @live_count_lt L (fork_claim_slot s slot) (by omega)
        (by rw [fork_claim_slot_other s (show 0 ≠ slot by omega)]; exact hi.2)
      omega
    obtain ⟨lp1, lp2, hpar, _, _, hps⟩ := k.tab s.current hcl
    obtain ⟨lq1, lq2, hparq, hpdq⟩ := hd s.current hcl
    obtain ⟨eq1, eq2⟩ := ProcIso_unique hparq hpar
    subst eq1
    subst eq2
    -- the state in which the copy loop starts
    have entry : ∀ s2 cp, copy_pagetable L (fork_claim_slot s slot)
          ((fork_claim_slot s slot).processes (fork_claim_slot s slot).current).p_pagetable
          ((fork_claim_slot s slot).processes slot).p_pid = some (s2, cp) →
        cp ≠ UINTPTR_MINUS_ONE →
        ∃ l1 l2, cp = PAGEADDRESS l1 ∧ l1 < 2 ^ 20 ∧ l2 < 2 ^ 20 ∧ l1 ≠ l2
          ∧ (s.pageinfo l2).refcount = 0
          ∧ ForkInv s slot l1 l2 (set_pagetable_of s2 slot cp)
          ∧ ForkTab L (set_pagetable_of s2 slot cp) slot l1 l2 (set_pagetable_of s2 slot cp)
          ∧ ForkAcc L s (live_count L s) slot l2 (L.PROC_START_ADDR / PAGESIZE)
              (set_pagetable_of s2 slot cp)
          ∧ Foot slot s (set_pagetable_of s2 slot cp)
          ∧ (∀ p, p ≠ slot → (set_pagetable_of s2 slot cp).processes p = s.processes p)
          ∧ ((set_pagetable_of s2 slot cp).processes slot).p_pid = slot
          ∧ (set_pagetable_of s2 slot cp).current = s.current := by
      intro s2 cp hcp hcpne
      obtain ⟨l1, l2, hcpe, inv0, hf0, hpo, hpk⟩ :=
        fork_entry_iso hL hslot0 hslot1 hr hcp hcpne
      obtain ⟨m1, m2, hcp1, hm1lt, hm2lt, hne12, _, _, _, hr2, _, _, _, _, finv⟩ :=
        fork_entry_inv hL hrange hcp hcpne
      obtain ⟨u1, u2⟩ := table_frames_unique inv0.iso.l1_lt inv0.iso.l2_lt hm1lt hm2lt
        (hcpe.symm.trans hcp1) inv0.iso.mem_l1 finv.mem_l1
      subst u1
      subst u2
      have hcur2 := (copy_pagetable_frame hcp).2.1
      rw [hpidc] at hcp
      obtain ⟨hlow2, htab⟩ := copy_pagetable_tab hL hcp hcpne
        (show LowOnce L (fork_claim_slot s slot).pageinfo from k.low)
      obtain ⟨_, _, c⟩ := htab l1 l2 inv0.iso
      have hdg := copy_pagetable_diag hL hcp hcpne l1 l2 inv0.iso
      obtain ⟨hrc2, hown2⟩ := copy_pagetable_acc hcp (toInt8_pid hslot1) hN0
        (show RcBound L (fork_claim_slot s slot).pageinfo _ from hb)
      refine ⟨l1, l2, hcpe, hm1lt, hm2lt, hne12, hr2, finv, ⟨inv0, rfl, hlow2, c⟩,
        ⟨hdg, fun f => ⟨(hrc2 f).1, ?_, (hrc2 f).2.2⟩, fun f => hown2 f⟩, hf0, hpo, hpk, hcur2⟩
      have := (hrc2 f).2.1
      show (s2.pageinfo f).refcount ≤ _
      split_ifs <;> omega
    have parent : ∀ s0 : KState, Foot slot s s0 →
        (∀ p, p ≠ slot → s0.processes p = s.processes p) → s0.current = s.current →
        ProcIso L s0 s0.current lq1 lq2 ∧ HighShare L (s0.mem lq2)
        ∧ RoDiag L (s0.mem lq2) := by
      intro s0 hf0 hpo hc
      rw [hc]
      refine ⟨Foot_ProcIso hf0 hcs hc0 hpar (by rw [hpo _ hcs]), ?_⟩
      have hown := hpar.own_l2
      rw [(hf0 lq2 (by rw [hown]; unfold PO_FREE; omega)
        (by rw [hown]; intro x; exact hcs (by exact_mod_cast x))).2 (by rw [hown]; omega)]
      exact ⟨hps, hpdq⟩
    have hK : PAGENUMBER L.PROC_START_ADDR = L.PROC_START_ADDR / PAGESIZE :=
      PAGENUMBER_eq_div _
    by_cases hrs : r = -1
    · -- the failure paths end in `sys_exit(slot)`
      have hne : r ≠ (slot : Int) := by omega
      obtain ⟨_, hc⟩ := fork_failure_shape hfs h hne
      have hsk : ∃ sk, Foot slot s sk ∧ (∀ p, p ≠ slot → sk.processes p = s.processes p)
          ∧ (sk.processes slot).p_pid = slot
          ∧ (∀ f, (s.pageinfo f).refcount ≠ 0 → sk.mem f = s.mem f)
          ∧ RcBound L sk.pageinfo ((live_count L s : Int) + 1)
          ∧ OwnTrack slot s sk
          ∧ sys_exit L (set_eax sk sk.current (toU32 (-1))) (sk.processes slot).p_pid
              = some s1 := by
        rcases hc with ⟨s2, hcp, hex⟩ | ⟨s2, cp, hcp, hcpne, hloop⟩
        · have hp2 := (copy_pagetable_frame hcp).1
          rw [hpidc] at hcp
          obtain ⟨hrc2, hown2⟩ := copy_pagetable_acc hcp (toInt8_pid hslot1) hN0
            (show RcBound L (fork_claim_slot s slot).pageinfo _ from hb)
          refine ⟨s2, ?_, ?_, ?_, ?_, RcBound_mono (by omega) hrc2, fun f => hown2 f, hex⟩
          · exact Foot_trans (Foot_of_eq rfl rfl : Foot slot s (fork_claim_slot s slot))
              (copy_pagetable_foot hL hcp ho hr)
          · intro p hp; rw [hp2]; exact fork_claim_slot_other s hp
          · rw [hp2]; exact hpidc
          · intro f _
            rw [copy_pagetable_fail hcp]
            rfl
        · obtain ⟨l1, l2, hcpe, hl1, hl2, hne12, hr2, finv0, inv0, acc0, hf0, hpo, hpk, hcur⟩ :=
            entry s2 cp hcp hcpne
          subst hcpe
          obtain ⟨hpar0, hps0, hpd0⟩ := parent _ hf0 hpo hcur
          obtain ⟨sk1, j, finv1, inv1, acc1, hex⟩ :=
            (fork_loop_acc hN0 hN1 hl1 hl2 hne12 hr2 hslot0 hslot1 hpk hpar0 hps0 hpd0
              (by rw [hcur]; exact hc0) (by rw [hcur]; exact hcs) _ _ _ _ (by rw [hK])
              (fork_range_le hL).1 hloop finv0 inv0 (by rw [hK]; exact acc0)).2 _ rfl
          refine ⟨sk1, Foot_trans hf0 inv1.iso.foot, ?_, ?_, finv1.mem_old, ?_, acc1.own, hex⟩
          · intro p hp; rw [inv1.iso.procs]; exact hpo p hp
          · rw [inv1.iso.procs]; exact hpk
          · intro f
            refine ⟨(acc1.rc f).1, ?_, (acc1.rc f).2.2⟩
            have := (acc1.rc f).2.1
            split_ifs at this <;> omega
      obtain ⟨sk, hf, hpo, hpk, hmo, hrk, hok, hex⟩ := hsk
      rw [hpk] at hex
      obtain ⟨_, hm1, _, hp1⟩ := sys_exit_frame hex
      have hfoot : Foot slot s s1 :=
        Foot_trans hf (Foot_trans
          (Foot_of_eq rfl rfl : Foot slot sk (set_eax sk sk.current (toU32 (-1))))
          (sys_exit_foot hex))
      have hkne : ∀ f, (s.pageinfo f).owner = PO_KERNEL →
          (s.pageinfo f).owner ≠ PO_FREE ∧ (s.pageinfo f).owner ≠ (slot : Int) := by
        intro f e
        rw [e]
        unfold PO_KERNEL PO_FREE
        omega
      have ktk : KTab L k1 k2 (set_eax sk sk.current (toU32 (-1))) :=
        KTab_keep kt (fun f e => hmo f (hkern f e))
          (fun f e => by
            have := (hf f (hkne f e).1 (hkne f e).2).1
            show (sk.pageinfo f).owner = PO_KERNEL
            rw [this]; exact e)
      have hid := KTab_identity hP ktk
      have hst : ∀ p, p ≠ slot → (s1.processes p).p_state = (s.processes p).p_state
          ∧ (s1.processes p).p_pagetable = (s.processes p).p_pagetable := by
        intro q hq
        rw [hp1, Function.update_noteq hq, (set_eax_proc _ _ _ _).1,
          (set_eax_proc _ _ _ _).2.2, hpo q hq]
        exact ⟨rfl, rfl⟩
      have hsl : (s1.processes slot).p_state = procstate.P_FREE := by
        rw [hp1, Function.update_same]
      have hlc : live_count L s1 = live_count L s := by
        apply live_count_congr
        intro p
        by_cases e : p = slot
        · rw [e, hsl, hsfree]
        · exact (hst p e).1
      refine ⟨?_, ?_, ?_, ?_⟩
      · refine KTab_keep kt (fun f e => ?_) (fun f e => ?_)
        · rw [hm1]
          exact hmo f (hkern f e)
        · rw [(hfoot f (hkne f e).1 (hkne f e).2).1]
          exact e
      · intro p hp
        by_cases e : p = slot
        · rw [e] at hp
          exact absurd hsl hp
        · exact LiveDiag_others hfoot hi.2 hd hst p e hp
      · rw [hlc]
        exact sys_exit_rcbound hid hex hN0 hrk
      · intro hol
        refine sys_exit_ownlive hslot0 hid hex (fun f hfn hpos hnes => ?_)
        have hpos2 : 0 < (sk.pageinfo f).owner := hpos
        have hnes2 : (sk.pageinfo f).owner ≠ (slot : Int) := hnes
        show (sk.pageinfo f).owner.toNat < L.NPROC
          ∧ ((set_eax sk sk.current (toU32 (-1))).processes
              (sk.pageinfo f).owner.toNat).p_state ≠ procstate.P_FREE
        rcases hok f with e | e
        · rw [e] at hpos2 hnes2
          obtain ⟨a, b⟩ := hol f hfn hpos2
          have hq : (s.pageinfo f).owner.toNat ≠ slot := by
            intro x
            apply hnes2
            omega
          rw [(set_eax_proc _ _ _ _).1]
          rw [e, hpo _ hq]
          exact ⟨a, b⟩
        · exact absurd e hnes2
    · -- success
      obtain ⟨slot', cp, s2, s4, hfs', hcp, hcpne, hloop, he, _⟩ := fork_success_shape h hrs
      have hss : slot' = slot := by
        rw [hfs] at hfs'; exact (Option.some.inj hfs').symm
      subst hss
      obtain ⟨l1, l2, hcpe, hl1, hl2, hne12, hr2, finv0, inv0, acc0, hf0, hpo, hpk, hcur⟩ :=
        entry s2 cp hcp hcpne
      subst hcpe
      obtain ⟨hpar0, hps0, hpd0⟩ := parent _ hf0 hpo hcur
      obtain ⟨finv4, inv4, acc4⟩ :=
        (fork_loop_acc hN0 hN1 hl1 hl2 hne12 hr2 hslot0 hslot1 hpk hpar0 hps0 hpd0
          (by rw [hcur]; exact hc0) (by rw [hcur]; exact hcs) _ _ _ _ (by rw [hK])
          (fork_range_le hL).1 hloop finv0 inv0 (by rw [hK]; exact acc0)).1 _ rfl
      subst he
      have hfoot : Foot slot' s (fork_finish s4 slot') :=
        Foot_trans hf0 (Foot_trans inv4.iso.foot
          (Foot_of_eq rfl rfl : Foot slot' s4 (fork_finish s4 slot')))
      have hkne : ∀ f, (s.pageinfo f).owner = PO_KERNEL →
          (s.pageinfo f).owner ≠ PO_FREE ∧ (s.pageinfo f).owner ≠ (slot' : Int) := by
        intro f e
        rw [e]
        unfold PO_KERNEL PO_FREE
        omega
      have hst : ∀ p, p ≠ slot' →
          ((fork_finish s4 slot').processes p).p_state = (s.processes p).p_state
          ∧ ((fork_finish s4 slot').processes p).p_pagetable = (s.processes p).p_pagetable := by
        intro q hq
        rw [fork_finish_state, fork_finish_pagetable, inv4.iso.procs, hpo q hq]
        exact ⟨rfl, rfl⟩
      have hsl : ((fork_finish s4 slot').processes slot').p_state ≠ procstate.P_FREE := by
        rw [fork_finish_state, finv4.proc_child_state]
        decide
      have hlc : live_count L (fork_finish s4 slot') = live_count L s + 1 :=
        live_count_claim hslotN (fun p hp => (hst p hp).1) hsfree hsl
      refine ⟨?_, ?_, ?_, ?_⟩
      · refine KTab_keep kt (fun f e => ?_) (fun f e => ?_)
        · exact finv4.mem_old f (hkern f e)
        · rw [(hfoot f (hkne f e).1 (hkne f e).2).1]
          exact e
      · intro p hp
        by_cases e : p = slot'
        · subst e
          exact ⟨l1, l2, ProcIso_frame inv4.iso.iso (fork_finish_pagetable _ _ _)
            (fun f _ => rfl) (fun f ho => ho), acc4.diag⟩
        · exact LiveDiag_others hfoot hi.2 hd hst p e hp
      · rw [hlc]
        intro f
        refine ⟨(acc4.rc f).1, ?_, (acc4.rc f).2.2⟩
        have := (acc4.rc f).2.1
        show (s4.pageinfo f).refcount ≤ _
        push_cast
        split_ifs at this <;> omega
      · intro hol f hfn hpos
        have hpos2 : 0 < (s4.pageinfo f).owner := hpos
        show (s4.pageinfo f).owner.toNat < L.NPROC
          ∧ ((fork_finish s4 slot').processes (s4.pageinfo f).owner.toNat).p_state
              ≠ procstate.P_FREE
        rcases acc4.own f with e | e
        · rw [e] at hpos2
          obtain ⟨a, b⟩ := hol f hfn hpos2
          rw [e]
          refine ⟨a, ?_⟩
          by_cases x : (s.pageinfo f).owner.toNat = slot'
          · rw [x]; exact hsl
          · rw [(hst _ x).1]; exact b
        · rw [e]
          rw [Int.toNat_ofNat]
          exact ⟨hslotN, hsl⟩

/-! ### The dispatcher and the refcounts -/

theorem live_count_same {L : Layout} {s s1 : KState}
    (h : ∀ p, (s1.processes p).p_state ≠ procstate.P_FREE ↔
      (s.processes p).p_state ≠ procstate.P_FREE) :
    live_count L s1 = live_count L s :=
  Nat.le_antisymm (live_count_mono (fun p hp => (h p).1 hp))
    (live_count_mono (fun p hp => (h p).2 hp))

/-- The `switch` of `exception` keeps the kernel page table, the read-only
entries of live address spaces and the liveness of owners, and leaves no
refcount above the number of live processes (or above 1 when the last process
has exited). -/
theorem exception_switch_acc {L : Layout} (hL : L.WF) (hP : L.MEMSIZE_PHYSICAL ≤ 0x400000)
    {k1 k2 : Nat} {s : KState} {reg : x86_registers}
    {d : Dispatch} (h : exception_switch L s reg = some d) (k : TabInv L s)
    (a : AccInv L k1 k2 s) :
    ∀ s1, d = Dispatch.handled s1 ∨ d = Dispatch.transferred s1 →
      KTab L k1 k2 s1 ∧ LiveDiag L s1
      ∧ RcBound L s1.pageinfo (max 1 (live_count L s1 : Int))
      ∧ (OwnLive L s → OwnLive L s1) := by
  have kinv := k.iso.kinv
  have hN : 0 < L.NPROC := by have := hL.nproc_gt; omega
  have hN2 := hL.nproc_le
  have hc0 : 0 < s.current := Nat.pos_of_ne_zero (KInv_current_pos kinv)
  have hc1 := kinv.cur_lt
  have hcl : (s.processes s.current).p_state ≠ procstate.P_FREE := by
    rw [kinv.cur_run]; decide
  have hpid : (s.processes s.current).p_pid = s.current := kinv.procs.1 _
  have hB : (1 : Int) ≤ (live_count L s : Int) := by
    exact_mod_cast live_count_pos hc1 hcl
  have hid := KTab_identity hP a.ktab
  have hkne : ∀ f, (s.pageinfo f).owner = PO_KERNEL →
      (s.pageinfo f).owner ≠ PO_FREE ∧ (s.pageinfo f).owner ≠ (s.current : Int) := by
    intro f e
    rw [e]
    unfold PO_KERNEL PO_FREE
    omega
  have same : ∀ s2 : KState, s2.mem = s.mem → s2.pageinfo = s.pageinfo →
      (∀ p, (s2.processes p).p_state ≠ procstate.P_FREE ↔
        (s.processes p).p_state ≠ procstate.P_FREE) →
      (∀ p, (s2.processes p).p_pagetable = (s.processes p).p_pagetable) →
      KTab L k1 k2 s2 ∧ LiveDiag L s2
      ∧ RcBound L s2.pageinfo (max 1 (live_count L s2 : Int))
      ∧ (OwnLive L s → OwnLive L s2) := by
    intro s2 e1 e2 e3 e4
    refine ⟨KTab_of_same a.ktab e1 e2,
      LiveDiag_of_same e1 e2 (fun p hp => (e3 p).1 hp) e4 a.diag, ?_, ?_⟩
    · rw [e2, live_count_same e3]
      exact RcBound_mono (le_max_right _ _) a.rc
    · intro hol f hf hpos
      rw [e2] at hpos ⊢
      obtain ⟨x, y⟩ := hol f hf hpos
      exact ⟨x, (e3 _).2 y⟩
  unfold exception_switch at h
  dsimp only at h
  split at h
  · cases h
  split at h
  · cases h
    intro s1 e
    rcases e with e | e
    · cases e
      exact same _ rfl rfl (fun p => by rw [(set_eax_proc _ _ _ _).1])
        (fun p => (set_eax_proc _ _ _ _).2.2)
    · cases e
  split at h
  · cases hs : schedule L s with
    | none => rw [hs] at h; cases h
    | some s2 =>
      rw [hs] at h
      cases h
      obtain ⟨h1, h2, h3, _, _⟩ := schedule_inv hN hs
      intro s1 e
      rcases e with e | e
      · cases e
      · cases e; exact same _ h3 h1 (fun p => by rw [h2]) (fun p => by rw [h2])
  split at h
  · -- page allocation
    obtain ⟨l1, l2, hiso, hdg⟩ := a.diag s.current hcl
    rw [hpid] at h
    have hownc : ∀ f, ((physical_page_alloc L s.pageinfo (find_free_page L s.pageinfo)
          (toInt8 (s.current : Int))).1 f).owner = (s.pageinfo f).owner
        ∨ ((physical_page_alloc L s.pageinfo (find_free_page L s.pageinfo)
          (toInt8 (s.current : Int))).1 f).owner = (s.current : Int) := by
      rw [toInt8_pid (show s.current ≤ 127 by omega)]
      exact @OwnTrack_alloc L s.current s s.pageinfo (fun f => Or.inl rfl) _
    have hol2 : OwnLive L s → ∀ f, f < NPAGES L →
        0 < ((physical_page_alloc L s.pageinfo (find_free_page L s.pageinfo)
          (toInt8 (s.current : Int))).1 f).owner →
        ((physical_page_alloc L s.pageinfo (find_free_page L s.pageinfo)
          (toInt8 (s.current : Int))).1 f).owner.toNat < L.NPROC
        ∧ (s.processes ((physical_page_alloc L s.pageinfo (find_free_page L s.pageinfo)
          (toInt8 (s.current : Int))).1 f).owner.toNat).p_state ≠ procstate.P_FREE := by
      intro hol f hf hpos
      rcases hownc f with e | e
      · rw [e] at hpos ⊢
        exact hol f hf hpos
      · rw [e, Int.toNat_ofNat]
        exact ⟨hc1, hcl⟩
    split at h
    · rename_i hge
      have hne : (physical_page_alloc L s.pageinfo (find_free_page L s.pageinfo)
          (toInt8 (s.current : Int))).2 ≠ -1 := by omega
      split at h
      · cases h
      · rename_i m1 hmap
        cases h
        rw [hiso.pt_eq] at hmap
        obtain ⟨a1, b⟩ := @alloc_map_step L s
          (set_eax { s with
            pageinfo := (physical_page_alloc L s.pageinfo (find_free_page L s.pageinfo)
              (toInt8 (s.current : Int))).1, mem := m1 } s.current
            (toU32 (physical_page_alloc L s.pageinfo (find_free_page L s.pageinfo)
              (toInt8 (s.current : Int))).2))
          s.current l1 l2 _ _ _ s.mem m1 hc0 (by omega) hiso kinv.ref hne (fun f _ => rfl) hmap
          ((set_eax_proc _ _ _ _).2.2) rfl (fun f _ => rfl)
        obtain ⟨hm, hal, hperm⟩ := map_own_page hiso.l1_lt hiso.l2_lt hiso.mem_l1 hmap
        intro s1 e
        rcases e with e | e
        · cases e
          refine ⟨?_, fun p hp => ?_, ?_, fun hol f hf hpos => ?_⟩
          · refine KTab_keep a.ktab (fun f e => ?_) (fun f e => ?_)
            · show m1 f = s.mem f
              rw [hm, Function.update_noteq]
              intro x
              rw [x, hiso.own_l2] at e
              exact (hkne l2 (by rw [hiso.own_l2]; exact e)).2 hiso.own_l2
            · rw [(b f (hkne f e).1 (hkne f e).2).1]
              exact e
          · by_cases ep : p = s.current
            · subst ep
              refine ⟨l1, l2, a1, ?_⟩
              show RoDiag L (m1 l2)
              rw [hm, Function.update_same]
              refine RoDiag_update hdg _ _ (fun _ _ hw0 => ?_)
              exfalso
              rw [if_pos (show (PTE_P ||| PTE_W ||| PTE_U) &&& PTE_P ≠ 0 by decide),
                flags_writable hal hperm] at hw0
              exact absurd hw0 (by decide)
            · exact LiveDiag_others b kinv.procs.2 a.diag
                (fun q _ => ⟨(set_eax_proc _ _ _ _).1, (set_eax_proc _ _ _ _).2.2⟩) p ep hp
          · have hlc : live_count L (set_eax { s with
                pageinfo := (physical_page_alloc L s.pageinfo (find_free_page L s.pageinfo)
                  (toInt8 (s.current : Int))).1, mem := m1 } s.current
                (toU32 (physical_page_alloc L s.pageinfo (find_free_page L s.pageinfo)
                  (toInt8 (s.current : Int))).2)) = live_count L s :=
              live_count_congr (fun p => (set_eax_proc _ _ _ _).1)
            rw [hlc]
            exact RcBound_mono (le_max_right _ _) (RcBound_alloc hB a.rc _ _)
          · obtain ⟨x, y⟩ := hol2 hol f hf hpos
            refine ⟨x, ?_⟩
            rw [(set_eax_proc _ _ _ _).1]
            exact y
        · cases e
    · rename_i hlt
      cases h
      have hfail : (physical_page_alloc L s.pageinfo (find_free_page L s.pageinfo)
          (toInt8 (s.current : Int))).2 = -1 := by
        rcases physical_page_alloc_ret L s.pageinfo (find_free_page L s.pageinfo)
          (toInt8 (s.current : Int)) with e | e
        · exact e
        · rw [e] at hlt; exact absurd (by decide) hlt
      have hpi := physical_page_alloc_fail hfail
      intro s1 e
      rcases e with e | e
      · cases e
        exact same _ rfl hpi (fun p => by rw [(set_eax_proc _ _ _ _).1])
          (fun p => (set_eax_proc _ _ _ _).2.2)
      · cases e
  split at h
  · cases hs : schedule L { s with ticks := (s.ticks + 1) % WORD } with
    | none => rw [hs] at h; cases h
    | some s2 =>
      rw [hs] at h
      cases h
      obtain ⟨h1, h2, h3, _, _⟩ := schedule_inv hN hs
      intro s1 e
      rcases e with e | e
      · cases e
      · cases e; exact same _ h3 h1 (fun p => by rw [h2]) (fun p => by rw [h2])
  split at h
  · cases hf : fork L s with
    | none => rw [hf] at h; cases h
    | some p =>
      obtain ⟨s2, r⟩ := p
      rw [hf] at h
      cases h
      obtain ⟨x1, x2, x3, x4⟩ := fork_acc hL hP hf k a.ktab a.diag a.rc
      intro s1 e
      rcases e with e | e
      · cases e; exact ⟨x1, x2, RcBound_mono (le_max_right _ _) x3, x4⟩
      · cases e
  split at h
  · rw [hpid] at h
    cases hs : sys_exit L s s.current with
    | none => rw [hs] at h; cases h
    | some s2 =>
      rw [hs] at h
      cases h
      have hfoot := sys_exit_foot hs
      obtain ⟨_, hm1, _, hp1⟩ := sys_exit_frame hs
      have hst : ∀ q, q ≠ s.current → (s2.processes q).p_state = (s.processes q).p_state
          ∧ (s2.processes q).p_pagetable = (s.processes q).p_pagetable := by
        intro q hq
        rw [hp1, Function.update_noteq hq]
        exact ⟨rfl, rfl⟩
      have hsl : (s2.processes s.current).p_state = procstate.P_FREE := by
        rw [hp1, Function.update_same]
      have hlc : live_count L s = live_count L s2 + 1 :=
        live_count_release hc1 (fun p hp => (hst p hp).1) hcl hsl
      intro s1 e
      rcases e with e | e
      · cases e
        refine ⟨?_, fun p hp => ?_, ?_, fun hol => ?_⟩
        · refine KTab_keep a.ktab (fun f e => by rw [hm1]) (fun f e => ?_)
          rw [(hfoot f (hkne f e).1 (hkne f e).2).1]
          exact e
        · by_cases ep : p = s.current
          · rw [ep] at hp
            exact absurd hsl hp
          · exact LiveDiag_others hfoot kinv.procs.2 a.diag hst p ep hp
        · have hrc := a.rc
          rw [hlc] at hrc
          by_cases h0 : live_count L s2 = 0
          · rw [h0] at hrc ⊢
            exact sys_exit_rcbound hid hs (le_refl _)
              (RcBound_mono (by norm_num) hrc)
          · have h1 : (1 : Int) ≤ (live_count L s2 : Int) := by omega
            rw [max_eq_right h1]
            refine sys_exit_rcbound hid hs h1 ?_
            push_cast at hrc
            exact hrc
        · exact sys_exit_ownlive hc0 hid hs (fun f hf hpos _ => hol f hf hpos)
      · cases e
  split at h
  · split at h
    · cases h
    · cases h
      intro s1 e
      rcases e with e | e
      · cases e
        refine same _ rfl rfl (fun p => ?_) (fun p => (set_state_proc _ _ _ _).1)
        by_cases ep : p = s.current
        · rw [ep]
          refine ⟨fun _ => hcl, fun _ => ?_⟩
          unfold set_state set_proc
          simp only [Function.update_same]
          decide
        · rw [(set_state_proc _ _ _ _).2 ep]
      · cases e
  · cases h

/-- The function `exception` keeps the accounting invariant and the liveness
of owners. -/
theorem exception_acc {L : Layout} (hL : L.WF) (hP : L.MEMSIZE_PHYSICAL ≤ 0x400000)
    {k1 k2 : Nat} {s s1 : KState} {reg : x86_registers}
    (h : exception L s reg = some s1) (k : TabInv L s) (a : AccInv L k1 k2 s) :
    AccInv L k1 k2 s1 ∧ (OwnLive L s → OwnLive L s1) := by
  have hN : 0 < L.NPROC := by have := hL.nproc_gt; omega
  have k1inv := (exception_iso hL h k.iso).kinv
  have hlive1 : (1 : Int) ≤ (live_count L s1 : Int) := by
    have : (s1.processes s1.current).p_state ≠ procstate.P_FREE := by
      rw [k1inv.cur_run]; decide
    exact_mod_cast live_count_pos k1inv.cur_lt this
  have k0 : TabInv L (set_registers s s.current reg) :=
    ⟨⟨⟨k.iso.kinv.ref, ProcInv_set_registers _ _ k.iso.kinv.procs, k.iso.kinv.cur_lt, by
      show ((set_registers s s.current reg).processes s.current).p_state = _
      rw [(set_registers_proc _ _ _ _).1]; exact k.iso.kinv.cur_run⟩, k.iso.console_rec,
      LiveIso_set_registers _ _ k.iso.live⟩, k.low, LiveTab_set_registers _ _ k.tab⟩
  have a0 : AccInv L k1 k2 (set_registers s s.current reg) :=
    ⟨KTab_of_same a.ktab rfl rfl,
      @LiveDiag_of_same L s (set_registers s s.current reg) rfl rfl
        (fun p hp => by rw [(set_registers_proc _ _ _ _).1] at hp; exact hp)
        (fun p => (set_registers_proc _ _ _ _).2.2) a.diag, by
      rw [live_count_congr (fun p => (set_registers_proc s s.current reg p).1)]
      exact a.rc⟩
  have o0 : OwnLive L s → OwnLive L (set_registers s s.current reg) := by
    intro hol f hf hpos
    obtain ⟨x, y⟩ := hol f hf hpos
    refine ⟨x, ?_⟩
    rw [(set_registers_proc _ _ _ _).1]
    exact y
  unfold exception at h
  dsimp only at h
  split at h
  · cases h
  · cases hd : exception_switch L (set_registers s s.current reg) reg with
    | none => rw [hd] at h; cases h
    | some d =>
      rw [hd] at h
      have hsw := exception_switch_acc hL hP hd k0 a0
      cases d with
      | transferred s2 =>
        dsimp only at h
        cases h
        obtain ⟨x1, x2, x3, x4⟩ := hsw _ (Or.inr rfl)
        rw [max_eq_right hlive1] at x3
        exact ⟨⟨x1, x2, x3⟩, fun hol => x4 (o0 hol)⟩
      | handled s2 =>
        dsimp only at h
        obtain ⟨x1, x2, x3, x4⟩ := hsw _ (Or.inl rfl)
        have same : s1.pageinfo = s2.pageinfo ∧ s1.processes = s2.processes
            ∧ s1.mem = s2.mem := by
          split at h
          · obtain ⟨h1, h2, h3, _, _⟩ := run_inv h
            exact ⟨h1, h2, h3⟩
          · obtain ⟨h1, h2, h3, _, _⟩ := schedule_inv hN h
            exact ⟨h1, h2, h3⟩
        obtain ⟨e1, e2, e3⟩ := same
        have hlc : live_count L s1 = live_count L s2 :=
          live_count_congr (fun p => by rw [e2])
        rw [← hlc, max_eq_right hlive1, ← e1] at x3
        refine ⟨⟨KTab_of_same x1 e3 e1,
          LiveDiag_of_same e3 e1 (fun p hp => by rw [e2] at hp; exact hp)
            (fun p => by rw [e2]) x2, x3⟩, fun hol f hf hpos => ?_⟩
        rw [e1] at hpos ⊢
        rw [e2]
        exact x4 (o0 hol) f hf hpos

/-- A store of the running process changes one frame, which is the console page
or a frame of the running process other than its page tables. -/
theorem user_store_shape {L : Layout} {s s1 : KState} {va w l1 l2 : Nat}
    (h : user_store s va w = some s1) (hiso : ProcIso L s s.current l1 l2) :
    s1.pageinfo = s.pageinfo ∧ s1.processes = s.processes ∧ s1.current = s.current
    ∧ ∃ F, (∀ f, f ≠ F → s1.mem f = s.mem f)
      ∧ (F = PAGENUMBER L.console
        ∨ ((s.pageinfo F).owner = (s.current : Int) ∧ F ≠ l1 ∧ F ≠ l2)) := by
  unfold user_store at h
  dsimp only at h
  split at h
  · rename_i hw
    have hw' : UserWritable
        (virtual_memory_lookup s.mem (s.processes s.current).p_pagetable va).perm := hw
    rw [hiso.pt_eq] at hw' h
    have e := lookup_of_tables hiso.l1_lt hiso.l2_lt hiso.mem_l1 (UserWritable_ne_zero hw')
    rw [e] at hw' h
    dsimp only at hw' h
    rw [UserWritable_flags] at hw'
    have huser := hiso.user _ hw'
    have hF : PAGENUMBER (PTE_ADDR (s.mem l2 (L2PAGEINDEX va)) + PAGEOFFSET va)
        = PAGENUMBER (s.mem l2 (L2PAGEINDEX va)) := by
      rw [PAGENUMBER_add_lt (PTE_ADDR_aligned _)
        (by unfold PAGEOFFSET; exact Nat.mod_lt _ (by decide)), PAGENUMBER_PTE_ADDR]
    generalize PAGENUMBER (s.mem l2 (L2PAGEINDEX va)) = F at huser hF
    refine ⟨by rw [← Option.some.inj h], by rw [← Option.some.inj h],
      by rw [← Option.some.inj h], F, ?_, huser⟩
    intro f hf
    rw [← Option.some.inj h]
    exact write_word_other _ _ _ _ (by rw [hF]; exact hf)
  · cases h

/-- A store of the running process keeps the accounting invariant and the
liveness of owners. -/
theorem user_store_acc {L : Layout} {k1 k2 : Nat} {s s1 : KState} {va w : Nat}
    (h : user_store s va w = some s1) (k : TabInv L s) (a : AccInv L k1 k2 s) :
    AccInv L k1 k2 s1 ∧ (OwnLive L s → OwnLive L s1) := by
  have kinv := k.iso.kinv
  have hcon := k.iso.console_rec
  have hc0 : 0 < s.current := Nat.pos_of_ne_zero (KInv_current_pos kinv)
  have hcl : (s.processes s.current).p_state ≠ procstate.P_FREE := by
    rw [kinv.cur_run]; decide
  obtain ⟨l1, l2, hiso, hdg⟩ := a.diag s.current hcl
  obtain ⟨hpi, hpr, _, F, hother, huser⟩ := user_store_shape h hiso
  have hcne : ((s.current : Nat) : Int) ≠ PO_RESERVED := by unfold PO_RESERVED; omega
  have hF1 : l1 ≠ F := by
    intro x
    rcases huser with c | ⟨_, c, _⟩
    · rw [← x] at c; rw [← c, hiso.own_l1] at hcon; exact hcne hcon
    · exact c x.symm
  have hF2 : l2 ≠ F := by
    intro x
    rcases huser with c | ⟨_, _, c⟩
    · rw [← x] at c; rw [← c, hiso.own_l2] at hcon; exact hcne hcon
    · exact c x.symm
  have hfoot : Foot s.current s s1 := by
    intro f _ hfa
    refine ⟨by rw [hpi], fun hpos => hother f ?_⟩
    intro x
    rcases huser with c | ⟨c, _, _⟩
    · rw [x, c, hcon] at hpos
      exact absurd hpos (by decide)
    · rw [x] at hfa; exact hfa c
  refine ⟨⟨?_, fun p hp => ?_, ?_⟩, fun hol f hf hpos => ?_⟩
  · refine KTab_keep a.ktab (fun f e => hother f ?_) (fun f e => by rw [hpi]; exact e)
    intro x
    rcases huser with c | ⟨c, _, _⟩
    · rw [x, c, hcon] at e
      exact absurd e (by decide)
    · rw [x, c] at e
      unfold PO_KERNEL at e
      omega
  · by_cases ep : p = s.current
    · subst ep
      exact ⟨l1, l2, ProcIso_update hiso (by rw [hpr]) (hother l1 hF1)
        (fun f ho => by rw [hpi]; exact ho) (fun j => Or.inl (by rw [hother l2 hF2])),
        by rw [hother l2 hF2]; exact hdg⟩
    · exact LiveDiag_others hfoot kinv.procs.2 a.diag
        (fun q _ => by rw [hpr]; exact ⟨rfl, rfl⟩) p ep hp
  · rw [hpi, (live_count_congr (fun p => by rw [hpr]) : live_count L s1 = live_count L s)]
    exact a.rc
  · rw [hpi] at hpos ⊢
    rw [hpr]
    exact hol f hf hpos

/-! ### Boot and the refcounts -/

theorem kernel_owner_ne {o : Int} (a : Nat) (e : o = PO_KERNEL) :
    o ≠ PO_FREE ∧ o ≠ (a : Int) := by
  rw [e]
  unfold PO_KERNEL PO_FREE
  omega

/-- The function `copy_pagetable` leaves the kernel page table alone. -/
theorem copy_pagetable_ktab {L : Layout} (hL : L.WF) {k1 k2 : Nat} {s s2 : KState}
    {pt a cp : Nat} (h : copy_pagetable L s pt a = some (s2, cp))
    (ho : toInt8 (a : Int) ≠ 0) (hr : RefInv s.pageinfo) (k : KTab L k1 k2 s) :
    KTab L k1 k2 s2 := by
  have hf := copy_pagetable_foot hL h ho hr
  refine KTab_keep k (fun f e => ?_) (fun f e => ?_)
  · by_cases hc : cp = UINTPTR_MINUS_ONE
    · rw [hc] at h
      rw [copy_pagetable_fail h]
    · obtain ⟨l1, l2, _, _, _, _, _, _, _, o1, o2, _, hmo, _⟩ := copy_pagetable_success hL h hc
      apply hmo
      · intro x
        rw [x, o1] at e
        exact (kernel_owner_ne 0 e).1 rfl
      · intro x
        rw [x, o2] at e
        exact (kernel_owner_ne 0 e).1 rfl
  · rw [(hf f (kernel_owner_ne a e).1 (kernel_owner_ne a e).2).1]
    exact e

theorem L2PAGEINDEX_page {va : Nat} (ha : va % PAGESIZE = 0) (hlt : va < 0x400000) :
    L2PAGEINDEX va * PAGESIZE = va := by
  unfold L2PAGEINDEX PAGETABLE_NENTRIES PAGESHIFT
  rw [Nat.shiftRight_eq_div_pow]
  unfold PAGESIZE at *
  omega

/-- The program loader leaves the kernel page table alone, maps read-only pages
to the frame of the same number, and allocates frames with one reference. -/
theorem program_load_pages_acc {L : Layout} (hP : L.MEMSIZE_PHYSICAL ≤ 0x400000)
    {pid l1 l2 k1 k2 : Nat} {s0 : KState} (h0 : 0 < pid) (h1 : pid ≤ 127)
    (pages : List ProgramPage) :
    ∀ (s s1 : KState) (r : Int), program_load_pages L pid pages s = some (s1, r) →
      (s.processes pid).p_pid = pid → RefInv s.pageinfo → ProcIso L s pid l1 l2 →
      KTab L k1 k2 s → RoDiag L (s.mem l2) → RcBound L s.pageinfo 1 → OwnTrack pid s0 s →
      KTab L k1 k2 s1 ∧ RoDiag L (s1.mem l2) ∧ RcBound L s1.pageinfo 1
      ∧ OwnTrack pid s0 s1 := by
  induction pages with
  | nil =>
    intro s s1 r h _ _ _ kt hd hb hot
    simp [program_load_pages] at h
    rw [← h.1]
    exact ⟨kt, hd, hb, hot⟩
  | cons pg rest ih =>
    intro s s1 r h hpid hr hiso kt hd hb hot
    unfold program_load_pages at h
    dsimp only at h
    rw [hpid] at h
    split at h
    · cases h
      exact ⟨kt, hd, hb, hot⟩
    · rename_i hge
      split at h
      · cases h
      · rename_i m1 hmap
        have hne : (physical_page_alloc L s.pageinfo pg.va (toInt8 (pid : Int))).2 ≠ -1 := by
          omega
        rw [hiso.pt_eq] at hmap
        have hpe : (if pg.writable = true then PTE_P ||| PTE_W ||| PTE_U
            else PTE_P ||| PTE_U) = PTE_P ||| PTE_W ||| PTE_U
          ∨ (if pg.writable = true then PTE_P ||| PTE_W ||| PTE_U
            else PTE_P ||| PTE_U) = PTE_P ||| PTE_U := by
          split_ifs
          · exact Or.inl rfl
          · exact Or.inr rfl
        generalize (if pg.writable = true then PTE_P ||| PTE_W ||| PTE_U
          else PTE_P ||| PTE_U) = perm at hmap hpe
        obtain ⟨a, _⟩ := @alloc_map_step L s
          { s with
            pageinfo := (physical_page_alloc L s.pageinfo pg.va (toInt8 (pid : Int))).1,
            mem := Function.update m1 (PAGENUMBER pg.va) pg.contents }
          pid l1 l2 pg.va pg.va _ s.mem m1 h0 h1 hiso hr hne (fun f _ => rfl) hmap rfl rfl
          (fun f hf => Function.update_noteq hf _ _)
        obtain ⟨hm, hal, hperm⟩ := map_own_page hiso.l1_lt hiso.l2_lt hiso.mem_l1 hmap
        obtain ⟨_, hlt, hrc, hupd⟩ := physical_page_alloc_ok hne
        have hfree : (s.pageinfo (PAGENUMBER pg.va)).owner = PO_FREE := ((hr _).1).mp hrc
        have hl2ne : l2 ≠ PAGENUMBER pg.va := by
          intro x
          rw [← x, hiso.own_l2] at hfree
          unfold PO_FREE at hfree
          omega
        refine ih _ _ _ h hpid (physical_page_alloc_refinv (toInt8_pid_ne_zero h0 h1) hr) a
          ?_ ?_ (RcBound_alloc (le_refl _) hb _ _) ?_
        · have hfne : ∀ f, (s.pageinfo f).owner = PO_KERNEL → f ≠ PAGENUMBER pg.va := by
            intro f e x
            rw [x, hfree] at e
            exact (kernel_owner_ne 0 e).1 rfl
          refine KTab_keep kt (fun f e => ?_) (fun f e => ?_)
          · show Function.update m1 (PAGENUMBER pg.va) pg.contents f = s.mem f
            rw [Function.update_noteq (hfne f e), hm, Function.update_noteq]
            intro x
            rw [x, hiso.own_l2] at e
            exact (kernel_owner_ne pid e).2 rfl
          · show ((physical_page_alloc L s.pageinfo pg.va (toInt8 (pid : Int))).1 f).owner
              = PO_KERNEL
            rw [hupd, Function.update_noteq (hfne f e)]
            exact e
        · show RoDiag L (Function.update m1 (PAGENUMBER pg.va) pg.contents l2)
          rw [Function.update_noteq hl2ne, hm, Function.update_same]
          refine RoDiag_update hd _ _ (fun _ hp hw => ?_)
          rcases hpe with e | e
          · exfalso
            rw [e, if_pos (show (PTE_P ||| PTE_W ||| PTE_U) &&& PTE_P ≠ 0 by decide),
              flags_writable hal (by decide)] at hw
            exact absurd hw (by decide)
          · rw [e, if_pos (show (PTE_P ||| PTE_U) &&& PTE_P ≠ 0 by decide),
              L2PAGEINDEX_page hal (by omega)]
        · show ∀ f, ((physical_page_alloc L s.pageinfo pg.va (toInt8 (pid : Int))).1 f).owner
              = (s0.pageinfo f).owner
            ∨ ((physical_page_alloc L s.pageinfo pg.va (toInt8 (pid : Int))).1 f).owner
              = (pid : Int)
          rw [toInt8_pid h1]
          exact OwnTrack_alloc hot _

theorem program_load_acc {L : Layout} (hP : L.MEMSIZE_PHYSICAL ≤ 0x400000) {env : Env}
    {s s1 s0 : KState} {pid n l1 l2 k1 k2 : Nat} {r : Int}
    (h0 : 0 < pid) (h1 : pid ≤ 127)
    (h : program_load L env s pid n = some (s1, r))
    (hpid : (s.processes pid).p_pid = pid) (hr : RefInv s.pageinfo)
    (hiso : ProcIso L s pid l1 l2) (kt : KTab L k1 k2 s) (hd : RoDiag L (s.mem l2))
    (hb : RcBound L s.pageinfo 1) (hot : OwnTrack pid s0 s) :
    KTab L k1 k2 s1 ∧ RoDiag L (s1.mem l2) ∧ RcBound L s1.pageinfo 1
    ∧ OwnTrack pid s0 s1 := by
  unfold program_load at h
  split at h
  · cases h
  · rename_i s2 r2 hp
    obtain ⟨a, b, c, d⟩ := program_load_pages_acc hP h0 h1 _ _ _ _ hp hpid hr hiso kt hd hb hot
    split at h
    · cases h; exact ⟨a, b, c, d⟩
    · cases h; exact ⟨KTab_of_same a rfl rfl, b, c, d⟩

/-- The function `process_setup(pid, n)`, called for a free descriptor, keeps
the kernel page table and the read-only entries of live address spaces, leaves
every refcount at 0 or 1, and changes owners only to `pid`. -/
theorem process_setup_acc {L : Layout} (hL : L.WF) (hP : L.MEMSIZE_PHYSICAL ≤ 0x400000)
    {env : Env} {k1 k2 : Nat} {s s1 : KState} {pid n : Nat}
    (h : process_setup L env s pid n = some s1) (h1 : 1 ≤ pid) (h2 : pid ≤ 127)
    (hr : RefInv s.pageinfo) (hi : ProcInv s)
    (hfree : (s.processes pid).p_state = procstate.P_FREE)
    (kt : KTab L k1 k2 s) (hd : LiveDiag L s) (hb : RcBound L s.pageinfo 1) :
    KTab L k1 k2 s1 ∧ LiveDiag L s1 ∧ RcBound L s1.pageinfo 1 ∧ OwnTrack pid s s1 := by
  have ho : toInt8 (pid : Int) ≠ 0 := toInt8_pid_ne_zero h1 h2
  have finish : ∀ sx : KState, Foot pid s sx →
      (∀ q, q ≠ pid → sx.processes q = s.processes q) →
      ((sx.processes pid).p_state ≠ procstate.P_FREE →
        ∃ l1 l2, ProcIso L sx pid l1 l2 ∧ RoDiag L (sx.mem l2)) →
      LiveDiag L sx := by
    intro sx hf hq hp p hpl
    by_cases e : p = pid
    · subst e; exact hp hpl
    · exact LiveDiag_others hf hi.2 hd (fun q hqq => by rw [hq q hqq]; exact ⟨rfl, rfl⟩) p e hpl
  unfold process_setup at h
  dsimp only at h
  split at h
  · cases h
  · rename_i s2 pt hcp
    have hp2 := (copy_pagetable_frame hcp).1
    have hf2 : Foot pid s s2 :=
      Foot_trans (Foot_of_eq rfl rfl : Foot pid s (set_registers s pid env.init_registers))
        (copy_pagetable_foot hL hcp ho hr)
    have hr2 : RefInv s2.pageinfo := copy_pagetable_refinv hcp ho hr
    have kt2 : KTab L k1 k2 s2 := copy_pagetable_ktab hL hcp ho hr
      (KTab_of_same kt rfl rfl : KTab L k1 k2 (set_registers s pid env.init_registers))
    obtain ⟨hb2, hot2⟩ := copy_pagetable_acc hcp (toInt8_pid h2) (le_refl _)
      (show RcBound L (set_registers s pid env.init_registers).pageinfo 1 from hb)
    have hot2s : OwnTrack pid s s2 := fun f => hot2 f
    have hq2 : ∀ q, q ≠ pid → (set_pagetable_of s2 pid pt).processes q = s.processes q := by
      intro q hq
      rw [set_pagetable_of_other _ _ hq, hp2, set_registers_other _ _ hq]
    have hst2 : ((set_pagetable_of s2 pid pt).processes pid).p_state = procstate.P_FREE := by
      rw [(set_pagetable_of_proc _ _ _ _).1, hp2, (set_registers_proc _ _ _ _).1]
      exact hfree
    have hpid2 : ((set_pagetable_of s2 pid pt).processes pid).p_pid = pid := by
      rw [(set_pagetable_of_proc _ _ _ _).2, hp2, (set_registers_proc _ _ _ _).2.1]
      exact hi.1 pid
    split at h
    · cases h
      exact ⟨KTab_of_same kt2 rfl rfl,
        finish _ (Foot_trans hf2 (Foot_of_eq rfl rfl)) hq2 (fun hp => absurd hst2 hp),
        hb2, fun f => hot2 f⟩
    · rename_i hpt
      obtain ⟨l1, l2, hiso2⟩ := copy_pagetable_iso hL hcp hpt h2
      have hd2 := copy_pagetable_diag hL hcp hpt l1 l2 hiso2
      split at h
      · cases h
      · rename_i s3 r3 hpl
        split at h
        · cases h
        · obtain ⟨hiso3, hf3, hq3, hst3⟩ := program_load_iso h1 h2 hpl hpid2 hr2 hiso2
          obtain ⟨hr3, hi3, _⟩ := program_load_inv hpl (by rw [hpid2]; exact ho) hr2
            (ProcInv_set_pagetable_of pid pt (ProcInv_congr hp2
              (ProcInv_set_registers pid env.init_registers hi)))
          obtain ⟨kt3, hd3, hb3, hot3⟩ := program_load_acc hP h1 h2 hpl hpid2 hr2 hiso2
            (KTab_of_same kt2 rfl rfl : KTab L k1 k2 (set_pagetable_of s2 pid pt))
            (show RoDiag L ((set_pagetable_of s2 pid pt).mem l2) from hd2)
            (show RcBound L (set_pagetable_of s2 pid pt).pageinfo 1 from hb2)
            (show OwnTrack pid s (set_pagetable_of s2 pid pt) from fun f => hot2 f)
          split at h
          · cases h
          · rename_i m5 hmap
            cases h
            generalize hs4 : set_registers s3 pid
              { (s3.processes pid).p_registers with reg_esp := L.MEMSIZE_VIRTUAL } = s4 at *
            have hiso4 : ProcIso L s4 pid l1 l2 := by
              rw [← hs4]; exact ProcIso_set_registers _ _ hiso3
            have hr4 : RefInv s4.pageinfo := by rw [← hs4]; exact hr3
            have kt4 : KTab L k1 k2 s4 := by rw [← hs4]; exact KTab_of_same kt3 rfl rfl
            have hd4 : RoDiag L (s4.mem l2) := by rw [← hs4]; exact hd3
            have hb4 : RcBound L s4.pageinfo 1 := by rw [← hs4]; exact hb3
            have hot4 : OwnTrack pid s s4 := by rw [← hs4]; exact fun f => hot3 f
            have hq4 : ∀ q, q ≠ pid → s4.processes q = s.processes q := by
              intro q hq
              rw [← hs4, set_registers_other _ _ hq, hq3 q hq, hq2 q hq]
            have hf4 : Foot pid s s4 := by
              rw [← hs4]
              exact Foot_trans hf2 (Foot_trans (Foot_of_eq rfl rfl)
                (Foot_trans hf3 (Foot_of_eq rfl rfl)))
            rw [hiso4.pt_eq] at hmap
            have hal := (virtual_memory_map_single hmap).2.2.1
            have hne : find_free_page L s4.pageinfo ≠ UINTPTR_MINUS_ONE := by
              intro x
              rw [x] at hal
              exact absurd hal (by decide)
            have hok := alloc_free_page_ok hL hr4 (toInt8 (pid : Int)) hne
            obtain ⟨a, b⟩ := @alloc_map_step L s4
              (set_state { s4 with
                pageinfo := (physical_page_alloc L s4.pageinfo (find_free_page L s4.pageinfo)
                  (toInt8 (pid : Int))).1, mem := m5 } pid procstate.P_RUNNABLE)
              pid l1 l2 _ _ _ s4.mem m5 h1 h2 hiso4 hr4 hok (fun f _ => rfl) hmap
              ((set_state_proc _ _ _ _).1) rfl (fun f _ => rfl)
            obtain ⟨hm, hal5, hperm⟩ := map_own_page hiso4.l1_lt hiso4.l2_lt hiso4.mem_l1 hmap
            refine ⟨?_, finish _ (Foot_trans hf4 b) ?_ (fun _ => ⟨l1, l2, a, ?_⟩),
              RcBound_alloc (le_refl _) hb4 _ _, ?_⟩
            · refine KTab_keep kt4 (fun f e => ?_) (fun f e => ?_)
              · show m5 f = s4.mem f
                rw [hm, Function.update_noteq]
                intro x
                rw [x, hiso4.own_l2] at e
                exact (kernel_owner_ne pid e).2 rfl
              · rw [(b f (kernel_owner_ne pid e).1 (kernel_owner_ne pid e).2).1]
                exact e
            · intro q hq
              unfold set_state set_proc
              dsimp only
              rw [Function.update_noteq hq]
              exact hq4 q hq
            · show RoDiag L (m5 l2)
              rw [hm, Function.update_same]
              refine RoDiag_update hd4 _ _ (fun _ _ hw0 => ?_)
              exfalso
              rw [if_pos (show (PTE_P ||| PTE_W ||| PTE_U) &&& PTE_P ≠ 0 by decide),
                flags_writable hal5 hperm] at hw0
              exact absurd hw0 (by decide)
            · show ∀ f, ((physical_page_alloc L s4.pageinfo (find_free_page L s4.pageinfo)
                  (toInt8 (pid : Int))).1 f).owner = (s.pageinfo f).owner
                ∨ ((physical_page_alloc L s4.pageinfo (find_free_page L s4.pageinfo)
                  (toInt8 (pid : Int))).1 f).owner = (pid : Int)
              rw [toInt8_pid h2]
              exact OwnTrack_alloc hot4 _

theorem kernel_setup_loop_acc {L : Layout} (hL : L.WF) (hP : L.MEMSIZE_PHYSICAL ≤ 0x400000)
    {env : Env} {k1 k2 : Nat} (fuel : Nat) :
    ∀ (i : Nat) (s s1 : KState), kernel_setup_loop L env fuel i s = some s1 →
      1 ≤ i → i + fuel ≤ 128 → RefInv s.pageinfo → ProcInv s →
      (∀ j, i ≤ j → (s.processes j).p_state = procstate.P_FREE) →
      KTab L k1 k2 s → LiveDiag L s → RcBound L s.pageinfo 1 →
      KTab L k1 k2 s1 ∧ LiveDiag L s1 ∧ RcBound L s1.pageinfo 1 := by
  induction fuel with
  | zero =>
    intro i s s1 h _ _ _ _ _ kt hd hb
    simp [kernel_setup_loop] at h
    rw [← h]
    exact ⟨kt, hd, hb⟩
  | succ n ih =>
    intro i s s1 h h1 h2 hr hi hfree kt hd hb
    unfold kernel_setup_loop at h
    split at h
    · cases h
    · rename_i s2 hp
      obtain ⟨a, b, _⟩ := process_setup_inv hp h1 (by omega) hr hi
      obtain ⟨c, d, e, _⟩ := process_setup_acc hL hP hp h1 (by omega) hr hi
        (hfree i (le_refl _)) kt hd hb
      have g := (process_setup_desc hp).2.1
      exact ih _ _ _ h (by omega) (by omega) a b
        (fun j hj => by rw [g j (by omega)]; exact hfree j (by omega)) c d e

/-- Mapping a range of pages to themselves in the kernel page table keeps that
table an identity map. -/
theorem kernel_map_identity {L : Layout} {mem m1 : Memory} {k1 k2 v n perm N : Nat}
    (hk1 : k1 < 2 ^ 20) (hne : k1 ≠ k2) (hp : mem k1 0 &&& PTE_P ≠ 0)
    (hpd : PAGENUMBER (mem k1 0) = k2) (hv : v + n ≤ 1024) (hpp : perm &&& PTE_P ≠ 0)
    (hid : ∀ i, i < N → mem k2 i &&& PTE_P ≠ 0 ∧ PAGENUMBER (mem k2 i) = i)
    (h : virtual_memory_map L mem (PAGEADDRESS k1) (v * PAGESIZE) (v * PAGESIZE)
      (n * PAGESIZE) perm = some m1) :
    m1 k1 = mem k1
    ∧ ∀ i, i < N → m1 k2 i &&& PTE_P ≠ 0 ∧ PAGENUMBER (m1 k2 i) = i := by
  obtain ⟨_, hpa, hpal, hperm, _⟩ := virtual_memory_map_some h
  have hkk : PAGENUMBER (PAGEADDRESS k1) = k1 := PAGENUMBER_PAGEADDRESS hk1
  obtain ⟨m1x, e, ho, he⟩ := @virtual_memory_map_run L mem (PAGEADDRESS k1) v (v * PAGESIZE) n
    perm hv hpa hpal hperm (PAGEADDRESS_aligned k1) (by rw [hkk]; exact hp)
    (by rw [hkk, hpd]; exact hne.symm)
  rw [h] at e
  have e2 : m1 = m1x := Option.some.inj e
  rw [hkk, hpd] at ho he
  rw [e2]
  refine ⟨ho k1 hne, fun i hi => ?_⟩
  rw [he i]
  by_cases c : v ≤ i ∧ i < v + n
  · rw [if_pos c, if_pos hpp]
    have hal : (v * PAGESIZE + (i - v) * PAGESIZE) % PAGESIZE = 0 := by
      unfold PAGESIZE; omega
    refine ⟨by rw [pte_present hal hperm]; exact hpp, ?_⟩
    rw [PAGENUMBER_pte hal hperm, PAGENUMBER_eq_div]
    unfold PAGESIZE
    omega
  · rw [if_neg c]
    exact hid i hi

theorem pageinfo_init_rcbound (L : Layout) : RcBound L (pageinfo_init L) 1 := by
  intro f
  have : ((pageinfo_init L) f).refcount = 0 ∨ ((pageinfo_init L) f).refcount = 1 := by
    unfold pageinfo_init
    exact pageinfo_init_loop_once L _ 0 _ (fun _ => Or.inl rfl) f
  refine ⟨by omega, by omega, fun h => ?_⟩
  omega

/-- The state in which `kernel` starts the first process satisfies the
accounting invariant. -/
theorem kernel_acc {L : Layout} (hL : L.WF) (hC : L.ConsoleReserved) {env : Env}
    {k1 k2 : Nat} (hK : KernelMapped L env k1 k2)
    {command : Option String} {s : KState} (h : kernel L env command = some s) :
    AccInv L k1 k2 s := by
  have hk := kernel_inv hL h
  have hN := hL.nproc_gt
  have hP := hK.phys_le
  have hlive : (1 : Int) ≤ (live_count L s : Int) := by
    have : (s.processes s.current).p_state ≠ procstate.P_FREE := by
      rw [hk.cur_run]; decide
    exact_mod_cast live_count_pos hk.cur_lt this
  unfold kernel at h
  dsimp only at h
  split at h
  · cases h
  · rename_i m1 hm1
    split at h
    · cases h
    · rename_i m2 hm2
      -- the two calls of `virtual_memory_map` keep the identity map
      have hs := hL.start_aligned
      have hv := hL.virt_le
      have hsl := hL.start_le
      have hcl := hL.console_lt
      have hca := hC.2.1
      rw [hK.pt_eq] at hm1 hm2
      have e1 : virtual_memory_map L env.mem0 (PAGEADDRESS k1) (0 * PAGESIZE) (0 * PAGESIZE)
          (L.PROC_START_ADDR / PAGESIZE * PAGESIZE) (PTE_P ||| PTE_W) = some m1 := by
        rw [Nat.zero_mul, Nat.div_mul_cancel (Nat.dvd_of_mod_eq_zero hs)]
        exact hm1
      obtain ⟨a1, b1⟩ := kernel_map_identity hK.k1_lt hK.k_ne hK.pde_p hK.pde
        (by unfold PAGESIZE at *; omega) (by decide) hK.ident e1
      have e2 : virtual_memory_map L m1 (PAGEADDRESS k1) (L.console / PAGESIZE * PAGESIZE)
          (L.console / PAGESIZE * PAGESIZE) (1 * PAGESIZE) (PTE_P ||| PTE_W ||| PTE_U)
          = some m2 := by
        rw [Nat.one_mul, Nat.div_mul_cancel (Nat.dvd_of_mod_eq_zero hca)]
        exact hm2
      obtain ⟨a2, b2⟩ := kernel_map_identity hK.k1_lt hK.k_ne (by rw [a1]; exact hK.pde_p)
        (by rw [a1]; exact hK.pde) (by unfold PAGESIZE at *; omega) (by decide) b1 e2
      have key : ∀ s0 : KState, s0.pageinfo = pageinfo_init L → s0.mem = m2 →
          (∀ j, (s0.processes j).p_state = procstate.P_FREE) → ProcInv s0 →
          ∀ s3, (if command = some "fork" then process_setup L env s0 1 4
            else if command = some "forkexit" then process_setup L env s0 1 5
            else kernel_setup_loop L env 4 1 s0) = some s3 →
          KTab L k1 k2 s3 ∧ LiveDiag L s3 ∧ RcBound L s3.pageinfo 1 := by
        intro s0 hp0 hm0 hf0 hi0 s3 hs3
        have hr0 : RefInv s0.pageinfo := by rw [hp0]; exact pageinfo_init_refinv L
        have hd0 : LiveDiag L s0 := fun p hp => absurd (hf0 p) hp
        have hb0 : RcBound L s0.pageinfo 1 := by rw [hp0]; exact pageinfo_init_rcbound L
        have kt0 : KTab L k1 k2 s0 :=
          ⟨hK.pt_eq, hK.k1_lt, by rw [hm0, a2, a1]; exact hK.pde_p,
            by rw [hm0, a2, a1]; exact hK.pde, by rw [hm0]; exact b2,
            by rw [hp0]; exact hK.own1, by rw [hp0]; exact hK.own2⟩
        split at hs3
        · obtain ⟨a, b, c, _⟩ := process_setup_acc hL hP hs3 (le_refl _) (by omega) hr0 hi0
            (hf0 1) kt0 hd0 hb0
          exact ⟨a, b, c⟩
        · split at hs3
          · obtain ⟨a, b, c, _⟩ := process_setup_acc hL hP hs3 (le_refl _) (by omega) hr0 hi0
              (hf0 1) kt0 hd0 hb0
            exact ⟨a, b, c⟩
          · exact kernel_setup_loop_acc hL hP _ _ _ _ hs3 (le_refl _) (by omega) hr0 hi0
              (fun j _ => hf0 j) kt0 hd0 hb0
      split at h
      · cases h
      · rename_i s3 hs3
        obtain ⟨x1, x2, x3⟩ := key _ rfl rfl (fun j => rfl) ⟨fun i => rfl, rfl⟩ s3 hs3
        obtain ⟨r1, r2, r3, _, _⟩ := run_inv h
        refine ⟨KTab_of_same x1 r3 r1,
          LiveDiag_of_same r3 r1 (fun p hp => by rw [r2] at hp; exact hp) (fun p => by rw [r2])
            x2, ?_⟩
        rw [r1]
        exact RcBound_mono hlive x3

/-- Every reachable state satisfies the accounting invariant. -/
theorem reachable_acc {L : Layout} (hL : L.WF) (hC : L.ConsoleReserved) {env : Env}
    {k1 k2 : Nat} (hK : KernelMapped L env k1 k2) {s : KState} (h : Reachable L env s) :
    AccInv L k1 k2 s := by
  induction h with
  | boot command s hk => exact kernel_acc hL hC hK hk
  | trap s s1 reg hs he ih => exact (exception_acc hL hK.phys_le he (reachable_tab hL hC hs) ih).1
  | store s s1 va w hs hst ih => exact (user_store_acc hst (reachable_tab hL hC hs) ih).1

/-! ### Read-only pages of a reachable parent -/

theorem TabInv_set_registers {L : Layout} {s : KState} (reg : x86_registers)
    (k : TabInv L s) : TabInv L (set_registers s s.current reg) :=
  ⟨⟨⟨k.iso.kinv.ref, ProcInv_set_registers _ _ k.iso.kinv.procs, k.iso.kinv.cur_lt, by
    show ((set_registers s s.current reg).processes s.current).p_state = _
    rw [(set_registers_proc _ _ _ _).1]; exact k.iso.kinv.cur_run⟩, k.iso.console_rec,
    LiveIso_set_registers _ _ k.iso.live⟩, k.low, LiveTab_set_registers _ _ k.tab⟩

theorem AccInv_set_registers {L : Layout} {k1 k2 : Nat} {s : KState} (reg : x86_registers)
    (a : AccInv L k1 k2 s) : AccInv L k1 k2 (set_registers s s.current reg) :=
  ⟨KTab_of_same a.ktab rfl rfl,
    @LiveDiag_of_same L s (set_registers s s.current reg) rfl rfl
      (fun p hp => by rw [(set_registers_proc _ _ _ _).1] at hp; exact hp)
      (fun p => (set_registers_proc _ _ _ _).2.2) a.diag, by
    rw [live_count_congr (fun p => (set_registers_proc s s.current reg p).1)]
    exact a.rc⟩

/-- The page tables of a running process with an address space of the shape
`ProcIso` are in use. -/
theorem ProcIso_tables_in_use {L : Layout} {s : KState} {l1 l2 : Nat}
    (hiso : ProcIso L s s.current l1 l2) (hr : RefInv s.pageinfo) (hc0 : 0 < s.current) :
    ParentTablesInUse s := by
  have used : ∀ f, (s.pageinfo f).owner = (s.current : Int) → (s.pageinfo f).refcount ≠ 0 := by
    intro f ho e
    have := ((hr f).1).mp e
    rw [ho] at this
    unfold PO_FREE at this
    omega
  unfold ParentTablesInUse
  rw [hiso.pt_eq, PAGENUMBER_PAGEADDRESS hiso.l1_lt, hiso.mem_l1, Function.update_same,
    PAGENUMBER_pte (PAGEADDRESS_aligned _) (by decide), PAGENUMBER_PAGEADDRESS hiso.l2_lt]
  exact ⟨used l1 hiso.own_l1, used l2 hiso.own_l2⟩

/-- A successful `fork` found a free slot, so at least two descriptors were
not live: slot 0 and the slot of the child. -/
theorem fork_success_count {L : Layout} (hL : L.WF) {s s1 : KState} {r : Int}
    (h : fork L s = some (s1, r)) (hr : r ≠ -1) (hi : ProcInv s) :
    live_count L s + 2 ≤ L.NPROC := by
  obtain ⟨slot, cp, s2, s4, hslot, _⟩ := fork_success_shape h hr
  obtain ⟨hs1, hs2, hsfree, _⟩ := fork_find_slot_some _ _ _ _ hslot
  have hN := hL.nproc_gt
  have hcount : live_count L (fork_claim_slot s slot) = live_count L s + 1 :=
    live_count_claim (by omega) (fun p hp => by rw [fork_claim_slot_other s hp]) hsfree
      (by simp [fork_claim_slot, set_proc])
  have := @live_count_lt L (fork_claim_slot s slot) (by omega)
    (by rw [fork_claim_slot_other s (show 0 ≠ slot by omega)]; exact hi.2)
  omega

/-- After a successful `fork`, a page that the parent maps read-only to a frame
that passes the guard of the copy loop is mapped in the child to the same
frame with the flags `PTE_P | PTE_U`. -/
theorem fork_child_shared {L : Layout} (hL : L.WF) {s s1 : KState} {r : Int}
    (h : fork L s = some (s1, r)) (hr : r ≠ -1)
    (hrange : ∀ f, (s.pageinfo f).refcount ≤ 127)
    (hcur : (s.processes s.current).p_state ≠ procstate.P_FREE)
    (hpt : ParentTablesInUse s) :
    ∃ child : Nat, r = (child : Int) ∧ child ≠ s.current ∧
      ∀ j, PAGENUMBER L.PROC_START_ADDR ≤ j → j < PAGENUMBER L.MEMSIZE_VIRTUAL →
        (virtual_memory_lookup s.mem (s.processes s.current).p_pagetable
          (PAGEADDRESS j)).perm ≠ 0 →
        (virtual_memory_lookup s.mem (s.processes s.current).p_pagetable
          (PAGEADDRESS j)).perm &&& PTE_W = 0 →
        (s.pageinfo (virtual_memory_lookup s.mem (s.processes s.current).p_pagetable
          (PAGEADDRESS j)).pn.toNat).refcount > 0 →
        (s.pageinfo (virtual_memory_lookup s.mem (s.processes s.current).p_pagetable
          (PAGEADDRESS j)).pn.toNat).owner > 0 →
        (s.pageinfo (virtual_memory_lookup s.mem (s.processes s.current).p_pagetable
          (PAGEADDRESS j)).pn.toNat).refcount < 127 →
        SharedOnce L s j →
        virtual_memory_lookup s1.mem (s1.processes child).p_pagetable (PAGEADDRESS j)
            = { pn := (virtual_memory_lookup s.mem (s.processes s.current).p_pagetable
                  (PAGEADDRESS j)).pn,
                pa := (virtual_memory_lookup s.mem (s.processes s.current).p_pagetable
                  (PAGEADDRESS j)).pa,
                perm := PTE_P ||| PTE_U } := by
  obtain ⟨slot, cp, s2, s4, hslot, hcp, hcpne, hloop, hs1, _⟩ := fork_success_shape h hr
  obtain ⟨slot', _, hslot', hne, hr', _⟩ := fork_success_state h hr hcur
  have hss : slot' = slot := by
    rw [hslot] at hslot'; exact (Option.some.inj hslot').symm
  subst hss
  obtain ⟨l1, l2, hcp1, hl1, hl2, hne12, _, _, hr1, hr2, _, _, hpi, _, inv⟩ :=
    fork_entry_inv hL hrange hcp hcpne
  clear hcp
  subst hcp1
  obtain ⟨hle, heq⟩ := fork_range_le hL
  refine ⟨slot', hr', hne, ?_⟩
  intro j hj1 hj2 hperm hw hrc hown hlt huniq
  have hj : j < 1024 := by omega
  have hrc0 : (s.pageinfo (virtual_memory_lookup s.mem (s.processes s.current).p_pagetable
      (PAGEADDRESS j)).pn.toNat).refcount ≠ 0 := by omega
  have hn1 : (virtual_memory_lookup s.mem (s.processes s.current).p_pagetable
      (PAGEADDRESS j)).pn.toNat ≠ l1 := fun x => hrc0 (by rw [x]; exact hr1)
  have hn2 : (virtual_memory_lookup s.mem (s.processes s.current).p_pagetable
      (PAGEADDRESS j)).pn.toNat ≠ l2 := fun x => hrc0 (by rw [x]; exact hr2)
  have sh0 : ForkShared s l2 j (PAGENUMBER L.PROC_START_ADDR)
      (set_pagetable_of s2 slot' (PAGEADDRESS l1)) := by
    refine ⟨fun _ => ?_, fun hlt => by omega⟩
    show s2.pageinfo _ = _
    rw [hpi, Function.update_noteq hn2, Function.update_noteq hn1]
  obtain ⟨inv4, sh4⟩ := fork_loop_shared hl1 hl2 hne12 hr2 hj hne hpt hw hperm hrc hown hlt
    huniq _ _ _ s4 hle (le_refl _) (le_of_eq heq) inv sh0 hloop
  rw [heq] at sh4
  obtain ⟨_, hsh2⟩ := sh4.2 hj2
  obtain ⟨hpnpa, hpnInt, _, _, hpal⟩ := lookup_frame_of_pa hperm
  generalize (virtual_memory_lookup s.mem (s.processes s.current).p_pagetable
    (PAGEADDRESS j)) = vm at *
  subst hs1
  show virtual_memory_lookup s4.mem ((fork_finish s4 slot').processes slot').p_pagetable
    (PAGEADDRESS j) = _
  rw [fork_finish_pagetable, inv4.proc_child_pt,
    child_lookup hl1 hl2 hj inv4.mem_l1 hsh2 hpal (by decide) (by decide), hpnpa, ← hpnInt]

/-! ### The bound on refcounts -/

set_option maxRecDepth 100000 in
theorem smallEnv_mapped : KernelMapped smallLayout smallEnv 2 3 :=
  ⟨by decide, rfl, by decide, by decide, by decide!, by decide!, by decide!, by decide!,
    by decide!⟩

theorem bootForked_reachable : Reachable smallLayout smallEnv bootForked :=
  Reachable.trap _ _ _ (Reachable.boot (some "fork") smallBoot smallBoot_eq) bootForked_eq

/-- C37: in every kernel state reachable from boot through dispatcher events
and stores of the running process, every frame's refcount lies between 0 and
`NPROC`: it is at most the number of live processes, which is below `NPROC`,
so it stays in the range of the signed 8-bit field.  The kernel page table
that `hardware_init` leaves maps physical memory to itself (`KernelMapped`). -/
theorem refcount_within_nproc (L : Layout) (hL : L.WF) (hC : L.ConsoleReserved) (env : Env)
    (k1 k2 : Nat) (hK : KernelMapped L env k1 k2) (s : KState) (h : Reachable L env s)
    (pn : Nat) :
    0 ≤ (s.pageinfo pn).refcount ∧ (s.pageinfo pn).refcount ≤ (L.NPROC : Int)
    ∧ (s.pageinfo pn).refcount ≤ (live_count L s : Int)
    ∧ (s.pageinfo pn).refcount ≤ 127 := by
  have a := reachable_acc hL hC hK h
  have k := reachable_inv hL h
  have hN := hL.nproc_gt
  have hN2 := hL.nproc_le
  have hlt := @live_count_lt L s (by omega) k.procs.2
  obtain ⟨x, y, _⟩ := a.rc pn
  refine ⟨x, ?_, y, ?_⟩
  · omega
  · omega

/-- Witness of `refcount_within_nproc`: frame 16, the shared code frame, in
the state after the fork request of process 1 in the boot state. -/
theorem refcount_within_nproc_witness :
    0 ≤ (bootForked.pageinfo 16).refcount
    ∧ (bootForked.pageinfo 16).refcount ≤ (smallLayout.NPROC : Int)
    ∧ (bootForked.pageinfo 16).refcount ≤ (live_count smallLayout bootForked : Int)
    ∧ (bootForked.pageinfo 16).refcount ≤ 127 :=
  refcount_within_nproc smallLayout smallLayout_WF ⟨rfl, by decide, by decide⟩ smallEnv 2 3
    smallEnv_mapped bootForked bootForked_reachable 16

/-! ### Frames of processes that are not live -/

theorem virtual_memory_check_orphan {L : Layout} {s : KState} {pn : Nat} (hpn : pn < NPAGES L)
    (hrc : (s.pageinfo pn).refcount > 0) (ho : (s.pageinfo pn).owner ≥ 0)
    (hfree : (s.processes (s.pageinfo pn).owner.toNat).p_state = procstate.P_FREE) :
    virtual_memory_check L s = false := by
  unfold virtual_memory_check
  rw [Bool.and_eq_false_iff]
  right
  rw [List.all_eq_false]
  refine ⟨pn, List.mem_range.mpr hpn, ?_⟩
  rw [if_pos ⟨hrc, ho⟩]
  simp [hfree]

theorem smallBootFour_eq : kernel smallLayout smallEnv none = some smallBootFour := by
  have h := smallLayout_boot_four
  cases e : kernel smallLayout smallEnv none with
  | none => rw [e] at h; cases h
  | some s => unfold smallBootFour; rw [e]; rfl

theorem smallBootFour_data :
    (smallBootFour.processes 4).p_state = procstate.P_FREE
    ∧ smallBootFour.pageinfo 15 = { owner := 4, refcount := 1 } := by
  have h := smallLayout_boot_four
  rw [smallBootFour_eq] at h
  simp only [Option.map_some', Option.some.injEq, Prod.mk.injEq] at h
  exact ⟨h.2.1, h.2.2.2⟩

/-- From a reachable state in which every frame of a process belongs to a live
process, a dispatcher event or a store of the running process leads to such a
state again; a failed `fork` and `sys_exit` are among the events. -/
theorem owners_live_kept {L : Layout} (hL : L.WF) (hC : L.ConsoleReserved) {env : Env}
    {k1 k2 : Nat} (hK : KernelMapped L env k1 k2) {s s1 : KState} (hs : Reachable L env s)
    (ho : OwnLive L s) :
    (∀ reg, exception L s reg = some s1 → OwnLive L s1)
    ∧ (∀ va w, user_store s va w = some s1 → OwnLive L s1) :=
  ⟨fun _ he => (exception_acc hL hK.phys_le he (reachable_tab hL hC hs)
      (reachable_acc hL hC hK hs)).2 ho,
    fun _ _ hst => (user_store_acc hst (reachable_tab hL hC hs)
      (reachable_acc hL hC hK hs)).2 ho⟩

/-- C32, the code at the failing input: `kernel(NULL)` on the scaled-down
layout.  The fourth `process_setup` gets the last free frame of the low
region, frame 15, for the outer page table of process 4, finds none for the
inner table and returns.  In the state in which process 1 is started, which
is reachable, frame 15 has refcount 1 and owner 4 while process 4 is Free, and
`virtual_memory_check` fails. -/
theorem boot_leaves_frame_of_free_process :
    Reachable smallLayout smallEnv smallBootFour
    ∧ 15 < NPAGES smallLayout
    ∧ (smallBootFour.pageinfo 15).refcount > 0
    ∧ (smallBootFour.pageinfo 15).owner ≥ 0
    ∧ (smallBootFour.pageinfo 15).owner.toNat = 4
    ∧ (smallBootFour.processes 4).p_state = procstate.P_FREE
    ∧ virtual_memory_check smallLayout smallBootFour = false := by
  obtain ⟨hst, hpi⟩ := smallBootFour_data
  have h1 : (smallBootFour.pageinfo 15).refcount > 0 := by rw [hpi]; decide
  have h2 : (smallBootFour.pageinfo 15).owner ≥ 0 := by rw [hpi]; decide
  have h3 : (smallBootFour.pageinfo 15).owner.toNat = 4 := by rw [hpi]; rfl
  exact ⟨Reachable.boot none smallBootFour smallBootFour_eq, by decide, h1, h2, h3, hst,
    virtual_memory_check_orphan (by decide) h1 h2 (by rw [h3]; exact hst)⟩

/-! ### Permission bits of shared read-only pages -/

/-- In a state that satisfies the page-table and the accounting invariant, a
successful `fork` gives the child, for a read-only page of the parent whose
frame passes the guard of the copy loop, the mapping of the parent, whose
flags are `PTE_P | PTE_U`. -/
theorem fork_readonly_equal {L : Layout} (hL : L.WF) {k1 k2 : Nat} {s s1 : KState} {r : Int}
    (k : TabInv L s) (a : AccInv L k1 k2 s) (h : fork L s = some (s1, r)) (hr : r ≠ -1)
    {j : Nat} (hlo : PAGENUMBER L.PROC_START_ADDR ≤ j) (hhi : j < PAGENUMBER L.MEMSIZE_VIRTUAL)
    (hp : (virtual_memory_lookup s.mem (s.processes s.current).p_pagetable
      (PAGEADDRESS j)).perm ≠ 0)
    (hw : (virtual_memory_lookup s.mem (s.processes s.current).p_pagetable
      (PAGEADDRESS j)).perm &&& PTE_W = 0)
    (hrc : (s.pageinfo (virtual_memory_lookup s.mem (s.processes s.current).p_pagetable
      (PAGEADDRESS j)).pn.toNat).refcount > 0)
    (hown : (s.pageinfo (virtual_memory_lookup s.mem (s.processes s.current).p_pagetable
      (PAGEADDRESS j)).pn.toNat).owner > 0) :
    ∃ child : Nat, r = (child : Int) ∧ child ≠ s.current
      ∧ virtual_memory_lookup s1.mem (s1.processes child).p_pagetable (PAGEADDRESS j)
        = virtual_memory_lookup s.mem (s.processes s.current).p_pagetable (PAGEADDRESS j)
      ∧ (virtual_memory_lookup s.mem (s.processes s.current).p_pagetable
          (PAGEADDRESS j)).perm = PTE_P ||| PTE_U := by
  have kinv := k.iso.kinv
  have hN := hL.nproc_le
  have hc0 : 0 < s.current := Nat.pos_of_ne_zero (KInv_current_pos kinv)
  have hcl : (s.processes s.current).p_state ≠ procstate.P_FREE := by
    rw [kinv.cur_run]; decide
  obtain ⟨l1, l2, hiso, hdg⟩ := a.diag s.current hcl
  have hpt := ProcIso_tables_in_use hiso kinv.ref hc0
  have hv := hL.virt_le
  rw [PAGENUMBER_eq_div] at hlo hhi
  have hj : j < 1024 := by unfold PAGESIZE at hhi; omega
  have hpar := lookup_diag hiso hdg hlo hj hp hw
  have hcount := fork_success_count hL h hr kinv.procs
  have huniq : SharedOnce L s j := by
    intro j2 h1 h2 hne hp2 hw2
    rw [PAGENUMBER_eq_div] at h1 h2
    rw [lookup_diag hiso hdg h1 (by unfold PAGESIZE at h2; omega) hp2 hw2, hpar]
    show ((j2 : Int)).toNat ≠ ((j : Int)).toNat
    rw [Int.toNat_ofNat, Int.toNat_ofNat]
    exact hne
  have hlt : (s.pageinfo (virtual_memory_lookup s.mem (s.processes s.current).p_pagetable
      (PAGEADDRESS j)).pn.toNat).refcount < 127 := by
    have := (a.rc (virtual_memory_lookup s.mem (s.processes s.current).p_pagetable
      (PAGEADDRESS j)).pn.toNat).2.1
    omega
  obtain ⟨child, e1, e2, hall⟩ := fork_child_shared hL h hr (fun f => (kinv.ref f).2.2) hcl hpt
  have := hall j (by rw [PAGENUMBER_eq_div]; exact hlo) (by rw [PAGENUMBER_eq_div]; exact hhi)
    hp hw hrc hown hlt huniq
  refine ⟨child, e1, e2, ?_, by rw [hpar]⟩
  rw [this, hpar]

/-- C31 (amended): in a reachable state, after a successful fork request of
the running process (`fork` runs on the state with the saved registers), for
every virtual page in `[PROC_START_ADDR, MEMSIZE_VIRTUAL)` that the parent
maps present but not writable and whose frame is in use and owned by a process
(refcount > 0 and owner > 0, the guard of the code), the mapping installed in
the child equals the parent's: the same frame and the same permission bits,
`PTE_P | PTE_U`, so it is user-accessible as the parent's is, and it is not
writable. -/
theorem fork_readonly_same_bits (L : Layout) (hL : L.WF) (hC : L.ConsoleReserved) (env : Env)
    (k1 k2 : Nat) (hK : KernelMapped L env k1 k2) (s : KState) (hs : Reachable L env s)
    (reg : x86_registers) (p : KState × Int)
    (h : fork L (set_registers s s.current reg) = some p) (hr : p.2 ≠ -1)
    (j : Nat) (hlo : PAGENUMBER L.PROC_START_ADDR ≤ j) (hhi : j < PAGENUMBER L.MEMSIZE_VIRTUAL)
    (hp : (virtual_memory_lookup s.mem (s.processes s.current).p_pagetable
      (PAGEADDRESS j)).perm ≠ 0)
    (hw : (virtual_memory_lookup s.mem (s.processes s.current).p_pagetable
      (PAGEADDRESS j)).perm &&& PTE_W = 0)
    (hrc : (s.pageinfo (virtual_memory_lookup s.mem (s.processes s.current).p_pagetable
      (PAGEADDRESS j)).pn.toNat).refcount > 0)
    (hown : (s.pageinfo (virtual_memory_lookup s.mem (s.processes s.current).p_pagetable
      (PAGEADDRESS j)).pn.toNat).owner > 0) :
    ∃ child : Nat, p.2 = (child : Int) ∧ child ≠ s.current
      ∧ virtual_memory_lookup p.1.mem (p.1.processes child).p_pagetable (PAGEADDRESS j)
        = virtual_memory_lookup s.mem (s.processes s.current).p_pagetable (PAGEADDRESS j)
      ∧ (virtual_memory_lookup p.1.mem (p.1.processes child).p_pagetable
          (PAGEADDRESS j)).perm
        = (virtual_memory_lookup s.mem (s.processes s.current).p_pagetable
          (PAGEADDRESS j)).perm
      ∧ (virtual_memory_lookup p.1.mem (p.1.processes child).p_pagetable
          (PAGEADDRESS j)).perm = PTE_P ||| PTE_U
      ∧ (virtual_memory_lookup p.1.mem (p.1.processes child).p_pagetable
          (PAGEADDRESS j)).perm &&& PTE_W = 0 := by
  obtain ⟨s1, r⟩ := p
  have k := TabInv_set_registers reg (reachable_tab hL hC hs)
  have a := AccInv_set_registers reg (reachable_acc hL hC hK hs)
  have e : (set_registers s s.current reg).processes
      (set_registers s s.current reg).current
      = { s.processes s.current with p_registers := reg } := by
    show (set_registers s s.current reg).processes s.current = _
    unfold set_registers set_proc
    simp only [Function.update_same]
  have ept : ((set_registers s s.current reg).processes
      (set_registers s s.current reg).current).p_pagetable
      = (s.processes s.current).p_pagetable := by rw [e]
  obtain ⟨child, e1, e2, e3, e4⟩ := @fork_readonly_equal L hL k1 k2
    (set_registers s s.current reg) s1 r k a h hr j hlo hhi
    (by rw [ept]; exact hp) (by rw [ept]; exact hw) (by rw [ept]; exact hrc)
    (by rw [ept]; exact hown)
  rw [ept] at e3 e4
  have e3' : virtual_memory_lookup s1.mem (s1.processes child).p_pagetable (PAGEADDRESS j)
      = virtual_memory_lookup s.mem (s.processes s.current).p_pagetable (PAGEADDRESS j) := e3
  refine ⟨child, e1, e2, e3', by rw [e3'], by rw [e3']; exact e4, ?_⟩
  rw [e3']
  exact hw

set_option maxRecDepth 100000 in
theorem bootFork_facts :
    (fork smallLayout bootForkTrap).map (fun p => p.2) = some 2
    ∧ virtual_memory_lookup smallBoot.mem (smallBoot.processes smallBoot.current).p_pagetable
        (PAGEADDRESS 16) = { pn := 16, pa := PAGEADDRESS 16, perm := PTE_P ||| PTE_U }
    ∧ smallBoot.pageinfo 16 = { owner := 1, refcount := 1 }
    ∧ smallBoot.current = 1 := by decide!

theorem bootForkResult_eq : fork smallLayout bootForkTrap = some bootForkResult :=
  getD_of_isSome _ _ bootOrphan_facts.2.1

theorem bootForkResult_ret : bootForkResult.2 = 2 := by
  have h := bootFork_facts.1
  rw [bootForkResult_eq] at h
  exact Option.some.inj h

theorem bootFork_frame :
    (virtual_memory_lookup smallBoot.mem (smallBoot.processes smallBoot.current).p_pagetable
      (PAGEADDRESS 16)).pn.toNat = 16 := by
  rw [bootFork_facts.2.1]
  rfl

/-- Witness of `fork_readonly_same_bits`: the fork request of process 1 in the
boot state of the scaled-down configuration and its code page, page 16, in
frame 16 with owner 1 and one reference. -/
theorem fork_readonly_same_bits_witness :
    ∃ child : Nat, bootForkResult.2 = (child : Int) ∧ child ≠ smallBoot.current
      ∧ virtual_memory_lookup bootForkResult.1.mem (bootForkResult.1.processes child).p_pagetable
          (PAGEADDRESS 16)
        = virtual_memory_lookup smallBoot.mem (smallBoot.processes smallBoot.current).p_pagetable
          (PAGEADDRESS 16)
      ∧ (virtual_memory_lookup bootForkResult.1.mem
          (bootForkResult.1.processes child).p_pagetable (PAGEADDRESS 16)).perm
        = (virtual_memory_lookup smallBoot.mem
          (smallBoot.processes smallBoot.current).p_pagetable (PAGEADDRESS 16)).perm
      ∧ (virtual_memory_lookup bootForkResult.1.mem
          (bootForkResult.1.processes child).p_pagetable (PAGEADDRESS 16)).perm
        = PTE_P ||| PTE_U
      ∧ (virtual_memory_lookup bootForkResult.1.mem
          (bootForkResult.1.processes child).p_pagetable (PAGEADDRESS 16)).perm &&& PTE_W = 0 :=
  fork_readonly_same_bits smallLayout smallLayout_WF ⟨rfl, by decide, by decide⟩ smallEnv 2 3
    smallEnv_mapped smallBoot (Reachable.boot (some "fork") smallBoot smallBoot_eq)
    (trapRegs 0 52) bootForkResult bootForkResult_eq
    (by rw [bootForkResult_ret]; decide) 16 (by decide) (by decide)
    (by rw [bootFork_facts.2.1]; decide) (by rw [bootFork_facts.2.1]; decide)
    (by rw [bootFork_frame, bootFork_facts.2.2.1]; decide)
    (by rw [bootFork_frame, bootFork_facts.2.2.1]; decide)

set_option maxRecDepth 100000 in
theorem bootOrphanFork_facts :
    (fork smallLayout bootOrphanTrap).isSome = true
    ∧ bootOrphanForked.2 = 1
    ∧ virtual_memory_lookup bootOrphanForked.1.mem (bootOrphanForked.1.processes 1).p_pagetable
        (PAGEADDRESS 16) = vamapping_none
    ∧ bootOrphanForked.1.pageinfo 16 = { owner := PO_FREE, refcount := 0 } := by decide!

/-- C31, counterexample: in the reachable state `bootOrphan` process 2 runs and
maps its code page 16 present, user-accessible and not writable
(`PTE_P | PTE_U`) to frame 16, which is Free since its owner, process 1,
exited.  The fork request of process 2 succeeds with child 1, and the child
has no mapping for page 16: its permission bits are 0, not those of the
parent. -/
theorem fork_omits_orphan_readonly :
    Reachable smallLayout smallEnv bootOrphan
    ∧ bootOrphan.current = 2
    ∧ (PAGENUMBER smallLayout.PROC_START_ADDR ≤ 16
      ∧ 16 < PAGENUMBER smallLayout.MEMSIZE_VIRTUAL)
    ∧ virtual_memory_lookup bootOrphan.mem (bootOrphan.processes 2).p_pagetable
        (PAGEADDRESS 16) = { pn := 16, pa := PAGEADDRESS 16, perm := PTE_P ||| PTE_U }
    ∧ bootOrphan.pageinfo 16 = { owner := PO_FREE, refcount := 0 }
    ∧ fork smallLayout (set_registers bootOrphan bootOrphan.current (trapRegs 0 52))
        = some bootOrphanForked
    ∧ bootOrphanForked.2 = 1
    ∧ virtual_memory_lookup bootOrphanForked.1.mem (bootOrphanForked.1.processes 1).p_pagetable
        (PAGEADDRESS 16) = vamapping_none
    ∧ (virtual_memory_lookup bootOrphanForked.1.mem
        (bootOrphanForked.1.processes 1).p_pagetable (PAGEADDRESS 16)).perm
      ≠ (virtual_memory_lookup bootOrphan.mem (bootOrphan.processes 2).p_pagetable
        (PAGEADDRESS 16)).perm := by
  obtain ⟨_, _, _, _, _, _, _, _, hc, _, hr, hl, hf, _⟩ := bootOrphan_facts
  obtain ⟨h1, h2, h3, _⟩ := bootOrphanFork_facts
  refine ⟨bootOrphan_reachable, hc, hr, hl, hf, getD_of_isSome _ _ h1, h2, h3, ?_⟩
  rw [h3, hl]
  decide

/-! ### Sharing of read-only pages in reachable states -/

/-- In a state that satisfies the page-table and the accounting invariant, a
successful `fork` maps a read-only page of the parent whose frame passes the
guard of the copy loop to the same frame in the child and adds one reference
to the frame. -/
theorem fork_shares_frame_inv {L : Layout} (hL : L.WF) {k1 k2 : Nat} {s s1 : KState} {r : Int}
    (k : TabInv L s) (a : AccInv L k1 k2 s) (h : fork L s = some (s1, r)) (hr : r ≠ -1)
    {j : Nat} (hlo : PAGENUMBER L.PROC_START_ADDR ≤ j) (hhi : j < PAGENUMBER L.MEMSIZE_VIRTUAL)
    (hp : (virtual_memory_lookup s.mem (s.processes s.current).p_pagetable
      (PAGEADDRESS j)).perm ≠ 0)
    (hw : (virtual_memory_lookup s.mem (s.processes s.current).p_pagetable
      (PAGEADDRESS j)).perm &&& PTE_W = 0)
    (hrc : (s.pageinfo (virtual_memory_lookup s.mem (s.processes s.current).p_pagetable
      (PAGEADDRESS j)).pn.toNat).refcount > 0)
    (hown : (s.pageinfo (virtual_memory_lookup s.mem (s.processes s.current).p_pagetable
      (PAGEADDRESS j)).pn.toNat).owner > 0) :
    ∃ child : Nat, r = (child : Int) ∧ child ≠ s.current
      ∧ virtual_memory_lookup s1.mem (s1.processes child).p_pagetable (PAGEADDRESS j)
        = { pn := (virtual_memory_lookup s.mem (s.processes s.current).p_pagetable
              (PAGEADDRESS j)).pn,
            pa := (virtual_memory_lookup s.mem (s.processes s.current).p_pagetable
              (PAGEADDRESS j)).pa,
            perm := PTE_P ||| PTE_U }
      ∧ s1.pageinfo (virtual_memory_lookup s.mem (s.processes s.current).p_pagetable
          (PAGEADDRESS j)).pn.toNat
        = { owner := (s.pageinfo (virtual_memory_lookup s.mem
              (s.processes s.current).p_pagetable (PAGEADDRESS j)).pn.toNat).owner,
            refcount := (s.pageinfo (virtual_memory_lookup s.mem
              (s.processes s.current).p_pagetable (PAGEADDRESS j)).pn.toNat).refcount + 1 } := by
  have kinv := k.iso.kinv
  have hN := hL.nproc_le
  have hc0 : 0 < s.current := Nat.pos_of_ne_zero (KInv_current_pos kinv)
  have hcl : (s.processes s.current).p_state ≠ procstate.P_FREE := by
    rw [kinv.cur_run]; decide
  obtain ⟨l1, l2, hiso, hdg⟩ := a.diag s.current hcl
  have hpt := ProcIso_tables_in_use hiso kinv.ref hc0
  have hv := hL.virt_le
  have hlo2 := hlo
  have hhi2 := hhi
  rw [PAGENUMBER_eq_div] at hlo2 hhi2
  have hj : j < 1024 := by unfold PAGESIZE at hhi2; omega
  have hpar := lookup_diag hiso hdg hlo2 hj hp hw
  have hcount := fork_success_count hL h hr kinv.procs
  have huniq : SharedOnce L s j := by
    intro j2 h1 h2 hne hp2 hw2
    rw [PAGENUMBER_eq_div] at h1 h2
    rw [lookup_diag hiso hdg h1 (by unfold PAGESIZE at h2; omega) hp2 hw2, hpar]
    show ((j2 : Int)).toNat ≠ ((j : Int)).toNat
    rw [Int.toNat_ofNat, Int.toNat_ofNat]
    exact hne
  have hlt : (s.pageinfo (virtual_memory_lookup s.mem (s.processes s.current).p_pagetable
      (PAGEADDRESS j)).pn.toNat).refcount < 127 := by
    have := (a.rc (virtual_memory_lookup s.mem (s.processes s.current).p_pagetable
      (PAGEADDRESS j)).pn.toNat).2.1
    omega
  obtain ⟨child, e1, e2, hall⟩ := fork_shares_readonly L hL s (s1, r) h hr
    (fun f => (kinv.ref f).2.2) hcl hpt
  obtain ⟨x1, x2, _⟩ := hall j hlo hhi hp hw hrc hown hlt huniq
  exact ⟨child, e1, e2, x1, x2⟩

/-- C7 (amended): in a state reachable from boot, after a successful fork
request of the running process (`fork` runs on the state with the saved
registers), for every virtual page in `[PROC_START_ADDR, MEMSIZE_VIRTUAL)`
that the parent maps present but not writable and whose frame is in use and
owned by a process (refcount > 0 and owner > 0, the guard of the code), the
child's mapping of that virtual page is present and resolves to the same
physical frame as the parent's, and that frame's refcount is exactly one more
than before the fork. -/
theorem fork_shares_frame (L : Layout) (hL : L.WF) (hC : L.ConsoleReserved) (env : Env)
    (k1 k2 : Nat) (hK : KernelMapped L env k1 k2) (s : KState) (hs : Reachable L env s)
    (reg : x86_registers) (p : KState × Int)
    (h : fork L (set_registers s s.current reg) = some p) (hr : p.2 ≠ -1)
    (j : Nat) (hlo : PAGENUMBER L.PROC_START_ADDR ≤ j) (hhi : j < PAGENUMBER L.MEMSIZE_VIRTUAL)
    (hp : (virtual_memory_lookup s.mem (s.processes s.current).p_pagetable
      (PAGEADDRESS j)).perm ≠ 0)
    (hw : (virtual_memory_lookup s.mem (s.processes s.current).p_pagetable
      (PAGEADDRESS j)).perm &&& PTE_W = 0)
    (hrc : (s.pageinfo (virtual_memory_lookup s.mem (s.processes s.current).p_pagetable
      (PAGEADDRESS j)).pn.toNat).refcount > 0)
    (hown : (s.pageinfo (virtual_memory_lookup s.mem (s.processes s.current).p_pagetable
      (PAGEADDRESS j)).pn.toNat).owner > 0) :
    ∃ child : Nat, p.2 = (child : Int) ∧ child ≠ s.current
      ∧ (virtual_memory_lookup p.1.mem (p.1.processes child).p_pagetable
          (PAGEADDRESS j)).perm &&& PTE_P ≠ 0
      ∧ (virtual_memory_lookup p.1.mem (p.1.processes child).p_pagetable (PAGEADDRESS j)).pn
        = (virtual_memory_lookup s.mem (s.processes s.current).p_pagetable (PAGEADDRESS j)).pn
      ∧ (virtual_memory_lookup p.1.mem (p.1.processes child).p_pagetable (PAGEADDRESS j)).pa
        = (virtual_memory_lookup s.mem (s.processes s.current).p_pagetable (PAGEADDRESS j)).pa
      ∧ (p.1.pageinfo (virtual_memory_lookup s.mem (s.processes s.current).p_pagetable
          (PAGEADDRESS j)).pn.toNat).refcount
        = (s.pageinfo (virtual_memory_lookup s.mem (s.processes s.current).p_pagetable
          (PAGEADDRESS j)).pn.toNat).refcount + 1
      ∧ (p.1.pageinfo (virtual_memory_lookup s.mem (s.processes s.current).p_pagetable
          (PAGEADDRESS j)).pn.toNat).owner
        = (s.pageinfo (virtual_memory_lookup s.mem (s.processes s.current).p_pagetable
          (PAGEADDRESS j)).pn.toNat).owner := by
  obtain ⟨s1, r⟩ := p
  have k := TabInv_set_registers reg (reachable_tab hL hC hs)
  have a := AccInv_set_registers reg (reachable_acc hL hC hK hs)
  have e : (set_registers s s.current reg).processes
      (set_registers s s.current reg).current
      = { s.processes s.current with p_registers := reg } := by
    show (set_registers s s.current reg).processes s.current = _
    unfold set_registers set_proc
    simp only [Function.update_same]
  have ept : ((set_registers s s.current reg).processes
      (set_registers s s.current reg).current).p_pagetable
      = (s.processes s.current).p_pagetable := by rw [e]
  obtain ⟨child, e1, e2, e3, e4⟩ := @fork_shares_frame_inv L hL k1 k2
    (set_registers s s.current reg) s1 r k a h hr j hlo hhi
    (by rw [ept]; exact hp) (by rw [ept]; exact hw) (by rw [ept]; exact hrc)
    (by rw [ept]; exact hown)
  rw [ept] at e3 e4
  have e3' : virtual_memory_lookup s1.mem (s1.processes child).p_pagetable (PAGEADDRESS j)
      = { pn := (virtual_memory_lookup s.mem (s.processes s.current).p_pagetable
            (PAGEADDRESS j)).pn,
          pa := (virtual_memory_lookup s.mem (s.processes s.current).p_pagetable
            (PAGEADDRESS j)).pa,
          perm := PTE_P ||| PTE_U } := e3
  have e4' : s1.pageinfo (virtual_memory_lookup s.mem (s.processes s.current).p_pagetable
        (PAGEADDRESS j)).pn.toNat
      = { owner := (s.pageinfo (virtual_memory_lookup s.mem
            (s.processes s.current).p_pagetable (PAGEADDRESS j)).pn.toNat).owner,
          refcount := (s.pageinfo (virtual_memory_lookup s.mem
            (s.processes s.current).p_pagetable (PAGEADDRESS j)).pn.toNat).refcount + 1 } := e4
  refine ⟨child, e1, e2, ?_, by rw [e3'], by rw [e3'], by rw [e4'], by rw [e4']⟩
  rw [e3']
  exact (show (PTE_P ||| PTE_U) &&& PTE_P ≠ 0 by decide)

/-- Witness of `fork_shares_frame`: the fork request of process 1 in the boot
state of the scaled-down configuration and its code page, page 16, in frame 16
with owner 1 and one reference. -/
theorem fork_shares_frame_witness :
    ∃ child : Nat, bootForkResult.2 = (child : Int) ∧ child ≠ smallBoot.current
      ∧ (virtual_memory_lookup bootForkResult.1.mem
          (bootForkResult.1.processes child).p_pagetable (PAGEADDRESS 16)).perm &&& PTE_P ≠ 0
      ∧ (virtual_memory_lookup bootForkResult.1.mem
          (bootForkResult.1.processes child).p_pagetable (PAGEADDRESS 16)).pn
        = (virtual_memory_lookup smallBoot.mem
          (smallBoot.processes smallBoot.current).p_pagetable (PAGEADDRESS 16)).pn
      ∧ (virtual_memory_lookup bootForkResult.1.mem
          (bootForkResult.1.processes child).p_pagetable (PAGEADDRESS 16)).pa
        = (virtual_memory_lookup smallBoot.mem
          (smallBoot.processes smallBoot.current).p_pagetable (PAGEADDRESS 16)).pa
      ∧ (bootForkResult.1.pageinfo (virtual_memory_lookup smallBoot.mem
          (smallBoot.processes smallBoot.current).p_pagetable (PAGEADDRESS 16)).pn.toNat).refcount
        = (smallBoot.pageinfo (virtual_memory_lookup smallBoot.mem
          (smallBoot.processes smallBoot.current).p_pagetable
          (PAGEADDRESS 16)).pn.toNat).refcount + 1
      ∧ (bootForkResult.1.pageinfo (virtual_memory_lookup smallBoot.mem
          (smallBoot.processes smallBoot.current).p_pagetable (PAGEADDRESS 16)).pn.toNat).owner
        = (smallBoot.pageinfo (virtual_memory_lookup smallBoot.mem
          (smallBoot.processes smallBoot.current).p_pagetable
          (PAGEADDRESS 16)).pn.toNat).owner :=
  fork_shares_frame smallLayout smallLayout_WF ⟨rfl, by decide, by decide⟩ smallEnv 2 3
    smallEnv_mapped smallBoot (Reachable.boot (some "fork") smallBoot smallBoot_eq)
    (trapRegs 0 52) bootForkResult bootForkResult_eq
    (by rw [bootForkResult_ret]; decide) 16 (by decide) (by decide)
    (by rw [bootFork_facts.2.1]; decide) (by rw [bootFork_facts.2.1]; decide)
    (by rw [bootFork_frame, bootFork_facts.2.2.1]; decide)
    (by rw [bootFork_frame, bootFork_facts.2.2.1]; decide)

/-- C7, counterexample: in the reachable state `bootOrphan` process 2 runs and
maps its code page 16 present and not writable to frame 16, which is Free
since its owner, process 1, exited.  The fork request of process 2 succeeds
with child 1, but the child's lookup of page 16 finds no mapping, so it does
not resolve to frame 16, and the refcount of frame 16 is 0 as before, not one
more. -/
theorem fork_leaves_orphan_unshared :
    Reachable smallLayout smallEnv bootOrphan
    ∧ bootOrphan.current = 2
    ∧ (PAGENUMBER smallLayout.PROC_START_ADDR ≤ 16
      ∧ 16 < PAGENUMBER smallLayout.MEMSIZE_VIRTUAL)
    ∧ virtual_memory_lookup bootOrphan.mem (bootOrphan.processes 2).p_pagetable
        (PAGEADDRESS 16) = { pn := 16, pa := PAGEADDRESS 16, perm := PTE_P ||| PTE_U }
    ∧ bootOrphan.pageinfo 16 = { owner := PO_FREE, refcount := 0 }
    ∧ fork smallLayout (set_registers bootOrphan bootOrphan.current (trapRegs 0 52))
        = some bootOrphanForked
    ∧ bootOrphanForked.2 = 1
    ∧ (virtual_memory_lookup bootOrphanForked.1.mem
        (bootOrphanForked.1.processes 1).p_pagetable (PAGEADDRESS 16)).pn
      ≠ (virtual_memory_lookup bootOrphan.mem (bootOrphan.processes 2).p_pagetable
        (PAGEADDRESS 16)).pn
    ∧ (bootOrphanForked.1.pageinfo 16).refcount = 0
    ∧ (bootOrphanForked.1.pageinfo 16).refcount ≠ (bootOrphan.pageinfo 16).refcount + 1 := by
  obtain ⟨_, _, _, _, _, _, _, _, hc, _, hr, hl, hf, _⟩ := bootOrphan_facts
  obtain ⟨h1, h2, h3, h4⟩ := bootOrphanFork_facts
  refine ⟨bootOrphan_reachable, hc, hr, hl, hf, getD_of_isSome _ _ h1, h2, ?_, ?_, ?_⟩
  · rw [h3, hl]
    decide
  · rw [h4]
  · rw [h4, hf]
    decide

/-! ### Stops of `exception` outside the three fatal classes -/

/-- A page-allocation request with an address that is not page-aligned stops
the kernel whenever a frame is free: `exception` takes the address from
`reg_eax` and hands it to `virtual_memory_map` unchecked. -/
theorem page_alloc_unaligned_stops (L : Layout) (hI : L.IntsDistinct) (s : KState)
    (reg : x86_registers) (h : reg.reg_intno = L.INT_SYS_PAGE_ALLOC)
    (hal : reg.reg_eax % PAGESIZE ≠ 0)
    (hfree : (physical_page_alloc L s.pageinfo (find_free_page L s.pageinfo)
      (toInt8 (s.processes s.current).p_pid)).2 ≥ 0) :
    exception L s reg = none := by
  have e : (set_registers s s.current reg).processes
      (set_registers s s.current reg).current
      = { s.processes s.current with p_registers := reg } := by
    show (set_registers s s.current reg).processes s.current = _
    unfold set_registers set_proc
    simp only [Function.update_same]
  unfold exception
  dsimp only
  split
  · rfl
  · rw [exception_switch_page_alloc hI _ reg h, e]
    have hf2 : (physical_page_alloc L (set_registers s s.current reg).pageinfo
        (find_free_page L (set_registers s s.current reg).pageinfo)
        (toInt8 (s.processes s.current).p_pid)).2 ≥ 0 := hfree
    dsimp only
    rw [if_pos hf2]
    have hm : virtual_memory_map L (set_registers s s.current reg).mem
        (s.processes s.current).p_pagetable reg.reg_eax
        (find_free_page L (set_registers s s.current reg).pageinfo) PAGESIZE
        (PTE_P ||| PTE_W ||| PTE_U) = none := by
      unfold virtual_memory_map
      rw [if_neg (fun x => hal x.1)]
    rw [hm]

set_option maxRecDepth 100000 in
theorem smallBoot_has_free_frame :
    (physical_page_alloc smallLayout smallBoot.pageinfo
      (find_free_page smallLayout smallBoot.pageinfo)
      (toInt8 (smallBoot.processes smallBoot.current).p_pid)).2 ≥ 0 := by decide!

/-- C23, the code at the failing inputs.  First the timer interrupt in the
state in which `kernel(NULL)` starts process 1 on the scaled-down layout:
`INT_TIMER` is a recognised class, it is not the panic request and not a page
fault, and `exception()` stops in `virtual_memory_check()`, whose final
assertion fails because frame 15 belongs to process 4, which is Free.  Second
a page-allocation request of process 1 in the boot state `smallBoot` with the
address `0x19001` in `reg_eax`: a frame is free, and `exception()` stops in
`virtual_memory_map`, which gets the address unchecked. -/
theorem recognised_event_stops :
    (Reachable smallLayout smallEnv smallBootFour
      ∧ (trapRegs 0 32).reg_intno = smallLayout.INT_TIMER
      ∧ (trapRegs 0 32).reg_intno ≠ smallLayout.INT_SYS_PANIC
      ∧ (trapRegs 0 32).reg_intno ≠ smallLayout.INT_PAGEFAULT
      ∧ virtual_memory_check smallLayout
          (set_registers smallBootFour smallBootFour.current (trapRegs 0 32)) = false
      ∧ exception smallLayout smallBootFour (trapRegs 0 32) = none)
    ∧ (Reachable smallLayout smallEnv smallBoot
      ∧ (trapRegs 0x19001 51).reg_intno = smallLayout.INT_SYS_PAGE_ALLOC
      ∧ (trapRegs 0x19001 51).reg_intno ≠ smallLayout.INT_SYS_PANIC
      ∧ (trapRegs 0x19001 51).reg_intno ≠ smallLayout.INT_PAGEFAULT
      ∧ virtual_memory_check smallLayout
          (set_registers smallBoot smallBoot.current (trapRegs 0x19001 51)) = true
      ∧ exception smallLayout smallBoot (trapRegs 0x19001 51) = none) := by
  obtain ⟨hst, hpi⟩ := smallBootFour_data
  have h1 : (smallBootFour.pageinfo 15).refcount > 0 := by rw [hpi]; decide
  have h2 : (smallBootFour.pageinfo 15).owner ≥ 0 := by rw [hpi]; decide
  have h3 : (smallBootFour.pageinfo 15).owner.toNat = 4 := by rw [hpi]; rfl
  have hchk : virtual_memory_check smallLayout
      (set_registers smallBootFour smallBootFour.current (trapRegs 0 32)) = false := by
    rw [virtual_memory_check_regs]
    exact virtual_memory_check_orphan (by decide) h1 h2 (by rw [h3]; exact hst)
  refine ⟨⟨Reachable.boot none smallBootFour smallBootFour_eq, rfl, by decide, by decide,
    hchk, ?_⟩, Reachable.boot (some "fork") smallBoot smallBoot_eq, rfl, by decide, by decide,
    ?_, ?_⟩
  · unfold exception
    dsimp only
    split
    · rfl
    · rename_i hn
      exact absurd ⟨Or.inl (by decide), hchk⟩ hn
  · rw [virtual_memory_check_regs]
    exact bootOrphan_facts.1
  · exact page_alloc_unaligned_stops smallLayout smallLayout_ints smallBoot
      (trapRegs 0x19001 51) rfl (by decide) smallBoot_has_free_frame

end Kernel
